import Mathlib

/-!
Slab allocator of arcus-memcached (`slabs.c`)

A shallow embedding of the slab allocator and of the small-memory manager that
is layered on slab class 0, followed by theorems about the embedded
functions.

Conventions of the embedding

* C objects of type `unsigned int`, `size_t`, `uint64_t` are natural numbers;
  every arithmetic operation that C performs at a fixed width is followed by an
  explicit reduction modulo `2^32` or `2^64`.
* C objects of type `int` are integers; a conversion to `int` goes through
  `to_int`.
* Pointers are natural numbers, `0` being `NULL`.
* A function whose C execution can leave defined behaviour (an array index out
  of bounds, a division by zero) returns an `Option`, `none` standing for the
  undefined execution.
* The answers of the C library (`malloc`, `realloc`) are arguments of the
  functions that call it.
* The memory that holds the slots of the small-memory manager is a map from
  addresses to bytes; a failed `assert` is an undefined execution.
-/

namespace Slabs

/-! ## Constants of `slabs.c` -/

/-- The `RESERVED_SLABS` constant: minimum number of reserved slab pages. -/
def RESERVED_SLABS : Nat := 4

/-- The `RESERVED_SLAB_RATIO` constant, in percent. -/
def RESERVED_SLAB_RATIO : Nat := 4

/-- The `MAX_SPACE_SHORTAGE_LEVEL` constant. -/
def MAX_SPACE_SHORTAGE_LEVEL : Int := 100

/-- The `SMMGR_NUM_CLASSES` constant. -/
def SMMGR_NUM_CLASSES : Nat := 1025

/-- The `SMMGR_BLOCK_SIZE` constant, `64*1024`. -/
def SMMGR_BLOCK_SIZE : Nat := 64 * 1024

/-- The `SMMGR_MIN_SLOT_SIZE` constant. -/
def SMMGR_MIN_SLOT_SIZE : Int := 32

/-- The value of `sizeof(sm_tail_t)`: the slot tail is two `uint16_t` fields
(`offset` and `length`), four bytes without padding. -/
def sizeof_sm_tail_t : Nat := 4

/-- The `CHUNK_ALIGN_BYTES` constant used by `memory_allocate` and
`slabs_init`. -/
def CHUNK_ALIGN_BYTES : Nat := 8

/-! ## Machine arithmetic -/

/-- Reduction of a natural number to an `unsigned int`. -/
def wrap32 (n : Nat) : Nat := n % 2 ^ 32

/-- Reduction of a natural number to a `size_t` / `uint64_t`. -/
def wrap64 (n : Nat) : Nat := n % 2 ^ 64

/-- Conversion of an unsigned value to `int` (two's complement, 32 bits). -/
def to_int (n : Nat) : Int :=
  if n % 2 ^ 32 < 2 ^ 31 then ((n % 2 ^ 32 : Nat) : Int)
  else ((n % 2 ^ 32 : Nat) : Int) - 2 ^ 32

/-- Conversion of an `int` to `size_t`. -/
def int_to_size_t (i : Int) : Nat := (i % 2 ^ 64).toNat

/-! ## Data model -/

/-- Modelled from the spec: the `slabclass_t` record, whose declaration is in a
header outside this file. The fields are the ones `slabs.c` reads and writes;
`slots` and `slab_list` hold the cells of the two growable pointer arrays
(capacities `sl_total` and `list_size`). The statistics code prints `size`,
`perslab`, `rsvd_slabs`, `sl_curr`, `end_page_free` and `slabs` with `%u` and
`requested` with `%zu`, which fixes their widths. -/
structure slabclass_t where
  size : Nat
  perslab : Nat
  rsvd_slabs : Nat
  slots : List Nat
  sl_total : Nat
  sl_curr : Nat
  end_page_ptr : Nat
  end_page_free : Nat
  slabs : Nat
  slab_list : List Nat
  list_size : Nat
  requested : Nat
deriving DecidableEq, Repr

/-- Modelled from the spec: the `engine->slabs` record (page arena and slab
classes), declared in a header outside this file. -/
structure slabs_t where
  slabclass : List slabclass_t
  mem_limit : Nat
  mem_malloced : Nat
  mem_reserved : Nat
  power_largest : Nat
  mem_base : Nat
  mem_current : Nat
  mem_avail : Nat
deriving DecidableEq, Repr

/-- Modelled from the spec: the part of `engine->config` that `slabs.c`
reads. -/
structure engine_config where
  item_size_max : Nat
  chunk_size : Nat
deriving DecidableEq, Repr

/-- Modelled from the spec: `struct default_engine`, reduced to the members
`slabs.c` touches. -/
structure default_engine where
  config : engine_config
  slabs : slabs_t
deriving DecidableEq, Repr

/-- The `sm_slist_t` record: a slot list with its byte and slot counters. -/
structure sm_slist_t where
  head : Nat
  tail : Nat
  space : Nat
  count : Nat
deriving DecidableEq, Repr

/-- The `sm_blist_t` record: the list of used blocks. -/
structure sm_blist_t where
  head : Nat
  tail : Nat
  count : Nat
deriving DecidableEq, Repr

/-- The `sm_anchor_t` record: all bookkeeping of the small-memory manager. -/
structure sm_anchor_t where
  blck_clsid : Int
  blck_tsize : Int
  blck_bsize : Int
  used_num_classes : Int
  free_num_classes : Int
  used_minid : Int
  used_maxid : Int
  free_minid : Int
  free_maxid : Int
  used_blist : sm_blist_t
  free_slist : List sm_slist_t
  used_slist : List sm_slist_t
  free_small_space : Nat
  free_avail_space : Nat
  used_total_space : Nat
deriving DecidableEq, Repr

/-- The allocator state: the engine, the file-level `sm_anchor`, and the number
of calls made so far to the external `coll_del_thread_wakeup`. -/
structure allocator where
  engine : default_engine
  sm_anchor : sm_anchor_t
  wakeups : Nat
deriving DecidableEq, Repr

/-- The cell `engine->slabs.slabclass[i]` for an `int` or `unsigned` index. -/
def slabclass_at (e : default_engine) (i : Int) : Option slabclass_t :=
  if 0 ≤ i then e.slabs.slabclass[i.toNat]? else none

/-- Store into the cell `engine->slabs.slabclass[i]`. -/
def slabclass_store (e : default_engine) (i : Int) (p : slabclass_t) :
    Option default_engine :=
  if 0 ≤ i ∧ i.toNat < e.slabs.slabclass.length then
    some { e with slabs := { e.slabs with slabclass := e.slabs.slabclass.set i.toNat p } }
  else none

/-- The chunk size of class `i` (`0` outside the array), for use in statements. -/
def chunk_size (e : default_engine) (i : Nat) : Nat :=
  match e.slabs.slabclass[i]? with
  | some p => p.size
  | none => 0

/-! ## `slabs_clsid` -/

/-- The `while` loop of `slabs_clsid`, started at `res`. One unit of fuel is one
test of the loop condition; every test reads one more cell of the array, so
`slabclass.length + 1` units are never exhausted. -/
def slabs_clsid_loop (e : default_engine) (size : Nat) : Nat → Nat → Option Nat
  | 0, _ => none
  | fuel + 1, res =>
    match e.slabs.slabclass[res]? with
    | none => none
    | some p =>
      if size > p.size then
        if res = e.slabs.power_largest then some 0
        else slabs_clsid_loop e size fuel (res + 1)
      else some res

/-- The function `slabs_clsid`. `POWER_SMALLEST` is a constant of a header
outside this file and is taken as a parameter. -/
def slabs_clsid (POWER_SMALLEST : Nat) (e : default_engine) (size : Nat) : Option Nat :=
  if size = 0 then some 0
  else slabs_clsid_loop e size (e.slabs.slabclass.length + 1) POWER_SMALLEST

/-! ## Slot length of the small-memory manager -/

/-- The macro `SMMGR_SLOT_SIZE(size)`, evaluated in `size_t` arithmetic:
`((((size)+sizeof(sm_tail_t)-1) / 8) + 1) * 8`. -/
def SMMGR_SLOT_SIZE (size : Nat) : Nat :=
  wrap64 ((wrap64 (size + sizeof_sm_tail_t - 1) / 8 + 1) * 8)

/-- The slot length `slen` that opens both `do_smmgr_alloc` and
`do_smmgr_free`: `int slen = SMMGR_SLOT_SIZE(size);` followed by
`if (slen < SMMGR_MIN_SLOT_SIZE) slen = SMMGR_MIN_SLOT_SIZE;`. -/
def do_smmgr_slen (size : Nat) : Int :=
  let slen := to_int (SMMGR_SLOT_SIZE size)
  if slen < SMMGR_MIN_SLOT_SIZE then SMMGR_MIN_SLOT_SIZE else slen

/-- The function `do_smmgr_memid`, on an `int` argument converted to
`size_t`. -/
def do_smmgr_memid (size : Nat) : Int :=
  if size < 8192 then to_int (size / 8) else (SMMGR_NUM_CLASSES : Int) - 1

/-- Rounding up to a multiple of eight, as the specification words it. -/
def round_up_8 (n : Nat) : Nat := (n + 7) / 8 * 8

/-- The slot length as the specification words it:
`max(32, round_up_8(size + 8))`. -/
def spec_slen (size : Nat) : Nat := max 32 (round_up_8 (size + 8))

/-! ## `slabs_space_size` -/

/-- The function `slabs_space_size`. `MAX_SM_VALUE_SIZE` and `POWER_SMALLEST`
are constants of a header outside this file and are taken as parameters. The
result is an `unsigned int`. -/
def slabs_space_size (MAX_SM_VALUE_SIZE POWER_SMALLEST : Nat) (e : default_engine)
    (size : Nat) : Option Nat :=
  if size ≤ MAX_SM_VALUE_SIZE then some (wrap32 (SMMGR_SLOT_SIZE size))
  else
    match slabs_clsid POWER_SMALLEST e size with
    | none => none
    | some clsid =>
      if clsid = 0 then some 0
      else
        match e.slabs.slabclass[clsid]? with
        | none => none
        | some p => some p.size

/-! ## The pressure oracle `slabs_short_of_free_space` -/

/-- The test that opens the pressure branch, shared by
`slabs_short_of_free_space` and `do_slabs_newslab`:
`mem_limit <= mem_malloced || (mem_limit - mem_malloced) < mem_reserved`. -/
def under_pressure (s : slabs_t) : Bool :=
  decide (s.mem_limit ≤ s.mem_malloced) || decide (s.mem_limit - s.mem_malloced < s.mem_reserved)

/-- The local `limit_nchunk`:
`(p->rsvd_slabs * p->perslab * RESERVED_SLAB_RATIO) / 100`, the product being
taken on `unsigned int`. -/
def limit_nchunk (p : slabclass_t) : Nat :=
  wrap32 (wrap32 (p.rsvd_slabs * p.perslab) * RESERVED_SLAB_RATIO) / 100

/-- The local `avail_nchunk`:
`(free_avail_space/blck_tsize) + (p->sl_curr+p->end_page_free)
 + (p->slabs < p->rsvd_slabs ? ((p->rsvd_slabs-p->slabs) * p->perslab) : 0)`.
The division is undefined for a zero `blck_tsize`. -/
def avail_nchunk (a : sm_anchor_t) (p : slabclass_t) : Option Nat :=
  if int_to_size_t a.blck_tsize = 0 then none
  else
    some (wrap64 (wrap64 (a.free_avail_space / int_to_size_t a.blck_tsize
                    + wrap32 (p.sl_curr + p.end_page_free))
            + (if p.slabs < p.rsvd_slabs
               then wrap32 (wrap32 (p.rsvd_slabs - p.slabs) * p.perslab) else 0)))

/-- The body of `if (avail_nchunk <= limit_nchunk) { ... return
space_shortage_level; }`, entered with `avail ≤ limit`. The quotient
`(limit_nchunk-avail_nchunk) / (limit_nchunk/6)` is undefined when
`limit_nchunk/6` is zero. -/
def space_shortage_level (limit avail : Nat) : Option Int :=
  if avail ≤ 0 then some MAX_SPACE_SHORTAGE_LEVEL
  else
    let lvl : Int := to_int (limit / avail)
    if lvl = 1 then
      if limit / 6 = 0 then none
      else some (to_int (wrap64 (int_to_size_t lvl + (limit - avail) / (limit / 6))))
    else
      let lvl2 : Int := lvl + 2
      if lvl2 > MAX_SPACE_SHORTAGE_LEVEL then some MAX_SPACE_SHORTAGE_LEVEL else some lvl2

/-- The function `slabs_short_of_free_space` (branch `VARIABLE_LENGTH_SMMGR`). -/
def slabs_short_of_free_space (st : allocator) : Option Int :=
  if under_pressure st.engine.slabs then
    match slabclass_at st.engine st.sm_anchor.blck_clsid with
    | none => none
    | some p =>
      if p.slabs > 0 then
        match avail_nchunk st.sm_anchor p with
        | none => none
        | some avail =>
          if avail ≤ limit_nchunk p then space_shortage_level (limit_nchunk p) avail
          else some 0
      else some 0
  else some 0

/-! ## Growing a slab class -/

/-- The function `grow_slab_list`. `realloc_ok` is the answer of `realloc`
(`true` for a non-null result). The new capacity `p->list_size * 2` is an
`unsigned int` product; the cells added by `realloc` hold zero. -/
def grow_slab_list (e : default_engine) (id : Nat) (realloc_ok : Bool) :
    Option (Int × default_engine) :=
  match e.slabs.slabclass[id]? with
  | none => none
  | some p =>
    if p.slabs = p.list_size then
      let new_size : Nat := if p.list_size ≠ 0 then wrap32 (p.list_size * 2) else 16
      if realloc_ok = false then some (0, e)
      else
        let p1 : slabclass_t :=
          { p with list_size := wrap32 new_size,
                   slab_list := p.slab_list.take new_size
                                  ++ List.replicate (new_size - p.slab_list.length) 0 }
        match slabclass_store e id p1 with
        | none => none
        | some e1 => some (1, e1)
    else some (1, e)

/-- The function `memory_allocate`. `malloc_ret` is the answer of `malloc`,
used when the arena is not pre-allocated. -/
def memory_allocate (e : default_engine) (size : Nat) (malloc_ret : Nat) :
    Nat × default_engine :=
  if e.slabs.mem_base = 0 then (malloc_ret, e)
  else
    let ret := e.slabs.mem_current
    if size > e.slabs.mem_avail then (0, e)
    else
      let size1 : Nat :=
        if size % CHUNK_ALIGN_BYTES ≠ 0
        then wrap64 (size + (CHUNK_ALIGN_BYTES - size % CHUNK_ALIGN_BYTES)) else size
      (ret, { e with slabs :=
        { e.slabs with
            mem_current := wrap64 (e.slabs.mem_current + size1),
            mem_avail := if size1 < e.slabs.mem_avail then e.slabs.mem_avail - size1 else 0 } })

/-- The page length `int len = p->size * p->perslab;` of `do_slabs_newslab`. -/
def newslab_len (p : slabclass_t) : Int := to_int (wrap32 (p.size * p.perslab))

/-- The refusal test of `do_slabs_newslab`:
`mem_limit && mem_malloced + len > mem_limit && p->slabs >= p->rsvd_slabs`. -/
def newslab_refused (s : slabs_t) (p : slabclass_t) : Bool :=
  decide (s.mem_limit ≠ 0)
    && decide (wrap64 (s.mem_malloced + int_to_size_t (newslab_len p)) > s.mem_limit)
    && decide (p.slabs ≥ p.rsvd_slabs)

/-- The tail of `do_slabs_newslab`, after the page is installed: when the arena
is under pressure and the reservation of the block class is still undefined
(zero), define it and wake the eviction thread. -/
def define_rsvd_slabs (st : allocator) : Option allocator :=
  if under_pressure st.engine.slabs then
    match slabclass_at st.engine st.sm_anchor.blck_clsid with
    | none => none
    | some z =>
      if z.rsvd_slabs = 0 then
        let additional_slabs0 : Nat := wrap32 ((z.slabs / 100) * RESERVED_SLAB_RATIO)
        let additional_slabs : Nat :=
          if additional_slabs0 < RESERVED_SLABS then RESERVED_SLABS else additional_slabs0
        match slabclass_store st.engine st.sm_anchor.blck_clsid
                { z with rsvd_slabs := wrap32 (z.slabs + additional_slabs) } with
        | none => none
        | some e1 => some { st with engine := e1, wakeups := st.wakeups + 1 }
      else some st
  else some st

/-- The function `do_slabs_newslab` (branch `VARIABLE_LENGTH_SMMGR`).
`realloc_ok` and `malloc_ret` are the answers of the C library. The result is
the returned `int` and the state after the call. The bytes of the page, which
`memset` clears, are not part of the accounting state. A store past the end of
`slab_list` is an undefined execution. -/
def do_slabs_newslab (st : allocator) (id : Nat) (realloc_ok : Bool) (malloc_ret : Nat) :
    Option (Int × allocator) :=
  match st.engine.slabs.slabclass[id]? with
  | none => none
  | some p =>
    let len : Int := newslab_len p
    if newslab_refused st.engine.slabs p then some (0, st)
    else
      match grow_slab_list st.engine id realloc_ok with
      | none => none
      | some (g, e1) =>
        if g = 0 then some (0, { st with engine := e1 })
        else
          let (ptr, e2) := memory_allocate e1 (int_to_size_t len) malloc_ret
          if ptr = 0 then some (0, { st with engine := e2 })
          else
            match e2.slabs.slabclass[id]? with
            | none => none
            | some q =>
              if q.slabs < q.slab_list.length then
                let q1 : slabclass_t :=
                  { q with end_page_ptr := ptr,
                           end_page_free := q.perslab,
                           slab_list := q.slab_list.set q.slabs ptr,
                           slabs := wrap32 (q.slabs + 1) }
                match slabclass_store e2 id q1 with
                | none => none
                | some e3 =>
                  let e4 : default_engine :=
                    { e3 with slabs :=
                      { e3.slabs with
                          mem_malloced := wrap64 (e3.slabs.mem_malloced + int_to_size_t len) } }
                  match define_rsvd_slabs { st with engine := e4 } with
                  | none => none
                  | some st1 => some (1, st1)
              else none

/-! ## Slab-path allocation -/

/-- The function `do_slabs_alloc` past its dispatch of small sizes to the
small-memory manager, i.e. for `size > MAX_SM_VALUE_SIZE` (this is also the path
taken by `do_smmgr_blck_alloc`, which asks for a whole block of class 0). The
result is the returned pointer (`0` for `NULL`) and the state after the call.
The `assert(p->end_page_ptr != NULL)` is an undefined execution when it
fails. -/
def do_slabs_alloc (st : allocator) (size : Nat) (id : Nat) (realloc_ok : Bool)
    (malloc_ret : Nat) : Option (Nat × allocator) :=
  match st.engine.slabs.slabclass[id]? with
  | none => none
  | some p0 =>
    let grown : Option (Bool × allocator) :=
      if p0.end_page_ptr ≠ 0 ∨ p0.sl_curr ≠ 0 then some (true, st)
      else
        match do_slabs_newslab st id realloc_ok malloc_ret with
        | none => none
        | some (r, st1) => some (decide (r ≠ 0), st1)
    match grown with
    | none => none
    | some (false, st1) => some (0, st1)
    | some (true, st1) =>
      match st1.engine.slabs.slabclass[id]? with
      | none => none
      | some p =>
        let taken : Option (Nat × slabclass_t) :=
          if p.sl_curr ≠ 0 then
            match p.slots[p.sl_curr - 1]? with
            | none => none
            | some ret => some (ret, { p with sl_curr := p.sl_curr - 1 })
          else if p.end_page_ptr = 0 then none
          else
            let free1 := wrap32 (p.end_page_free + 2 ^ 32 - 1)
            some (p.end_page_ptr,
                  { p with end_page_free := free1,
                           end_page_ptr := if free1 ≠ 0 then p.end_page_ptr + p.size else 0 })
        match taken with
        | none => none
        | some (ret, p1) =>
          let p2 : slabclass_t :=
            if ret ≠ 0 then { p1 with requested := wrap64 (p1.requested + size) } else p1
          match slabclass_store st1.engine id p2 with
          | none => none
          | some e1 => some (ret, { st1 with engine := e1 })

/-! ## `do_slabs_set_memlimit` -/

/-- The two values of `ENGINE_ERROR_CODE` that `slabs.c` returns from
`do_slabs_set_memlimit`, and `ENGINE_ENOMEM` of `slabs_init`. -/
inductive ENGINE_ERROR_CODE where
  | ENGINE_SUCCESS
  | ENGINE_ENOMEM
  | ENGINE_EBADVALUE
deriving DecidableEq, Repr

open ENGINE_ERROR_CODE

/-- The local `new_mem_reserved` of `do_slabs_set_memlimit` (the same
computation sets `mem_reserved` in `slabs_init`):
`(memlimit / 100) * RESERVED_SLAB_RATIO`, raised to
`RESERVED_SLABS*item_size_max` when below it. -/
def new_mem_reserved (e : default_engine) (memlimit : Nat) : Nat :=
  let r := wrap64 ((memlimit / 100) * RESERVED_SLAB_RATIO)
  if r < wrap64 (RESERVED_SLABS * e.config.item_size_max)
  then wrap64 (RESERVED_SLABS * e.config.item_size_max) else r

/-- Subtraction on `size_t`. -/
def sub64 (a b : Nat) : Nat := (((a : Int) - (b : Int)) % 2 ^ 64).toNat

/-- The function `do_slabs_set_memlimit` (branch `VARIABLE_LENGTH_SMMGR`). The
result is the returned code and the state after the call. -/
def do_slabs_set_memlimit (st : allocator) (memlimit : Nat) :
    Option (ENGINE_ERROR_CODE × allocator) :=
  let s := st.engine.slabs
  if s.mem_base ≠ 0 then some (ENGINE_EBADVALUE, st)
  else if memlimit < wrap64 (s.mem_malloced + s.mem_malloced / 10) then
    some (ENGINE_EBADVALUE, st)
  else
    let nmr := new_mem_reserved st.engine memlimit
    match slabclass_at st.engine st.sm_anchor.blck_clsid with
    | none => none
    | some z =>
      if z.rsvd_slabs ≠ 0 ∧ sub64 memlimit s.mem_malloced < nmr then
        some (ENGINE_EBADVALUE, st)
      else
        let e1 : default_engine :=
          { st.engine with slabs := { s with mem_limit := memlimit, mem_reserved := nmr } }
        match slabclass_store e1 st.sm_anchor.blck_clsid { z with rsvd_slabs := 0 } with
        | none => none
        | some e2 => some (ENGINE_SUCCESS, { st with engine := e2 })

/-! ## Concrete states used to exercise the theorems -/

/-- A slab class with the given `size`, `perslab`, `rsvd_slabs`, `slabs` and
`end_page_free`, and nothing on its free list. Its pages lie 1 MiB apart from
the address `base`, in a `slab_list` of capacity 32; the cursor `end_page_ptr`
points into the last page when chunks are left there. -/
def mk_class (base size perslab rsvd_slabs slabs end_page_free : Nat) : slabclass_t :=
  { size := size, perslab := perslab, rsvd_slabs := rsvd_slabs, slots := [],
    sl_total := 0, sl_curr := 0,
    end_page_ptr :=
      if end_page_free = 0 then 0
      else base + (slabs - 1) * 1048576 + (perslab - end_page_free) * size,
    end_page_free := end_page_free,
    slabs := slabs,
    slab_list := (List.range 32).map (fun i => if i < slabs then base + i * 1048576 else 0),
    list_size := 32, requested := 0 }

/-- The address of the first page of class 0 in the concrete states. -/
def base0 : Nat := 2 ^ 32

/-- The anchor as `do_smmgr_init` leaves it, with the given `free_avail_space`
and empty lists. The block header `sm_blck_t` (two pointers and two `uint32_t`)
takes 24 bytes of the block. -/
def mk_anchor (free_avail_space : Nat) : sm_anchor_t :=
  { blck_clsid := 0, blck_tsize := 65536, blck_bsize := 65512,
    used_num_classes := 0, free_num_classes := 0,
    used_minid := 1025, used_maxid := -1, free_minid := 1025, free_maxid := -1,
    used_blist := { head := 0, tail := 0, count := 0 },
    free_slist := [], used_slist := [],
    free_small_space := 0, free_avail_space := free_avail_space, used_total_space := 0 }

/-- An engine with a 1 MiB item size, class 0 as given, and three ordinary
classes of chunk sizes 96, 120 and 1048576, the last one owning `big_slabs`
pages. -/
def mk_engine (class0 : slabclass_t) (big_slabs : Nat)
    (mem_limit mem_malloced mem_reserved : Nat) : default_engine :=
  { config := { item_size_max := 1048576, chunk_size := 48 },
    slabs := { slabclass := [class0, mk_class (2 ^ 33) 96 10922 4 0 0,
                             mk_class (2 ^ 34) 120 8738 4 0 0,
                             mk_class (2 ^ 35) 1048576 1 4 big_slabs 0],
               mem_limit := mem_limit, mem_malloced := mem_malloced,
               mem_reserved := mem_reserved, power_largest := 3,
               mem_base := 0, mem_current := 0, mem_avail := 0 } }

/-- An allocator state built from `mk_engine` and `mk_anchor`. -/
def mk_state (class0 : slabclass_t) (big_slabs : Nat)
    (mem_limit mem_malloced mem_reserved : Nat) (free_avail_space : Nat) : allocator :=
  { engine := mk_engine class0 big_slabs mem_limit mem_malloced mem_reserved,
    sm_anchor := mk_anchor free_avail_space, wakeups := 0 }

/-- A freshly configured engine: class 0 of 64 KiB blocks, sixteen to a page,
no page allocated, no memory limit. -/
def engine_fresh : default_engine := mk_engine (mk_class base0 65536 16 0 0 0) 0 0 0 0

/-- The reservation `rsvd_slabs` of class 0 (`0` when the array is empty), for
use in statements. -/
def class0_rsvd_slabs (e : default_engine) : Nat :=
  match e.slabs.slabclass[0]? with
  | some p => p.rsvd_slabs
  | none => 0

/-- The rejection rule of `set_memlimit` as the specification words it, read
over the rationals: the arena is pre-allocated, or `new < mem_malloced * 1.1`,
or the reservation of class 0 is defined and `new - mem_malloced` is below
`max(4% of new, RESERVED_SLABS * item_size_max)`. -/
def spec_bad_value (st : allocator) (new : Nat) : Prop :=
  st.engine.slabs.mem_base ≠ 0 ∨
  (new : ℚ) < (st.engine.slabs.mem_malloced : ℚ) * (11 / 10) ∨
  (class0_rsvd_slabs st.engine ≠ 0 ∧
    (new : ℚ) - (st.engine.slabs.mem_malloced : ℚ)
      < max ((new : ℚ) * (4 / 100))
            ((RESERVED_SLABS * st.engine.config.item_size_max : Nat) : ℚ))

/-- One page of class 0 allocated under a 16 MiB limit; the reservation of
class 0 is still undefined. -/
def state_one_page : allocator :=
  mk_state (mk_class base0 65536 16 0 1 16) 0 16777216 1048576 4194304 0

/-- The state after the pressure trip of a 5 MiB arena: two pages of the 1 MiB
class, then the four reserved pages of class 0, the last page of which has two
blocks left; no reusable free slot space. -/
def state_two_blocks_left : allocator :=
  mk_state (mk_class base0 65536 16 4 4 2) 2 5242880 6291456 4194304 0

/-- An 18 MiB arena past its limit: class 0 owns its 18 reserved pages, with
`end_page_free` blocks left in the last one, and the 1 MiB class owns one
page. -/
def state_18_pages (end_page_free : Nat) : allocator :=
  mk_state (mk_class base0 65536 16 18 18 end_page_free) 1 18874368 19922944 4194304 0

/-- One page of class 0 allocated and fully handed out, under a 16 MiB limit;
the reservation of class 0 is still undefined. -/
def state_page_used : allocator :=
  mk_state (mk_class base0 65536 16 0 1 0) 0 16777216 1048576 4194304 0

/-- No memory limit configured (`mem_limit = 0`); the 1 MiB class owns four
pages, as many as its reservation, and class 0 owns none. -/
def state_unlimited : allocator :=
  mk_state (mk_class base0 65536 16 0 0 0) 4 0 4194304 4194304 0

/-! ## Slab-path release and sequences of slab operations -/

/-- The function `do_slabs_free` past its dispatch of small sizes to the
small-memory manager, i.e. for `size > MAX_SM_VALUE_SIZE` (also the path taken by
`do_smmgr_blck_free`, which returns a whole block to class 0). `realloc_ok` is
the answer of `realloc` when the `slots` array has to grow; when it fails the
function returns without recording the chunk. The cells added by `realloc` hold
zero. -/
def do_slabs_free (st : allocator) (ptr size id : Nat) (realloc_ok : Bool) :
    Option allocator :=
  match st.engine.slabs.slabclass[id]? with
  | none => none
  | some p =>
    let grown : Option slabclass_t :=
      if p.sl_curr = p.sl_total then
        let new_size : Int := if p.sl_total ≠ 0 then to_int (wrap32 (p.sl_total * 2)) else 16
        if realloc_ok = false then none
        else
          let cells : Nat := wrap64 (int_to_size_t new_size * 8) / 8
          some { p with slots := p.slots.take cells
                                   ++ List.replicate (cells - p.slots.length) 0,
                        sl_total := wrap32 (int_to_size_t new_size) }
      else some p
    match grown with
    | none => some st
    | some p1 =>
      if p1.sl_curr < p1.slots.length then
        match slabclass_store st.engine id
                { p1 with slots := p1.slots.set p1.sl_curr ptr,
                          sl_curr := wrap32 (p1.sl_curr + 1),
                          requested := sub64 p1.requested size } with
        | none => none
        | some e1 => some { st with engine := e1 }
      else none

/-- One operation on the slab allocator: a slab-path allocation or release in a
class, with the answers of the C library, or a change of the memory limit. -/
inductive slab_op where
  | alloc (size id : Nat) (realloc_ok : Bool) (malloc_ret : Nat)
  | free (ptr size id : Nat) (realloc_ok : Bool)
  | set_memlimit (memlimit : Nat)
deriving DecidableEq, Repr

/-- One step of a sequence of slab operations. Beside the allocator state the
step keeps the list of live chunks, as pairs (class id, pointer): a successful
allocation adds its chunk, a release removes it. A release of a chunk that is
not live in its class is outside the sequences considered (`none`). -/
def slab_step (s : allocator × List (Nat × Nat)) :
    slab_op → Option (allocator × List (Nat × Nat))
  | slab_op.alloc size id realloc_ok malloc_ret =>
    match do_slabs_alloc s.1 size id realloc_ok malloc_ret with
    | none => none
    | some (ret, st1) => some (st1, if ret ≠ 0 then (id, ret) :: s.2 else s.2)
  | slab_op.free ptr size id realloc_ok =>
    if (id, ptr) ∈ s.2 then
      match do_slabs_free s.1 ptr size id realloc_ok with
      | none => none
      | some st1 => some (st1, s.2.erase (id, ptr))
    else none
  | slab_op.set_memlimit memlimit =>
    match do_slabs_set_memlimit s.1 memlimit with
    | none => none
    | some (_, st1) => some (st1, s.2)

/-- A sequence of slab operations, run from left to right. -/
def slab_run (s : allocator × List (Nat × Nat)) :
    List slab_op → Option (allocator × List (Nat × Nat))
  | [] => some s
  | op :: ops =>
    match slab_step s op with
    | none => none
    | some s1 => slab_run s1 ops

/-- The number of live chunks of class `c`. -/
def live_count (c : Nat) (live : List (Nat × Nat)) : Nat :=
  (live.filter (fun x => decide (x.1 = c))).length

/-- The chunk accounting of class `c`: the invariant
`live + sl_curr + end_page_free = slabs * perslab`, together with what makes it
inductive: the bump cursor is null exactly when no chunk is left in the page,
a page holds at least one chunk, the `slots` array has the recorded capacity,
and no null pointer is live or on the free list. -/
def chunks_inv (c : Nat) (s : allocator × List (Nat × Nat)) : Prop :=
  ∃ p, s.1.engine.slabs.slabclass[c]? = some p ∧
    live_count c s.2 + p.sl_curr + p.end_page_free = p.slabs * p.perslab ∧
    (p.end_page_ptr = 0 ↔ p.end_page_free = 0) ∧ 0 < p.perslab ∧
    p.sl_curr ≤ p.sl_total ∧ p.slots.length = p.sl_total ∧
    (∀ i x, i < p.sl_curr → p.slots[i]? = some x → x ≠ 0) ∧
    (∀ x, x ∈ s.2 → x.2 ≠ 0)

/-- No counter of class `c` is near its width: with one more page the class
would hold fewer than `2^31` chunks, and its `slots` array has fewer than `2^30`
cells, so that no `unsigned int` computation on the class wraps. -/
def chunks_bounded (c : Nat) (st : allocator) : Bool :=
  match st.engine.slabs.slabclass[c]? with
  | none => false
  | some p =>
    decide ((p.slabs + 1) * p.perslab < 2 ^ 31) && decide (p.sl_total < 2 ^ 30)

/-- The test `B` holds in every state from which the run executes an
operation. -/
def slab_run_within (B : allocator → Bool) :
    allocator × List (Nat × Nat) → List slab_op → Bool
  | _, [] => true
  | s, op :: ops =>
    B s.1 &&
    match slab_step s op with
    | none => true
    | some s1 => slab_run_within B s1 ops

/-- The property `P` holds in the starting state and after every operation that
the run executes. -/
def slab_run_always (P : allocator × List (Nat × Nat) → Prop) :
    allocator × List (Nat × Nat) → List slab_op → Prop
  | s, [] => P s
  | s, op :: ops =>
    P s ∧
    match slab_step s op with
    | none => True
    | some s1 => slab_run_always P s1 ops

/-- Every release of the sequence finds room on the free list or grows it with
success (`realloc` does not fail). -/
def frees_grow : List slab_op → Bool
  | [] => true
  | slab_op.free _ _ _ realloc_ok :: ops => realloc_ok && frees_grow ops
  | _ :: ops => frees_grow ops

/-- The pages taken under reservation, in bytes: the sum over the classes of
`min(slabs, rsvd_slabs) * size * perslab`. -/
def reserved_bytes (l : List slabclass_t) : Nat :=
  (l.map (fun p => min p.slabs p.rsvd_slabs * (p.size * p.perslab))).sum

/-- The bound on the memory taken from the arena: no limit is configured, or
`mem_malloced` is at most `mem_limit` plus the pages taken under reservation. -/
def arena_inv (st : allocator) : Prop :=
  st.engine.slabs.mem_limit = 0 ∨
  st.engine.slabs.mem_malloced
    ≤ st.engine.slabs.mem_limit + reserved_bytes st.engine.slabs.slabclass

/-- The bound of the specification, as a test: `mem_malloced` is at most
`mem_limit` plus the sum, over the classes with a defined (non-zero)
reservation, of `(rsvd_slabs - slabs) * page_size`, for a page size given per
class. -/
def spec_arena_bound (page_size : slabclass_t → Nat) (st : allocator) : Bool :=
  decide ((st.engine.slabs.mem_malloced : Int)
    ≤ (st.engine.slabs.mem_limit : Int)
      + ((st.engine.slabs.slabclass.filter (fun p => decide (p.rsvd_slabs ≠ 0))).map
          (fun p => ((p.rsvd_slabs : Int) - (p.slabs : Int)) * (page_size p : Int))).sum)

/-- No fixed-width computation of the arena accounting wraps: every page length
fits an `int`, every page count can be incremented, and `mem_malloced` can grow
by a page and by a tenth. -/
def arena_bounded (st : allocator) : Bool :=
  st.engine.slabs.slabclass.all
      (fun p => decide (p.size * p.perslab < 2 ^ 31) && decide (p.slabs + 1 < 2 ^ 32))
    && decide (st.engine.slabs.mem_malloced + st.engine.slabs.mem_malloced / 10 + 2 ^ 31
                < 2 ^ 64)

/-- The reservation that `do_slabs_newslab` gives to the block class when it
defines it, from the page count `slabs` of that class:
`additional_slabs = (slabs/100) * RESERVED_SLAB_RATIO`, raised to
`RESERVED_SLABS`, added to `slabs` (on `unsigned int`). -/
def defined_rsvd_slabs (slabs : Nat) : Nat :=
  wrap32 (slabs +
    (if wrap32 ((slabs / 100) * RESERVED_SLAB_RATIO) < RESERVED_SLABS then RESERVED_SLABS
     else wrap32 ((slabs / 100) * RESERVED_SLAB_RATIO)))

/-- The reservation of class 0 as the specification computes it:
`slabs + max(RESERVED_SLABS, slabs * 4 / 100)`. -/
def spec_rsvd_slabs (slabs : Nat) : Nat := slabs + max RESERVED_SLABS (slabs * 4 / 100)

/-- Class 0 owning 125 fully handed out pages, in a `slab_list` of capacity
128; its reservation is still undefined. -/
def class0_125_pages : slabclass_t :=
  { size := 65536, perslab := 16, rsvd_slabs := 0, slots := [], sl_total := 0, sl_curr := 0,
    end_page_ptr := 0, end_page_free := 0, slabs := 125,
    slab_list := (List.range 128).map (fun i => if i < 125 then base0 + i * 1048576 else 0),
    list_size := 128, requested := 0 }

/-- A 131 MiB arena of which class 0 has taken 125 MiB: the next page of any
class brings the free part of the arena below `mem_reserved`
(`(137363456/100)*4 = 5494536`). -/
def state_125_pages : allocator :=
  mk_state class0_125_pages 0 137363456 131072000 5494536 0

/-- An engine of three classes (the block class, one class of 400000-byte
chunks, two to a page, and the class of the largest item, one to a page) as
`slabs_init` lays them out for `chunk_size + 48 = 400000`, `factor = 2` and
`item_size_max = 1 MiB`, with the given memory limit and no page allocated. -/
def engine_two_classes (mem_limit : Nat) : default_engine :=
  { config := { item_size_max := 1048576, chunk_size := 399952 },
    slabs := { slabclass := [mk_class base0 65536 16 0 0 0,
                             mk_class (2 ^ 33) 400000 2 4 0 0,
                             mk_class (2 ^ 34) 1048576 1 4 0 0],
               mem_limit := mem_limit, mem_malloced := 0,
               mem_reserved := 4194304, power_largest := 2,
               mem_base := 0, mem_current := 0, mem_avail := 0 } }

/-- The engine of three classes under a limit of 1 MiB, before any
allocation. -/
def state_two_classes : allocator :=
  { engine := engine_two_classes 1048576, sm_anchor := mk_anchor 0, wakeups := 0 }

/-- Nine slab-path allocations, each answered by `malloc` with the address of a
fresh page when a page is asked: four items of 1000000 bytes (class 2), then
five items of 390000 bytes (class 1, two to a page). -/
def ops_fill : List slab_op :=
  [slab_op.alloc 1000000 2 true (2 ^ 34),
   slab_op.alloc 1000000 2 true (2 ^ 34 + 1048576),
   slab_op.alloc 1000000 2 true (2 ^ 34 + 2 * 1048576),
   slab_op.alloc 1000000 2 true (2 ^ 34 + 3 * 1048576),
   slab_op.alloc 390000 1 true (2 ^ 33),
   slab_op.alloc 390000 1 true 0,
   slab_op.alloc 390000 1 true (2 ^ 33 + 1048576),
   slab_op.alloc 390000 1 true 0,
   slab_op.alloc 390000 1 true (2 ^ 33 + 2 * 1048576)]


/-- Five slab operations on class 1 of `state_two_classes`: two allocations
from a first page, the release of the first chunk, its allocation again, and an
allocation that takes a second page. -/
def ops_mixed : List slab_op :=
  [slab_op.alloc 390000 1 true (2 ^ 33),
   slab_op.alloc 390000 1 true 0,
   slab_op.free (2 ^ 33) 390000 1 true,
   slab_op.alloc 390000 1 true 0,
   slab_op.alloc 390000 1 true (2 ^ 33 + 1048576)]


/-! ## Memory of the small-memory manager

The slots and blocks of the small-memory manager live in the bytes of the
blocks. The memory is a map from addresses to bytes; the fields of `sm_slot_t`,
`sm_tail_t` and `sm_blck_t` are read and written little-endian at their offsets
in the LP64 layout: `sm_slot_t` is `status` (4 bytes at 0), `offset` (2 bytes
at 4), `length` (2 bytes at 6), `prev` (8 bytes at 8), `next` (8 bytes at 16);
`sm_tail_t` is `offset` (2 bytes at 0), `length` (2 bytes at 2); `sm_blck_t` is
`prev` (8 bytes at 0), `next` (8 bytes at 8), `frspc` (4 bytes at 16), `frcnt`
(4 bytes at 20). -/

/-- Little-endian read of `w` bytes at address `a` of the byte memory `m`. -/
def load : Nat → (Nat → Nat) → Nat → Nat
  | 0, _, _ => 0
  | w + 1, m, a => m a % 256 + 256 * load w m (a + 1)

/-- Little-endian write of the `w` low bytes of `v` at address `a`. -/
def store (w : Nat) (m : Nat → Nat) (a v : Nat) : Nat → Nat :=
  fun x => if a ≤ x ∧ x < a + w then v / 256 ^ (x - a) % 256 else m x

/-- Conversion of an `int` to `uint16_t`. -/
def int_to_uint16 (i : Int) : Nat := (i % 2 ^ 16).toNat

/-- Conversion of an `int` to `unsigned int`. -/
def int_to_uint (i : Int) : Nat := (i % 2 ^ 32).toNat

/-- The value of `sizeof(sm_blck_t)`: two pointers and two `uint32_t`. -/
def sizeof_sm_blck_t : Nat := 24

/-- The field `slot->status`. -/
def slot_status (m : Nat → Nat) (slot : Nat) : Nat := load 4 m slot

/-- The field `slot->offset`. -/
def slot_offset (m : Nat → Nat) (slot : Nat) : Nat := load 2 m (slot + 4)

/-- The field `slot->length`. -/
def slot_length (m : Nat → Nat) (slot : Nat) : Nat := load 2 m (slot + 6)

/-- The field `slot->prev`. -/
def slot_prev (m : Nat → Nat) (slot : Nat) : Nat := load 8 m (slot + 8)

/-- The field `slot->next`. -/
def slot_next (m : Nat → Nat) (slot : Nat) : Nat := load 8 m (slot + 16)

/-- The assignment `slot->status = v`. -/
def set_slot_status (m : Nat → Nat) (slot v : Nat) : Nat → Nat := store 4 m slot v

/-- The assignment `slot->offset = v`. -/
def set_slot_offset (m : Nat → Nat) (slot v : Nat) : Nat → Nat := store 2 m (slot + 4) v

/-- The assignment `slot->length = v`. -/
def set_slot_length (m : Nat → Nat) (slot v : Nat) : Nat → Nat := store 2 m (slot + 6) v

/-- The assignment `slot->prev = v`. -/
def set_slot_prev (m : Nat → Nat) (slot v : Nat) : Nat → Nat := store 8 m (slot + 8) v

/-- The assignment `slot->next = v`. -/
def set_slot_next (m : Nat → Nat) (slot v : Nat) : Nat → Nat := store 8 m (slot + 16) v

/-- The field `tail->offset`. -/
def tail_offset (m : Nat → Nat) (tail : Nat) : Nat := load 2 m tail

/-- The field `tail->length`. -/
def tail_length (m : Nat → Nat) (tail : Nat) : Nat := load 2 m (tail + 2)

/-- The assignment `tail->offset = v`. -/
def set_tail_offset (m : Nat → Nat) (tail v : Nat) : Nat → Nat := store 2 m tail v

/-- The assignment `tail->length = v`. -/
def set_tail_length (m : Nat → Nat) (tail v : Nat) : Nat → Nat := store 2 m (tail + 2) v

/-- The field `blck->prev`. -/
def blck_prev (m : Nat → Nat) (blck : Nat) : Nat := load 8 m blck

/-- The field `blck->next`. -/
def blck_next (m : Nat → Nat) (blck : Nat) : Nat := load 8 m (blck + 8)

/-- The assignment `blck->prev = v`. -/
def set_blck_prev (m : Nat → Nat) (blck v : Nat) : Nat → Nat := store 8 m blck v

/-- The assignment `blck->next = v`. -/
def set_blck_next (m : Nat → Nat) (blck v : Nat) : Nat → Nat := store 8 m (blck + 8) v

/-- The state of the allocator together with the bytes of memory. -/
structure smmgr_state where
  st : allocator
  mem : Nat → Nat

/-- The cell `list[i]` of one of the two arrays of `sm_slist_t` for an `int`
index; an index outside the array is an undefined execution. -/
def slist_at (l : List sm_slist_t) (i : Int) : Option sm_slist_t :=
  if 0 ≤ i then l[i.toNat]? else none

/-- Store into the cell `list[i]` of one of the two arrays of `sm_slist_t`. -/
def slist_store (l : List sm_slist_t) (i : Int) (x : sm_slist_t) :
    Option (List sm_slist_t) :=
  if 0 ≤ i ∧ i.toNat < l.length then some (l.set i.toNat x) else none

/-! ## The class bookkeeping of the small-memory manager -/

/-- The loop `for ( ; smid < targ; smid++)` of `do_smmgr_used_slot_list_add`,
with `n` iterations left: the bytes of every free list passed over move from
`free_avail_space` to `free_small_space`. The result is the pair
(`free_small_space`, `free_avail_space`). -/
def move_to_small (fs : List sm_slist_t) : Nat → Int → Nat → Nat → Option (Nat × Nat)
  | 0, _, small, avail => some (small, avail)
  | n + 1, smid, small, avail =>
    match slist_at fs smid with
    | none => none
    | some l =>
      if l.space > 0 then
        move_to_small fs n (smid + 1) (wrap64 (small + l.space)) (sub64 avail l.space)
      else move_to_small fs n (smid + 1) small avail

/-- The loop `for ( ; smid < targ; smid++)` of `do_smmgr_used_slot_list_del`,
with `n` iterations left: the bytes of every free list passed over move from
`free_small_space` back to `free_avail_space`. -/
def move_to_avail (fs : List sm_slist_t) : Nat → Int → Nat → Nat → Option (Nat × Nat)
  | 0, _, small, avail => some (small, avail)
  | n + 1, smid, small, avail =>
    match slist_at fs smid with
    | none => none
    | some l =>
      if l.space > 0 then
        move_to_avail fs n (smid + 1) (sub64 small l.space) (wrap64 (avail + l.space))
      else move_to_avail fs n (smid + 1) small avail

/-- An upward scan `for (...; smid <= last; smid++) if (test(list[smid])) break;`
with `n` iterations left; the result is the value of `smid` after the loop. -/
def scan_up (test : sm_slist_t → Bool) (l : List sm_slist_t) : Nat → Int → Option Int
  | 0, smid => some smid
  | n + 1, smid =>
    match slist_at l smid with
    | none => none
    | some x => if test x then some smid else scan_up test l n (smid + 1)

/-- A downward scan `for (...; smid >= first; smid--) if (test(list[smid])) break;`
with `n` iterations left; the result is the value of `smid` after the loop. -/
def scan_down (test : sm_slist_t → Bool) (l : List sm_slist_t) : Nat → Int → Option Int
  | 0, smid => some smid
  | n + 1, smid =>
    match slist_at l smid with
    | none => none
    | some x => if test x then some smid else scan_down test l n (smid - 1)

/-- The function `do_smmgr_used_slot_list_add`. -/
def do_smmgr_used_slot_list_add (a : sm_anchor_t) (targ : Int) : Option sm_anchor_t :=
  let a1 : sm_anchor_t := if targ < a.used_minid then { a with used_minid := targ } else a
  if targ > a1.used_maxid then
    let smid : Int := if a1.used_maxid < 0 then 0 else a1.used_maxid
    match move_to_small a1.free_slist (targ - smid).toNat smid
            a1.free_small_space a1.free_avail_space with
    | none => none
    | some (small, avail) =>
      some { a1 with free_small_space := small, free_avail_space := avail,
                     used_maxid := targ, used_num_classes := a1.used_num_classes + 1 }
  else some { a1 with used_num_classes := a1.used_num_classes + 1 }

/-- The function `do_smmgr_used_slot_list_del`. -/
def do_smmgr_used_slot_list_del (a : sm_anchor_t) (targ : Int) : Option sm_anchor_t :=
  let minid : Option Int :=
    if targ = a.used_minid then
      if a.used_total_space > 0 then
        scan_up (fun x => decide (x.count > 0)) a.used_slist
          (a.used_maxid - a.used_minid).toNat (a.used_minid + 1)
      else some (SMMGR_NUM_CLASSES : Int)
    else some a.used_minid
  match minid with
  | none => none
  | some minid =>
    let a1 : sm_anchor_t := { a with used_minid := minid }
    if targ = a1.used_maxid then
      let maxid : Option Int :=
        if a1.used_total_space > 0 then
          scan_down (fun x => decide (x.count > 0)) a1.used_slist
            (a1.used_maxid - a1.used_minid).toNat (a1.used_maxid - 1)
        else some (-1)
      match maxid with
      | none => none
      | some maxid =>
        let smid : Int := if maxid < 0 then 0 else maxid
        match move_to_avail a1.free_slist (targ - smid).toNat smid
                a1.free_small_space a1.free_avail_space with
        | none => none
        | some (small, avail) =>
          some { a1 with used_maxid := maxid, free_small_space := small,
                         free_avail_space := avail,
                         used_num_classes := a1.used_num_classes - 1 }
    else some { a1 with used_num_classes := a1.used_num_classes - 1 }

/-- The function `do_smmgr_free_slot_list_add`. -/
def do_smmgr_free_slot_list_add (a : sm_anchor_t) (targ : Int) : sm_anchor_t :=
  if targ < (SMMGR_NUM_CLASSES : Int) - 1 then
    let a1 : sm_anchor_t := if a.free_minid > targ then { a with free_minid := targ } else a
    let a2 : sm_anchor_t := if a1.free_maxid < targ then { a1 with free_maxid := targ } else a1
    { a2 with free_num_classes := a2.free_num_classes + 1 }
  else a

/-- The function `do_smmgr_free_slot_list_del`. -/
def do_smmgr_free_slot_list_del (a : sm_anchor_t) (targ : Int) : Option sm_anchor_t :=
  if targ < (SMMGR_NUM_CLASSES : Int) - 1 then
    let minid : Option Int :=
      if targ = a.free_minid then
        if a.free_minid < a.free_maxid then
          scan_up (fun x => decide (x.head ≠ 0)) a.free_slist
            (a.free_maxid - a.free_minid).toNat (a.free_minid + 1)
        else some (SMMGR_NUM_CLASSES : Int)
      else some a.free_minid
    match minid with
    | none => none
    | some minid =>
      let a1 : sm_anchor_t := { a with free_minid := minid }
      let maxid : Option Int :=
        if targ = a1.free_maxid then
          if a1.free_maxid > a1.free_minid then
            scan_down (fun x => decide (x.head ≠ 0)) a1.free_slist
              (a1.free_maxid - a1.free_minid).toNat (a1.free_maxid - 1)
          else some (-1)
        else some a1.free_maxid
      match maxid with
      | none => none
      | some maxid =>
        some { a1 with free_maxid := maxid, free_num_classes := a1.free_num_classes - 1 }
  else some a

/-! ## Slots and blocks -/

/-- The function `do_smmgr_used_slot_init`; `offset` and `length` are the
`uint16_t` arguments. -/
def do_smmgr_used_slot_init (m : Nat → Nat) (slot offset length : Nat) : Nat → Nat :=
  let tail := slot + length - sizeof_sm_tail_t
  let m1 := set_tail_offset m tail offset
  let m2 := set_tail_length m1 tail length
  set_slot_status m2 slot (2 ^ 32 - 1)

/-- The function `do_smmgr_free_slot_init`; `offset` and `length` are the
`uint16_t` arguments. -/
def do_smmgr_free_slot_init (m : Nat → Nat) (slot offset length : Nat) : Nat → Nat :=
  let tail := slot + length - sizeof_sm_tail_t
  let m1 := set_tail_offset m tail offset
  let m2 := set_tail_length m1 tail 0
  let m3 := set_slot_status m2 slot 0
  let m4 := set_slot_offset m3 slot offset
  set_slot_length m4 slot length

/-- The function `do_smmgr_free_slot_link`. A failed `assert` is an undefined
execution. -/
def do_smmgr_free_slot_link (a : sm_anchor_t) (m : Nat → Nat) (slot : Nat) :
    Option (sm_anchor_t × (Nat → Nat)) :=
  if (slot_length m slot : Int) < SMMGR_MIN_SLOT_SIZE then
    some ({ a with free_small_space := wrap64 (a.free_small_space + slot_length m slot) }, m)
  else
    let smid : Int := do_smmgr_memid (slot_length m slot)
    match slist_at a.free_slist smid with
    | none => none
    | some list =>
      let linked : Option (sm_anchor_t × (Nat → Nat)) :=
        if list.head = 0 then
          if list.tail = 0 ∧ list.count = 0 ∧ list.space = 0 then
            let m1 := set_slot_prev m slot 0
            let m2 := set_slot_next m1 slot 0
            match slist_store a.free_slist smid
                    { head := slot, tail := slot, space := slot_length m2 slot, count := 1 } with
            | none => none
            | some fs => some (do_smmgr_free_slot_list_add { a with free_slist := fs } smid, m2)
          else none
        else
          if list.tail ≠ 0 ∧ list.count > 0 ∧ list.space > 0 then
            let m1 := set_slot_prev m slot list.tail
            let m2 := set_slot_next m1 slot 0
            let m3 := set_slot_next m2 (slot_prev m2 slot) slot
            match slist_store a.free_slist smid
                    { list with tail := slot,
                                space := wrap64 (list.space + slot_length m3 slot),
                                count := wrap64 (list.count + 1) } with
            | none => none
            | some fs => some ({ a with free_slist := fs }, m3)
          else none
      match linked with
      | none => none
      | some (a1, m1) =>
        if smid < a1.used_maxid then
          some ({ a1 with free_small_space :=
                    wrap64 (a1.free_small_space + slot_length m1 slot) }, m1)
        else
          some ({ a1 with free_avail_space :=
                    wrap64 (a1.free_avail_space + slot_length m1 slot) }, m1)

/-- The function `do_smmgr_free_slot_unlink`. A failed `assert` is an undefined
execution. -/
def do_smmgr_free_slot_unlink (a : sm_anchor_t) (m : Nat → Nat) (slot : Nat) :
    Option (sm_anchor_t × (Nat → Nat)) :=
  if (slot_length m slot : Int) < SMMGR_MIN_SLOT_SIZE then
    some ({ a with free_small_space := sub64 a.free_small_space (slot_length m slot) }, m)
  else
    let smid : Int := do_smmgr_memid (slot_length m slot)
    let a1 : sm_anchor_t :=
      if smid < a.used_maxid then
        { a with free_small_space := sub64 a.free_small_space (slot_length m slot) }
      else { a with free_avail_space := sub64 a.free_avail_space (slot_length m slot) }
    match slist_at a1.free_slist smid with
    | none => none
    | some list =>
      if list.count = 1 then
        if list.space = slot_length m slot ∧ list.head = slot ∧ list.tail = slot then
          match slist_store a1.free_slist smid { head := 0, tail := 0, space := 0, count := 0 } with
          | none => none
          | some fs =>
            match do_smmgr_free_slot_list_del { a1 with free_slist := fs } smid with
            | none => none
            | some a2 => some (a2, m)
        else none
      else
        if list.count > 1 ∧ list.space > slot_length m slot ∧ list.head ≠ 0 ∧ list.tail ≠ 0 then
          let m1 := if slot_prev m slot ≠ 0
                    then set_slot_next m (slot_prev m slot) (slot_next m slot) else m
          let m2 := if slot_next m1 slot ≠ 0
                    then set_slot_prev m1 (slot_next m1 slot) (slot_prev m1 slot) else m1
          let head1 := if list.head = slot then slot_next m2 slot else list.head
          let tail1 := if list.tail = slot then slot_prev m2 slot else list.tail
          match slist_store a1.free_slist smid
                  { head := head1, tail := tail1,
                    space := sub64 list.space (slot_length m2 slot),
                    count := sub64 list.count 1 } with
          | none => none
          | some fs => some ({ a1 with free_slist := fs }, m2)
        else none

/-- The function `do_smmgr_free_slot_replace`. A failed `assert` is an
undefined execution. -/
def do_smmgr_free_slot_replace (a : sm_anchor_t) (m : Nat → Nat) (old_slot new_slot : Nat)
    (smid : Int) : Option (sm_anchor_t × (Nat → Nat)) :=
  match slist_at a.free_slist smid with
  | none => none
  | some list =>
    if list.head = old_slot then
      let diff_leng : Nat :=
        int_to_uint16 ((slot_length m old_slot : Int) - (slot_length m new_slot : Int))
      let m1 := set_slot_prev m new_slot 0
      let step : sm_slist_t × (Nat → Nat) :=
        if slot_next m1 old_slot = 0 then
          ({ list with tail := new_slot }, set_slot_next m1 new_slot 0)
        else
          let m2 := set_slot_next m1 new_slot (slot_next m1 old_slot)
          (list, set_slot_prev m2 (slot_next m2 new_slot) new_slot)
      match slist_store a.free_slist smid
              { step.1 with head := new_slot, space := sub64 step.1.space diff_leng } with
      | none => none
      | some fs =>
        let a1 : sm_anchor_t := { a with free_slist := fs }
        if smid < a1.used_maxid then
          some ({ a1 with free_small_space := sub64 a1.free_small_space diff_leng }, step.2)
        else
          some ({ a1 with free_avail_space := sub64 a1.free_avail_space diff_leng }, step.2)
    else none

/-- The function `do_smmgr_used_blck_link`. -/
def do_smmgr_used_blck_link (a : sm_anchor_t) (m : Nat → Nat) (blck : Nat) :
    sm_anchor_t × (Nat → Nat) :=
  let m1 := store 4 m (blck + 16) 0
  let m2 := store 4 m1 (blck + 20) 0
  let m3 := set_blck_prev m2 blck a.used_blist.tail
  let m4 := set_blck_next m3 blck 0
  if a.used_blist.head = 0 then
    ({ a with used_blist := { head := blck, tail := blck,
                              count := wrap64 (a.used_blist.count + 1) } }, m4)
  else
    let m5 := set_blck_next m4 (blck_prev m4 blck) blck
    ({ a with used_blist := { a.used_blist with tail := blck,
                                                count := wrap64 (a.used_blist.count + 1) } }, m5)

/-- The function `do_smmgr_used_blck_unlink`. -/
def do_smmgr_used_blck_unlink (a : sm_anchor_t) (m : Nat → Nat) (blck : Nat) :
    sm_anchor_t × (Nat → Nat) :=
  let m1 := if blck_prev m blck ≠ 0
            then set_blck_next m (blck_prev m blck) (blck_next m blck) else m
  let m2 := if blck_next m1 blck ≠ 0
            then set_blck_prev m1 (blck_next m1 blck) (blck_prev m1 blck) else m1
  let head1 := if a.used_blist.head = blck then blck_next m2 blck else a.used_blist.head
  let tail1 := if a.used_blist.tail = blck then blck_prev m2 blck else a.used_blist.tail
  ({ a with used_blist := { head := head1, tail := tail1,
                            count := sub64 a.used_blist.count 1 } }, m2)

/-- The function `do_smmgr_blck_alloc`. The block size `blck_tsize` is above
`MAX_SM_VALUE_SIZE`, so that the call of `do_slabs_alloc` takes the slab path;
`realloc_ok` and `malloc_ret` are the answers of the C library to that call.
The call of `coll_del_thread_wakeup` is counted in `wakeups`. -/
def do_smmgr_blck_alloc (s : smmgr_state) (realloc_ok : Bool) (malloc_ret : Nat) :
    Option (Nat × smmgr_state) :=
  match do_slabs_alloc s.st (int_to_size_t s.st.sm_anchor.blck_tsize)
          (int_to_uint s.st.sm_anchor.blck_clsid) realloc_ok malloc_ret with
  | none => none
  | some (blck, st1) =>
    let linked : sm_anchor_t × (Nat → Nat) :=
      if blck ≠ 0 then do_smmgr_used_blck_link st1.sm_anchor s.mem blck
      else (st1.sm_anchor, s.mem)
    let st2 : allocator := { st1 with sm_anchor := linked.1 }
    match slabs_short_of_free_space st2 with
    | none => none
    | some lvl =>
      some (blck, { st := if lvl > 0 then { st2 with wakeups := st2.wakeups + 1 } else st2,
                    mem := linked.2 })

/-- The function `do_smmgr_blck_free`; `realloc_ok` is the answer of `realloc`
in `do_slabs_free`. -/
def do_smmgr_blck_free (s : smmgr_state) (blck : Nat) (realloc_ok : Bool) :
    Option smmgr_state :=
  let unlinked := do_smmgr_used_blck_unlink s.st.sm_anchor s.mem blck
  match do_slabs_free { s.st with sm_anchor := unlinked.1 } blck
          (int_to_size_t s.st.sm_anchor.blck_tsize)
          (int_to_uint s.st.sm_anchor.blck_clsid) realloc_ok with
  | none => none
  | some st1 => some { st := st1, mem := unlinked.2 }

/-! ## `do_smmgr_alloc` and `do_smmgr_free` -/

/-- The choice of the free list in `do_smmgr_alloc`: the value of `smid` when
`cur_slot = sm_anchor.free_slist[smid].head` is read. -/
def smmgr_alloc_smid (a : sm_anchor_t) (targ : Int) : Option Int :=
  if targ ≤ a.free_maxid then
    match slist_at a.free_slist targ with
    | none => none
    | some l =>
      if l.head ≠ 0 then some targ
      else if targ * 2 ≤ a.free_maxid then
        scan_up (fun x => decide (x.head ≠ 0)) a.free_slist
          (a.free_maxid - targ * 2 + 1).toNat (targ * 2)
      else some a.free_maxid
  else some ((SMMGR_NUM_CLASSES : Int) - 1)

/-- The block `/* used slot stats */` that ends `do_smmgr_alloc`. -/
def smmgr_used_stats_add (a : sm_anchor_t) (targ slen : Int) : Option sm_anchor_t :=
  match slist_at a.used_slist targ with
  | none => none
  | some u =>
    let u1 : sm_slist_t := { u with space := wrap64 (u.space + int_to_size_t slen),
                                    count := wrap64 (u.count + 1) }
    match slist_store a.used_slist targ u1 with
    | none => none
    | some us =>
      let a1 : sm_anchor_t :=
        { a with used_total_space := wrap64 (a.used_total_space + int_to_size_t slen),
                 used_slist := us }
      if u1.count = 1 then do_smmgr_used_slot_list_add a1 targ else some a1

/-- The block `/* used slot stats */` that ends `do_smmgr_free`. -/
def smmgr_used_stats_del (a : sm_anchor_t) (targ slen : Int) : Option sm_anchor_t :=
  match slist_at a.used_slist targ with
  | none => none
  | some u =>
    if u.count ≥ 1 then
      let u1 : sm_slist_t := { u with space := sub64 u.space (int_to_size_t slen),
                                      count := sub64 u.count 1 }
      match slist_store a.used_slist targ u1 with
      | none => none
      | some us =>
        let a1 : sm_anchor_t :=
          { a with used_total_space := sub64 a.used_total_space (int_to_size_t slen),
                   used_slist := us }
        if u1.count = 0 then do_smmgr_used_slot_list_del a1 targ else some a1
    else none

/-- The branch of `do_smmgr_alloc` that cuts the used slot out of the free
slot `cur_slot`, head of the list `smid`. The result is the anchor and the
memory after `do_smmgr_used_slot_init`. -/
def smmgr_alloc_from_slot (a : sm_anchor_t) (m : Nat → Nat) (cur_slot : Nat) (smid slen : Int) :
    Option (sm_anchor_t × (Nat → Nat)) :=
  let cut : Option (sm_anchor_t × (Nat → Nat)) :=
    if (slot_length m cur_slot : Int) > slen then
      let nxt_slot := cur_slot + slen.toNat
      if smid ≠ do_smmgr_memid (int_to_size_t ((slot_length m cur_slot : Int) - slen)) then
        match do_smmgr_free_slot_unlink a m cur_slot with
        | none => none
        | some (a1, m1) =>
          let m2 := do_smmgr_free_slot_init m1 nxt_slot
            (int_to_uint16 ((slot_offset m1 cur_slot : Int) + slen))
            (int_to_uint16 ((slot_length m1 cur_slot : Int) - slen))
          do_smmgr_free_slot_link a1 m2 nxt_slot
      else
        let m1 := do_smmgr_free_slot_init m nxt_slot
          (int_to_uint16 ((slot_offset m cur_slot : Int) + slen))
          (int_to_uint16 ((slot_length m cur_slot : Int) - slen))
        do_smmgr_free_slot_replace a m1 cur_slot nxt_slot smid
    else do_smmgr_free_slot_unlink a m cur_slot
  match cut with
  | none => none
  | some (a1, m1) =>
    some (a1, do_smmgr_used_slot_init m1 cur_slot (slot_offset m1 cur_slot) (int_to_uint16 slen))

/-- The function `do_smmgr_alloc` (branch `VARIABLE_LENGTH_SMMGR`). The result
is the returned pointer (`0` for `NULL`) and the state after the call;
`realloc_ok` and `malloc_ret` are the answers of the C library when a block is
taken from the slab allocator. -/
def do_smmgr_alloc (s : smmgr_state) (size : Nat) (realloc_ok : Bool) (malloc_ret : Nat) :
    Option (Nat × smmgr_state) :=
  let slen : Int := do_smmgr_slen size
  let targ : Int := do_smmgr_memid (int_to_size_t slen)
  match smmgr_alloc_smid s.st.sm_anchor targ with
  | none => none
  | some smid =>
    match slist_at s.st.sm_anchor.free_slist smid with
    | none => none
    | some l =>
      let taken : Option (Nat × smmgr_state) :=
        if l.head = 0 then
          match do_smmgr_blck_alloc s realloc_ok malloc_ret with
          | none => none
          | some (blck, s1) =>
            if blck = 0 then some (0, s1)
            else
              let cur_slot := blck + sizeof_sm_blck_t + slen.toNat
              let m1 := do_smmgr_free_slot_init s1.mem cur_slot
                (int_to_uint16 ((sizeof_sm_blck_t : Int) + slen))
                (int_to_uint16 (s1.st.sm_anchor.blck_bsize - slen))
              match do_smmgr_free_slot_link s1.st.sm_anchor m1 cur_slot with
              | none => none
              | some (a2, m2) =>
                some (blck + sizeof_sm_blck_t,
                  { st := { s1.st with sm_anchor := a2 },
                    mem := do_smmgr_used_slot_init m2 (blck + sizeof_sm_blck_t)
                             sizeof_sm_blck_t (int_to_uint16 slen) })
        else
          match smmgr_alloc_from_slot s.st.sm_anchor s.mem l.head smid slen with
          | none => none
          | some (a1, m1) => some (l.head, { st := { s.st with sm_anchor := a1 }, mem := m1 })
      match taken with
      | none => none
      | some (ret, s1) =>
        if ret = 0 then some (0, s1)
        else
          match smmgr_used_stats_add s1.st.sm_anchor targ slen with
          | none => none
          | some a2 => some (ret, { s1 with st := { s1.st with sm_anchor := a2 } })

/-- The two coalescing steps of `do_smmgr_free`, from the tail `cur_tail` of the
released slot: the merge with a free slot before it and the merge with a free
slot after it. The result is the anchor, the memory and the value of
`cur_tail` before the last `if`. A pointer moved below address 0 is an
undefined execution. -/
def smmgr_free_coalesce (a : sm_anchor_t) (m : Nat → Nat) (ptr cur_blck cur_tail : Nat) :
    Option (sm_anchor_t × (Nat → Nat) × Nat) :=
  let before : Option (sm_anchor_t × (Nat → Nat)) :=
    if tail_offset m cur_tail > sizeof_sm_blck_t then
      if ptr < sizeof_sm_tail_t then none
      else
        let prv_tail := ptr - sizeof_sm_tail_t
        if tail_length m prv_tail ≤ 8 then
          let prv_slot := cur_blck + tail_offset m prv_tail
          if slot_offset m prv_slot = tail_offset m prv_tail then
            match do_smmgr_free_slot_unlink a m prv_slot with
            | none => none
            | some (a1, m1) =>
              let m2 := set_tail_offset m1 cur_tail (slot_offset m1 prv_slot)
              some (a1, set_tail_length m2 cur_tail
                          (tail_length m2 cur_tail + slot_length m2 prv_slot))
          else none
        else some (a, m)
    else some (a, m)
  match before with
  | none => none
  | some (a1, m1) =>
    if ((tail_offset m1 cur_tail : Int) + (tail_length m1 cur_tail : Int))
        < a1.blck_tsize then
      let nxt_slot := cur_tail + sizeof_sm_tail_t
      if slot_status m1 nxt_slot = 0 then
        if nxt_slot + slot_length m1 nxt_slot < sizeof_sm_tail_t then none
        else
          let nxt_tail := nxt_slot + slot_length m1 nxt_slot - sizeof_sm_tail_t
          if tail_offset m1 nxt_tail = slot_offset m1 nxt_slot ∧ tail_length m1 nxt_tail ≤ 8 then
            match do_smmgr_free_slot_unlink a1 m1 nxt_slot with
            | none => none
            | some (a2, m2) =>
              let m3 := set_tail_offset m2 nxt_tail (tail_offset m2 cur_tail)
              some (a2, set_tail_length m3 nxt_tail
                          (tail_length m3 cur_tail + slot_length m3 nxt_slot), nxt_tail)
          else none
      else some (a1, m1, cur_tail)
    else some (a1, m1, cur_tail)

/-- The function `do_smmgr_free` (branch `VARIABLE_LENGTH_SMMGR`); `realloc_ok`
is the answer of `realloc` when a block goes back to the slab allocator. A
failed `assert` and a pointer moved below address 0 are undefined
executions. -/
def do_smmgr_free (s : smmgr_state) (ptr size : Nat) (realloc_ok : Bool) :
    Option smmgr_state :=
  let slen : Int := do_smmgr_slen size
  let targ : Int := do_smmgr_memid (int_to_size_t slen)
  let cur_tail := ptr + slen.toNat - sizeof_sm_tail_t
  if (tail_length s.mem cur_tail : Int) = slen then
    if ptr < tail_offset s.mem cur_tail then none
    else
      let cur_blck := ptr - tail_offset s.mem cur_tail
      match smmgr_free_coalesce s.st.sm_anchor s.mem ptr cur_blck cur_tail with
      | none => none
      | some (a1, m1, tail1) =>
        let released : Option smmgr_state :=
          if tail_offset m1 tail1 > sizeof_sm_blck_t
              ∨ (tail_length m1 tail1 : Int) < a1.blck_bsize then
            if tail1 + sizeof_sm_tail_t < tail_length m1 tail1 then none
            else
              let cur_slot := tail1 + sizeof_sm_tail_t - tail_length m1 tail1
              let m2 := do_smmgr_free_slot_init m1 cur_slot (tail_offset m1 tail1)
                          (tail_length m1 tail1)
              match do_smmgr_free_slot_link a1 m2 cur_slot with
              | none => none
              | some (a2, m3) => some { st := { s.st with sm_anchor := a2 }, mem := m3 }
          else
            do_smmgr_blck_free { st := { s.st with sm_anchor := a1 }, mem := m1 } cur_blck
              realloc_ok
        match released with
        | none => none
        | some s1 =>
          match smmgr_used_stats_del s1.st.sm_anchor targ slen with
          | none => none
          | some a2 => some { s1 with st := { s1.st with sm_anchor := a2 } }
  else none

/-- The part of `do_smmgr_init` that concerns the small-memory manager (branch
`VARIABLE_LENGTH_SMMGR`): the anchor with its 1025 empty lists. -/
def smmgr_anchor_init : sm_anchor_t :=
  { blck_clsid := 0, blck_tsize := SMMGR_BLOCK_SIZE,
    blck_bsize := (SMMGR_BLOCK_SIZE : Int) - sizeof_sm_blck_t,
    used_num_classes := 0, free_num_classes := 0,
    used_minid := SMMGR_NUM_CLASSES, used_maxid := -1,
    free_minid := SMMGR_NUM_CLASSES, free_maxid := -1,
    used_blist := { head := 0, tail := 0, count := 0 },
    free_slist := List.replicate SMMGR_NUM_CLASSES { head := 0, tail := 0, space := 0, count := 0 },
    used_slist := List.replicate SMMGR_NUM_CLASSES { head := 0, tail := 0, space := 0, count := 0 },
    free_small_space := 0, free_avail_space := 0, used_total_space := 0 }

/-! ## Sequences of operations of the small-memory manager -/

/-- One operation of the small-memory manager, with the answers of the C
library to the slab allocator underneath. -/
inductive smmgr_op where
  | alloc (size : Nat) (realloc_ok : Bool) (malloc_ret : Nat)
  | free (ptr size : Nat) (realloc_ok : Bool)
deriving DecidableEq, Repr

/-- One step of a sequence of operations of the small-memory manager. Beside
the state the step keeps the list of live slots, as pairs (pointer, user
size): a successful allocation adds its slot, a release removes it. A release
of a slot that is not live with that size is outside the sequences considered
(`none`). -/
def smmgr_step (s : smmgr_state × List (Nat × Nat)) :
    smmgr_op → Option (smmgr_state × List (Nat × Nat))
  | smmgr_op.alloc size realloc_ok malloc_ret =>
    match do_smmgr_alloc s.1 size realloc_ok malloc_ret with
    | none => none
    | some (ret, s1) => some (s1, if ret ≠ 0 then (ret, size) :: s.2 else s.2)
  | smmgr_op.free ptr size realloc_ok =>
    if (ptr, size) ∈ s.2 then
      match do_smmgr_free s.1 ptr size realloc_ok with
      | none => none
      | some s1 => some (s1, s.2.erase (ptr, size))
    else none

/-- A sequence of operations of the small-memory manager, run from left to
right. -/
def smmgr_run (s : smmgr_state × List (Nat × Nat)) :
    List smmgr_op → Option (smmgr_state × List (Nat × Nat))
  | [] => some s
  | op :: ops =>
    match smmgr_step s op with
    | none => none
    | some s1 => smmgr_run s1 ops

/-- The property `P` holds in the starting state and after every operation that
the run executes. -/
def smmgr_run_always (P : smmgr_state × List (Nat × Nat) → Prop) :
    smmgr_state × List (Nat × Nat) → List smmgr_op → Prop
  | s, [] => P s
  | s, op :: ops =>
    P s ∧
    match smmgr_step s op with
    | none => True
    | some s1 => smmgr_run_always P s1 ops

/-- The test `B` holds for every operation of the run in the state from which
the run executes it. -/
def smmgr_run_within (B : smmgr_state × List (Nat × Nat) → smmgr_op → Bool) :
    smmgr_state × List (Nat × Nat) → List smmgr_op → Bool
  | _, [] => true
  | s, op :: ops =>
    B s op &&
    match smmgr_step s op with
    | none => true
    | some s1 => smmgr_run_within B s1 ops

/-- The sum of the `space` counters of an array of lists. -/
def slist_space_sum (l : List sm_slist_t) : Nat := (l.map (fun x => x.space)).sum

/-- A freshly initialised allocator under a 16 MiB limit: the anchor of
`do_smmgr_init`, the engine of `state_one_page` without any page, and a memory
of zero bytes. -/
def smmgr_state_fresh : smmgr_state :=
  { st := { engine := mk_engine (mk_class base0 65536 16 0 0 0) 0 16777216 0 4194304,
            sm_anchor := smmgr_anchor_init, wakeups := 0 },
    mem := fun _ => 0 }

/-- Four operations on a fresh allocator: allocations of 60 and 20 bytes (slots
of 64 and 32 bytes at block offsets 24 and 88), the release of the first slot,
and an allocation of 36 bytes (a slot of 40 bytes), which is cut from the
64-byte free slot and leaves a free slot of 24 bytes. -/
def ops_tiny_residue : List smmgr_op :=
  [smmgr_op.alloc 60 true base0,
   smmgr_op.alloc 20 true 0,
   smmgr_op.free (base0 + 24) 60 true,
   smmgr_op.alloc 36 true 0]


/-- Two anchors agree on the statistics of the used slots and on the geometry
of the blocks. -/
def used_frame (a b : sm_anchor_t) : Prop :=
  b.used_slist = a.used_slist ∧ b.used_total_space = a.used_total_space ∧
  b.used_minid = a.used_minid ∧ b.used_maxid = a.used_maxid ∧
  b.used_num_classes = a.used_num_classes ∧
  b.blck_clsid = a.blck_clsid ∧ b.blck_tsize = a.blck_tsize ∧ b.blck_bsize = a.blck_bsize

/-- The statistics of the used slots are consistent: the array has its 1025
cells, `used_total_space` is the sum of the `space` counters, and the `space` of
every class but the last is `8 * i * count`. -/
def used_stats_inv (a : sm_anchor_t) : Prop :=
  a.used_slist.length = SMMGR_NUM_CLASSES ∧
  a.used_total_space = slist_space_sum a.used_slist ∧
  ∀ (i : Nat) (u : sm_slist_t), a.used_slist[i]? = some u → i < SMMGR_NUM_CLASSES - 1 →
    u.space = 8 * i * u.count

/-- The user size of the operation. -/
def smmgr_op_size : smmgr_op → Nat
  | smmgr_op.alloc size _ _ => size
  | smmgr_op.free _ size _ => size

/-- The operation asks for a slot below the last class (its slot length is
below 8192) and `used_total_space` is far from the width of its counter. -/
def small_request (s : smmgr_state × List (Nat × Nat)) (op : smmgr_op) : Bool :=
  decide (do_smmgr_slen (smmgr_op_size op) < 8192)
    && decide (s.1.st.sm_anchor.used_total_space + 8192 < 2 ^ 64)


/-- The class `i` of used slots is populated: its `count` is positive. -/
def used_populated (us : List sm_slist_t) (i : Nat) : Prop :=
  ∃ u, us[i]? = some u ∧ 0 < u.count

/-- The bounds `used_minid` and `used_maxid` are exact: every populated class
lies between them, both are populated when some class is, and they hold the
sentinels `SMMGR_NUM_CLASSES` and `-1` when none is. Populated classes are
between 1 and 1023, and the last class holds no byte. -/
def used_range_inv (a : sm_anchor_t) : Prop :=
  (∀ i, used_populated a.used_slist i →
    1 ≤ i ∧ i < 1024 ∧ a.used_minid ≤ (i : Int) ∧ (i : Int) ≤ a.used_maxid) ∧
  ((∃ i, used_populated a.used_slist i) →
    ∃ i j : Nat, a.used_minid = (i : Int) ∧ a.used_maxid = (j : Int) ∧
      used_populated a.used_slist i ∧ used_populated a.used_slist j) ∧
  ((¬ ∃ i, used_populated a.used_slist i) →
    a.used_minid = (SMMGR_NUM_CLASSES : Int) ∧ a.used_maxid = -1) ∧
  (∀ u, a.used_slist[1024]? = some u → u.space = 0)

/-- Five operations on a fresh allocator: allocations of 60, 20 and 200 bytes
(classes 8, 4 and 26), then the release of the first and of the last slot. -/
def ops_three_classes : List smmgr_op :=
  [smmgr_op.alloc 60 true base0,
   smmgr_op.alloc 20 true 0,
   smmgr_op.alloc 200 true 0,
   smmgr_op.free (base0 + 24) 60 true,
   smmgr_op.free (base0 + 120) 200 true]


/-! ## The slots and lists that a state of the small-memory manager represents

The statements about reachable states relate the bytes of memory and the
anchor to a description of the blocks: for every block in use the list of its
slots in address order, each with its length and kind, and for every class
the list of the free slots on its list. -/

/-- A doubly linked list through memory: the nodes `l`, in list order, carry
their predecessor in the 8 bytes at offset `po` and their successor in the 8
bytes at offset `po + 8` (null at the two ends). -/
def dll (po : Nat) (m : Nat → Nat) (l : List Nat) : Prop :=
  ∀ (k : Nat) (x : Nat), l[k]? = some x →
    load 8 m (x + po) = (if k = 0 then 0 else (l[k - 1]?).getD 0) ∧
    load 8 m (x + (po + 8)) = (l[k + 1]?).getD 0

/-- The nodes of a list are valid addresses whose link fields do not overlap. -/
def dll_sep (l : List Nat) : Prop :=
  l.Nodup ∧ (∀ x, x ∈ l → 0 < x ∧ x + 24 < 2 ^ 64) ∧
  ∀ x y, x ∈ l → y ∈ l → x = y ∨ x + 24 ≤ y ∨ y + 24 ≤ x

/-- The kind of a slot in the description of a block: in use, free, or taken
out of the description for the time of an operation (`hole`: nothing is said
about its bytes, and it is on no list). The description of a state between two
operations has no hole. -/
inductive skind where
  | used
  | free
  | hole
deriving DecidableEq, Repr

/-- One slot in the description of a block: its offset from the block start,
its length and its kind. -/
structure gslot where
  off : Nat
  len : Nat
  kind : skind
deriving DecidableEq, Repr

/-- The description of one block: its address and its slots in address
order. -/
structure gblock where
  base : Nat
  slots : List gslot
deriving DecidableEq, Repr

/-- The slots `ss` tile the offsets from `o` to `e`: each starts where the one
before it ends, and each length is a positive multiple of 8. -/
def tiles : Nat → List gslot → Nat → Prop
  | o, [], e => o = e
  | o, s :: ss, e => s.off = o ∧ 0 < s.len ∧ 8 ∣ s.len ∧ tiles (o + s.len) ss e

/-- What the bytes of memory say about a slot of the block at `b`. A used slot
has a non-zero `status` and a tail with its offset and its length; a free slot
has `status` 0, its offset and length in the header, and a tail with its
offset and a length of at most 8 (the tail of a free slot of 8 bytes is its
header fields `offset` and `length`). -/
def slot_ok (m : Nat → Nat) (b : Nat) (s : gslot) : Prop :=
  match s.kind with
  | skind.used =>
    32 ≤ s.len ∧ slot_status m (b + s.off) ≠ 0 ∧
    tail_offset m (b + s.off + s.len - 4) = s.off ∧
    tail_length m (b + s.off + s.len - 4) = s.len
  | skind.free =>
    slot_status m (b + s.off) = 0 ∧ slot_offset m (b + s.off) = s.off ∧
    slot_length m (b + s.off) = s.len ∧
    tail_offset m (b + s.off + s.len - 4) = s.off ∧
    tail_length m (b + s.off + s.len - 4) ≤ 8
  | skind.hole => True

/-- The blocks are valid addresses, 65536 bytes apart from each other, and the
slots of each tile its body, from offset 24 to offset 65536. -/
def blocks_geom (bs : List gblock) : Prop :=
  (∀ B, B ∈ bs → 0 < B.base ∧ B.base + 65536 < 2 ^ 64 ∧ tiles 24 B.slots 65536) ∧
  bs.Pairwise (fun B C => B.base + 65536 ≤ C.base ∨ C.base + 65536 ≤ B.base)

/-- The list of used blocks of the anchor is the list of the blocks `bs`,
linked through the block headers. -/
def blist_inv (bs : List gblock) (a : sm_anchor_t) (m : Nat → Nat) : Prop :=
  a.blck_tsize = 65536 ∧ a.blck_bsize = 65512 ∧
  dll 0 m (bs.map gblock.base) ∧
  a.used_blist.head = ((bs.map gblock.base).head?).getD 0 ∧
  a.used_blist.tail = ((bs.map gblock.base).getLast?).getD 0 ∧
  a.used_blist.count = bs.length

/-- Every slot of every block is as the bytes of memory say. -/
def slots_inv (bs : List gblock) (m : Nat → Nat) : Prop :=
  ∀ B, B ∈ bs → ∀ s, s ∈ B.slots → slot_ok m B.base s

/-- The address `x` is a free slot of length `L` of one of the blocks. -/
def free_slot_at (bs : List gblock) (x L : Nat) : Prop :=
  ∃ B, B ∈ bs ∧ ∃ s, s ∈ B.slots ∧ s.kind = skind.free ∧ x = B.base + s.off ∧ L = s.len

/-- The free lists of the anchor are the lists `fl` (for every class the
slots on its list, in list order, as pairs of address and length): each is
linked through the fields `prev` and `next` of its slots, the anchor holds its
two ends, its number of slots and the sum of their lengths, and a pair is on
the list of class `i` exactly when it is a free slot of at least 32 bytes whose
class is `i`. -/
def flist_inv (bs : List gblock) (fl : List (List (Nat × Nat))) (a : sm_anchor_t)
    (m : Nat → Nat) : Prop :=
  fl.length = SMMGR_NUM_CLASSES ∧ a.free_slist.length = SMMGR_NUM_CLASSES ∧
  a.free_maxid ≤ 1023 ∧
  (∀ (i : Nat) (l : List (Nat × Nat)), fl[i]? = some l →
    dll 8 m (l.map Prod.fst) ∧ (l.map Prod.fst).Nodup ∧
    ∃ c, a.free_slist[i]? = some c ∧
      c.head = ((l.map Prod.fst).head?).getD 0 ∧
      c.tail = ((l.map Prod.fst).getLast?).getD 0 ∧
      c.count = l.length ∧ c.space = (l.map Prod.snd).sum) ∧
  (∀ (i : Nat) (l : List (Nat × Nat)) (x L : Nat), fl[i]? = some l →
    ((x, L) ∈ l ↔ free_slot_at bs x L ∧ 32 ≤ L ∧ do_smmgr_memid L = (i : Int)))

/-- The bytes of the free slots of one block that are shorter than 32 bytes. -/
def tiny_block (ss : List gslot) : Nat :=
  ((ss.filter (fun s => decide (s.kind = skind.free ∧ s.len < 32))).map gslot.len).sum

/-- The bytes of all free slots shorter than 32 bytes. -/
def tiny_bytes (bs : List gblock) : Nat :=
  (bs.map (fun B => tiny_block B.slots)).sum

/-- The two counters of free bytes: `free_avail_space` is the sum of the lists
from class `used_maxid` on, `free_small_space` the sum of the lists below it
and of the free slots shorter than 32 bytes. -/
def acct_inv (bs : List gblock) (a : sm_anchor_t) : Prop :=
  a.free_avail_space = slist_space_sum (a.free_slist.drop a.used_maxid.toNat) ∧
  a.free_small_space = slist_space_sum (a.free_slist.take a.used_maxid.toNat) + tiny_bytes bs

/-- The state of the small-memory manager is described by the blocks `bs` and
the free lists `fl`. -/
def heap_inv (bs : List gblock) (fl : List (List (Nat × Nat))) (a : sm_anchor_t)
    (m : Nat → Nat) : Prop :=
  blocks_geom bs ∧ blist_inv bs a m ∧ slots_inv bs m ∧ flist_inv bs fl a m ∧ acct_inv bs a

/-- Every live slot, handed out for a user size `sz`, is a used slot of the
description whose length is the slot length of `sz`; no address is live
twice. -/
def live_inv (bs : List gblock) (live : List (Nat × Nat)) : Prop :=
  (live.map Prod.fst).Nodup ∧
  ∀ p sz, (p, sz) ∈ live →
    ∃ B, B ∈ bs ∧ ∃ s, s ∈ B.slots ∧ s.kind = skind.used ∧ p = B.base + s.off ∧
      (s.len : Int) = do_smmgr_slen sz

/-- The description of the blocks in which the block at `b` has the slots
`mid` between the slots `pre` and `post`. -/
def splice (bpre : List gblock) (b : Nat) (pre mid post : List gslot) (bpost : List gblock) :
    List gblock :=
  bpre ++ { base := b, slots := pre ++ mid ++ post } :: bpost

/-- No two neighbours among the slots are both free. -/
def no_adjacent_free (ss : List gslot) : Prop :=
  List.Chain' (fun s t => ¬ (s.kind = skind.free ∧ t.kind = skind.free)) ss

/-- The description is that of a state between two operations: no slot is a
hole and no two neighbours are both free. -/
def blocks_settled (bs : List gblock) : Prop :=
  ∀ B, B ∈ bs → (∀ s, s ∈ B.slots → s.kind ≠ skind.hole) ∧ no_adjacent_free B.slots

/-- The geometry of a description around the offsets `o1` to `e1` of the block
at `b`: all that `blocks_geom` says of a `splice`, but for the slots between the
slots `pre` and `post`. -/
def ctx_geom (bpre : List gblock) (b : Nat) (pre post : List gslot) (bpost : List gblock)
    (o1 e1 : Nat) : Prop :=
  (∀ B, B ∈ bpre ++ bpost → 0 < B.base ∧ B.base + 65536 < 2 ^ 64 ∧ tiles 24 B.slots 65536) ∧
  0 < b ∧ b + 65536 < 2 ^ 64 ∧ tiles 24 pre o1 ∧ tiles e1 post 65536 ∧
  (bpre.map gblock.base ++ b :: bpost.map gblock.base).Pairwise
    (fun x y => x + 65536 ≤ y ∨ y + 65536 ≤ x)


/-! ## `slabs_init`: the size classes -/

/-- A class as `memset(engine->slabs.slabclass, 0, ...)` leaves it. -/
def slabclass_zero : slabclass_t :=
  { size := 0, perslab := 0, rsvd_slabs := 0, slots := [], sl_total := 0, sl_curr := 0,
    end_page_ptr := 0, end_page_free := 0, slabs := 0, slab_list := [], list_size := 0,
    requested := 0 }

/-- The loop `while (++i < POWER_LARGEST && size <= item_size_max / factor)` of
`slabs_init`, entered with `i` already incremented and `n = POWER_LARGEST - i`
indices left. The two operations on the `double factor` are parameters:
`fits size` is the test `size <= item_size_max / factor` and `grow size` is the
value of the `unsigned int size` after `size *= factor`. The body aligns `size`
to `CHUNK_ALIGN_BYTES` on `unsigned int`, stores it with
`perslab = item_size_max / size` (undefined for a zero size) and
`rsvd_slabs = RESERVED_SLABS`. The result is the value of `i` after the loop
and the array of classes. -/
def slabs_init_loop (item_size_max : Nat) (fits : Nat → Bool) (grow : Nat → Nat) :
    Nat → Nat → Nat → List slabclass_t → Option (Nat × List slabclass_t)
  | 0, i, _, cls => some (i, cls)
  | n + 1, i, size, cls =>
    if fits size then
      let size1 : Nat :=
        if size % CHUNK_ALIGN_BYTES ≠ 0
        then wrap32 (size + (CHUNK_ALIGN_BYTES - size % CHUNK_ALIGN_BYTES)) else size
      match cls[i]? with
      | none => none
      | some p =>
        if size1 = 0 then none
        else
          slabs_init_loop item_size_max fits grow n (i + 1) (grow size1)
            (cls.set i { p with size := size1, perslab := wrap32 (item_size_max / size1),
                                rsvd_slabs := RESERVED_SLABS })
    else some (i, cls)

/-- The part of `slabs_init` that builds the size classes: the array is
cleared, the loop runs from `POWER_SMALLEST` with the first size `size0`
(`sizeof(hash_item) + chunk_size`), and the class `power_largest` gets the size
`item_size_max` (stored in an `unsigned int`) and `perslab = 1`.
`POWER_SMALLEST`, `POWER_LARGEST` and the number `ncls` of cells of the array
are constants of a header outside this file and are taken as parameters. The
result is `power_largest` and the array. -/
def slabs_init_classes (POWER_SMALLEST POWER_LARGEST ncls : Nat) (item_size_max size0 : Nat)
    (fits : Nat → Bool) (grow : Nat → Nat) : Option (Nat × List slabclass_t) :=
  match slabs_init_loop item_size_max fits grow (POWER_LARGEST - POWER_SMALLEST) POWER_SMALLEST
          size0 (List.replicate ncls slabclass_zero) with
  | none => none
  | some (i, cls) =>
    match cls[i]? with
    | none => none
    | some p =>
      some (i, cls.set i { p with size := wrap32 item_size_max, perslab := 1,
                                  rsvd_slabs := RESERVED_SLABS })

/-! ## The search policy of `do_smmgr_alloc`, as the specification words it -/

/-- The first class among the `n` classes from `lo` on whose free list is not
empty, if there is one. -/
def first_nonempty (fs : List sm_slist_t) : Nat → Int → Option Int
  | 0, _ => none
  | n + 1, lo =>
    match slist_at fs lo with
    | some x => if x.head ≠ 0 then some lo else first_nonempty fs n (lo + 1)
    | none => first_nonempty fs n (lo + 1)

/-- The source class of the specification for the target class `targ`: the
target itself when its list is not empty; else the first non-empty class from
`2 * targ` to `free_maxid` when there is one; else `free_maxid` when it is at
least the target; else the last class. -/
def spec_source_class (a : sm_anchor_t) (targ : Int) : Int :=
  match slist_at a.free_slist targ with
  | none => (SMMGR_NUM_CLASSES : Int) - 1
  | some x =>
    if x.head ≠ 0 then targ
    else
      match first_nonempty a.free_slist (a.free_maxid - 2 * targ + 1).toNat (2 * targ) with
      | some s => s
      | none => if a.free_maxid ≥ targ then a.free_maxid else (SMMGR_NUM_CLASSES : Int) - 1

/-- The bound `free_maxid` is exact, as a test: the array has its 1025 lists,
`free_maxid` is at most 1023, no list below the last class is non-empty above
`free_maxid`, and the list of class `free_maxid` is not empty when `free_maxid`
is not negative. -/
def free_max_exact (a : sm_anchor_t) : Bool :=
  decide (a.free_slist.length = SMMGR_NUM_CLASSES) && decide (a.free_maxid ≤ 1023) &&
  (a.free_slist.take 1024).enum.all (fun p =>
    decide (p.2.head = 0) || decide ((p.1 : Int) ≤ a.free_maxid)) &&
  (decide (a.free_maxid < 0) ||
    match slist_at a.free_slist a.free_maxid with
    | some x => decide (x.head ≠ 0)
    | none => false)

/-- Three operations on a fresh allocator that leave one free slot of 80 bytes,
in class 10, at the start of the block: allocations of 76 and 20 bytes (slots
of 80 and 32 bytes), then the release of the first. -/
def ops_class10 : List smmgr_op :=
  [smmgr_op.alloc 76 true base0,
   smmgr_op.alloc 20 true 0,
   smmgr_op.free (base0 + 24) 76 true]

/-- The anchor after `ops_class10`: the slot of 32 bytes is in use (class 4),
the list of class 10 holds the free slot of 80 bytes at block offset 24, and
the list of the last class holds the rest of the block. -/
def anchor_class10 : sm_anchor_t :=
  { blck_clsid := 0, blck_tsize := 65536, blck_bsize := 65512,
    used_num_classes := 1, free_num_classes := 1,
    used_minid := 4, used_maxid := 4, free_minid := 10, free_maxid := 10,
    used_blist := { head := base0, tail := base0, count := 1 },
    free_slist :=
      ((List.replicate SMMGR_NUM_CLASSES
          ({ head := 0, tail := 0, space := 0, count := 0 } : sm_slist_t)).set 10
        { head := base0 + 24, tail := base0 + 24, space := 80, count := 1 }).set 1024
        { head := base0 + 136, tail := base0 + 136, space := 65400, count := 1 },
    used_slist :=
      (List.replicate SMMGR_NUM_CLASSES
          ({ head := 0, tail := 0, space := 0, count := 0 } : sm_slist_t)).set 4
        { head := 0, tail := 0, space := 32, count := 1 },
    free_small_space := 0, free_avail_space := 65480, used_total_space := 32 }

/-- A memory in which the slot at address 1000 has the length 80 in its
header. -/
def mem_slot80 : Nat → Nat := set_slot_length (fun _ => 0) 1000 80

/-! ## The scenarios of the specification -/

/-- Scenario 1: one allocation of 100 bytes on a fresh allocator. -/
def ops_alloc_100 : List smmgr_op := [smmgr_op.alloc 100 true base0]

/-- Scenario 2: after the allocation of 100 bytes, two allocations of 200
bytes (slots of 208 bytes at block offsets 128 and 336), then the release of
the first and of the second of them. -/
def ops_coalesce : List smmgr_op :=
  [smmgr_op.alloc 100 true base0,
   smmgr_op.alloc 200 true 0,
   smmgr_op.alloc 200 true 0,
   smmgr_op.free (base0 + 128) 200 true,
   smmgr_op.free (base0 + 336) 200 true]

/-- Scenario 2 followed by the release of the slot of 100 bytes. -/
def ops_coalesce_all : List smmgr_op :=
  ops_coalesce ++ [smmgr_op.free (base0 + 24) 100 true]

/-- An allocator under a 5 MiB limit, no page allocated
(`mem_reserved = RESERVED_SLABS * item_size_max = 4 MiB`). -/
def state_5mib : allocator :=
  mk_state (mk_class base0 65536 16 0 0 0) 0 5242880 0 4194304 0

/-- Scenario 4: allocations of 900 KiB chunks (class 3, one chunk to a page of
1 MiB) until the free part of the arena falls below `mem_reserved`: two
allocations. -/
def ops_pressure_trip : List slab_op :=
  [slab_op.alloc 921600 3 true (2 ^ 35),
   slab_op.alloc 921600 3 true (2 ^ 35 + 1048576)]

/-- The state after the pressure trip (`state_5mib` itself if the run were
undefined). -/
def state_tripped : allocator :=
  match slab_run (state_5mib, []) ops_pressure_trip with
  | some s => s.1
  | none => state_5mib

/-- Two anchors agree on the free lists, on their bounds, on the list of used
blocks and on the geometry of the blocks. -/
def free_frame (a b : sm_anchor_t) : Prop :=
  b.free_slist = a.free_slist ∧ b.free_minid = a.free_minid ∧ b.free_maxid = a.free_maxid ∧
  b.free_num_classes = a.free_num_classes ∧ b.used_blist = a.used_blist ∧
  b.blck_clsid = a.blck_clsid ∧ b.blck_tsize = a.blck_tsize ∧ b.blck_bsize = a.blck_bsize
/-- The slots that an allocation of `S` bytes makes of a free slot of `L`
bytes at offset `o`: a used slot of `S` bytes, followed by the rest as a free
slot when the free slot is longer. -/
def alloc_cut (o L S : Nat) : List gslot :=
  if L = S then [⟨o, S, skind.used⟩]
  else [⟨o, S, skind.used⟩, ⟨o + S, L - S, skind.free⟩]
/-! ## `memory_allocate` on a pre-allocated arena -/

/-- An engine over a pre-allocated arena at address `2^36`: the cursor
`mem_current` and the free bytes `mem_avail` as given. -/
def engine_prealloc (mem_current mem_avail : Nat) : default_engine :=
  { engine_fresh with
      slabs := { engine_fresh.slabs with
                   mem_base := 2 ^ 36, mem_current := mem_current, mem_avail := mem_avail } }
/-- The first `n` requests of a 64 KiB block from class 0, the class of the
blocks of the small-memory manager; `malloc` answers with pages 1 MiB apart
from `base0`. -/
def ops_take_blocks (n : Nat) : List slab_op :=
  (List.range n).map (fun i => slab_op.alloc 65536 0 true (base0 + (i / 16) * 1048576))

/-- What the oracle reads in a state: `slabs`, `sl_curr` and `end_page_free` of
class 0, its `limit_nchunk`, and the level the oracle returns. -/
def oracle_view (st : allocator) : Option (Nat × Nat × Nat × Nat × Option Int) :=
  (st.engine.slabs.slabclass[0]?).map
    (fun p => (p.slabs, p.sl_curr, p.end_page_free, limit_nchunk p,
      slabs_short_of_free_space st))
/-- The state after a request of 100 bytes on the fresh allocator when `malloc`
fails (the fresh state itself if the call were undefined). -/
def state_alloc_failed : smmgr_state :=
  match do_smmgr_alloc smmgr_state_fresh 100 true 0 with
  | some r => r.2
  | none => smmgr_state_fresh
/-- The state after `set_memlimit(6 MiB)` in the state of the pressure trip
(that state itself if the call were undefined). -/
def state_relimited : allocator :=
  match do_slabs_set_memlimit state_tripped 6291456 with
  | some r => r.2
  | none => state_tripped

/-! ## Theorems -/

/-- Loop invariant of `slabs_clsid`: started at `res` with every class of
`[POWER_SMALLEST, res)` too small, the loop ends, either with `0` and every
class up to `power_largest` too small, or with the first class that fits. -/
theorem slabs_clsid_loop_spec (POWER_SMALLEST : Nat) (e : default_engine) (size : Nat)
    (hbound : e.slabs.power_largest < e.slabs.slabclass.length) :
    ∀ (fuel res : Nat), res ≤ e.slabs.power_largest →
      e.slabs.power_largest + 1 ≤ fuel + res →
      (∀ i, POWER_SMALLEST ≤ i → i < res → chunk_size e i < size) →
      ∃ r, slabs_clsid_loop e size fuel res = some r ∧
        ((r = 0 ∧ ∀ i, POWER_SMALLEST ≤ i → i ≤ e.slabs.power_largest →
            chunk_size e i < size) ∨
         (res ≤ r ∧ r ≤ e.slabs.power_largest ∧ size ≤ chunk_size e r ∧
            ∀ i, POWER_SMALLEST ≤ i → i < r → chunk_size e i < size)) := by
  intro fuel
  induction fuel with
  | zero => intro res h1 h2 _; omega
  | succ n ih =>
    intro res h1 h2 hlt
    have hres : res < e.slabs.slabclass.length := by omega
    have hget : e.slabs.slabclass[res]? = some (e.slabs.slabclass[res]) :=
      List.getElem?_eq_getElem hres
    have hcs : chunk_size e res = (e.slabs.slabclass[res]).size := by
      simp [chunk_size, hget]
    rw [slabs_clsid_loop, hget]
    simp only
    by_cases hgt : size > (e.slabs.slabclass[res]).size
    · rw [if_pos hgt]
      by_cases hlast : res = e.slabs.power_largest
      · rw [if_pos hlast]
        refine ⟨0, rfl, Or.inl ⟨rfl, ?_⟩⟩
        intro i hi1 hi2
        rcases Nat.lt_or_ge i res with h | h
        · exact hlt i hi1 h
        · have : i = res := by omega
          subst this; omega
      · rw [if_neg hlast]
        have hstep := ih (res + 1) (by omega) (by omega) (by
          intro i hi1 hi2
          rcases Nat.lt_or_ge i res with h | h
          · exact hlt i hi1 h
          · have : i = res := by omega
            subst this; omega)
        obtain ⟨r, hr, hcase⟩ := hstep
        refine ⟨r, hr, ?_⟩
        rcases hcase with h | ⟨h1, h2, h3, h4⟩
        · exact Or.inl h
        · exact Or.inr ⟨by omega, h2, h3, h4⟩
    · rw [if_neg hgt]
      exact ⟨res, rfl, Or.inr ⟨le_refl _, h1, by omega, hlt⟩⟩

/-- C1: for an engine whose class sizes are strictly increasing over the ids
`POWER_SMALLEST..power_largest` (a non-empty range of cells of the class array,
class 0 not being one of them) and every `size > 0`, `slabs_clsid` returns the
smallest id of the range whose chunk size is at least `size`, and returns 0
exactly when `size` exceeds the chunk size of class `power_largest`; it also
returns 0 for `size = 0`. -/
theorem slabs_clsid_smallest_fit (POWER_SMALLEST : Nat) (e : default_engine) (size : Nat)
    (hps : 0 < POWER_SMALLEST)
    (hrange : POWER_SMALLEST ≤ e.slabs.power_largest)
    (hbound : e.slabs.power_largest < e.slabs.slabclass.length)
    (hmono : ∀ i j, POWER_SMALLEST ≤ i → i < j → j ≤ e.slabs.power_largest →
        chunk_size e i < chunk_size e j)
    (hsize : 0 < size) :
    slabs_clsid POWER_SMALLEST e 0 = some 0 ∧
    ∃ r, slabs_clsid POWER_SMALLEST e size = some r ∧
      (r = 0 ↔ chunk_size e e.slabs.power_largest < size) ∧
      (r ≠ 0 → POWER_SMALLEST ≤ r ∧ r ≤ e.slabs.power_largest ∧ size ≤ chunk_size e r ∧
          ∀ i, POWER_SMALLEST ≤ i → i ≤ e.slabs.power_largest →
            size ≤ chunk_size e i → r ≤ i) := by
  refine ⟨by simp [slabs_clsid], ?_⟩
  obtain ⟨r, hr, hcase⟩ := slabs_clsid_loop_spec POWER_SMALLEST e size hbound
    (e.slabs.slabclass.length + 1) POWER_SMALLEST hrange (by omega)
    (by intro i h1 h2; omega)
  refine ⟨r, ?_, ?_, ?_⟩
  · rw [slabs_clsid, if_neg (by omega)]; exact hr
  · rcases hcase with ⟨h0, hall⟩ | ⟨h1, h2, h3, _⟩
    · exact ⟨fun _ => hall _ hrange (le_refl _), fun _ => h0⟩
    · constructor
      · intro h; omega
      · intro hbig
        rcases Nat.lt_or_ge r e.slabs.power_largest with h | h
        · have := hmono r e.slabs.power_largest h1 h (le_refl _)
          omega
        · have : r = e.slabs.power_largest := by omega
          subst this; omega
  · intro hne
    rcases hcase with ⟨h0, _⟩ | ⟨h1, h2, h3, h4⟩
    · exact absurd h0 hne
    · refine ⟨h1, h2, h3, ?_⟩
      intro i hi1 _ hfit
      by_contra hlt
      have := h4 i hi1 (by omega)
      omega

/-- Witness of `slabs_clsid_smallest_fit`: the engine `engine_fresh`, whose
ordinary classes 1..3 have sizes 96, 120 and 1048576, and the size 100. -/
theorem slabs_clsid_smallest_fit_witness :
    (0 < 1 ∧ 1 ≤ engine_fresh.slabs.power_largest ∧
      engine_fresh.slabs.power_largest < engine_fresh.slabs.slabclass.length ∧
      (∀ i j, 1 ≤ i → i < j → j ≤ engine_fresh.slabs.power_largest →
        chunk_size engine_fresh i < chunk_size engine_fresh j) ∧ 0 < 100) ∧
    (slabs_clsid 1 engine_fresh 0 = some 0 ∧
      ∃ r, slabs_clsid 1 engine_fresh 100 = some r ∧
        (r = 0 ↔ chunk_size engine_fresh engine_fresh.slabs.power_largest < 100) ∧
        (r ≠ 0 → 1 ≤ r ∧ r ≤ engine_fresh.slabs.power_largest ∧
          100 ≤ chunk_size engine_fresh r ∧
          ∀ i, 1 ≤ i → i ≤ engine_fresh.slabs.power_largest →
            100 ≤ chunk_size engine_fresh i → r ≤ i)) := by
  have hmono : ∀ i j, 1 ≤ i → i < j → j ≤ engine_fresh.slabs.power_largest →
      chunk_size engine_fresh i < chunk_size engine_fresh j := by
    intro i j h1 h2 h3
    have h3' : j ≤ 3 := h3
    interval_cases j <;> interval_cases i <;> decide
  exact ⟨⟨by decide, by decide, by decide, hmono, by decide⟩,
    slabs_clsid_smallest_fit 1 engine_fresh 100 (by decide) (by decide) (by decide) hmono
      (by decide)⟩

/-- C2, counterexample: for the user size 100, which the specification itself
sends to the small-memory manager, the code computes the slot length 104 while
`max(32, round_up_8(100 + 8))` is 112. -/
theorem slot_length_not_size_plus_8 :
    do_smmgr_slen 100 = 104 ∧ spec_slen 100 = 112 ∧
      do_smmgr_slen 100 ≠ ((spec_slen 100 : Nat) : Int) := by
  decide

/-- C2, amended: for every user size `s ≤ MAX_SM_VALUE_SIZE` (a constant small
enough for the length to fit an `int`), the slot length computed by
`do_smmgr_alloc` and `do_smmgr_free` is `max(32, round_up_8(s + 4))`: the user
size plus the 4-byte tail `sm_tail_t`, rounded up to a multiple of 8, with a
floor of 32 (`SMMGR_MIN_SLOT_SIZE`). -/
theorem slot_length_is_size_plus_tail (MAX_SM_VALUE_SIZE : Nat) (size : Nat)
    (hmax : MAX_SM_VALUE_SIZE + 12 ≤ 2 ^ 31) (hs : size ≤ MAX_SM_VALUE_SIZE) :
    do_smmgr_slen size = ((max 32 (round_up_8 (size + sizeof_sm_tail_t)) : Nat) : Int) := by
  simp only [do_smmgr_slen, SMMGR_SLOT_SIZE, to_int, wrap64, round_up_8, sizeof_sm_tail_t,
    SMMGR_MIN_SLOT_SIZE]
  norm_num at hmax ⊢
  omega

/-- Witness of `slot_length_is_size_plus_tail`: the size 100 under a limit of
8000. -/
theorem slot_length_is_size_plus_tail_witness :
    (8000 + 12 ≤ 2 ^ 31 ∧ 100 ≤ 8000) ∧
    do_smmgr_slen 100 = ((max 32 (round_up_8 (100 + sizeof_sm_tail_t)) : Nat) : Int) :=
  ⟨⟨by norm_num, by norm_num⟩,
    slot_length_is_size_plus_tail 8000 100 (by norm_num) (by norm_num)⟩

/-- C3, failing input: for the size 1, whatever `MAX_SM_VALUE_SIZE >= 1` and the
engine are, `slabs_space_size` answers 8, while `do_smmgr_alloc` and
`do_smmgr_free` use the slot length 32 for that size: the floor
`SMMGR_MIN_SLOT_SIZE` that both apply is missing from `slabs_space_size`. -/
theorem slabs_space_size_misses_min_slot :
    (∀ (MAX_SM_VALUE_SIZE POWER_SMALLEST : Nat) (e : default_engine),
        1 ≤ MAX_SM_VALUE_SIZE →
        slabs_space_size MAX_SM_VALUE_SIZE POWER_SMALLEST e 1 = some 8) ∧
      slabs_space_size 8000 1 engine_fresh 1 = some 8 ∧ do_smmgr_slen 1 = 32 := by
  refine ⟨?_, by decide, by decide⟩
  intro M PS e hM
  have h8 : wrap32 (SMMGR_SLOT_SIZE 1) = 8 := by decide
  simp [slabs_space_size, hM, h8]

/-! ### `do_slabs_set_memlimit` -/

/-- Reading class 0 through an `int` index. -/
theorem slabclass_at_zero (e : default_engine) :
    slabclass_at e 0 = e.slabs.slabclass[0]? := by
  simp [slabclass_at]

/-- Storing into class 0 of a non-empty class array. -/
theorem slabclass_store_zero (e : default_engine) (p : slabclass_t)
    (h : 0 < e.slabs.slabclass.length) :
    slabclass_store e 0 p
      = some { e with slabs := { e.slabs with slabclass := e.slabs.slabclass.set 0 p } } := by
  simp [slabclass_store, h]

/-- The `size_t` subtraction does not wrap when the result is non-negative. -/
theorem sub64_eq (a b : Nat) (h : b ≤ a) (ha : a < 2 ^ 64) : sub64 a b = a - b := by
  unfold sub64
  have h1 : ((a : Int) - (b : Int)) = ((a - b : Nat) : Int) := by omega
  rw [h1]
  have h2 : (((a - b : Nat) : Int) % 2 ^ 64) = ((a - b : Nat) : Int) := by
    apply Int.emod_eq_of_lt <;> omega
  rw [h2]; simp

/-- The reserved threshold without wrap-around. -/
theorem new_mem_reserved_eq (e : default_engine) (memlimit : Nat)
    (hlim : memlimit < 2 ^ 64) (hism : RESERVED_SLABS * e.config.item_size_max < 2 ^ 64) :
    new_mem_reserved e memlimit
      = max ((memlimit / 100) * RESERVED_SLAB_RATIO)
            (RESERVED_SLABS * e.config.item_size_max) := by
  unfold new_mem_reserved wrap64 RESERVED_SLAB_RATIO
  simp only
  have h1 : memlimit / 100 * 4 % 2 ^ 64 = memlimit / 100 * 4 := by
    apply Nat.mod_eq_of_lt; omega
  rw [h1, Nat.mod_eq_of_lt hism]
  split_ifs with h
  · omega
  · omega

/-- C4, counterexample: with `mem_malloced = 1048576` (one page), the arena not
pre-allocated and the reservation of class 0 undefined,
`do_slabs_set_memlimit(1153433)` returns `ENGINE_SUCCESS`, although
`1153433 < 1048576 * 1.1 = 1153433.6`: the code compares with
`mem_malloced + mem_malloced/10 = 1153433`. -/
theorem set_memlimit_accepts_below_eleven_tenths :
    (do_slabs_set_memlimit state_one_page 1153433).map Prod.fst = some ENGINE_SUCCESS ∧
      spec_bad_value state_one_page 1153433 := by
  refine ⟨by decide, Or.inr (Or.inl ?_)⟩
  norm_num [state_one_page, mk_state, mk_engine]

/-- C4, amended: `do_slabs_set_memlimit(new)` returns `ENGINE_EBADVALUE` if and
only if the arena is pre-allocated (`mem_base != NULL`), or
`new < mem_malloced + mem_malloced/10` (integer division), or the `rsvd_slabs`
of class 0 is defined (non-zero) and `new - mem_malloced` is below the new
reserved threshold `max((new/100)*4, RESERVED_SLABS * item_size_max)` (integer
division); in every other case it returns `ENGINE_SUCCESS`. The hypotheses say
that the block class is class 0, which exists, and that no `size_t` computation
wraps. -/
theorem set_memlimit_bad_value_iff (st : allocator) (memlimit : Nat) (z : slabclass_t)
    (hcls : st.sm_anchor.blck_clsid = 0)
    (hz : st.engine.slabs.slabclass[0]? = some z)
    (hlim : memlimit < 2 ^ 64)
    (hmal : st.engine.slabs.mem_malloced + st.engine.slabs.mem_malloced / 10 < 2 ^ 64)
    (hism : RESERVED_SLABS * st.engine.config.item_size_max < 2 ^ 64) :
    ∃ code st1, do_slabs_set_memlimit st memlimit = some (code, st1) ∧
      (code = ENGINE_EBADVALUE ↔
        (st.engine.slabs.mem_base ≠ 0 ∨
         memlimit < st.engine.slabs.mem_malloced + st.engine.slabs.mem_malloced / 10 ∨
         (z.rsvd_slabs ≠ 0 ∧
          memlimit - st.engine.slabs.mem_malloced
            < max ((memlimit / 100) * RESERVED_SLAB_RATIO)
                  (RESERVED_SLABS * st.engine.config.item_size_max)))) ∧
      (code ≠ ENGINE_EBADVALUE → code = ENGINE_SUCCESS) := by
  have hlen : 0 < st.engine.slabs.slabclass.length := by
    rcases List.getElem?_eq_some_iff.mp hz with ⟨h, _⟩
    exact h
  unfold do_slabs_set_memlimit
  simp only [hcls, slabclass_at_zero, hz, wrap64, Nat.mod_eq_of_lt hmal,
    new_mem_reserved_eq st.engine memlimit hlim hism]
  by_cases hb : st.engine.slabs.mem_base ≠ 0
  · rw [if_pos hb]
    exact ⟨_, _, rfl, by simp [hb], by simp⟩
  · rw [if_neg hb]
    by_cases hm : memlimit < st.engine.slabs.mem_malloced + st.engine.slabs.mem_malloced / 10
    · rw [if_pos hm]
      exact ⟨_, _, rfl, by simp [hm], by simp⟩
    · rw [if_neg hm]
      rw [sub64_eq memlimit st.engine.slabs.mem_malloced (by omega) hlim]
      by_cases hr : z.rsvd_slabs ≠ 0 ∧
          memlimit - st.engine.slabs.mem_malloced
            < max ((memlimit / 100) * RESERVED_SLAB_RATIO)
                  (RESERVED_SLABS * st.engine.config.item_size_max)
      · rw [if_pos hr]
        exact ⟨_, _, rfl, by simp [hr], by simp⟩
      · rw [if_neg hr, slabclass_store_zero _ _ (by simpa using hlen)]
        refine ⟨_, _, rfl, ?_, by simp⟩
        constructor
        · intro h; cases h
        · intro h
          rcases h with h | h | h
          · exact absurd h hb
          · exact absurd h hm
          · exact absurd h hr

/-- Witness of `set_memlimit_bad_value_iff`: the state `state_two_blocks_left`
(reservation of class 0 defined, 6 MiB allocated) and the new limit 8 MiB. -/
theorem set_memlimit_bad_value_iff_witness :
    (state_two_blocks_left.sm_anchor.blck_clsid = 0 ∧
      state_two_blocks_left.engine.slabs.slabclass[0]? = some (mk_class base0 65536 16 4 4 2) ∧
      8388608 < 2 ^ 64 ∧
      state_two_blocks_left.engine.slabs.mem_malloced
        + state_two_blocks_left.engine.slabs.mem_malloced / 10 < 2 ^ 64 ∧
      RESERVED_SLABS * state_two_blocks_left.engine.config.item_size_max < 2 ^ 64) ∧
    ∃ code st1, do_slabs_set_memlimit state_two_blocks_left 8388608 = some (code, st1) ∧
      (code = ENGINE_EBADVALUE ↔
        (state_two_blocks_left.engine.slabs.mem_base ≠ 0 ∨
         8388608 < state_two_blocks_left.engine.slabs.mem_malloced
                    + state_two_blocks_left.engine.slabs.mem_malloced / 10 ∨
         ((mk_class base0 65536 16 4 4 2).rsvd_slabs ≠ 0 ∧
          8388608 - state_two_blocks_left.engine.slabs.mem_malloced
            < max ((8388608 / 100) * RESERVED_SLAB_RATIO)
                  (RESERVED_SLABS * state_two_blocks_left.engine.config.item_size_max)))) ∧
      (code ≠ ENGINE_EBADVALUE → code = ENGINE_SUCCESS) :=
  ⟨⟨by decide, by decide, by decide, by decide, by decide⟩,
    set_memlimit_bad_value_iff state_two_blocks_left 8388608 (mk_class base0 65536 16 4 4 2)
      (by decide) (by decide) (by decide) (by decide) (by decide)⟩

/-- C5: `do_slabs_set_memlimit(new)` returns; when it succeeds the state after
the call is the state before it with `mem_limit = new`, `mem_reserved` set to
the threshold recomputed for `new`, and the `rsvd_slabs` of class 0 reset to 0
(undefined), every other field of the slab and small-memory state being as
before; when it returns `ENGINE_EBADVALUE` the whole state is unchanged. The
hypotheses say that the block class is class 0, which exists, and that no
`size_t` computation wraps. -/
theorem set_memlimit_frame (st : allocator) (memlimit : Nat) (z : slabclass_t)
    (hcls : st.sm_anchor.blck_clsid = 0)
    (hz : st.engine.slabs.slabclass[0]? = some z)
    (hlim : memlimit < 2 ^ 64)
    (hism : RESERVED_SLABS * st.engine.config.item_size_max < 2 ^ 64) :
    ∃ code st1, do_slabs_set_memlimit st memlimit = some (code, st1) ∧
      (code = ENGINE_SUCCESS →
        st1 = { st with engine := { st.engine with slabs := { st.engine.slabs with
                  mem_limit := memlimit,
                  mem_reserved := max ((memlimit / 100) * RESERVED_SLAB_RATIO)
                                      (RESERVED_SLABS * st.engine.config.item_size_max),
                  slabclass := st.engine.slabs.slabclass.set 0 { z with rsvd_slabs := 0 } } } }) ∧
      (code = ENGINE_EBADVALUE → st1 = st) ∧
      (code = ENGINE_SUCCESS ∨ code = ENGINE_EBADVALUE) := by
  have hlen : 0 < st.engine.slabs.slabclass.length := by
    rcases List.getElem?_eq_some_iff.mp hz with ⟨h, _⟩
    exact h
  unfold do_slabs_set_memlimit
  simp only [hcls, slabclass_at_zero, hz,
    new_mem_reserved_eq st.engine memlimit hlim hism]
  split_ifs with h1 h2 h3
  · exact ⟨_, _, rfl, by simp, by simp, by simp⟩
  · exact ⟨_, _, rfl, by simp, by simp, by simp⟩
  · exact ⟨_, _, rfl, by simp, by simp, by simp⟩
  · rw [slabclass_store_zero _ _ (by simpa using hlen)]
    exact ⟨_, _, rfl, by simp, by simp, by simp⟩

/-- Witness of `set_memlimit_frame`: the state `state_one_page` and the new
limit 32 MiB, which is accepted. -/
theorem set_memlimit_frame_witness :
    (state_one_page.sm_anchor.blck_clsid = 0 ∧
      state_one_page.engine.slabs.slabclass[0]? = some (mk_class base0 65536 16 0 1 16) ∧
      33554432 < 2 ^ 64 ∧
      RESERVED_SLABS * state_one_page.engine.config.item_size_max < 2 ^ 64) ∧
    ∃ code st1, do_slabs_set_memlimit state_one_page 33554432 = some (code, st1) ∧
      (code = ENGINE_SUCCESS →
        st1 = { state_one_page with engine := { state_one_page.engine with
                  slabs := { state_one_page.engine.slabs with
                    mem_limit := 33554432,
                    mem_reserved := max ((33554432 / 100) * RESERVED_SLAB_RATIO)
                      (RESERVED_SLABS * state_one_page.engine.config.item_size_max),
                    slabclass := state_one_page.engine.slabs.slabclass.set 0
                      { mk_class base0 65536 16 0 1 16 with rsvd_slabs := 0 } } } }) ∧
      (code = ENGINE_EBADVALUE → st1 = state_one_page) ∧
      (code = ENGINE_SUCCESS ∨ code = ENGINE_EBADVALUE) :=
  ⟨⟨by decide, by decide, by decide, by decide⟩,
    set_memlimit_frame state_one_page 33554432 (mk_class base0 65536 16 0 1 16)
      (by decide) (by decide) (by decide) (by decide)⟩

/-! ### The pressure oracle -/

/-- The reserved chunk budget is far below the `int` range, whatever the
fields hold: the product is reduced modulo `2^32` before the division. -/
theorem limit_nchunk_lt (p : slabclass_t) : limit_nchunk p < 2 ^ 26 := by
  unfold limit_nchunk wrap32
  have : wrap32 (p.rsvd_slabs * p.perslab) * RESERVED_SLAB_RATIO % 2 ^ 32 < 2 ^ 32 :=
    Nat.mod_lt _ (by norm_num)
  omega

/-- Conversion to `int` of a value below `2^31`. -/
theorem to_int_small (n : Nat) (h : n < 2 ^ 31) : to_int n = (n : Int) := by
  unfold to_int
  have h1 : n % 2 ^ 32 = n := Nat.mod_eq_of_lt (by omega)
  rw [h1, if_pos h]

/-- C6, failing input: in the state `state_two_blocks_left` (5 MiB limit, the
four reserved pages of class 0 allocated, two blocks left) the reserved budget
is `4*16*4/100 = 2` chunks and two chunks are available, so the quotient is 1
and the oracle divides by `limit_nchunk/6 = 0`: the execution is undefined and
no level in `[0, 100]` is returned. -/
theorem shortage_level_divides_by_zero :
    under_pressure state_two_blocks_left.engine.slabs = true ∧
      limit_nchunk (mk_class base0 65536 16 4 4 2) = 2 ∧
      avail_nchunk state_two_blocks_left.sm_anchor (mk_class base0 65536 16 4 4 2) = some 2 ∧
      slabs_short_of_free_space state_two_blocks_left = none := by
  decide

/-- C8, failing input: in the state `state_18_pages 6` the reserved budget is
`18*16*4/100 = 11` chunks and 6 chunks are available, so `0 < avail <= rsvd`
and `rsvd / avail = 1`; the oracle returns `1 + (11 - 6) / (11 / 6) = 6`, which
is outside `[1, 3]`, the range that the comment in the code gives for this
branch. -/
theorem shortage_level_one_branch_exceeds_three :
    under_pressure (state_18_pages 6).engine.slabs = true ∧
      limit_nchunk (mk_class base0 65536 16 18 18 6) = 11 ∧
      avail_nchunk (state_18_pages 6).sm_anchor (mk_class base0 65536 16 18 18 6) = some 6 ∧
      11 / 6 = 1 ∧
      slabs_short_of_free_space (state_18_pages 6) = some 6 := by
  decide

/-- C9: in the pressure state with `class0.slabs > 0`, `rsvd` being the
oracle's `limit_nchunk` and `avail` its `avail_nchunk`: `avail = 0` yields level
100; `avail > rsvd` yields level 0; and whenever `0 < avail <= rsvd` with
`rsvd / avail >= 2` the level equals `min(rsvd / avail + 2, 100)` and lies in
`[4, 100]`. -/
theorem shortage_level_outer_cases (st : allocator) (p : slabclass_t) (avail : Nat)
    (hpress : under_pressure st.engine.slabs = true)
    (hcls : st.sm_anchor.blck_clsid = 0)
    (hp : st.engine.slabs.slabclass[0]? = some p)
    (hslabs : 0 < p.slabs)
    (hav : avail_nchunk st.sm_anchor p = some avail) :
    (avail = 0 → slabs_short_of_free_space st = some 100) ∧
    (limit_nchunk p < avail → slabs_short_of_free_space st = some 0) ∧
    (0 < avail → avail ≤ limit_nchunk p → 2 ≤ limit_nchunk p / avail →
      slabs_short_of_free_space st
        = some ((min (limit_nchunk p / avail + 2) 100 : Nat) : Int) ∧
      4 ≤ min (limit_nchunk p / avail + 2) 100 ∧
      min (limit_nchunk p / avail + 2) 100 ≤ 100) := by
  have hbase : slabs_short_of_free_space st =
      if avail ≤ limit_nchunk p then space_shortage_level (limit_nchunk p) avail
      else some 0 := by
    simp [slabs_short_of_free_space, hpress, hcls, slabclass_at_zero, hp, hslabs, hav]
  refine ⟨?_, ?_, ?_⟩
  · intro h0
    rw [hbase, h0]
    simp [space_shortage_level, MAX_SPACE_SHORTAGE_LEVEL]
  · intro hlt
    rw [hbase, if_neg (by omega)]
  · intro hpos hle hratio
    have hq : limit_nchunk p / avail < 2 ^ 31 := by
      have := limit_nchunk_lt p
      have := Nat.div_le_self (limit_nchunk p) avail
      omega
    rw [hbase, if_pos hle]
    refine ⟨?_, by omega, by omega⟩
    unfold space_shortage_level
    rw [if_neg (by omega), to_int_small _ hq]
    simp only [MAX_SPACE_SHORTAGE_LEVEL]
    rw [if_neg (by omega)]
    split_ifs with h
    · congr 1
      omega
    · congr 1
      omega

/-- Witness of `shortage_level_outer_cases`: the state `state_18_pages 3`, with
a budget of 11 chunks and 3 available, where the level is `11/3 + 2 = 5`. -/
theorem shortage_level_outer_cases_witness :
    (under_pressure (state_18_pages 3).engine.slabs = true ∧
      (state_18_pages 3).sm_anchor.blck_clsid = 0 ∧
      (state_18_pages 3).engine.slabs.slabclass[0]? = some (mk_class base0 65536 16 18 18 3) ∧
      0 < (mk_class base0 65536 16 18 18 3).slabs ∧
      avail_nchunk (state_18_pages 3).sm_anchor (mk_class base0 65536 16 18 18 3) = some 3 ∧
      0 < 3 ∧ 3 ≤ limit_nchunk (mk_class base0 65536 16 18 18 3) ∧
      2 ≤ limit_nchunk (mk_class base0 65536 16 18 18 3) / 3) ∧
    (slabs_short_of_free_space (state_18_pages 3)
        = some ((min (limit_nchunk (mk_class base0 65536 16 18 18 3) / 3 + 2) 100 : Nat) : Int) ∧
      4 ≤ min (limit_nchunk (mk_class base0 65536 16 18 18 3) / 3 + 2) 100 ∧
      min (limit_nchunk (mk_class base0 65536 16 18 18 3) / 3 + 2) 100 ≤ 100) :=
  ⟨⟨by decide, by decide, by decide, by decide, by decide, by decide, by decide, by decide⟩,
    (shortage_level_outer_cases (state_18_pages 3) (mk_class base0 65536 16 18 18 3) 3
      (by decide) (by decide) (by decide) (by decide) (by decide)).2.2
      (by decide) (by decide) (by decide)⟩

/-! ### `do_slabs_newslab` -/

/-- Reading a class through an `unsigned` index. -/
theorem slabclass_at_nat (e : default_engine) (i : Nat) :
    slabclass_at e (i : Int) = e.slabs.slabclass[i]? := by
  simp [slabclass_at]

/-- Storing into a class of the array through an `unsigned` index. -/
theorem slabclass_store_nat (e : default_engine) (i : Nat) (p : slabclass_t)
    (h : i < e.slabs.slabclass.length) :
    slabclass_store e (i : Int) p
      = some { e with slabs := { e.slabs with slabclass := e.slabs.slabclass.set i p } } := by
  simp [slabclass_store, h]

/-- The page length fits the `int` it is stored in. -/
theorem newslab_len_eq (p : slabclass_t) (h : p.size * p.perslab < 2 ^ 31) :
    newslab_len p = ((p.size * p.perslab : Nat) : Int) := by
  unfold newslab_len wrap32
  rw [Nat.mod_eq_of_lt (by omega), to_int_small _ h]

/-- Conversion to `size_t` of a non-negative `int`. -/
theorem int_to_size_t_nat (n : Nat) (h : n < 2 ^ 64) : int_to_size_t (n : Int) = n := by
  unfold int_to_size_t
  have h2 : ((n : Int) % 2 ^ 64) = (n : Int) := by
    apply Int.emod_eq_of_lt <;> omega
  rw [h2]; simp

/-- The refusal test of `do_slabs_newslab` without wrap-around. -/
theorem newslab_refused_iff (s : slabs_t) (p : slabclass_t)
    (hlen : p.size * p.perslab < 2 ^ 31)
    (hmm : s.mem_malloced + p.size * p.perslab < 2 ^ 64) :
    newslab_refused s p = true ↔
      (s.mem_limit ≠ 0 ∧ s.mem_limit < s.mem_malloced + p.size * p.perslab
        ∧ p.rsvd_slabs ≤ p.slabs) := by
  unfold newslab_refused
  rw [newslab_len_eq p hlen, int_to_size_t_nat _ (by omega), wrap64, Nat.mod_eq_of_lt hmm]
  simp [and_assoc]

/-- Writing back the value a cell already holds. -/
theorem list_set_same {α : Type} (l : List α) (i : Nat) (a : α) (h : l[i]? = some a) :
    l.set i a = l := by
  apply List.ext_getElem?
  intro j
  rw [List.getElem?_set]
  split_ifs with h1 h2
  · subst h1; exact h.symm
  · subst h1
    have := (List.getElem?_eq_some_iff.mp h).1
    omega
  · rfl

/-- With a successful `realloc`, `grow_slab_list` returns 1 and leaves a
`slab_list` with room for one more page; only `slab_list` and `list_size` of
the class may change. -/
theorem grow_slab_list_ok (e : default_engine) (id : Nat) (p : slabclass_t)
    (hp : e.slabs.slabclass[id]? = some p)
    (hlist : p.slab_list.length = p.list_size)
    (hcap : p.slabs ≤ p.list_size)
    (hdbl : p.list_size * 2 < 2 ^ 32) :
    ∃ p1, grow_slab_list e id true
        = some (1, { e with slabs :=
                      { e.slabs with slabclass := e.slabs.slabclass.set id p1 } }) ∧
      p.slabs < p1.slab_list.length ∧
      p1 = { p with list_size := p1.list_size, slab_list := p1.slab_list } := by
  have hid : id < e.slabs.slabclass.length := (List.getElem?_eq_some_iff.mp hp).1
  have hpe : e.slabs.slabclass[id] = p := (List.getElem?_eq_some_iff.mp hp).2
  unfold grow_slab_list
  rw [hp]
  simp only
  by_cases hfull : p.slabs = p.list_size
  · rw [if_pos hfull]
    simp only [Bool.true_eq_false, if_false]
    rw [slabclass_store_nat _ _ _ hid]
    refine ⟨_, rfl, ?_, rfl⟩
    simp only [List.length_append, List.length_take, List.length_replicate, wrap32]
    by_cases hz : p.list_size = 0
    · simp [hz, hlist]; omega
    · simp only [ne_eq, hz, not_false_eq_true, if_true]
      rw [Nat.mod_eq_of_lt hdbl]
      omega
  · rw [if_neg hfull]
    refine ⟨p, ?_, by omega, rfl⟩
    rw [list_set_same _ _ _ hp]

/-- The function `memory_allocate` changes at most `mem_current` and
`mem_avail`. -/
theorem memory_allocate_frame (e : default_engine) (size m : Nat) :
    (memory_allocate e size m).2 =
      { e with slabs := { e.slabs with
          mem_current := (memory_allocate e size m).2.slabs.mem_current,
          mem_avail := (memory_allocate e size m).2.slabs.mem_avail } } := by
  unfold memory_allocate
  split_ifs <;> rfl

/-- The pointer returned by `memory_allocate` does not depend on the slab
classes. -/
theorem memory_allocate_ptr (e : default_engine) (l : List slabclass_t) (size m : Nat) :
    (memory_allocate { e with slabs := { e.slabs with slabclass := l } } size m).1
      = (memory_allocate e size m).1 := by
  unfold memory_allocate
  simp only
  split_ifs <;> rfl

/-- The reservation step of `do_slabs_newslab` succeeds when the block class is
class 0; it keeps `mem_malloced` and changes at most the `rsvd_slabs` field of a
class. -/
theorem define_rsvd_slabs_ok (st : allocator)
    (hcls : st.sm_anchor.blck_clsid = 0)
    (hlen : 0 < st.engine.slabs.slabclass.length) :
    ∃ st1, define_rsvd_slabs st = some st1 ∧
      st1.engine.slabs.mem_malloced = st.engine.slabs.mem_malloced ∧
      (∀ (i : Nat) (q : slabclass_t), st.engine.slabs.slabclass[i]? = some q →
        ∃ q1, st1.engine.slabs.slabclass[i]? = some q1 ∧
          q1 = { q with rsvd_slabs := q1.rsvd_slabs }) := by
  unfold define_rsvd_slabs
  have h0 : st.engine.slabs.slabclass[0]? = some (st.engine.slabs.slabclass[0]) :=
    List.getElem?_eq_getElem hlen
  rw [hcls, slabclass_at_zero, h0]
  simp only
  by_cases h1 : under_pressure st.engine.slabs = true
  · rw [if_pos h1]
    by_cases h2 : (st.engine.slabs.slabclass[0]).rsvd_slabs = 0
    · rw [if_pos h2, slabclass_store_zero _ _ hlen]
      refine ⟨_, rfl, rfl, ?_⟩
      intro i q hq
      by_cases hi : i = 0
      · subst hi
        rw [h0] at hq
        cases hq
        exact ⟨_, List.getElem?_set_self hlen, rfl⟩
      · refine ⟨q, ?_, rfl⟩
        simp only
        rw [List.getElem?_set_ne (Ne.symm hi)]
        exact hq
    · rw [if_neg h2]
      exact ⟨st, rfl, rfl, fun i q hq => ⟨q, hq, rfl⟩⟩
  · rw [if_neg h1]
    exact ⟨st, rfl, rfl, fun i q hq => ⟨q, hq, rfl⟩⟩

/-- C10, amended: assuming the `slab_list` growth and the arena allocation
succeed, `do_slabs_newslab(id)` is admitted (returns 1, adds one page, sets
`end_page_free = perslab` and increases `mem_malloced` by `size * perslab`) if
and only if `mem_limit = 0` (no limit configured), or
`mem_malloced + size * perslab <= mem_limit`, or
`slabclass[id].slabs < slabclass[id].rsvd_slabs`; when it is refused it returns
0 and changes no allocator state, so the allocation that needed it (no chunk on
the free list and none left in the current page) returns null. The other
hypotheses say that the block class is class 0, that the `slab_list` array has
`list_size` cells of which `slabs` are in use, and that no fixed-width
computation wraps. -/
theorem newslab_admission (st : allocator) (id : Nat) (p : slabclass_t) (malloc_ret : Nat)
    (hp : st.engine.slabs.slabclass[id]? = some p)
    (hcls : st.sm_anchor.blck_clsid = 0)
    (hlen : p.size * p.perslab < 2 ^ 31)
    (hmm : st.engine.slabs.mem_malloced + p.size * p.perslab < 2 ^ 64)
    (hslabs : p.slabs + 1 < 2 ^ 32)
    (hlist : p.slab_list.length = p.list_size)
    (hcap : p.slabs ≤ p.list_size)
    (hdbl : p.list_size * 2 < 2 ^ 32)
    (hmem : (memory_allocate st.engine (p.size * p.perslab) malloc_ret).1 ≠ 0) :
    ∃ r st1, do_slabs_newslab st id true malloc_ret = some (r, st1) ∧
      (r = 1 ↔ (st.engine.slabs.mem_limit = 0 ∨
                st.engine.slabs.mem_malloced + p.size * p.perslab ≤ st.engine.slabs.mem_limit ∨
                p.slabs < p.rsvd_slabs)) ∧
      (r = 1 →
        st1.engine.slabs.mem_malloced = st.engine.slabs.mem_malloced + p.size * p.perslab ∧
        ∃ q, st1.engine.slabs.slabclass[id]? = some q ∧
          q.slabs = p.slabs + 1 ∧ q.end_page_free = p.perslab ∧
          q.end_page_ptr = (memory_allocate st.engine (p.size * p.perslab) malloc_ret).1 ∧
          q.slab_list[p.slabs]?
            = some (memory_allocate st.engine (p.size * p.perslab) malloc_ret).1) ∧
      (r ≠ 1 → r = 0 ∧ st1 = st ∧
        (p.end_page_ptr = 0 → p.sl_curr = 0 →
          ∀ size, do_slabs_alloc st size id true malloc_ret = some (0, st))) := by
  have hid : id < st.engine.slabs.slabclass.length := (List.getElem?_eq_some_iff.mp hp).1
  have hrefiff := newslab_refused_iff st.engine.slabs p hlen hmm
  by_cases href : newslab_refused st.engine.slabs p = true
  · have hnew : do_slabs_newslab st id true malloc_ret = some (0, st) := by
      simp only [do_slabs_newslab, hp, href, if_true]
    have hcond := hrefiff.mp href
    refine ⟨0, st, hnew, ?_, ?_, ?_⟩
    · constructor
      · intro h; exact absurd h (by decide)
      · intro h; omega
    · intro h; exact absurd h (by decide)
    · intro _
      refine ⟨rfl, rfl, ?_⟩
      intro h1 h2 size
      simp [do_slabs_alloc, hp, h1, h2, hnew]
  · have hadm : st.engine.slabs.mem_limit = 0 ∨
        st.engine.slabs.mem_malloced + p.size * p.perslab ≤ st.engine.slabs.mem_limit ∨
        p.slabs < p.rsvd_slabs := by
      by_contra hcon
      apply href
      rw [hrefiff]
      omega
    obtain ⟨p1, hgrow, hlt, hp1⟩ := grow_slab_list_ok st.engine id p hp hlist hcap hdbl
    have hn : int_to_size_t (newslab_len p) = p.size * p.perslab := by
      rw [newslab_len_eq p hlen, int_to_size_t_nat _ (by omega)]
    have hptr := memory_allocate_ptr st.engine (st.engine.slabs.slabclass.set id p1)
      (p.size * p.perslab) malloc_ret
    have hfr := memory_allocate_frame
      { st.engine with slabs :=
          { st.engine.slabs with slabclass := st.engine.slabs.slabclass.set id p1 } }
      (p.size * p.perslab) malloc_ret
    cases hma : memory_allocate
      { st.engine with slabs :=
          { st.engine.slabs with slabclass := st.engine.slabs.slabclass.set id p1 } }
      (p.size * p.perslab) malloc_ret with
    | mk ptr e2 =>
      rw [hma] at hptr hfr
      simp only at hptr hfr
      have hptr0 : ptr ≠ 0 := by rw [hptr]; exact hmem
      simp only [do_slabs_newslab, hp, href, hgrow, hn, hma]
      have hp1s : p1.slabs = p.slabs := by rw [hp1]
      have hp1p : p1.perslab = p.perslab := by rw [hp1]
      have he2c : e2.slabs.slabclass[id]? = some p1 := by
        rw [hfr]; exact List.getElem?_set_self hid
      have he2l : id < e2.slabs.slabclass.length := (List.getElem?_eq_some_iff.mp he2c).1
      simp only [Bool.false_eq_true, if_false, one_ne_zero, hptr0, he2c]
      rw [if_pos (by omega), slabclass_store_nat _ _ _ he2l]
      simp only
      obtain ⟨st1, hdef, hmal, hcl⟩ := define_rsvd_slabs_ok
        { engine :=
            { config := e2.config,
              slabs :=
                { slabclass := e2.slabs.slabclass.set id
                    { size := p1.size, perslab := p1.perslab, rsvd_slabs := p1.rsvd_slabs,
                      slots := p1.slots, sl_total := p1.sl_total, sl_curr := p1.sl_curr,
                      end_page_ptr := ptr, end_page_free := p1.perslab,
                      slabs := wrap32 (p1.slabs + 1), slab_list := p1.slab_list.set p1.slabs ptr,
                      list_size := p1.list_size, requested := p1.requested },
                  mem_limit := e2.slabs.mem_limit,
                  mem_malloced := wrap64 (e2.slabs.mem_malloced + p.size * p.perslab),
                  mem_reserved := e2.slabs.mem_reserved,
                  power_largest := e2.slabs.power_largest, mem_base := e2.slabs.mem_base,
                  mem_current := e2.slabs.mem_current, mem_avail := e2.slabs.mem_avail } },
          sm_anchor := st.sm_anchor, wakeups := st.wakeups }
        hcls (by simp only [List.length_set]; omega)
      rw [hdef]
      refine ⟨1, st1, rfl, ⟨fun _ => hadm, fun _ => rfl⟩, ?_, fun h => absurd rfl h⟩
      intro _
      constructor
      · rw [hmal]
        simp only
        have : e2.slabs.mem_malloced = st.engine.slabs.mem_malloced := by rw [hfr]
        rw [this, wrap64, Nat.mod_eq_of_lt hmm]
      · obtain ⟨q1, hq1, hq1eq⟩ := hcl id _ (List.getElem?_set_self he2l)
        refine ⟨q1, hq1, ?_, ?_, ?_, ?_⟩
        · rw [hq1eq]; simp only
          rw [hp1s, wrap32, Nat.mod_eq_of_lt hslabs]
        · rw [hq1eq]; exact hp1p
        · rw [hq1eq]; exact hptr
        · rw [hq1eq]; simp only
          rw [hp1s, ← hptr]
          exact List.getElem?_set_self hlt

/-- Witness of `newslab_admission`: class 0 of the state `state_page_used`, whose
single page is handed out, under a 16 MiB limit; `malloc` answers the address
of the next page. -/
theorem newslab_admission_witness :
    (state_page_used.engine.slabs.slabclass[0]? = some (mk_class base0 65536 16 0 1 0) ∧
      state_page_used.sm_anchor.blck_clsid = 0 ∧
      (mk_class base0 65536 16 0 1 0).size * (mk_class base0 65536 16 0 1 0).perslab < 2 ^ 31 ∧
      state_page_used.engine.slabs.mem_malloced
        + (mk_class base0 65536 16 0 1 0).size * (mk_class base0 65536 16 0 1 0).perslab
        < 2 ^ 64 ∧
      (mk_class base0 65536 16 0 1 0).slabs + 1 < 2 ^ 32 ∧
      (mk_class base0 65536 16 0 1 0).slab_list.length
        = (mk_class base0 65536 16 0 1 0).list_size ∧
      (mk_class base0 65536 16 0 1 0).slabs ≤ (mk_class base0 65536 16 0 1 0).list_size ∧
      (mk_class base0 65536 16 0 1 0).list_size * 2 < 2 ^ 32 ∧
      (memory_allocate state_page_used.engine
        ((mk_class base0 65536 16 0 1 0).size * (mk_class base0 65536 16 0 1 0).perslab)
        (base0 + 1048576)).1 ≠ 0) ∧
    ∃ r st1, do_slabs_newslab state_page_used 0 true (base0 + 1048576) = some (r, st1) ∧
      (r = 1 ↔ (state_page_used.engine.slabs.mem_limit = 0 ∨
                state_page_used.engine.slabs.mem_malloced
                  + (mk_class base0 65536 16 0 1 0).size
                    * (mk_class base0 65536 16 0 1 0).perslab
                  ≤ state_page_used.engine.slabs.mem_limit ∨
                (mk_class base0 65536 16 0 1 0).slabs
                  < (mk_class base0 65536 16 0 1 0).rsvd_slabs)) ∧
      (r = 1 →
        st1.engine.slabs.mem_malloced
          = state_page_used.engine.slabs.mem_malloced
            + (mk_class base0 65536 16 0 1 0).size * (mk_class base0 65536 16 0 1 0).perslab ∧
        ∃ q, st1.engine.slabs.slabclass[0]? = some q ∧
          q.slabs = (mk_class base0 65536 16 0 1 0).slabs + 1 ∧
          q.end_page_free = (mk_class base0 65536 16 0 1 0).perslab ∧
          q.end_page_ptr = (memory_allocate state_page_used.engine
            ((mk_class base0 65536 16 0 1 0).size * (mk_class base0 65536 16 0 1 0).perslab)
            (base0 + 1048576)).1 ∧
          q.slab_list[(mk_class base0 65536 16 0 1 0).slabs]?
            = some (memory_allocate state_page_used.engine
                ((mk_class base0 65536 16 0 1 0).size
                  * (mk_class base0 65536 16 0 1 0).perslab)
                (base0 + 1048576)).1) ∧
      (r ≠ 1 → r = 0 ∧ st1 = state_page_used ∧
        ((mk_class base0 65536 16 0 1 0).end_page_ptr = 0 →
          (mk_class base0 65536 16 0 1 0).sl_curr = 0 →
          ∀ size, do_slabs_alloc state_page_used size 0 true (base0 + 1048576)
            = some (0, state_page_used))) :=
  ⟨⟨by decide, by decide, by decide, by decide, by decide, by decide, by decide, by decide,
      by decide⟩,
    newslab_admission state_page_used 0 (mk_class base0 65536 16 0 1 0) (base0 + 1048576)
      (by decide) (by decide) (by decide) (by decide) (by decide) (by decide) (by decide)
      (by decide) (by decide)⟩

/-- C10, counterexample: in the state `state_unlimited` no limit is configured
(`mem_limit = 0`) and the 1 MiB class (id 3) owns as many pages as its
reservation; neither `mem_malloced + page_size <= mem_limit` nor
`slabs < rsvd_slabs` holds, yet `do_slabs_newslab(3)` is admitted and returns
1. -/
theorem newslab_admitted_without_limit :
    state_unlimited.engine.slabs.slabclass[3]? = some (mk_class (2 ^ 35) 1048576 1 4 4 0) ∧
      ¬ (state_unlimited.engine.slabs.mem_malloced + 1048576 * 1
            ≤ state_unlimited.engine.slabs.mem_limit ∨
          (mk_class (2 ^ 35) 1048576 1 4 4 0).slabs
            < (mk_class (2 ^ 35) 1048576 1 4 4 0).rsvd_slabs) ∧
      (do_slabs_newslab state_unlimited 3 true (2 ^ 35 + 4 * 1048576)).map Prod.fst
        = some 1 := by
  decide

/-! ### Range of the returned level -/

/-- Whenever the level computation returns, the level lies in `[0, 100]`
(the budget `limit` being below `2^26`, as `limit_nchunk` always is). -/
theorem space_shortage_level_range (limit avail : Nat) (v : Int)
    (hl : limit < 2 ^ 26) (hle : avail ≤ limit)
    (h : space_shortage_level limit avail = some v) : 0 ≤ v ∧ v ≤ 100 := by
  unfold space_shortage_level at h
  simp only [MAX_SPACE_SHORTAGE_LEVEL] at h
  by_cases h0 : avail ≤ 0
  · rw [if_pos h0] at h
    cases h
    omega
  · rw [if_neg h0] at h
    have hq : limit / avail < 2 ^ 31 := by
      have := Nat.div_le_self limit avail
      omega
    rw [to_int_small _ hq] at h
    by_cases h1 : ((limit / avail : Nat) : Int) = 1
    · rw [if_pos h1] at h
      by_cases h6 : limit / 6 = 0
      · rw [if_pos h6] at h
        cases h
      · rw [if_neg h6] at h
        have hone : limit / avail = 1 := by omega
        have hlt2 : limit < 2 * avail := by
          have := Nat.lt_succ_iff.mpr (le_of_eq hone)
          have h3 : limit / avail < 2 := by omega
          rw [Nat.div_lt_iff_lt_mul (by omega)] at h3
          omega
        have hq5 : (limit - avail) / (limit / 6) < 6 := by
          rw [Nat.div_lt_iff_lt_mul (by omega)]
          omega
        have hs : int_to_size_t 1 = 1 := by decide
        rw [h1, hs] at h
        have hw : wrap64 (1 + (limit - avail) / (limit / 6))
            = 1 + (limit - avail) / (limit / 6) := by
          unfold wrap64
          apply Nat.mod_eq_of_lt
          omega
        rw [hw, to_int_small _ (by omega)] at h
        cases h
        omega
    · rw [if_neg h1] at h
      have hnn : (0 : Int) ≤ ((limit / avail : Nat) : Int) := Int.ofNat_nonneg _
      split_ifs at h with h2
      · cases h; omega
      · cases h; omega

/-- Whenever `slabs_short_of_free_space` returns, the level lies in `[0, 100]`:
only an undefined execution escapes the range. -/
theorem shortage_level_range_of_some (st : allocator) (v : Int)
    (h : slabs_short_of_free_space st = some v) : 0 ≤ v ∧ v ≤ 100 := by
  unfold slabs_short_of_free_space at h
  split at h
  · split at h
    · cases h
    · rename_i p _
      split at h
      · split at h
        · cases h
        · rename_i avail _
          split at h
          · exact space_shortage_level_range _ _ _ (limit_nchunk_lt p) (by assumption) h
          · cases h; omega
      · cases h; omega
  · cases h; omega

/-! ### Effect of `do_slabs_newslab` on the classes -/

/-- A successful store changes one cell of the class array. -/
theorem slabclass_store_some (e e1 : default_engine) (i : Int) (p : slabclass_t)
    (h : slabclass_store e i p = some e1) :
    0 ≤ i ∧ i.toNat < e.slabs.slabclass.length ∧
      e1 = { e with slabs := { e.slabs with slabclass := e.slabs.slabclass.set i.toNat p } } := by
  unfold slabclass_store at h
  split_ifs at h with hc
  cases h
  exact ⟨hc.1, hc.2, rfl⟩

/-- The outcomes of `grow_slab_list`: only `slab_list` and `list_size` of the
class may change, and after a success the array has room for one more page. -/
theorem grow_slab_list_cases (e e1 : default_engine) (id : Nat) (realloc_ok : Bool)
    (p : slabclass_t) (g : Int)
    (hp : e.slabs.slabclass[id]? = some p)
    (h : grow_slab_list e id realloc_ok = some (g, e1)) :
    ∃ p1, e1 = { e with slabs :=
                  { e.slabs with slabclass := e.slabs.slabclass.set id p1 } } ∧
      p1 = { p with list_size := p1.list_size, slab_list := p1.slab_list } ∧
      (g = 0 ∨ g = 1) ∧ (g = 0 → p1 = p) ∧
      (p.slab_list.length = p.list_size → p1.slab_list.length = p1.list_size) ∧
      (g = 1 → p.slabs ≤ p.list_size → p.list_size * 2 < 2 ^ 32 →
        p.slabs < p1.list_size) := by
  have hid : id < e.slabs.slabclass.length := (List.getElem?_eq_some_iff.mp hp).1
  have hself : e = { e with slabs :=
      { e.slabs with slabclass := e.slabs.slabclass.set id p } } := by
    rw [list_set_same _ _ _ hp]
  unfold grow_slab_list at h
  rw [hp] at h
  simp only at h
  by_cases hfull : p.slabs = p.list_size
  · rw [if_pos hfull] at h
    cases realloc_ok with
    | false =>
      simp only [if_true] at h
      cases h
      exact ⟨p, hself, rfl, Or.inl rfl, fun _ => rfl, fun h1 => h1,
        fun h => absurd h (by decide)⟩
    | true =>
      simp only [Bool.true_eq_false, if_false] at h
      rw [slabclass_store_nat _ _ _ hid] at h
      cases h
      refine ⟨_, rfl, rfl, Or.inr rfl, fun h => absurd h (by decide), ?_, ?_⟩
      · intro h1
        simp only [List.length_append, List.length_take, List.length_replicate, wrap32]
        by_cases hz : p.list_size = 0
        · simp [hz, h1]
        · simp only [ne_eq, hz, not_false_eq_true, if_true]
          have : p.list_size * 2 % 2 ^ 32 % 2 ^ 32 = p.list_size * 2 % 2 ^ 32 :=
            Nat.mod_mod _ _
          omega
      · intro _ h2 h3
        simp only [wrap32]
        by_cases hz : p.list_size = 0
        · simp [hz]; omega
        · simp only [ne_eq, hz, not_false_eq_true, if_true]
          rw [Nat.mod_eq_of_lt h3, Nat.mod_eq_of_lt h3]
          omega
  · rw [if_neg hfull] at h
    cases h
    exact ⟨p, hself, rfl, Or.inr rfl, fun _ => rfl, fun h1 => h1,
      fun _ h2 _ => by omega⟩

/-- The outcomes of `do_slabs_newslab`, for every answer of the C library. When
0 is returned, at most the `slab_list` array of the class and the bump pointer
of a pre-allocated arena have changed. When 1 is returned, the growth was not
refused, a page `ptr` is installed in the class, `mem_malloced` has grown by the
page length, and the reservation step has run on that state. -/
theorem newslab_result (st st1 : allocator) (id : Nat) (realloc_ok : Bool) (malloc_ret : Nat)
    (p : slabclass_t) (r : Int)
    (hp : st.engine.slabs.slabclass[id]? = some p)
    (h : do_slabs_newslab st id realloc_ok malloc_ret = some (r, st1)) :
    (r = 0 ∧ ∃ p1 mc ma,
        p1 = { p with list_size := p1.list_size, slab_list := p1.slab_list } ∧
        (p.slab_list.length = p.list_size → p1.slab_list.length = p1.list_size) ∧
        (p.slabs ≤ p.list_size → p.list_size * 2 < 2 ^ 32 → p.slabs ≤ p1.list_size) ∧
        st1 = { st with engine := { st.engine with slabs := { st.engine.slabs with
                  slabclass := st.engine.slabs.slabclass.set id p1,
                  mem_current := mc, mem_avail := ma } } }) ∨
    (r = 1 ∧ newslab_refused st.engine.slabs p = false ∧ ∃ q0 mc ma ptr,
        ptr ≠ 0 ∧
        q0 = { p with list_size := q0.list_size, slab_list := q0.slab_list,
                      slabs := wrap32 (p.slabs + 1), end_page_ptr := ptr,
                      end_page_free := p.perslab } ∧
        (p.slab_list.length = p.list_size → q0.slab_list.length = q0.list_size) ∧
        (p.slabs ≤ p.list_size → p.list_size * 2 < 2 ^ 32 → p.slabs < q0.list_size) ∧
        define_rsvd_slabs
          { st with engine := { st.engine with slabs := { st.engine.slabs with
              slabclass := st.engine.slabs.slabclass.set id q0,
              mem_malloced :=
                wrap64 (st.engine.slabs.mem_malloced + int_to_size_t (newslab_len p)),
              mem_current := mc, mem_avail := ma } } } = some st1) := by
  have hid : id < st.engine.slabs.slabclass.length := (List.getElem?_eq_some_iff.mp hp).1
  unfold do_slabs_newslab at h
  rw [hp] at h
  simp only at h
  by_cases href : newslab_refused st.engine.slabs p = true
  · rw [if_pos href] at h
    cases h
    refine Or.inl ⟨rfl, p, st.engine.slabs.mem_current, st.engine.slabs.mem_avail, rfl,
      fun h => h, fun h _ => h, ?_⟩
    rw [list_set_same _ _ _ hp]
  · rw [if_neg href] at h
    have hreff : newslab_refused st.engine.slabs p = false := by
      cases hh : newslab_refused st.engine.slabs p
      · rfl
      · exact absurd hh href
    cases hg : grow_slab_list st.engine id realloc_ok with
    | none => rw [hg] at h; cases h
    | some ge =>
      obtain ⟨g, e1⟩ := ge
      rw [hg] at h
      simp only at h
      obtain ⟨p1, he1, hp1, hg01, hg0, hwf1, hwf2⟩ :=
        grow_slab_list_cases st.engine e1 id realloc_ok p g hp hg
      by_cases hgz : g = 0
      · rw [if_pos hgz] at h
        cases h
        refine Or.inl ⟨rfl, p, st.engine.slabs.mem_current, st.engine.slabs.mem_avail, rfl,
          fun h => h, fun h _ => h, ?_⟩
        rw [he1, hg0 hgz, list_set_same _ _ _ hp]
      · rw [if_neg hgz] at h
        have hg1 : g = 1 := by rcases hg01 with h0 | h1; exact absurd h0 hgz; exact h1
        have hfr := memory_allocate_frame e1 (int_to_size_t (newslab_len p)) malloc_ret
        cases hma : memory_allocate e1 (int_to_size_t (newslab_len p)) malloc_ret with
        | mk ptr e2 =>
          rw [hma] at h hfr
          simp only at h hfr
          have he2c : e2.slabs.slabclass = st.engine.slabs.slabclass.set id p1 := by
            rw [hfr, he1]
          have he2s : e2.slabs.slabclass[id]? = some p1 := by
            rw [he2c]; exact List.getElem?_set_self hid
          have he2l : id < e2.slabs.slabclass.length := (List.getElem?_eq_some_iff.mp he2s).1
          by_cases hptr : ptr = 0
          · rw [if_pos hptr] at h
            cases h
            refine Or.inl ⟨rfl, p1, e2.slabs.mem_current, e2.slabs.mem_avail, hp1, hwf1,
              ?_, ?_⟩
            · intro h1 h2
              exact Nat.le_of_lt (hwf2 hg1 h1 h2)
            · rw [hfr, he1]
          · rw [if_neg hptr, he2s] at h
            simp only at h
            by_cases hroom : p1.slabs < p1.slab_list.length
            · rw [if_pos hroom, slabclass_store_nat _ _ _ he2l] at h
              simp only at h
              cases hd : define_rsvd_slabs
                  { engine :=
                      { config := e2.config,
                        slabs :=
                          { slabclass := e2.slabs.slabclass.set id
                              { size := p1.size, perslab := p1.perslab,
                                rsvd_slabs := p1.rsvd_slabs, slots := p1.slots,
                                sl_total := p1.sl_total, sl_curr := p1.sl_curr,
                                end_page_ptr := ptr, end_page_free := p1.perslab,
                                slabs := wrap32 (p1.slabs + 1),
                                slab_list := p1.slab_list.set p1.slabs ptr,
                                list_size := p1.list_size, requested := p1.requested },
                            mem_limit := e2.slabs.mem_limit,
                            mem_malloced :=
                              wrap64 (e2.slabs.mem_malloced + int_to_size_t (newslab_len p)),
                            mem_reserved := e2.slabs.mem_reserved,
                            power_largest := e2.slabs.power_largest,
                            mem_base := e2.slabs.mem_base,
                            mem_current := e2.slabs.mem_current,
                            mem_avail := e2.slabs.mem_avail } },
                    sm_anchor := st.sm_anchor, wakeups := st.wakeups } with
              | none => rw [hd] at h; cases h
              | some st2 =>
                rw [hd] at h
                cases h
                have hsz : p1.size = p.size := by rw [hp1]
                have hps : p1.perslab = p.perslab := by rw [hp1]
                have hrs : p1.rsvd_slabs = p.rsvd_slabs := by rw [hp1]
                have hsl : p1.slots = p.slots := by rw [hp1]
                have hst : p1.sl_total = p.sl_total := by rw [hp1]
                have hsc : p1.sl_curr = p.sl_curr := by rw [hp1]
                have hsb : p1.slabs = p.slabs := by rw [hp1]
                have hrq : p1.requested = p.requested := by rw [hp1]
                refine Or.inr ⟨rfl, hreff,
                  { p1 with end_page_ptr := ptr, end_page_free := p1.perslab,
                            slab_list := p1.slab_list.set p1.slabs ptr,
                            slabs := wrap32 (p1.slabs + 1) },
                  e2.slabs.mem_current, e2.slabs.mem_avail, ptr, hptr, ?_, ?_, ?_, ?_⟩
                · simp only [slabclass_t.mk.injEq]
                  simp [hsz, hps, hrs, hsl, hst, hsc, hsb, hrq]
                · intro h1
                  simp only [List.length_set]
                  exact hwf1 h1
                · intro h1 h2
                  exact hwf2 hg1 h1 h2
                · rw [← hd]
                  congr 1
                  rw [hfr, he1]
                  simp only [List.set_set]
            · rw [if_neg hroom] at h
              cases h


/-- The outcomes of the reservation step: nothing changes, or the arena is
under pressure, the reservation of the block class was undefined, and it is
now defined from the page count of that class. -/
theorem define_rsvd_slabs_cases (x st1 : allocator) (h : define_rsvd_slabs x = some st1) :
    st1 = x ∨
    ∃ z, under_pressure x.engine.slabs = true ∧ 0 ≤ x.sm_anchor.blck_clsid ∧
      x.engine.slabs.slabclass[x.sm_anchor.blck_clsid.toNat]? = some z ∧ z.rsvd_slabs = 0 ∧
      st1 = { x with
        engine := { x.engine with slabs := { x.engine.slabs with
          slabclass := x.engine.slabs.slabclass.set x.sm_anchor.blck_clsid.toNat
            { z with rsvd_slabs := defined_rsvd_slabs z.slabs } } },
        wakeups := x.wakeups + 1 } := by
  unfold define_rsvd_slabs at h
  by_cases hpr : under_pressure x.engine.slabs = true
  · rw [if_pos hpr] at h
    cases hz : slabclass_at x.engine x.sm_anchor.blck_clsid with
    | none => rw [hz] at h; cases h
    | some z =>
      rw [hz] at h
      simp only at h
      have hz1 : 0 ≤ x.sm_anchor.blck_clsid ∧
          x.engine.slabs.slabclass[x.sm_anchor.blck_clsid.toNat]? = some z := by
        unfold slabclass_at at hz
        split_ifs at hz with hc
        exact ⟨hc, hz⟩
      by_cases hr : z.rsvd_slabs = 0
      · rw [if_pos hr] at h
        cases hs : slabclass_store x.engine x.sm_anchor.blck_clsid
            { z with rsvd_slabs := wrap32 (z.slabs +
                (if wrap32 ((z.slabs / 100) * RESERVED_SLAB_RATIO) < RESERVED_SLABS
                 then RESERVED_SLABS
                 else wrap32 ((z.slabs / 100) * RESERVED_SLAB_RATIO))) } with
        | none => rw [hs] at h; cases h
        | some e1 =>
          rw [hs] at h
          cases h
          obtain ⟨_, _, he1⟩ := slabclass_store_some _ _ _ _ hs
          exact Or.inr ⟨z, hpr, hz1.1, hz1.2, hr, by rw [he1]; rfl⟩
      · rw [if_neg hr] at h
        cases h
        exact Or.inl rfl
  · rw [if_neg hpr] at h
    cases h
    exact Or.inl rfl

/-- The reservation step when the block class is class 0. -/
theorem define_rsvd_slabs_zero (x : allocator) (z : slabclass_t)
    (hcls : x.sm_anchor.blck_clsid = 0)
    (hz : x.engine.slabs.slabclass[0]? = some z) :
    define_rsvd_slabs x = some
      (if under_pressure x.engine.slabs = true ∧ z.rsvd_slabs = 0 then
        { x with
          engine := { x.engine with slabs := { x.engine.slabs with
            slabclass := x.engine.slabs.slabclass.set 0
              { z with rsvd_slabs := defined_rsvd_slabs z.slabs } } },
          wakeups := x.wakeups + 1 }
       else x) := by
  have hlen : 0 < x.engine.slabs.slabclass.length := (List.getElem?_eq_some_iff.mp hz).1
  unfold define_rsvd_slabs
  rw [hcls, slabclass_at_zero, hz]
  simp only
  by_cases hpr : under_pressure x.engine.slabs = true
  · by_cases hr : z.rsvd_slabs = 0
    · simp only [hpr, hr, if_true, and_self, slabclass_store_zero _ _ hlen,
        defined_rsvd_slabs]
    · simp only [hpr, hr, if_true, if_false, and_false]
  · simp [hpr]

/-- The reservation defined by the code, without wrap-around. -/
theorem defined_rsvd_slabs_eq (slabs : Nat) (h : slabs < 2 ^ 31) :
    defined_rsvd_slabs slabs
      = slabs + max RESERVED_SLABS ((slabs / 100) * RESERVED_SLAB_RATIO) := by
  unfold defined_rsvd_slabs wrap32 RESERVED_SLABS RESERVED_SLAB_RATIO
  have h1 : slabs / 100 * 4 % 2 ^ 32 = slabs / 100 * 4 := Nat.mod_eq_of_lt (by omega)
  rw [h1]
  split_ifs with h2
  · rw [Nat.mod_eq_of_lt (by omega)]; omega
  · rw [Nat.mod_eq_of_lt (by omega)]; omega

/-- The function `do_slabs_newslab` returns, whatever the C library answers,
when the class exists with a `slab_list` array of `list_size` cells of which
`slabs` are used, and the block class is class 0. -/
theorem newslab_returns (st : allocator) (id : Nat) (realloc_ok : Bool) (malloc_ret : Nat)
    (p : slabclass_t)
    (hp : st.engine.slabs.slabclass[id]? = some p)
    (hcls : st.sm_anchor.blck_clsid = 0)
    (hlist : p.slab_list.length = p.list_size)
    (hcap : p.slabs ≤ p.list_size)
    (hdbl : p.list_size * 2 < 2 ^ 32) :
    ∃ r st1, do_slabs_newslab st id realloc_ok malloc_ret = some (r, st1) := by
  have hid : id < st.engine.slabs.slabclass.length := (List.getElem?_eq_some_iff.mp hp).1
  unfold do_slabs_newslab
  rw [hp]
  simp only
  by_cases href : newslab_refused st.engine.slabs p = true
  · rw [if_pos href]; exact ⟨_, _, rfl⟩
  · rw [if_neg href]
    have hgex : ∃ g e1, grow_slab_list st.engine id realloc_ok = some (g, e1) := by
      unfold grow_slab_list
      rw [hp]
      simp only
      by_cases hfull : p.slabs = p.list_size
      · rw [if_pos hfull]
        cases realloc_ok with
        | false => exact ⟨_, _, rfl⟩
        | true =>
          simp only [Bool.true_eq_false, if_false]
          rw [slabclass_store_nat _ _ _ hid]; exact ⟨_, _, rfl⟩
      · rw [if_neg hfull]; exact ⟨_, _, rfl⟩
    obtain ⟨g, e1, hg⟩ := hgex
    obtain ⟨p1, he1, hp1, hg01, hg0, hwf1, hwf2⟩ :=
      grow_slab_list_cases st.engine e1 id realloc_ok p g hp hg
    rw [hg]
    simp only
    by_cases hgz : g = 0
    · rw [if_pos hgz]; exact ⟨_, _, rfl⟩
    · rw [if_neg hgz]
      have hg1 : g = 1 := by rcases hg01 with h0 | h1; exact absurd h0 hgz; exact h1
      have hfr := memory_allocate_frame e1 (int_to_size_t (newslab_len p)) malloc_ret
      cases hma : memory_allocate e1 (int_to_size_t (newslab_len p)) malloc_ret with
      | mk ptr e2 =>
        rw [hma] at hfr
        simp only at hfr ⊢
        have he2c : e2.slabs.slabclass = st.engine.slabs.slabclass.set id p1 := by
          rw [hfr, he1]
        have he2s : e2.slabs.slabclass[id]? = some p1 := by
          rw [he2c]; exact List.getElem?_set_self hid
        have he2l : id < e2.slabs.slabclass.length := (List.getElem?_eq_some_iff.mp he2s).1
        by_cases hptr : ptr = 0
        · rw [if_pos hptr]; exact ⟨_, _, rfl⟩
        · rw [if_neg hptr, he2s]
          simp only
          have hsb : p1.slabs = p.slabs := by rw [hp1]
          have hroom : p1.slabs < p1.slab_list.length := by
            rw [hwf1 hlist, hsb]; exact hwf2 hg1 hcap hdbl
          rw [if_pos hroom, slabclass_store_nat _ _ _ he2l]
          simp only
          obtain ⟨st1, hdef, _, _⟩ := define_rsvd_slabs_ok
            { engine :=
                { config := e2.config,
                  slabs :=
                    { slabclass := e2.slabs.slabclass.set id
                        { size := p1.size, perslab := p1.perslab,
                          rsvd_slabs := p1.rsvd_slabs, slots := p1.slots,
                          sl_total := p1.sl_total, sl_curr := p1.sl_curr,
                          end_page_ptr := ptr, end_page_free := p1.perslab,
                          slabs := wrap32 (p1.slabs + 1),
                          slab_list := p1.slab_list.set p1.slabs ptr,
                          list_size := p1.list_size, requested := p1.requested },
                      mem_limit := e2.slabs.mem_limit,
                      mem_malloced :=
                        wrap64 (e2.slabs.mem_malloced + int_to_size_t (newslab_len p)),
                      mem_reserved := e2.slabs.mem_reserved,
                      power_largest := e2.slabs.power_largest,
                      mem_base := e2.slabs.mem_base,
                      mem_current := e2.slabs.mem_current,
                      mem_avail := e2.slabs.mem_avail } },
              sm_anchor := st.sm_anchor, wakeups := st.wakeups }
            hcls (by simp only [List.length_set]; omega)
          rw [hdef]
          exact ⟨_, _, rfl⟩

/-- C11, amended: `do_slabs_newslab` returns, and when the growth succeeds (1 is
returned) and leaves the arena under pressure (`mem_limit <= mem_malloced` or
`mem_limit - mem_malloced < mem_reserved`) while the `rsvd_slabs` of class 0 is
still undefined (0), it sets the `rsvd_slabs` of class 0 to
`class0.slabs + max(RESERVED_SLABS, (class0.slabs / 100) * 4)` with
`RESERVED_SLABS = 4`, the page count being the one after the growth and the
division being taken first; in every other case it leaves the `rsvd_slabs` of
class 0 unchanged. The hypotheses say that the class exists with a `slab_list`
array of `list_size` cells of which `slabs` are used, that the block class is
class 0, and that no page count wraps. -/
theorem newslab_defines_reservation (st : allocator) (id : Nat) (realloc_ok : Bool)
    (malloc_ret : Nat) (p z : slabclass_t)
    (hp : st.engine.slabs.slabclass[id]? = some p)
    (hz : st.engine.slabs.slabclass[0]? = some z)
    (hcls : st.sm_anchor.blck_clsid = 0)
    (hlist : p.slab_list.length = p.list_size)
    (hcap : p.slabs ≤ p.list_size)
    (hdbl : p.list_size * 2 < 2 ^ 32)
    (hb : z.slabs + 1 < 2 ^ 31) :
    ∃ r st1 z1, do_slabs_newslab st id realloc_ok malloc_ret = some (r, st1) ∧
      st1.engine.slabs.slabclass[0]? = some z1 ∧
      z1.rsvd_slabs =
        if r = 1 ∧ under_pressure st1.engine.slabs = true ∧ z.rsvd_slabs = 0
        then z1.slabs + max RESERVED_SLABS ((z1.slabs / 100) * RESERVED_SLAB_RATIO)
        else z.rsvd_slabs := by
  have hid : id < st.engine.slabs.slabclass.length := (List.getElem?_eq_some_iff.mp hp).1
  have h0 : 0 < st.engine.slabs.slabclass.length := (List.getElem?_eq_some_iff.mp hz).1
  obtain ⟨r, st1, h⟩ := newslab_returns st id realloc_ok malloc_ret p hp hcls hlist hcap hdbl
  refine ⟨r, st1, ?_⟩
  rcases newslab_result st st1 id realloc_ok malloc_ret p r hp h with
    ⟨hr, p1, mc, ma, hp1, _, _, hst1⟩ | ⟨hr, _, q0, mc, ma, ptr, hptr, hq0, _, _, hdef⟩
  · -- nothing installed
    have hz1 : ∃ z1, st1.engine.slabs.slabclass[0]? = some z1 ∧ z1.rsvd_slabs = z.rsvd_slabs := by
      rw [hst1]
      simp only
      by_cases hi : id = 0
      · subst hi
        rw [hz] at hp; cases hp
        exact ⟨p1, List.getElem?_set_self h0, by rw [hp1]⟩
      · exact ⟨z, by rw [List.getElem?_set_ne hi]; exact hz, rfl⟩
    obtain ⟨z1, hz1a, hz1b⟩ := hz1
    refine ⟨z1, h, hz1a, ?_⟩
    rw [if_neg (by rw [hr]; intro hc; exact absurd hc.1 (by decide))]
    exact hz1b
  · -- a page installed, then the reservation step
    -- class 0 before the reservation step
    have hzx : ∃ zx, (st.engine.slabs.slabclass.set id q0)[0]? = some zx ∧
        zx.rsvd_slabs = z.rsvd_slabs ∧ zx.slabs < 2 ^ 31 := by
      by_cases hi : id = 0
      · subst hi
        rw [hz] at hp; cases hp
        refine ⟨q0, List.getElem?_set_self h0, by rw [hq0], ?_⟩
        rw [hq0]; simp only [wrap32]
        rw [Nat.mod_eq_of_lt (by omega)]; omega
      · exact ⟨z, by rw [List.getElem?_set_ne hi]; exact hz, rfl, by omega⟩
    obtain ⟨zx, hzx0, hzxr, hzxs⟩ := hzx
    rw [define_rsvd_slabs_zero
      { st with engine := { st.engine with slabs := { st.engine.slabs with
          slabclass := st.engine.slabs.slabclass.set id q0,
          mem_malloced :=
            wrap64 (st.engine.slabs.mem_malloced + int_to_size_t (newslab_len p)),
          mem_current := mc, mem_avail := ma } } } zx hcls hzx0] at hdef
    simp only [Option.some.injEq] at hdef
    by_cases hcond : under_pressure
        { st.engine.slabs with
          slabclass := st.engine.slabs.slabclass.set id q0,
          mem_malloced :=
            wrap64 (st.engine.slabs.mem_malloced + int_to_size_t (newslab_len p)),
          mem_current := mc, mem_avail := ma } = true ∧ zx.rsvd_slabs = 0
    · rw [if_pos hcond] at hdef
      have hup : under_pressure st1.engine.slabs = true := by
        rw [← hdef]; exact hcond.1
      refine ⟨{ zx with rsvd_slabs := defined_rsvd_slabs zx.slabs }, h, ?_, ?_⟩
      · rw [← hdef]
        simp only
        exact List.getElem?_set_self (by simp only [List.length_set]; exact h0)
      · rw [if_pos ⟨hr, hup, by rw [← hzxr]; exact hcond.2⟩]
        simp only
        exact defined_rsvd_slabs_eq zx.slabs hzxs
    · rw [if_neg hcond] at hdef
      refine ⟨zx, h, by rw [← hdef]; exact hzx0, ?_⟩
      have hup : ¬ (r = 1 ∧ under_pressure st1.engine.slabs = true ∧ z.rsvd_slabs = 0) := by
        intro hc
        apply hcond
        refine ⟨?_, by rw [hzxr]; exact hc.2.2⟩
        have := hc.2.1
        rw [← hdef] at this
        exact this
      rw [if_neg hup]
      exact hzxr


/-- C11, counterexample: in the state `state_125_pages` class 0 owns 125 pages
and its reservation is undefined; a page given to the 1 MiB class (id 3)
brings `mem_limit - mem_malloced` below `mem_reserved`, and
`do_slabs_newslab` sets the reservation of class 0 to
`125 + max(4, (125/100)*4) = 129`, whereas `125 + max(4, 125*4/100)` is 130. -/
theorem rsvd_slabs_divides_before_multiplying :
    (do_slabs_newslab state_125_pages 3 true (2 ^ 35)).map
        (fun r => (r.1, class0_rsvd_slabs r.2.engine,
          decide (r.2.engine.slabs.mem_limit - r.2.engine.slabs.mem_malloced
            < r.2.engine.slabs.mem_reserved)))
      = some (1, 129, true) ∧
    class0_rsvd_slabs state_125_pages.engine = 0 ∧
    state_125_pages.engine.slabs.slabclass[0]? = some class0_125_pages ∧
    class0_125_pages.slabs = 125 ∧
    spec_rsvd_slabs 125 = 130 := by
  decide

/-- Witness of `newslab_defines_reservation`: the growth of the 1 MiB class in
the state `state_125_pages`, which defines the reservation of class 0 as 129. -/
theorem newslab_defines_reservation_witness :
    (state_125_pages.engine.slabs.slabclass[3]? = some (mk_class (2 ^ 35) 1048576 1 4 0 0) ∧
      state_125_pages.engine.slabs.slabclass[0]? = some class0_125_pages ∧
      state_125_pages.sm_anchor.blck_clsid = 0 ∧
      (mk_class (2 ^ 35) 1048576 1 4 0 0).slab_list.length
        = (mk_class (2 ^ 35) 1048576 1 4 0 0).list_size ∧
      (mk_class (2 ^ 35) 1048576 1 4 0 0).slabs ≤ (mk_class (2 ^ 35) 1048576 1 4 0 0).list_size ∧
      (mk_class (2 ^ 35) 1048576 1 4 0 0).list_size * 2 < 2 ^ 32 ∧
      class0_125_pages.slabs + 1 < 2 ^ 31) ∧
    ∃ r st1 z1, do_slabs_newslab state_125_pages 3 true (2 ^ 35) = some (r, st1) ∧
      st1.engine.slabs.slabclass[0]? = some z1 ∧
      z1.rsvd_slabs =
        if r = 1 ∧ under_pressure st1.engine.slabs = true ∧ class0_125_pages.rsvd_slabs = 0
        then z1.slabs + max RESERVED_SLABS ((z1.slabs / 100) * RESERVED_SLAB_RATIO)
        else class0_125_pages.rsvd_slabs :=
  ⟨⟨by decide, by decide, by decide, by decide, by decide, by decide, by decide⟩,
    newslab_defines_reservation state_125_pages 3 true (2 ^ 35)
      (mk_class (2 ^ 35) 1048576 1 4 0 0) class0_125_pages
      (by decide) (by decide) (by decide) (by decide) (by decide) (by decide) (by decide)⟩


/-- The reservation step changes nothing but the `rsvd_slabs` field of one
class, from zero to its defined value, and the count of wake-ups. -/
theorem define_rsvd_slabs_classes (x st1 : allocator) (h : define_rsvd_slabs x = some st1) :
    st1.sm_anchor = x.sm_anchor ∧
    st1.engine.config = x.engine.config ∧
    st1.engine.slabs.mem_limit = x.engine.slabs.mem_limit ∧
    st1.engine.slabs.mem_malloced = x.engine.slabs.mem_malloced ∧
    st1.engine.slabs.mem_reserved = x.engine.slabs.mem_reserved ∧
    st1.engine.slabs.mem_base = x.engine.slabs.mem_base ∧
    st1.engine.slabs.slabclass.length = x.engine.slabs.slabclass.length ∧
    (∀ (i : Nat) (q : slabclass_t), x.engine.slabs.slabclass[i]? = some q →
      ∃ q1, st1.engine.slabs.slabclass[i]? = some q1 ∧
        q1 = { q with rsvd_slabs := q1.rsvd_slabs } ∧
        (q.rsvd_slabs ≠ 0 → q1 = q) ∧
        (q1.rsvd_slabs = q.rsvd_slabs ∨
          (q.rsvd_slabs = 0 ∧ q1.rsvd_slabs = defined_rsvd_slabs q.slabs))) := by
  rcases define_rsvd_slabs_cases x st1 h with hsame | ⟨z, _, _, hz, hz0, hst1⟩
  · rw [hsame]
    exact ⟨rfl, rfl, rfl, rfl, rfl, rfl, rfl,
      fun i q hq => ⟨q, hq, rfl, fun _ => rfl, Or.inl rfl⟩⟩
  · rw [hst1]
    refine ⟨rfl, rfl, rfl, rfl, rfl, rfl, by simp only [List.length_set], ?_⟩
    intro i q hq
    have hlen : x.sm_anchor.blck_clsid.toNat < x.engine.slabs.slabclass.length :=
      (List.getElem?_eq_some_iff.mp hz).1
    by_cases hi : x.sm_anchor.blck_clsid.toNat = i
    · subst hi
      rw [hz] at hq
      cases hq
      exact ⟨_, List.getElem?_set_self hlen, rfl, fun hne => absurd hz0 hne,
        Or.inr ⟨hz0, rfl⟩⟩
    · refine ⟨q, ?_, rfl, fun _ => rfl, Or.inl rfl⟩
      simp only
      rw [List.getElem?_set_ne hi]
      exact hq

/-- The effect of `do_slabs_newslab` on the classes and on the arena, for every
answer of the C library. Every class other than `id` keeps all its fields but
`rsvd_slabs`; the class `id` keeps its chunk size, its free list and its
`requested` counter, and either keeps its pages and bump cursor (0 returned) or
gains one page that the cursor now covers (1 returned). -/
theorem newslab_classes (st st1 : allocator) (id : Nat) (realloc_ok : Bool)
    (malloc_ret : Nat) (p : slabclass_t) (r : Int)
    (hp : st.engine.slabs.slabclass[id]? = some p)
    (h : do_slabs_newslab st id realloc_ok malloc_ret = some (r, st1)) :
    st1.sm_anchor = st.sm_anchor ∧
    st1.engine.config = st.engine.config ∧
    st1.engine.slabs.mem_limit = st.engine.slabs.mem_limit ∧
    st1.engine.slabs.mem_reserved = st.engine.slabs.mem_reserved ∧
    st1.engine.slabs.mem_base = st.engine.slabs.mem_base ∧
    st1.engine.slabs.slabclass.length = st.engine.slabs.slabclass.length ∧
    (∀ (c : Nat) (x : slabclass_t), c ≠ id → st.engine.slabs.slabclass[c]? = some x →
      ∃ x1, st1.engine.slabs.slabclass[c]? = some x1 ∧
        x1 = { x with rsvd_slabs := x1.rsvd_slabs } ∧
        (x1.rsvd_slabs = x.rsvd_slabs ∨
          (x.rsvd_slabs = 0 ∧ x1.rsvd_slabs = defined_rsvd_slabs x.slabs))) ∧
    ∃ q, st1.engine.slabs.slabclass[id]? = some q ∧
      q = { p with rsvd_slabs := q.rsvd_slabs, list_size := q.list_size,
                   slab_list := q.slab_list, slabs := q.slabs,
                   end_page_ptr := q.end_page_ptr, end_page_free := q.end_page_free } ∧
      (q.rsvd_slabs = p.rsvd_slabs ∨
        (p.rsvd_slabs = 0 ∧ q.rsvd_slabs = defined_rsvd_slabs q.slabs)) ∧
      (p.slab_list.length = p.list_size → q.slab_list.length = q.list_size) ∧
      ((r = 0 ∧ st1.engine.slabs.mem_malloced = st.engine.slabs.mem_malloced ∧
          q.slabs = p.slabs ∧ q.end_page_ptr = p.end_page_ptr ∧
          q.end_page_free = p.end_page_free ∧ q.rsvd_slabs = p.rsvd_slabs ∧
          (p.slabs ≤ p.list_size → p.list_size * 2 < 2 ^ 32 → q.slabs ≤ q.list_size)) ∨
       (r = 1 ∧ newslab_refused st.engine.slabs p = false ∧
          st1.engine.slabs.mem_malloced
            = wrap64 (st.engine.slabs.mem_malloced + int_to_size_t (newslab_len p)) ∧
          q.slabs = wrap32 (p.slabs + 1) ∧ q.end_page_ptr ≠ 0 ∧
          q.end_page_free = p.perslab ∧
          (p.slabs ≤ p.list_size → p.list_size * 2 < 2 ^ 32 → p.slabs < q.list_size))) := by
  have hid : id < st.engine.slabs.slabclass.length := (List.getElem?_eq_some_iff.mp hp).1
  rcases newslab_result st st1 id realloc_ok malloc_ret p r hp h with
    ⟨hr, p1, mc, ma, hp1, hw1, hw2, hst1⟩ |
    ⟨hr, href, q0, mc, ma, ptr, hptr, hq0, hw1, hw2, hdef⟩
  · rw [hst1]
    refine ⟨rfl, rfl, rfl, rfl, rfl, by simp only [List.length_set], ?_, ?_⟩
    · intro c x hc hx
      refine ⟨x, ?_, rfl, Or.inl rfl⟩
      simp only
      rw [List.getElem?_set_ne (Ne.symm hc)]
      exact hx
    · refine ⟨p1, List.getElem?_set_self hid, ?_, Or.inl (by rw [hp1]), hw1,
        Or.inl ⟨hr, rfl, by rw [hp1], by rw [hp1], by rw [hp1], by rw [hp1], ?_⟩⟩
      · have e1 : p1.size = p.size := by rw [hp1]
        have e2 : p1.perslab = p.perslab := by rw [hp1]
        have e3 : p1.slots = p.slots := by rw [hp1]
        have e4 : p1.sl_total = p.sl_total := by rw [hp1]
        have e5 : p1.sl_curr = p.sl_curr := by rw [hp1]
        have e6 : p1.requested = p.requested := by rw [hp1]
        cases p1
        simp only [slabclass_t.mk.injEq] at e1 e2 e3 e4 e5 e6 ⊢
        simp [e1, e2, e3, e4, e5, e6]
      · intro h1 h2
        have : p1.slabs = p.slabs := by rw [hp1]
        rw [this]; exact hw2 h1 h2
  · obtain ⟨ha, hc, hl, hm, hrs, hb, hlen, hcl⟩ := define_rsvd_slabs_classes _ _ hdef
    refine ⟨ha, hc, hl, hrs, hb, by rw [hlen]; simp only [List.length_set], ?_, ?_⟩
    · intro c x hcne hx
      obtain ⟨x1, hx1, hx1e, _, hx1r⟩ := hcl c x (by
        simp only
        rw [List.getElem?_set_ne (Ne.symm hcne)]
        exact hx)
      exact ⟨x1, hx1, hx1e, hx1r⟩
    · obtain ⟨q, hq, hqe, _, hqr⟩ := hcl id q0 (by
        simp only
        exact List.getElem?_set_self hid)
      have f1 : q.size = p.size := by rw [hqe, hq0]
      have f2 : q.perslab = p.perslab := by rw [hqe, hq0]
      have f3 : q.slots = p.slots := by rw [hqe, hq0]
      have f4 : q.sl_total = p.sl_total := by rw [hqe, hq0]
      have f5 : q.sl_curr = p.sl_curr := by rw [hqe, hq0]
      have f6 : q.requested = p.requested := by rw [hqe, hq0]
      have f7 : q.slabs = wrap32 (p.slabs + 1) := by rw [hqe, hq0]
      have f8 : q.end_page_ptr = ptr := by rw [hqe, hq0]
      have f9 : q.end_page_free = p.perslab := by rw [hqe, hq0]
      have f10 : q.list_size = q0.list_size := by rw [hqe]
      have f11 : q.slab_list = q0.slab_list := by rw [hqe]
      have f12 : q0.rsvd_slabs = p.rsvd_slabs := by rw [hq0]
      have f13 : q0.slabs = q.slabs := by rw [hqe]
      refine ⟨q, hq, ?_, ?_, ?_, Or.inr ⟨hr, href, ?_, f7, by rw [f8]; exact hptr, f9, ?_⟩⟩
      · cases q
        simp only [slabclass_t.mk.injEq] at f1 f2 f3 f4 f5 f6 ⊢
        simp [f1, f2, f3, f4, f5, f6]
      · rcases hqr with h1 | ⟨h1, h2⟩
        · exact Or.inl (by rw [h1, f12])
        · exact Or.inr ⟨by rw [← f12]; exact h1, by rw [h2, f13]⟩
      · intro h1; rw [f10, f11]; exact hw1 h1
      · rw [hm]
      · intro h1 h2; rw [f10]; exact hw2 h1 h2


/-- The outcomes of a slab-path release: either the free list is full and
`realloc` fails, and nothing changes; or the chunk is stored at index `sl_curr`
of the (possibly grown) `slots` array and `sl_curr` is incremented. The old
cells of the array are kept when it grows. -/
theorem do_slabs_free_result (st st1 : allocator) (ptr size id : Nat) (realloc_ok : Bool)
    (p : slabclass_t)
    (hp : st.engine.slabs.slabclass[id]? = some p)
    (h : do_slabs_free st ptr size id realloc_ok = some st1) :
    (st1 = st ∧ p.sl_curr = p.sl_total ∧ realloc_ok = false) ∨
    ((p.sl_curr ≠ p.sl_total ∨ realloc_ok = true) ∧
      ∃ p1, p1 = { p with slots := p1.slots, sl_total := p1.sl_total } ∧
        p.sl_curr < p1.slots.length ∧
        (p.slots.length = p.sl_total → p.sl_total * 2 < 2 ^ 31 →
          p1.slots.length = p1.sl_total ∧ p.sl_total ≤ p1.sl_total ∧
          ∀ i, i < p.slots.length → p1.slots[i]? = p.slots[i]?) ∧
        st1 = { st with engine := { st.engine with slabs := { st.engine.slabs with
          slabclass := st.engine.slabs.slabclass.set id
            { p1 with slots := p1.slots.set p.sl_curr ptr,
                      sl_curr := wrap32 (p.sl_curr + 1),
                      requested := sub64 p.requested size } } } }) := by
  have hid : id < st.engine.slabs.slabclass.length := (List.getElem?_eq_some_iff.mp hp).1
  unfold do_slabs_free at h
  rw [hp] at h
  simp only at h
  by_cases hfull : p.sl_curr = p.sl_total
  · rw [if_pos hfull] at h
    cases realloc_ok with
    | false =>
      simp only [if_true] at h
      cases h
      exact Or.inl ⟨rfl, hfull, rfl⟩
    | true =>
      simp only [Bool.true_eq_false, if_false] at h
      generalize hns : (if p.sl_total ≠ 0 then to_int (wrap32 (p.sl_total * 2)) else 16) = ns
        at h
      by_cases hlt : p.sl_curr <
          (List.take (wrap64 (int_to_size_t ns * 8) / 8) p.slots ++
            List.replicate (wrap64 (int_to_size_t ns * 8) / 8 - p.slots.length) 0).length
      · rw [if_pos hlt, slabclass_store_nat _ _ _ hid] at h
        cases h
        refine Or.inr ⟨Or.inr rfl,
          { p with slots := List.take (wrap64 (int_to_size_t ns * 8) / 8) p.slots ++
                     List.replicate (wrap64 (int_to_size_t ns * 8) / 8 - p.slots.length) 0,
                   sl_total := wrap32 (int_to_size_t ns) }, rfl, hlt, ?_, rfl⟩
        intro h1 h2
        have hnsv : ns = (((if p.sl_total ≠ 0 then p.sl_total * 2 else 16 : Nat)) : Int) := by
          rw [← hns]
          by_cases hz : p.sl_total = 0
          · simp [hz]
          · simp only [ne_eq, hz, not_false_eq_true, if_true]
            rw [wrap32, Nat.mod_eq_of_lt (by omega), to_int_small _ h2]
        have hbound : (if p.sl_total ≠ 0 then p.sl_total * 2 else 16 : Nat) < 2 ^ 31 := by
          split_ifs <;> omega
        have hcells : wrap64 (int_to_size_t ns * 8) / 8
            = (if p.sl_total ≠ 0 then p.sl_total * 2 else 16 : Nat) := by
          rw [hnsv, int_to_size_t_nat _ (by omega), wrap64, Nat.mod_eq_of_lt (by omega)]
          omega
        have htot : wrap32 (int_to_size_t ns)
            = (if p.sl_total ≠ 0 then p.sl_total * 2 else 16 : Nat) := by
          rw [hnsv, int_to_size_t_nat _ (by omega), wrap32, Nat.mod_eq_of_lt (by omega)]
        simp only [hcells, htot]
        have hle : p.slots.length ≤ (if p.sl_total ≠ 0 then p.sl_total * 2 else 16 : Nat) := by
          split_ifs <;> omega
        refine ⟨?_, ?_, ?_⟩
        · simp only [List.length_append, List.length_take, List.length_replicate]
          omega
        · split_ifs <;> omega
        · intro i hi
          rw [List.take_of_length_le hle, List.getElem?_append_left hi]
      · rw [if_neg hlt] at h
        cases h
  · rw [if_neg hfull] at h
    simp only at h
    by_cases hlt : p.sl_curr < p.slots.length
    · rw [if_pos hlt, slabclass_store_nat _ _ _ hid] at h
      cases h
      exact Or.inr ⟨Or.inl hfull, p, rfl, hlt,
        fun h1 _ => ⟨h1, le_refl _, fun _ _ => rfl⟩, rfl⟩
    · rw [if_neg hlt] at h
      cases h


/-! ### Order of the sources of a slab-path allocation -/

/-- A slab-path allocation from a class with a non-empty `slots` stack pops the
top of the stack and touches nothing else but `requested`. -/
theorem do_slabs_alloc_pop (st : allocator) (size id : Nat) (realloc_ok : Bool)
    (malloc_ret : Nat) (p : slabclass_t) (c : Nat)
    (hp : st.engine.slabs.slabclass[id]? = some p)
    (h1 : p.sl_curr ≠ 0) (hc : p.slots[p.sl_curr - 1]? = some c) :
    do_slabs_alloc st size id realloc_ok malloc_ret
      = some (c, { st with engine := { st.engine with slabs := { st.engine.slabs with
          slabclass := st.engine.slabs.slabclass.set id
            { p with sl_curr := p.sl_curr - 1,
                     requested :=
                       if c ≠ 0 then wrap64 (p.requested + size) else p.requested } } } }) := by
  have hid : id < st.engine.slabs.slabclass.length := (List.getElem?_eq_some_iff.mp hp).1
  unfold do_slabs_alloc
  simp only [hp, h1, ne_eq, not_false_eq_true, or_true, if_true, hc,
    slabclass_store_nat _ _ _ hid]
  by_cases hc0 : c = 0
  · simp [hc0]
  · simp [hc0]

/-- A slab-path allocation from a class with an empty `slots` stack and a
current page takes the chunk under the bump cursor. -/
theorem do_slabs_alloc_bump (st : allocator) (size id : Nat) (realloc_ok : Bool)
    (malloc_ret : Nat) (p : slabclass_t)
    (hp : st.engine.slabs.slabclass[id]? = some p)
    (h1 : p.sl_curr = 0) (h2 : p.end_page_ptr ≠ 0) :
    do_slabs_alloc st size id realloc_ok malloc_ret
      = some (p.end_page_ptr,
          { st with engine := { st.engine with slabs := { st.engine.slabs with
            slabclass := st.engine.slabs.slabclass.set id
              { p with end_page_free := wrap32 (p.end_page_free + 2 ^ 32 - 1),
                       end_page_ptr :=
                         if wrap32 (p.end_page_free + 2 ^ 32 - 1) ≠ 0
                         then p.end_page_ptr + p.size else 0,
                       requested := wrap64 (p.requested + size) } } } }) := by
  have hid : id < st.engine.slabs.slabclass.length := (List.getElem?_eq_some_iff.mp hp).1
  unfold do_slabs_alloc
  rw [hp]
  simp only []
  rw [if_pos (Or.inl h2)]
  simp only []
  rw [hp]
  simp only []
  rw [if_neg (by rw [h1]; simp), if_neg h2]
  generalize wrap32 (p.end_page_free + 2 ^ 32 - 1) = f1
  simp only []
  rw [if_pos h2, slabclass_store_nat _ _ _ hid]

/-- When both the `slots` stack and the current page are exhausted and
`do_slabs_newslab` returns 0, the allocation returns null in the state that
`do_slabs_newslab` left. -/
theorem do_slabs_alloc_refused (st st1 : allocator) (size id : Nat) (realloc_ok : Bool)
    (malloc_ret : Nat) (p : slabclass_t)
    (hp : st.engine.slabs.slabclass[id]? = some p)
    (h1 : p.sl_curr = 0) (h2 : p.end_page_ptr = 0)
    (hn : do_slabs_newslab st id realloc_ok malloc_ret = some (0, st1)) :
    do_slabs_alloc st size id realloc_ok malloc_ret = some (0, st1) := by
  unfold do_slabs_alloc
  simp [hp, h1, h2, hn]

/-- When both the `slots` stack and the current page are exhausted and
`do_slabs_newslab` returns 1, the allocation takes the first chunk of the new
page. -/
theorem do_slabs_alloc_newpage (st st1 : allocator) (size id : Nat) (realloc_ok : Bool)
    (malloc_ret : Nat) (p q : slabclass_t)
    (hp : st.engine.slabs.slabclass[id]? = some p)
    (h1 : p.sl_curr = 0) (h2 : p.end_page_ptr = 0)
    (hn : do_slabs_newslab st id realloc_ok malloc_ret = some (1, st1))
    (hq : st1.engine.slabs.slabclass[id]? = some q) :
    q.sl_curr = 0 ∧ q.end_page_ptr ≠ 0 ∧
    do_slabs_alloc st size id realloc_ok malloc_ret
      = some (q.end_page_ptr,
          { st1 with engine := { st1.engine with slabs := { st1.engine.slabs with
            slabclass := st1.engine.slabs.slabclass.set id
              { q with end_page_free := wrap32 (q.end_page_free + 2 ^ 32 - 1),
                       end_page_ptr :=
                         if wrap32 (q.end_page_free + 2 ^ 32 - 1) ≠ 0
                         then q.end_page_ptr + q.size else 0,
                       requested := wrap64 (q.requested + size) } } } }) := by
  obtain ⟨_, _, _, _, _, _, _, q', hq', hqe, _, _, hcase⟩ :=
    newslab_classes st st1 id realloc_ok malloc_ret p 1 hp hn
  rw [hq] at hq'
  cases hq'
  have hq1 : q.end_page_ptr ≠ 0 := by
    rcases hcase with ⟨hr, _⟩ | ⟨_, _, _, _, hne, _, _⟩
    · exact absurd hr (by decide)
    · exact hne
  have hq2 : q.sl_curr = 0 := by rw [hqe]; exact h1
  have hidl : id < st1.engine.slabs.slabclass.length :=
    (List.getElem?_eq_some_iff.mp hq).1
  have hd : (decide ¬((1 : Int) = 0)) = true := by decide
  refine ⟨hq2, hq1, ?_⟩
  unfold do_slabs_alloc
  rw [hp]
  simp only []
  rw [if_neg (by rw [h1, h2]; simp), hn]
  simp only [hd]
  rw [hq]
  simp only []
  rw [if_neg (by rw [hq2]; simp), if_neg hq1]
  generalize wrap32 (q.end_page_free + 2 ^ 32 - 1) = f1
  simp only []
  rw [if_pos hq1, slabclass_store_nat _ _ _ hidl]

/-- The value returned by `do_slabs_newslab` is 0 or 1. -/
theorem newslab_returns_bit (st st1 : allocator) (id : Nat) (realloc_ok : Bool)
    (malloc_ret : Nat) (r : Int)
    (h : do_slabs_newslab st id realloc_ok malloc_ret = some (r, st1)) :
    r = 0 ∨ r = 1 := by
  cases hp : st.engine.slabs.slabclass[id]? with
  | none => unfold do_slabs_newslab at h; rw [hp] at h; cases h
  | some p =>
    rcases newslab_result st st1 id realloc_ok malloc_ret p r hp h with ⟨hr, _⟩ | ⟨hr, _⟩
    · exact Or.inl hr
    · exact Or.inr hr

/-- The four ways in which a slab-path allocation returns: a pop of the `slots`
stack, a chunk taken under the bump cursor, a refused growth, or the first
chunk of a new page. -/
theorem do_slabs_alloc_result (st st2 : allocator) (size id : Nat) (realloc_ok : Bool)
    (malloc_ret : Nat) (p : slabclass_t) (ret : Nat)
    (hp : st.engine.slabs.slabclass[id]? = some p)
    (h : do_slabs_alloc st size id realloc_ok malloc_ret = some (ret, st2)) :
    (p.sl_curr ≠ 0 ∧ p.slots[p.sl_curr - 1]? = some ret ∧
      st2 = { st with engine := { st.engine with slabs := { st.engine.slabs with
          slabclass := st.engine.slabs.slabclass.set id
            { p with sl_curr := p.sl_curr - 1,
                     requested :=
                       if ret ≠ 0 then wrap64 (p.requested + size) else p.requested } } } }) ∨
    (p.sl_curr = 0 ∧ p.end_page_ptr ≠ 0 ∧ ret = p.end_page_ptr ∧
      st2 = { st with engine := { st.engine with slabs := { st.engine.slabs with
            slabclass := st.engine.slabs.slabclass.set id
              { p with end_page_free := wrap32 (p.end_page_free + 2 ^ 32 - 1),
                       end_page_ptr :=
                         if wrap32 (p.end_page_free + 2 ^ 32 - 1) ≠ 0
                         then p.end_page_ptr + p.size else 0,
                       requested := wrap64 (p.requested + size) } } } }) ∨
    (p.sl_curr = 0 ∧ p.end_page_ptr = 0 ∧ ret = 0 ∧
      do_slabs_newslab st id realloc_ok malloc_ret = some (0, st2)) ∨
    (p.sl_curr = 0 ∧ p.end_page_ptr = 0 ∧
      ∃ st1 q, do_slabs_newslab st id realloc_ok malloc_ret = some (1, st1) ∧
        st1.engine.slabs.slabclass[id]? = some q ∧ q.sl_curr = 0 ∧ q.end_page_ptr ≠ 0 ∧
        ret = q.end_page_ptr ∧
        st2 = { st1 with engine := { st1.engine with slabs := { st1.engine.slabs with
            slabclass := st1.engine.slabs.slabclass.set id
              { q with end_page_free := wrap32 (q.end_page_free + 2 ^ 32 - 1),
                       end_page_ptr :=
                         if wrap32 (q.end_page_free + 2 ^ 32 - 1) ≠ 0
                         then q.end_page_ptr + q.size else 0,
                       requested := wrap64 (q.requested + size) } } } }) := by
  by_cases h1 : p.sl_curr = 0
  · by_cases h2 : p.end_page_ptr = 0
    · right; right
      cases hn : do_slabs_newslab st id realloc_ok malloc_ret with
      | none =>
        unfold do_slabs_alloc at h
        simp [hp, h1, h2, hn] at h
      | some rs =>
        obtain ⟨r, st1⟩ := rs
        rcases newslab_returns_bit st st1 id realloc_ok malloc_ret r hn with hr | hr
        · subst hr
          rw [do_slabs_alloc_refused st st1 size id realloc_ok malloc_ret p hp h1 h2 hn] at h
          cases h
          exact Or.inl ⟨h1, h2, rfl, rfl⟩
        · subst hr
          obtain ⟨_, _, _, _, _, _, _, q, hq, _⟩ :=
            newslab_classes st st1 id realloc_ok malloc_ret p 1 hp hn
          obtain ⟨hq2, hq1, he⟩ :=
            do_slabs_alloc_newpage st st1 size id realloc_ok malloc_ret p q hp h1 h2 hn hq
          rw [he] at h
          cases h
          exact Or.inr ⟨h1, h2, st1, q, rfl, hq, hq2, hq1, rfl, rfl⟩
    · right; left
      rw [do_slabs_alloc_bump st size id realloc_ok malloc_ret p hp h1 h2] at h
      cases h
      exact ⟨h1, h2, rfl, rfl⟩
  · left
    cases hc : p.slots[p.sl_curr - 1]? with
    | none =>
      unfold do_slabs_alloc at h
      simp [hp, h1, hc] at h
    | some c =>
      rw [do_slabs_alloc_pop st size id realloc_ok malloc_ret p c hp h1 hc] at h
      cases h
      exact ⟨h1, rfl, rfl⟩

/-- C20: for a slab-path allocation in class `id` (size above
`MAX_SM_VALUE_SIZE`, the path modelled by `do_slabs_alloc`):
(1) if the `slots` stack of the class is non-empty, the chunk on its top is
returned, the stack shrinks by one and the bump cursor (`end_page_ptr`,
`end_page_free`) and the pages are untouched;
(2) otherwise, if the current page has unhanded chunks, `end_page_ptr` is
returned and `end_page_free` is decremented;
(3) only when both are exhausted is `do_slabs_newslab(id)` attempted: a refusal
makes the allocation return null, a success serves the first chunk of the new
page;
(4) the stack is LIFO: right after a release that recorded the chunk, the
allocation returns that chunk. -/
theorem slab_alloc_order (st : allocator) (size id : Nat) (realloc_ok : Bool)
    (malloc_ret : Nat) (p : slabclass_t)
    (hp : st.engine.slabs.slabclass[id]? = some p) :
    (p.sl_curr ≠ 0 → ∀ c, p.slots[p.sl_curr - 1]? = some c →
      do_slabs_alloc st size id realloc_ok malloc_ret
        = some (c, { st with engine := { st.engine with slabs := { st.engine.slabs with
            slabclass := st.engine.slabs.slabclass.set id
              { p with sl_curr := p.sl_curr - 1,
                       requested :=
                         if c ≠ 0 then wrap64 (p.requested + size) else p.requested } } } })) ∧
    (p.sl_curr = 0 → p.end_page_ptr ≠ 0 → 0 < p.end_page_free → p.end_page_free < 2 ^ 32 →
      do_slabs_alloc st size id realloc_ok malloc_ret
        = some (p.end_page_ptr,
            { st with engine := { st.engine with slabs := { st.engine.slabs with
              slabclass := st.engine.slabs.slabclass.set id
                { p with end_page_free := p.end_page_free - 1,
                         end_page_ptr :=
                           if p.end_page_free - 1 ≠ 0 then p.end_page_ptr + p.size else 0,
                         requested := wrap64 (p.requested + size) } } } })) ∧
    (p.sl_curr = 0 → p.end_page_ptr = 0 →
      (∀ st1, do_slabs_newslab st id realloc_ok malloc_ret = some (0, st1) →
        do_slabs_alloc st size id realloc_ok malloc_ret = some (0, st1)) ∧
      (∀ st1 q, do_slabs_newslab st id realloc_ok malloc_ret = some (1, st1) →
        st1.engine.slabs.slabclass[id]? = some q →
        ∃ st2, do_slabs_alloc st size id realloc_ok malloc_ret = some (q.end_page_ptr, st2) ∧
          q.end_page_ptr ≠ 0)) ∧
    (∀ ptr fsize frealloc st1, p.sl_curr + 1 < 2 ^ 32 →
      (p.sl_curr ≠ p.sl_total ∨ frealloc = true) →
      do_slabs_free st ptr fsize id frealloc = some st1 →
      ∃ st2, do_slabs_alloc st1 size id realloc_ok malloc_ret = some (ptr, st2)) := by
  have hid : id < st.engine.slabs.slabclass.length := (List.getElem?_eq_some_iff.mp hp).1
  refine ⟨?_, ?_, ?_, ?_⟩
  · intro h1 c hc
    exact do_slabs_alloc_pop st size id realloc_ok malloc_ret p c hp h1 hc
  · intro h1 h2 h3 h4
    have hw : wrap32 (p.end_page_free + 2 ^ 32 - 1) = p.end_page_free - 1 := by
      unfold wrap32
      have : p.end_page_free + 2 ^ 32 - 1 = (p.end_page_free - 1) + 2 ^ 32 := by omega
      rw [this, Nat.add_mod_right, Nat.mod_eq_of_lt (by omega)]
    rw [do_slabs_alloc_bump st size id realloc_ok malloc_ret p hp h1 h2, hw]
  · intro h1 h2
    constructor
    · intro st1 hn
      exact do_slabs_alloc_refused st st1 size id realloc_ok malloc_ret p hp h1 h2 hn
    · intro st1 q hn hq
      obtain ⟨_, hq1, he⟩ :=
        do_slabs_alloc_newpage st st1 size id realloc_ok malloc_ret p q hp h1 h2 hn hq
      exact ⟨_, he, hq1⟩
  · intro ptr fsize frealloc st1 hb hroom hf
    -- the class after the release
    have hcl : ∃ q, st1.engine.slabs.slabclass[id]? = some q ∧ q.sl_curr = p.sl_curr + 1 ∧
        q.slots[p.sl_curr]? = some ptr := by
      rcases do_slabs_free_result st st1 ptr fsize id frealloc p hp hf with
        ⟨_, hfull, hre⟩ | ⟨_, p1, _, hlt, _, hst1⟩
      · rcases hroom with h | h
        · exact absurd hfull h
        · rw [h] at hre; cases hre
      · rw [hst1]
        refine ⟨_, List.getElem?_set_self hid, ?_, ?_⟩
        · simp only [wrap32]; exact Nat.mod_eq_of_lt hb
        · simp only
          exact List.getElem?_set_self hlt
    obtain ⟨q, hq, hqc, hqs⟩ := hcl
    have hne : q.sl_curr ≠ 0 := by omega
    have hqs' : q.slots[q.sl_curr - 1]? = some ptr := by
      rw [hqc]; exact hqs
    exact ⟨_, do_slabs_alloc_pop st1 size id realloc_ok malloc_ret q ptr hq hne hqs'⟩

/-- Witness of `slab_alloc_order`: class 0 of the state `state_one_page`, whose
page has all of its sixteen blocks left; the allocation returns the first
block and leaves fifteen. -/
theorem slab_alloc_order_witness :
    state_one_page.engine.slabs.slabclass[0]? = some (mk_class base0 65536 16 0 1 16) ∧
    do_slabs_alloc state_one_page 65536 0 true 0
      = some ((mk_class base0 65536 16 0 1 16).end_page_ptr,
          { state_one_page with engine := { state_one_page.engine with
              slabs := { state_one_page.engine.slabs with
                slabclass := state_one_page.engine.slabs.slabclass.set 0
                  { mk_class base0 65536 16 0 1 16 with
                      end_page_free := (mk_class base0 65536 16 0 1 16).end_page_free - 1,
                      end_page_ptr :=
                        if (mk_class base0 65536 16 0 1 16).end_page_free - 1 ≠ 0
                        then (mk_class base0 65536 16 0 1 16).end_page_ptr
                          + (mk_class base0 65536 16 0 1 16).size
                        else 0,
                      requested :=
                        wrap64 ((mk_class base0 65536 16 0 1 16).requested + 65536) } } } }) :=
  ⟨by decide,
    (slab_alloc_order state_one_page 65536 0 true 0 (mk_class base0 65536 16 0 1 16)
      (by decide)).2.1 (by decide) (by decide) (by decide) (by decide)⟩

/-! ### Chunk accounting of a slab class -/

/-- Adding a chunk of another class does not change the count of class `c`. -/
theorem live_count_cons_ne (c id ptr : Nat) (live : List (Nat × Nat)) (h : id ≠ c) :
    live_count c ((id, ptr) :: live) = live_count c live := by
  simp [live_count, List.filter_cons, h]

/-- Adding a chunk of class `c` raises its count by one. -/
theorem live_count_cons_self (c ptr : Nat) (live : List (Nat × Nat)) :
    live_count c ((c, ptr) :: live) = live_count c live + 1 := by
  simp [live_count, List.filter_cons]

/-- Removing a chunk of another class does not change the count of class `c`. -/
theorem live_count_erase_ne (c id ptr : Nat) (live : List (Nat × Nat)) (h : id ≠ c) :
    live_count c (live.erase (id, ptr)) = live_count c live := by
  induction live with
  | nil => rfl
  | cons x xs ih =>
    by_cases hx : x = (id, ptr)
    · subst hx
      rw [List.erase_cons_head, live_count_cons_ne c id ptr xs h]
    · rw [List.erase_cons_tail (by simpa using hx)]
      simp only [live_count, List.filter_cons] at ih ⊢
      split_ifs
      · simp only [List.length_cons]; rw [ih]
      · exact ih

/-- Removing a live chunk of class `c` lowers its count by one. -/
theorem live_count_erase_self (c ptr : Nat) (live : List (Nat × Nat))
    (h : (c, ptr) ∈ live) :
    live_count c (live.erase (c, ptr)) + 1 = live_count c live := by
  induction live with
  | nil => cases h
  | cons x xs ih =>
    by_cases hx : x = (c, ptr)
    · subst hx
      rw [List.erase_cons_head, live_count_cons_self]
    · rw [List.erase_cons_tail (by simpa using hx)]
      have hmem : (c, ptr) ∈ xs := by
        rcases List.mem_cons.mp h with h1 | h1
        · exact absurd h1.symm hx
        · exact h1
      have := ih hmem
      simp only [live_count, List.filter_cons] at this ⊢
      split_ifs
      · simp only [List.length_cons]; omega
      · exact this


/-- The outcomes of `do_slabs_set_memlimit`: the state is unchanged, or the
limit and the threshold are replaced and the reservation of the block class is
reset to 0. -/
theorem set_memlimit_result (st st1 : allocator) (memlimit : Nat) (code : ENGINE_ERROR_CODE)
    (h : do_slabs_set_memlimit st memlimit = some (code, st1)) :
    st1 = st ∨
    (code = ENGINE_SUCCESS ∧ st.engine.slabs.mem_base = 0 ∧
      wrap64 (st.engine.slabs.mem_malloced + st.engine.slabs.mem_malloced / 10) ≤ memlimit ∧
      ∃ z, st.engine.slabs.slabclass[st.sm_anchor.blck_clsid.toNat]? = some z ∧
        st1 = { st with engine := { st.engine with slabs := { st.engine.slabs with
                  mem_limit := memlimit,
                  mem_reserved := new_mem_reserved st.engine memlimit,
                  slabclass := st.engine.slabs.slabclass.set st.sm_anchor.blck_clsid.toNat
                    { z with rsvd_slabs := 0 } } } }) := by
  unfold do_slabs_set_memlimit at h
  simp only at h
  by_cases hb : st.engine.slabs.mem_base ≠ 0
  · rw [if_pos hb] at h
    cases h
    exact Or.inl rfl
  · rw [if_neg hb] at h
    by_cases hm : memlimit
        < wrap64 (st.engine.slabs.mem_malloced + st.engine.slabs.mem_malloced / 10)
    · rw [if_pos hm] at h
      cases h
      exact Or.inl rfl
    · rw [if_neg hm] at h
      cases hz : slabclass_at st.engine st.sm_anchor.blck_clsid with
      | none => rw [hz] at h; cases h
      | some z =>
        rw [hz] at h
        simp only at h
        by_cases hr : z.rsvd_slabs ≠ 0 ∧
            sub64 memlimit st.engine.slabs.mem_malloced < new_mem_reserved st.engine memlimit
        · rw [if_pos hr] at h
          cases h
          exact Or.inl rfl
        · rw [if_neg hr] at h
          unfold slabclass_at at hz
          by_cases h0 : 0 ≤ st.sm_anchor.blck_clsid
          · rw [if_pos h0] at hz
            have hlen : st.sm_anchor.blck_clsid.toNat < st.engine.slabs.slabclass.length :=
              (List.getElem?_eq_some_iff.mp hz).1
            unfold slabclass_store at h
            simp only at h
            rw [if_pos ⟨h0, hlen⟩] at h
            cases h
            exact Or.inr ⟨rfl, by simpa using hb, by omega, z, hz, rfl⟩
          · rw [if_neg h0] at hz
            cases hz

/-- A slab-path allocation in class `id` leaves every other class as it was,
but for its `rsvd_slabs`, which may go from undefined to defined. -/
theorem do_slabs_alloc_other (st st2 : allocator) (size id : Nat) (realloc_ok : Bool)
    (malloc_ret : Nat) (ret c : Nat) (x : slabclass_t) (hc : c ≠ id)
    (hx : st.engine.slabs.slabclass[c]? = some x)
    (h : do_slabs_alloc st size id realloc_ok malloc_ret = some (ret, st2)) :
    ∃ x1, st2.engine.slabs.slabclass[c]? = some x1 ∧
      x1 = { x with rsvd_slabs := x1.rsvd_slabs } ∧
      (x1.rsvd_slabs = x.rsvd_slabs ∨
        (x.rsvd_slabs = 0 ∧ x1.rsvd_slabs = defined_rsvd_slabs x.slabs)) := by
  cases hp : st.engine.slabs.slabclass[id]? with
  | none =>
    unfold do_slabs_alloc at h
    rw [hp] at h
    cases h
  | some p =>
    rcases do_slabs_alloc_result st st2 size id realloc_ok malloc_ret p ret hp h with
      ⟨_, _, hst⟩ | ⟨_, _, _, hst⟩ | ⟨_, _, _, hn⟩ | ⟨_, _, st1, q, hn, hq, _, _, _, hst⟩
    · refine ⟨x, ?_, rfl, Or.inl rfl⟩
      rw [hst]
      simp only
      rw [List.getElem?_set_ne (Ne.symm hc)]
      exact hx
    · refine ⟨x, ?_, rfl, Or.inl rfl⟩
      rw [hst]
      simp only
      rw [List.getElem?_set_ne (Ne.symm hc)]
      exact hx
    · obtain ⟨_, _, _, _, _, _, hoth, _⟩ :=
        newslab_classes st st2 id realloc_ok malloc_ret p 0 hp hn
      exact hoth c x hc hx
    · obtain ⟨_, _, _, _, _, _, hoth, _⟩ :=
        newslab_classes st st1 id realloc_ok malloc_ret p 1 hp hn
      obtain ⟨x1, hx1, hx1e, hx1r⟩ := hoth c x hc hx
      refine ⟨x1, ?_, hx1e, hx1r⟩
      rw [hst]
      simp only
      rw [List.getElem?_set_ne (Ne.symm hc)]
      exact hx1

/-- A slab-path release in class `id` leaves every other class as it was. -/
theorem do_slabs_free_other (st st1 : allocator) (ptr size id : Nat) (realloc_ok : Bool)
    (c : Nat) (hc : c ≠ id)
    (h : do_slabs_free st ptr size id realloc_ok = some st1) :
    st1.engine.slabs.slabclass[c]? = st.engine.slabs.slabclass[c]? := by
  cases hp : st.engine.slabs.slabclass[id]? with
  | none =>
    unfold do_slabs_free at h
    rw [hp] at h
    cases h
  | some p =>
    rcases do_slabs_free_result st st1 ptr size id realloc_ok p hp h with
      ⟨hst, _⟩ | ⟨_, p1, _, _, _, hst⟩
    · rw [hst]
    · rw [hst]
      simp only
      rw [List.getElem?_set_ne (Ne.symm hc)]

/-- The chunk accounting of class `c` is carried to a state in which the class
has the same free list, bump cursor and page count, and the live chunks of the
class are as many. -/
theorem chunks_inv_of_class (c : Nat) (s s1 : allocator × List (Nat × Nat))
    (p q : slabclass_t)
    (hp : s.1.engine.slabs.slabclass[c]? = some p)
    (hq : s1.1.engine.slabs.slabclass[c]? = some q)
    (h1 : q.sl_curr = p.sl_curr) (h2 : q.end_page_free = p.end_page_free)
    (h3 : q.end_page_ptr = p.end_page_ptr) (h4 : q.slabs = p.slabs)
    (h5 : q.perslab = p.perslab) (h6 : q.sl_total = p.sl_total) (h7 : q.slots = p.slots)
    (hlive : live_count c s1.2 = live_count c s.2)
    (hnn : ∀ x, x ∈ s1.2 → x.2 ≠ 0)
    (hinv : chunks_inv c s) : chunks_inv c s1 := by
  obtain ⟨p', hp', hsum, hiff, hper, hcur, hlen, hnz, _⟩ := hinv
  rw [hp] at hp'
  cases hp'
  refine ⟨q, hq, ?_, ?_, ?_, ?_, ?_, ?_, hnn⟩
  · rw [hlive, h1, h2, h4, h5]; exact hsum
  · rw [h3, h2]; exact hiff
  · rw [h5]; exact hper
  · rw [h1, h6]; exact hcur
  · rw [h7, h6]; exact hlen
  · rw [h1, h7]; exact hnz

/-- The bounds that `chunks_bounded` tests, for the class at hand. -/
theorem chunks_bounded_class (c : Nat) (st : allocator) (p : slabclass_t)
    (hp : st.engine.slabs.slabclass[c]? = some p) (hb : chunks_bounded c st = true) :
    (p.slabs + 1) * p.perslab < 2 ^ 31 ∧ p.sl_total < 2 ^ 30 := by
  unfold chunks_bounded at hb
  rw [hp] at hb
  simpa using hb

/-- One slab operation preserves the chunk accounting of class `c`, provided
the counters of the class are away from their width and the operation is not a
release whose free-list growth fails. -/
theorem chunks_inv_step (c : Nat) (s s1 : allocator × List (Nat × Nat)) (op : slab_op)
    (hinv : chunks_inv c s) (hb : chunks_bounded c s.1 = true)
    (hg : frees_grow [op] = true)
    (h : slab_step s op = some s1) : chunks_inv c s1 := by
  obtain ⟨p, hp, hsum, hiff, hper, hcur, hlen, hnz, hlive⟩ := hinv
  have hinv : chunks_inv c s := ⟨p, hp, hsum, hiff, hper, hcur, hlen, hnz, hlive⟩
  obtain ⟨hb1, hb2⟩ := chunks_bounded_class c s.1 p hp hb
  have hcid : c < s.1.engine.slabs.slabclass.length := (List.getElem?_eq_some_iff.mp hp).1
  have hmul : (p.slabs + 1) * p.perslab = p.slabs * p.perslab + p.perslab := by ring
  have hsl : p.slabs + 1 ≤ (p.slabs + 1) * p.perslab := Nat.le_mul_of_pos_right _ hper
  cases op with
  | alloc size id realloc_ok malloc_ret =>
    simp only [slab_step] at h
    cases ha : do_slabs_alloc s.1 size id realloc_ok malloc_ret with
    | none => rw [ha] at h; cases h
    | some rs =>
      obtain ⟨ret, st2⟩ := rs
      rw [ha] at h
      simp only [Option.some.injEq] at h
      subst h
      by_cases hid : id = c
      · subst hid
        rcases do_slabs_alloc_result s.1 st2 size id realloc_ok malloc_ret p ret hp ha with
          ⟨h1, hc, hst⟩ | ⟨h1, h2, hret, hst⟩ | ⟨h1, h2, hret, hn⟩ |
          ⟨h1, h2, st1, q, hn, hq, hq2, hq1, hret, hst⟩
        · -- pop
          have hret : ret ≠ 0 := hnz (p.sl_curr - 1) ret (by omega) hc
          subst hst
          refine ⟨_, List.getElem?_set_self hcid, ?_, ?_, ?_, ?_, ?_, ?_, ?_⟩
          · simp only [hret, ne_eq, not_false_eq_true, if_true, live_count_cons_self]
            omega
          · exact hiff
          · exact hper
          · simp only; omega
          · exact hlen
          · intro i x hi hx
            exact hnz i x (by simp only at hi; omega) hx
          · intro x hx
            simp only [hret, ne_eq, not_false_eq_true, if_true, List.mem_cons] at hx
            rcases hx with hx | hx
            · rw [hx]; exact hret
            · exact hlive x hx
        · -- bump
          have hf0 : p.end_page_free ≠ 0 := fun h0 => h2 (hiff.mpr h0)
          have hw : wrap32 (p.end_page_free + 2 ^ 32 - 1) = p.end_page_free - 1 := by
            unfold wrap32
            have : p.end_page_free + 2 ^ 32 - 1 = (p.end_page_free - 1) + 2 ^ 32 := by omega
            rw [this, Nat.add_mod_right, Nat.mod_eq_of_lt (by omega)]
          have hret0 : ret ≠ 0 := by rw [hret]; exact h2
          rw [hw] at hst
          subst hst
          refine ⟨_, List.getElem?_set_self hcid, ?_, ?_, ?_, ?_, ?_, ?_, ?_⟩
          · simp only [hret0, ne_eq, not_false_eq_true, if_true, live_count_cons_self]
            omega
          · simp only
            by_cases hz : p.end_page_free - 1 = 0
            · simp [hz]
            · simp only [ne_eq, hz, not_false_eq_true, if_true, iff_false]
              omega
          · exact hper
          · exact hcur
          · exact hlen
          · exact hnz
          · intro x hx
            simp only [hret0, ne_eq, not_false_eq_true, if_true, List.mem_cons] at hx
            rcases hx with hx | hx
            · rw [hx]; exact hret0
            · exact hlive x hx
        · -- refused
          obtain ⟨_, _, _, _, _, _, _, q, hq, hqe, _, _, hcase⟩ :=
            newslab_classes s.1 st2 id realloc_ok malloc_ret p 0 hp hn
          have hq0 : q.slabs = p.slabs ∧ q.end_page_ptr = p.end_page_ptr ∧
              q.end_page_free = p.end_page_free := by
            rcases hcase with ⟨_, _, e1, e2, e3, _⟩ | ⟨hr, _⟩
            · exact ⟨e1, e2, e3⟩
            · exact absurd hr (by decide)
          refine chunks_inv_of_class id s _ p q hp hq (by rw [hqe]) hq0.2.2 hq0.2.1 hq0.1
            (by rw [hqe]) (by rw [hqe]) (by rw [hqe]) ?_ ?_ hinv
          · simp [hret]
          · simp only [hret, ne_eq, not_true_eq_false, if_false]
            exact hlive
        · -- new page
          obtain ⟨_, _, _, _, _, _, _, q', hq', hqe, _, _, hcase⟩ :=
            newslab_classes s.1 st1 id realloc_ok malloc_ret p 1 hp hn
          rw [hq] at hq'
          cases hq'
          have hqs : q.slabs = wrap32 (p.slabs + 1) ∧ q.end_page_free = p.perslab := by
            rcases hcase with ⟨hr, _⟩ | ⟨_, _, _, e1, _, e2, _⟩
            · exact absurd hr (by decide)
            · exact ⟨e1, e2⟩
          have hqid : id < st1.engine.slabs.slabclass.length :=
            (List.getElem?_eq_some_iff.mp hq).1
          have hs1 : wrap32 (p.slabs + 1) = p.slabs + 1 := by
            unfold wrap32; exact Nat.mod_eq_of_lt (by omega)
          have hper2 : p.perslab < 2 ^ 31 := by
            have : p.perslab ≤ (p.slabs + 1) * p.perslab :=
              Nat.le_mul_of_pos_left _ (by omega)
            omega
          have hw : wrap32 (q.end_page_free + 2 ^ 32 - 1) = p.perslab - 1 := by
            rw [hqs.2]
            unfold wrap32
            have : p.perslab + 2 ^ 32 - 1 = (p.perslab - 1) + 2 ^ 32 := by omega
            rw [this, Nat.add_mod_right, Nat.mod_eq_of_lt (by omega)]
          have hret0 : ret ≠ 0 := by rw [hret]; exact hq1
          have hpf : p.end_page_free = 0 := hiff.mp h2
          have f1 : q.perslab = p.perslab := by rw [hqe]
          have f2 : q.sl_total = p.sl_total := by rw [hqe]
          have f3 : q.slots = p.slots := by rw [hqe]
          rw [hw] at hst
          subst hst
          refine ⟨_, List.getElem?_set_self hqid, ?_, ?_, ?_, ?_, ?_, ?_, ?_⟩
          · simp only [hret0, ne_eq, not_false_eq_true, if_true, live_count_cons_self]
            rw [hq2, hqs.1, hs1, f1, hmul]
            omega
          · simp only
            by_cases hz : p.perslab - 1 = 0
            · simp [hz]
            · simp only [ne_eq, hz, not_false_eq_true, if_true, iff_false]
              omega
          · simp only; rw [f1]; exact hper
          · simp only; rw [hq2]; omega
          · simp only; rw [f3, f2]; exact hlen
          · intro i x hi _
            simp only at hi
            omega
          · intro x hx
            simp only [hret0, ne_eq, not_false_eq_true, if_true, List.mem_cons] at hx
            rcases hx with hx | hx
            · rw [hx]; exact hret0
            · exact hlive x hx
      · -- an allocation in another class
        obtain ⟨x1, hx1, hx1e, _⟩ :=
          do_slabs_alloc_other s.1 st2 size id realloc_ok malloc_ret ret c p
            (Ne.symm hid) hp ha
        refine chunks_inv_of_class c s _ p x1 hp hx1 (by rw [hx1e]) (by rw [hx1e])
          (by rw [hx1e]) (by rw [hx1e]) (by rw [hx1e]) (by rw [hx1e]) (by rw [hx1e]) ?_ ?_ hinv
        · simp only
          split_ifs
          · exact live_count_cons_ne c id ret s.2 hid
          · rfl
        · intro x hx
          simp only at hx
          split_ifs at hx with hr
          · rcases List.mem_cons.mp hx with hx | hx
            · rw [hx]; exact hr
            · exact hlive x hx
          · exact hlive x hx
  | free ptr size id realloc_ok =>
    simp only [frees_grow, Bool.and_true] at hg
    simp only [slab_step] at h
    by_cases hmem : (id, ptr) ∈ s.2
    · rw [if_pos hmem] at h
      cases hf : do_slabs_free s.1 ptr size id realloc_ok with
      | none => rw [hf] at h; cases h
      | some st1 =>
        rw [hf] at h
        simp only [Option.some.injEq] at h
        subst h
        have hlive1 : ∀ x, x ∈ s.2.erase (id, ptr) → x.2 ≠ 0 :=
          fun x hx => hlive x (List.mem_of_mem_erase hx)
        by_cases hid : id = c
        · subst hid
          have hptr : ptr ≠ 0 := hlive (id, ptr) hmem
          rcases do_slabs_free_result s.1 st1 ptr size id realloc_ok p hp hf with
            ⟨_, _, hre⟩ | ⟨_, p1, hp1, hlt, hgrow, hst⟩
          · rw [hg] at hre; cases hre
          · obtain ⟨hl1, hle1, hold⟩ := hgrow hlen (by omega)
            have hw : wrap32 (p.sl_curr + 1) = p.sl_curr + 1 := by
              unfold wrap32; exact Nat.mod_eq_of_lt (by omega)
            have g1 : p1.end_page_free = p.end_page_free := by rw [hp1]
            have g2 : p1.end_page_ptr = p.end_page_ptr := by rw [hp1]
            have g3 : p1.slabs = p.slabs := by rw [hp1]
            have g4 : p1.perslab = p.perslab := by rw [hp1]
            have hcnt := live_count_erase_self id ptr s.2 hmem
            rw [hw] at hst
            subst hst
            refine ⟨_, List.getElem?_set_self hcid, ?_, ?_, ?_, ?_, ?_, ?_, hlive1⟩
            · simp only
              rw [g1, g3, g4]
              omega
            · simp only; rw [g1, g2]; exact hiff
            · simp only; rw [g4]; exact hper
            · simp only; omega
            · simp only [List.length_set]; exact hl1
            · intro i x hi hx
              simp only at hi hx
              by_cases hi2 : i = p.sl_curr
              · subst hi2
                rw [List.getElem?_set_self hlt] at hx
                cases hx
                exact hptr
              · rw [List.getElem?_set_ne (Ne.symm hi2), hold i (by omega)] at hx
                exact hnz i x (by omega) hx
        · have hsame := do_slabs_free_other s.1 st1 ptr size id realloc_ok c (Ne.symm hid) hf
          refine chunks_inv_of_class c s _ p p hp (by rw [hsame]; exact hp) rfl rfl rfl rfl rfl
            rfl rfl ?_ hlive1 hinv
          exact live_count_erase_ne c id ptr s.2 hid
    · rw [if_neg hmem] at h
      cases h
  | set_memlimit memlimit =>
    simp only [slab_step] at h
    cases hm : do_slabs_set_memlimit s.1 memlimit with
    | none => rw [hm] at h; cases h
    | some cs =>
      obtain ⟨code, st1⟩ := cs
      rw [hm] at h
      simp only [Option.some.injEq] at h
      subst h
      rcases set_memlimit_result s.1 st1 memlimit code hm with hst | ⟨_, _, _, z, hz, hst⟩
      · rw [hst]
        exact hinv
      · by_cases hzc : s.1.sm_anchor.blck_clsid.toNat = c
        · rw [hzc] at hz hst
          rw [hp] at hz
          cases hz
          refine chunks_inv_of_class c s _ p { p with rsvd_slabs := 0 } hp ?_ rfl rfl rfl rfl
            rfl rfl rfl rfl hlive hinv
          rw [hst]
          exact List.getElem?_set_self hcid
        · refine chunks_inv_of_class c s _ p p hp ?_ rfl rfl rfl rfl rfl rfl rfl rfl hlive hinv
          rw [hst]
          simp only
          rw [List.getElem?_set_ne hzc]
          exact hp

/-- C13: for every slab class `c` and every sequence of slab-path allocations,
releases and limit changes (in any classes) in which each released chunk is a
live chunk of its class and free-list growth succeeds, the chunk accounting
`live + sl_curr + end_page_free = slabs * perslab` of class `c` (with the
facts that make it inductive, see `chunks_inv`) holds after every operation,
provided it holds at the start and the counters of the class stay away from
their width. -/
theorem chunk_accounting_along_runs (c : Nat) (ops : List slab_op) :
    ∀ (s : allocator × List (Nat × Nat)), chunks_inv c s → frees_grow ops = true →
      slab_run_within (chunks_bounded c) s ops = true →
      slab_run_always (chunks_inv c) s ops := by
  induction ops with
  | nil => intro s hinv _ _; exact hinv
  | cons op ops ih =>
    intro s hinv hg hb
    simp only [slab_run_within, Bool.and_eq_true] at hb
    refine ⟨hinv, ?_⟩
    have hg1 : frees_grow [op] = true ∧ frees_grow ops = true := by
      cases op with
      | alloc _ _ _ _ => exact ⟨rfl, hg⟩
      | free _ _ _ r =>
        simp only [frees_grow, Bool.and_eq_true] at hg ⊢
        exact ⟨⟨hg.1, trivial⟩, hg.2⟩
      | set_memlimit _ => exact ⟨rfl, hg⟩
    cases hs : slab_step s op with
    | none => trivial
    | some s1 =>
      have hb2 := hb.2
      rw [hs] at hb2
      exact ih s1 (chunks_inv_step c s s1 op hinv hb.1 hg1.1 hs) hg1.2 hb2

/-- Witness of `chunk_accounting_along_runs`: class 1 of `state_two_classes`
along `ops_mixed`; the run is defined and ends with three live chunks, an empty
free list and one chunk left in the second page (3 + 0 + 1 = 2 * 2). -/
theorem chunk_accounting_along_runs_witness :
    (chunks_inv 1 (state_two_classes, []) ∧ frees_grow ops_mixed = true ∧
      slab_run_within (chunks_bounded 1) (state_two_classes, []) ops_mixed = true) ∧
    slab_run_always (chunks_inv 1) (state_two_classes, []) ops_mixed ∧
    (slab_run (state_two_classes, []) ops_mixed).map
        (fun s => (live_count 1 s.2,
          (s.1.engine.slabs.slabclass[1]?).map
            (fun p => (p.sl_curr, p.end_page_free, p.slabs, p.perslab))))
      = some (3, some (0, 1, 2, 2)) :=
  ⟨⟨⟨mk_class (2 ^ 33) 400000 2 4 0 0, by decide, by decide, by decide, by decide, by decide,
        by decide, fun i _ hi _ => absurd hi (Nat.not_lt_zero i),
        fun x hx => absurd hx (List.not_mem_nil x)⟩,
      by decide, by decide⟩,
    chunk_accounting_along_runs 1 ops_mixed (state_two_classes, [])
      ⟨mk_class (2 ^ 33) 400000 2 4 0 0, by decide, by decide, by decide, by decide, by decide,
        by decide, fun i _ hi _ => absurd hi (Nat.not_lt_zero i),
        fun x hx => absurd hx (List.not_mem_nil x)⟩
      (by decide) (by decide),
    by decide⟩


/-! ### The bound on the memory taken from the arena -/

/-- A sum over a list does not decrease when every term does not. -/
theorem sum_map_le_of_pointwise {α : Type} (f : α → Nat) :
    ∀ (l1 l2 : List α), l1.length = l2.length →
      (∀ (i : Nat) (a b : α), l1[i]? = some a → l2[i]? = some b → f a ≤ f b) →
      (l1.map f).sum ≤ (l2.map f).sum := by
  intro l1
  induction l1 with
  | nil =>
    intro l2 hlen _
    cases l2 with
    | nil => exact Nat.le_refl _
    | cons _ _ => cases hlen
  | cons a as ih =>
    intro l2 hlen h
    cases l2 with
    | nil => cases hlen
    | cons b bs =>
      simp only [List.map_cons, List.sum_cons]
      have h0 : f a ≤ f b := h 0 a b (by simp) (by simp)
      have h1 : (as.map f).sum ≤ (bs.map f).sum :=
        ih bs (by simpa using hlen) (fun i x y hx hy => h (i + 1) x y (by simpa using hx)
          (by simpa using hy))
      omega

/-- A sum over a list grows by `d` at least when one term grows by `d` at least
and no term decreases. -/
theorem sum_map_add_le_of_pointwise {α : Type} (f : α → Nat) (d : Nat) :
    ∀ (l1 l2 : List α) (k : Nat) (a b : α), l1.length = l2.length →
      l1[k]? = some a → l2[k]? = some b → f a + d ≤ f b →
      (∀ (i : Nat) (x y : α), l1[i]? = some x → l2[i]? = some y → f x ≤ f y) →
      (l1.map f).sum + d ≤ (l2.map f).sum := by
  intro l1
  induction l1 with
  | nil => intro l2 k a b _ ha; cases ha
  | cons x xs ih =>
    intro l2 k a b hlen ha hb hd h
    cases l2 with
    | nil => cases hlen
    | cons y ys =>
      simp only [List.map_cons, List.sum_cons]
      have hlen1 : xs.length = ys.length := by simpa using hlen
      have htail : ∀ (i : Nat) (u v : α), xs[i]? = some u → ys[i]? = some v → f u ≤ f v :=
        fun i u v hu hv => h (i + 1) u v (by simpa using hu) (by simpa using hv)
      cases k with
      | zero =>
        simp only [List.getElem?_cons_zero, Option.some.injEq] at ha hb
        subst ha; subst hb
        have := sum_map_le_of_pointwise f xs ys hlen1 htail
        omega
      | succ k =>
        have h0 : f x ≤ f y := h 0 x y (by simp) (by simp)
        have := ih ys k a b hlen1 (by simpa using ha) (by simpa using hb) hd htail
        omega

/-- The bounds that `arena_bounded` tests. -/
theorem arena_bounded_class (st : allocator) (hb : arena_bounded st = true) :
    (∀ (i : Nat) (p : slabclass_t), st.engine.slabs.slabclass[i]? = some p →
      p.size * p.perslab < 2 ^ 31 ∧ p.slabs + 1 < 2 ^ 32) ∧
    st.engine.slabs.mem_malloced + st.engine.slabs.mem_malloced / 10 + 2 ^ 31 < 2 ^ 64 := by
  unfold arena_bounded at hb
  simp only [Bool.and_eq_true, List.all_eq_true, decide_eq_true_eq] at hb
  refine ⟨fun i p hp => ?_, hb.2⟩
  obtain ⟨hi, he⟩ := List.getElem?_eq_some_iff.mp hp
  have := hb.1 p (by rw [← he]; exact List.getElem_mem hi)
  simpa using this

/-- The bytes taken under reservation do not decrease when every class keeps
its page length, does not lose pages, and keeps its reservation or has it
defined. -/
theorem reserved_bytes_mono (l1 l2 : List slabclass_t) (hlen : l1.length = l2.length)
    (h : ∀ (i : Nat) (a b : slabclass_t), l1[i]? = some a → l2[i]? = some b →
      b.size = a.size ∧ b.perslab = a.perslab ∧ a.slabs ≤ b.slabs ∧
      (b.rsvd_slabs = a.rsvd_slabs ∨ a.rsvd_slabs = 0)) :
    reserved_bytes l1 ≤ reserved_bytes l2 := by
  unfold reserved_bytes
  apply sum_map_le_of_pointwise _ l1 l2 hlen
  intro i a b ha hb
  obtain ⟨h1, h2, h3, h4⟩ := h i a b ha hb
  simp only [h1, h2]
  apply Nat.mul_le_mul_right
  rcases h4 with h4 | h4
  · rw [h4]; omega
  · rw [h4]; omega

/-- The bytes taken under reservation grow by a page when one class takes a
page under its reservation and no other class loses any. -/
theorem reserved_bytes_grow (l1 l2 : List slabclass_t) (k : Nat) (p q : slabclass_t)
    (hlen : l1.length = l2.length)
    (hp : l1[k]? = some p) (hq : l2[k]? = some q)
    (hq1 : q.size = p.size) (hq2 : q.perslab = p.perslab) (hq3 : q.slabs = p.slabs + 1)
    (hq4 : q.rsvd_slabs = p.rsvd_slabs) (hlt : p.slabs < p.rsvd_slabs)
    (h : ∀ (i : Nat) (a b : slabclass_t), i ≠ k → l1[i]? = some a → l2[i]? = some b →
      b.size = a.size ∧ b.perslab = a.perslab ∧ a.slabs ≤ b.slabs ∧
      (b.rsvd_slabs = a.rsvd_slabs ∨ a.rsvd_slabs = 0)) :
    reserved_bytes l1 + p.size * p.perslab ≤ reserved_bytes l2 := by
  unfold reserved_bytes
  apply sum_map_add_le_of_pointwise _ _ l1 l2 k p q hlen hp hq
  · simp only [hq1, hq2, hq3, hq4]
    rw [Nat.min_eq_left (by omega), Nat.min_eq_left (by omega)]
    have : (p.slabs + 1) * (p.size * p.perslab)
        = p.slabs * (p.size * p.perslab) + p.size * p.perslab := by ring
    omega
  · intro i a b ha hb
    by_cases hik : i = k
    · subst hik
      rw [hp] at ha; rw [hq] at hb
      cases ha; cases hb
      simp only [hq1, hq2, hq3, hq4]
      apply Nat.mul_le_mul_right
      omega
    · obtain ⟨h1, h2, h3, h4⟩ := h i a b hik ha hb
      simp only [h1, h2]
      apply Nat.mul_le_mul_right
      rcases h4 with h4 | h4
      · rw [h4]; omega
      · rw [h4]; omega

/-- Replacing a class by one with the same page length, page count and
reservation leaves the bytes taken under reservation as they were. -/
theorem reserved_bytes_set (l : List slabclass_t) (k : Nat) (p q : slabclass_t)
    (hp : l[k]? = some p)
    (hq1 : q.size = p.size) (hq2 : q.perslab = p.perslab) (hq3 : q.slabs = p.slabs)
    (hq4 : q.rsvd_slabs = p.rsvd_slabs) :
    reserved_bytes (l.set k q) = reserved_bytes l := by
  have hk : k < l.length := (List.getElem?_eq_some_iff.mp hp).1
  apply Nat.le_antisymm
  · apply reserved_bytes_mono _ _ (by simp)
    intro i a b ha hb
    by_cases hik : k = i
    · subst hik
      rw [List.getElem?_set_self hk] at ha
      rw [hp] at hb
      cases ha; cases hb
      exact ⟨hq1.symm, hq2.symm, by omega, Or.inl hq4.symm⟩
    · rw [List.getElem?_set_ne hik] at ha
      rw [ha] at hb
      cases hb
      exact ⟨rfl, rfl, Nat.le_refl _, Or.inl rfl⟩
  · apply reserved_bytes_mono _ _ (by simp)
    intro i a b ha hb
    by_cases hik : k = i
    · subst hik
      rw [List.getElem?_set_self hk] at hb
      rw [hp] at ha
      cases ha; cases hb
      exact ⟨hq1, hq2, by omega, Or.inl hq4⟩
    · rw [List.getElem?_set_ne hik] at hb
      rw [ha] at hb
      cases hb
      exact ⟨rfl, rfl, Nat.le_refl _, Or.inl rfl⟩

/-- The bound `arena_inv` is preserved by `do_slabs_newslab`, whatever it
returns. -/
theorem newslab_arena_inv (st st1 : allocator) (id : Nat) (realloc_ok : Bool)
    (malloc_ret : Nat) (r : Int)
    (hinv : arena_inv st) (hb : arena_bounded st = true)
    (h : do_slabs_newslab st id realloc_ok malloc_ret = some (r, st1)) :
    arena_inv st1 := by
  cases hp : st.engine.slabs.slabclass[id]? with
  | none => unfold do_slabs_newslab at h; rw [hp] at h; cases h
  | some p =>
    obtain ⟨hbc, hbm⟩ := arena_bounded_class st hb
    obtain ⟨hpl, hps⟩ := hbc id p hp
    obtain ⟨_, _, hlim, _, _, hlen, hoth, q, hq, hqe, hqr, _, hcase⟩ :=
      newslab_classes st st1 id realloc_ok malloc_ret p r hp h
    have f1 : q.size = p.size := by rw [hqe]
    have f2 : q.perslab = p.perslab := by rw [hqe]
    have hrel : ∀ (i : Nat) (a b : slabclass_t), i ≠ id →
        st.engine.slabs.slabclass[i]? = some a → st1.engine.slabs.slabclass[i]? = some b →
        b.size = a.size ∧ b.perslab = a.perslab ∧ a.slabs ≤ b.slabs ∧
        (b.rsvd_slabs = a.rsvd_slabs ∨ a.rsvd_slabs = 0) := by
      intro i a b hi ha hb'
      obtain ⟨x1, hx1, hx1e, hx1r⟩ := hoth i a hi ha
      rw [hx1] at hb'
      cases hb'
      refine ⟨by rw [hx1e], by rw [hx1e], by rw [hx1e], ?_⟩
      rcases hx1r with h1 | ⟨h1, _⟩
      · exact Or.inl h1
      · exact Or.inr h1
    unfold arena_inv at hinv ⊢
    rw [hlim]
    by_cases h0 : st.engine.slabs.mem_limit = 0
    · exact Or.inl h0
    · right
      have hle : st.engine.slabs.mem_malloced
          ≤ st.engine.slabs.mem_limit + reserved_bytes st.engine.slabs.slabclass := by
        rcases hinv with h1 | h1
        · exact absurd h1 h0
        · exact h1
      rcases hcase with ⟨_, hmm, e1, _, _, e4, _⟩ | ⟨_, href, hmm, e1, _, _, _⟩
      · rw [hmm]
        have : reserved_bytes st.engine.slabs.slabclass
            ≤ reserved_bytes st1.engine.slabs.slabclass := by
          apply reserved_bytes_mono _ _ hlen.symm
          intro i a b ha hb'
          by_cases hi : i = id
          · subst hi
            rw [hp] at ha; rw [hq] at hb'
            cases ha; cases hb'
            exact ⟨f1, f2, by omega, Or.inl e4⟩
          · exact hrel i a b hi ha hb'
        omega
      · have hw : wrap64 (st.engine.slabs.mem_malloced + int_to_size_t (newslab_len p))
            = st.engine.slabs.mem_malloced + p.size * p.perslab := by
          rw [newslab_len_eq p hpl, int_to_size_t_nat _ (by omega), wrap64,
            Nat.mod_eq_of_lt (by omega)]
        have hs : wrap32 (p.slabs + 1) = p.slabs + 1 := by
          unfold wrap32; exact Nat.mod_eq_of_lt hps
        rw [hmm, hw]
        rw [hs] at e1
        have hnr : ¬ (st.engine.slabs.mem_limit ≠ 0 ∧
            st.engine.slabs.mem_limit < st.engine.slabs.mem_malloced + p.size * p.perslab
            ∧ p.rsvd_slabs ≤ p.slabs) := by
          rw [← newslab_refused_iff st.engine.slabs p hpl (by omega), href]
          simp
        by_cases hfit : st.engine.slabs.mem_malloced + p.size * p.perslab
            ≤ st.engine.slabs.mem_limit
        · omega
        · have hlt : p.slabs < p.rsvd_slabs := by
            by_contra hge
            apply hnr
            exact ⟨h0, by omega, by omega⟩
          have hqr2 : q.rsvd_slabs = p.rsvd_slabs := by
            rcases hqr with h1 | ⟨h1, _⟩
            · exact h1
            · omega
          have := reserved_bytes_grow st.engine.slabs.slabclass st1.engine.slabs.slabclass
            id p q hlen.symm hp hq f1 f2 e1 hqr2 hlt hrel
          omega

/-- The bound `arena_inv` is preserved by a slab-path allocation. -/
theorem do_slabs_alloc_arena_inv (st st2 : allocator) (size id : Nat) (realloc_ok : Bool)
    (malloc_ret : Nat) (ret : Nat)
    (hinv : arena_inv st) (hb : arena_bounded st = true)
    (h : do_slabs_alloc st size id realloc_ok malloc_ret = some (ret, st2)) :
    arena_inv st2 := by
  cases hp : st.engine.slabs.slabclass[id]? with
  | none => unfold do_slabs_alloc at h; rw [hp] at h; cases h
  | some p =>
    rcases do_slabs_alloc_result st st2 size id realloc_ok malloc_ret p ret hp h with
      ⟨_, _, hst⟩ | ⟨_, _, _, hst⟩ | ⟨_, _, _, hn⟩ | ⟨_, _, st1, q, hn, hq, _, _, _, hst⟩
    · subst hst
      unfold arena_inv at hinv ⊢
      simp only
      rw [reserved_bytes_set _ id p _ hp]
      · exact hinv
      all_goals rfl
    · subst hst
      unfold arena_inv at hinv ⊢
      simp only
      rw [reserved_bytes_set _ id p _ hp]
      · exact hinv
      all_goals rfl
    · exact newslab_arena_inv st st2 id realloc_ok malloc_ret 0 hinv hb hn
    · have h1 := newslab_arena_inv st st1 id realloc_ok malloc_ret 1 hinv hb hn
      subst hst
      unfold arena_inv at h1 ⊢
      simp only
      rw [reserved_bytes_set _ id q _ hq]
      · exact h1
      all_goals rfl

/-- The bound `arena_inv` is preserved by a slab-path release. -/
theorem do_slabs_free_arena_inv (st st1 : allocator) (ptr size id : Nat) (realloc_ok : Bool)
    (hinv : arena_inv st)
    (h : do_slabs_free st ptr size id realloc_ok = some st1) :
    arena_inv st1 := by
  cases hp : st.engine.slabs.slabclass[id]? with
  | none => unfold do_slabs_free at h; rw [hp] at h; cases h
  | some p =>
    rcases do_slabs_free_result st st1 ptr size id realloc_ok p hp h with
      ⟨hst, _⟩ | ⟨_, p1, hp1, _, _, hst⟩
    · rw [hst]; exact hinv
    · subst hst
      unfold arena_inv at hinv ⊢
      simp only
      rw [reserved_bytes_set _ id p _ hp]
      · exact hinv
      all_goals (simp only; rw [hp1])

/-- The bound `arena_inv` holds after `do_slabs_set_memlimit`: an accepted
limit is at least `mem_malloced`. -/
theorem set_memlimit_arena_inv (st st1 : allocator) (memlimit : Nat)
    (code : ENGINE_ERROR_CODE)
    (hinv : arena_inv st) (hb : arena_bounded st = true)
    (h : do_slabs_set_memlimit st memlimit = some (code, st1)) :
    arena_inv st1 := by
  obtain ⟨_, hbm⟩ := arena_bounded_class st hb
  rcases set_memlimit_result st st1 memlimit code h with hst | ⟨_, _, hle, z, _, hst⟩
  · rw [hst]; exact hinv
  · subst hst
    unfold arena_inv
    right
    simp only
    rw [wrap64, Nat.mod_eq_of_lt (by omega)] at hle
    omega

/-- One slab operation preserves the bound `arena_inv`. -/
theorem arena_inv_step (s s1 : allocator × List (Nat × Nat)) (op : slab_op)
    (hinv : arena_inv s.1) (hb : arena_bounded s.1 = true)
    (h : slab_step s op = some s1) : arena_inv s1.1 := by
  cases op with
  | alloc size id realloc_ok malloc_ret =>
    simp only [slab_step] at h
    cases ha : do_slabs_alloc s.1 size id realloc_ok malloc_ret with
    | none => rw [ha] at h; cases h
    | some rs =>
      obtain ⟨ret, st2⟩ := rs
      rw [ha] at h
      simp only [Option.some.injEq] at h
      subst h
      exact do_slabs_alloc_arena_inv s.1 st2 size id realloc_ok malloc_ret ret hinv hb ha
  | free ptr size id realloc_ok =>
    simp only [slab_step] at h
    by_cases hmem : (id, ptr) ∈ s.2
    · rw [if_pos hmem] at h
      cases hf : do_slabs_free s.1 ptr size id realloc_ok with
      | none => rw [hf] at h; cases h
      | some st1 =>
        rw [hf] at h
        simp only [Option.some.injEq] at h
        subst h
        exact do_slabs_free_arena_inv s.1 st1 ptr size id realloc_ok hinv hf
    · rw [if_neg hmem] at h
      cases h
  | set_memlimit memlimit =>
    simp only [slab_step] at h
    cases hm : do_slabs_set_memlimit s.1 memlimit with
    | none => rw [hm] at h; cases h
    | some cs =>
      obtain ⟨code, st1⟩ := cs
      rw [hm] at h
      simp only [Option.some.injEq] at h
      subst h
      exact set_memlimit_arena_inv s.1 st1 memlimit code hinv hb hm

/-- C14, counterexample: from `state_two_classes` (limit 1 MiB, nothing
allocated) the nine allocations of `ops_fill` take the four reserved pages of
the 1 MiB class and three pages of the 400000-byte class; then
`mem_malloced = 6594304` while `mem_limit` plus the sum of
`(rsvd_slabs - slabs) * page_size` over the classes with a defined reservation
is `1048576 + (4 + 1 + 0) * 1048576 = 6291456` for 1 MiB pages, and
`1048576 + 4 * 1048576 + 1 * 800000 = 6042880` for the page length of each
class. -/
theorem arena_bound_of_spec_fails :
    (slab_run (state_two_classes, []) ops_fill).map
        (fun s => (s.1.engine.slabs.mem_malloced, s.1.engine.slabs.mem_limit,
          s.1.engine.slabs.slabclass.map (fun p => (p.rsvd_slabs, p.slabs)),
          spec_arena_bound (fun _ => 1048576) s.1,
          spec_arena_bound (fun p => p.size * p.perslab) s.1))
      = some (6594304, 1048576, [(4, 0), (4, 3), (4, 4)], false, false) := by
  decide

/-- C14, amended: along every sequence of slab-path allocations, releases and
limit changes, after every operation either no limit is configured
(`mem_limit = 0`) or `mem_malloced` is at most `mem_limit` plus the bytes of the
pages taken under reservation, the sum over the classes of
`min(slabs, rsvd_slabs) * size * perslab`; provided this holds at the start (as
it does after `slabs_init`, where `mem_malloced = 0`) and no computation of the
arena accounting wraps. -/
theorem arena_bound_along_runs (ops : List slab_op) :
    ∀ (s : allocator × List (Nat × Nat)), arena_inv s.1 →
      slab_run_within arena_bounded s ops = true →
      slab_run_always (fun x => arena_inv x.1) s ops := by
  induction ops with
  | nil => intro s hinv _; exact hinv
  | cons op ops ih =>
    intro s hinv hb
    simp only [slab_run_within, Bool.and_eq_true] at hb
    refine ⟨hinv, ?_⟩
    cases hs : slab_step s op with
    | none => trivial
    | some s1 =>
      have hb2 := hb.2
      rw [hs] at hb2
      exact ih s1 (arena_inv_step s s1 op hinv hb.1 hs) hb2

/-- Witness of `arena_bound_along_runs`: the run `ops_fill` from
`state_two_classes`, which is defined to its end and ends with
`mem_malloced = 6594304 = 1048576 + 5545728 <= mem_limit + (3 * 800000 + 4 * 1048576)`. -/
theorem arena_bound_along_runs_witness :
    (arena_inv (state_two_classes, ([] : List (Nat × Nat))).1 ∧
      slab_run_within arena_bounded (state_two_classes, []) ops_fill = true) ∧
    slab_run_always (fun x => arena_inv x.1) (state_two_classes, []) ops_fill ∧
    (slab_run (state_two_classes, []) ops_fill).map
        (fun s => (s.1.engine.slabs.mem_malloced, s.1.engine.slabs.mem_limit,
          reserved_bytes s.1.engine.slabs.slabclass))
      = some (6594304, 1048576, 6594304) :=
  ⟨⟨Or.inr (by decide), by decide⟩,
    arena_bound_along_runs ops_fill (state_two_classes, []) (Or.inr (by decide)) (by decide),
    by decide⟩


/-! ### The small-memory manager -/

set_option maxRecDepth 100000 in
/-- C16, counterexample: on a fresh allocator, after allocations of 60 and 20
bytes, the release of the first slot and an allocation of 36 bytes, the 24
bytes left of the 64-byte free slot are a free slot (at block offset 64) on no
list; they are counted in `free_small_space`, and the sum of
`free_slist[i].space` is `65416`, while
`free_small_space + free_avail_space = 24 + 65416`. -/
theorem free_space_sum_misses_short_slots :
    (smmgr_run (smmgr_state_fresh, []) ops_tiny_residue).map
        (fun s => (slist_space_sum s.1.st.sm_anchor.free_slist,
          s.1.st.sm_anchor.free_small_space, s.1.st.sm_anchor.free_avail_space))
      = some (65416, 24, 65416) ∧
    (smmgr_run (smmgr_state_fresh, []) ops_tiny_residue).map
        (fun s => (slot_status s.1.mem (base0 + 64), slot_length s.1.mem (base0 + 64)))
      = some (0, 24) := by
  decide


/-- `used_frame` is reflexive. -/
theorem used_frame_refl (a : sm_anchor_t) : used_frame a a :=
  ⟨rfl, rfl, rfl, rfl, rfl, rfl, rfl, rfl⟩

/-- `used_frame` is transitive. -/
theorem used_frame_trans (a b c : sm_anchor_t) (h1 : used_frame a b) (h2 : used_frame b c) :
    used_frame a c := by
  obtain ⟨a1, a2, a3, a4, a5, a6, a7, a8⟩ := h1
  obtain ⟨b1, b2, b3, b4, b5, b6, b7, b8⟩ := h2
  exact ⟨b1.trans a1, b2.trans a2, b3.trans a3, b4.trans a4, b5.trans a5, b6.trans a6,
    b7.trans a7, b8.trans a8⟩

/-- `do_smmgr_free_slot_list_add` leaves the used statistics alone. -/
theorem free_slot_list_add_used_frame (a : sm_anchor_t) (targ : Int) :
    used_frame a (do_smmgr_free_slot_list_add a targ) := by
  unfold do_smmgr_free_slot_list_add
  simp only []
  split_ifs <;> exact ⟨rfl, rfl, rfl, rfl, rfl, rfl, rfl, rfl⟩

/-- `do_smmgr_free_slot_list_del` leaves the used statistics alone. -/
theorem free_slot_list_del_used_frame (a a1 : sm_anchor_t) (targ : Int)
    (h : do_smmgr_free_slot_list_del a targ = some a1) : used_frame a a1 := by
  unfold do_smmgr_free_slot_list_del at h
  simp only [] at h
  split at h
  · split at h
    · cases h
    · split at h
      · cases h
      · cases h
        exact ⟨rfl, rfl, rfl, rfl, rfl, rfl, rfl, rfl⟩
  · cases h
    exact used_frame_refl a

/-- `do_smmgr_free_slot_link` leaves the used statistics alone. -/
theorem free_slot_link_used_frame (a a1 : sm_anchor_t) (m m1 : Nat → Nat) (slot : Nat)
    (h : do_smmgr_free_slot_link a m slot = some (a1, m1)) : used_frame a a1 := by
  unfold do_smmgr_free_slot_link at h
  simp only [] at h
  split at h
  · cases h
    exact ⟨rfl, rfl, rfl, rfl, rfl, rfl, rfl, rfl⟩
  · split at h
    · cases h
    · rename_i list hl
      split at h
      · cases h
      · rename_i a2 m2 hlinked
        have hf : used_frame a a2 := by
          split at hlinked
          · split at hlinked
            · split at hlinked
              · cases hlinked
              · cases hlinked
                exact free_slot_list_add_used_frame _ _
            · cases hlinked
          · split at hlinked
            · split at hlinked
              · cases hlinked
              · cases hlinked
                exact ⟨rfl, rfl, rfl, rfl, rfl, rfl, rfl, rfl⟩
            · cases hlinked
        split at h
        · cases h
          exact used_frame_trans _ _ _ hf ⟨rfl, rfl, rfl, rfl, rfl, rfl, rfl, rfl⟩
        · cases h
          exact used_frame_trans _ _ _ hf ⟨rfl, rfl, rfl, rfl, rfl, rfl, rfl, rfl⟩

/-- `do_smmgr_free_slot_unlink` leaves the used statistics alone. -/
theorem free_slot_unlink_used_frame (a a1 : sm_anchor_t) (m m1 : Nat → Nat) (slot : Nat)
    (h : do_smmgr_free_slot_unlink a m slot = some (a1, m1)) : used_frame a a1 := by
  unfold do_smmgr_free_slot_unlink at h
  simp only [] at h
  split at h
  · cases h
    exact ⟨rfl, rfl, rfl, rfl, rfl, rfl, rfl, rfl⟩
  · have hf0 : used_frame a
        (if do_smmgr_memid (slot_length m slot) < a.used_maxid then
          { a with free_small_space := sub64 a.free_small_space (slot_length m slot) }
        else { a with free_avail_space := sub64 a.free_avail_space (slot_length m slot) }) := by
      split_ifs <;> exact ⟨rfl, rfl, rfl, rfl, rfl, rfl, rfl, rfl⟩
    generalize (if do_smmgr_memid (slot_length m slot) < a.used_maxid then
          { a with free_small_space := sub64 a.free_small_space (slot_length m slot) }
        else { a with free_avail_space := sub64 a.free_avail_space (slot_length m slot) }) = a0
      at h hf0
    split at h
    · cases h
    · split at h
      · split at h
        · split at h
          · cases h
          · split at h
            · cases h
            · rename_i a2 hdel
              cases h
              have hd := free_slot_list_del_used_frame _ _ _ hdel
              exact used_frame_trans _ _ _ hf0 (show used_frame a0 a1 from hd)
        · cases h
      · split at h
        · split at h
          · cases h
          · cases h
            exact used_frame_trans _ _ _ hf0 ⟨rfl, rfl, rfl, rfl, rfl, rfl, rfl, rfl⟩
        · cases h

/-- `do_smmgr_free_slot_replace` leaves the used statistics alone. -/
theorem free_slot_replace_used_frame (a a1 : sm_anchor_t) (m m1 : Nat → Nat)
    (old_slot new_slot : Nat) (smid : Int)
    (h : do_smmgr_free_slot_replace a m old_slot new_slot smid = some (a1, m1)) :
    used_frame a a1 := by
  unfold do_smmgr_free_slot_replace at h
  simp only [] at h
  split at h
  · cases h
  · split at h
    · split at h
      · cases h
      · split at h
        · cases h
          exact ⟨rfl, rfl, rfl, rfl, rfl, rfl, rfl, rfl⟩
        · cases h
          exact ⟨rfl, rfl, rfl, rfl, rfl, rfl, rfl, rfl⟩
    · cases h

/-- `do_smmgr_used_blck_link` leaves the used statistics alone. -/
theorem used_blck_link_used_frame (a : sm_anchor_t) (m : Nat → Nat) (blck : Nat) :
    used_frame a (do_smmgr_used_blck_link a m blck).1 := by
  unfold do_smmgr_used_blck_link
  simp only []
  split_ifs <;> exact ⟨rfl, rfl, rfl, rfl, rfl, rfl, rfl, rfl⟩

/-- `do_smmgr_used_blck_unlink` leaves the used statistics alone. -/
theorem used_blck_unlink_used_frame (a : sm_anchor_t) (m : Nat → Nat) (blck : Nat) :
    used_frame a (do_smmgr_used_blck_unlink a m blck).1 := by
  unfold do_smmgr_used_blck_unlink
  exact ⟨rfl, rfl, rfl, rfl, rfl, rfl, rfl, rfl⟩

/-- A slab-path allocation does not touch the anchor of the small-memory
manager. -/
theorem do_slabs_alloc_anchor (st st2 : allocator) (size id : Nat) (realloc_ok : Bool)
    (malloc_ret ret : Nat)
    (h : do_slabs_alloc st size id realloc_ok malloc_ret = some (ret, st2)) :
    st2.sm_anchor = st.sm_anchor := by
  cases hp : st.engine.slabs.slabclass[id]? with
  | none => unfold do_slabs_alloc at h; rw [hp] at h; cases h
  | some p =>
    rcases do_slabs_alloc_result st st2 size id realloc_ok malloc_ret p ret hp h with
      ⟨_, _, hst⟩ | ⟨_, _, _, hst⟩ | ⟨_, _, _, hn⟩ | ⟨_, _, st1, q, hn, hq, _, _, _, hst⟩
    · rw [hst]
    · rw [hst]
    · exact (newslab_classes st st2 id realloc_ok malloc_ret p 0 hp hn).1
    · rw [hst]
      exact (newslab_classes st st1 id realloc_ok malloc_ret p 1 hp hn).1

/-- A slab-path release does not touch the anchor of the small-memory
manager. -/
theorem do_slabs_free_anchor (st st1 : allocator) (ptr size id : Nat) (realloc_ok : Bool)
    (h : do_slabs_free st ptr size id realloc_ok = some st1) :
    st1.sm_anchor = st.sm_anchor := by
  cases hp : st.engine.slabs.slabclass[id]? with
  | none => unfold do_slabs_free at h; rw [hp] at h; cases h
  | some p =>
    rcases do_slabs_free_result st st1 ptr size id realloc_ok p hp h with
      ⟨hst, _⟩ | ⟨_, p1, _, _, _, hst⟩
    · rw [hst]
    · rw [hst]

/-- `do_smmgr_blck_alloc` leaves the used statistics alone. -/
theorem blck_alloc_used_frame (s s1 : smmgr_state) (realloc_ok : Bool) (malloc_ret blck : Nat)
    (h : do_smmgr_blck_alloc s realloc_ok malloc_ret = some (blck, s1)) :
    used_frame s.st.sm_anchor s1.st.sm_anchor := by
  unfold do_smmgr_blck_alloc at h
  split at h
  · cases h
  · rename_i b st1 ha
    have hanch := do_slabs_alloc_anchor _ _ _ _ _ _ _ ha
    simp only [] at h
    split at h
    · cases h
    · simp only [Option.some.injEq, Prod.mk.injEq] at h
      obtain ⟨_, hs1⟩ := h
      rw [← hs1]
      split_ifs
      all_goals simp only []
      all_goals rw [hanch]
      all_goals first | exact used_frame_refl _ | exact used_blck_link_used_frame _ _ _

/-- `do_smmgr_blck_free` leaves the used statistics alone. -/
theorem blck_free_used_frame (s s1 : smmgr_state) (blck : Nat) (realloc_ok : Bool)
    (h : do_smmgr_blck_free s blck realloc_ok = some s1) :
    used_frame s.st.sm_anchor s1.st.sm_anchor := by
  unfold do_smmgr_blck_free at h
  simp only [] at h
  split at h
  · cases h
  · rename_i st1 hf
    cases h
    have := do_slabs_free_anchor _ _ _ _ _ _ hf
    simp only
    rw [this]
    exact used_blck_unlink_used_frame _ _ _

/-- `smmgr_alloc_from_slot` leaves the used statistics alone. -/
theorem alloc_from_slot_used_frame (a a1 : sm_anchor_t) (m m1 : Nat → Nat) (cur_slot : Nat)
    (smid slen : Int)
    (h : smmgr_alloc_from_slot a m cur_slot smid slen = some (a1, m1)) : used_frame a a1 := by
  unfold smmgr_alloc_from_slot at h
  simp only [] at h
  split at h
  · cases h
  · rename_i a2 m2 hcut
    cases h
    split at hcut
    · split at hcut
      · split at hcut
        · cases hcut
        · rename_i a3 m3 hun
          exact used_frame_trans _ _ _ (free_slot_unlink_used_frame _ _ _ _ _ hun)
            (free_slot_link_used_frame _ _ _ _ _ hcut)
      · exact free_slot_replace_used_frame _ _ _ _ _ _ _ hcut
    · exact free_slot_unlink_used_frame _ _ _ _ _ hcut

/-- `smmgr_free_coalesce` leaves the used statistics alone. -/
theorem free_coalesce_used_frame (a a1 : sm_anchor_t) (m m1 : Nat → Nat)
    (ptr cur_blck cur_tail tail1 : Nat)
    (h : smmgr_free_coalesce a m ptr cur_blck cur_tail = some (a1, m1, tail1)) :
    used_frame a a1 := by
  unfold smmgr_free_coalesce at h
  simp only [] at h
  split at h
  · cases h
  · rename_i a2 m2 hbefore
    have hf : used_frame a a2 := by
      split at hbefore
      · split at hbefore
        · cases hbefore
        · split at hbefore
          · split at hbefore
            · split at hbefore
              · cases hbefore
              · rename_i a3 m3 hun
                cases hbefore
                exact free_slot_unlink_used_frame _ _ _ _ _ hun
            · cases hbefore
          · cases hbefore
            exact used_frame_refl _
      · cases hbefore
        exact used_frame_refl _
    split at h
    · split at h
      · split at h
        · cases h
        · split at h
          · split at h
            · cases h
            · rename_i a3 m3 hun
              cases h
              exact used_frame_trans _ _ _ hf (free_slot_unlink_used_frame _ _ _ _ _ hun)
          · cases h
      · cases h
        exact hf
    · cases h
      exact hf

/-- The shape of a call of `do_smmgr_alloc` with respect to the used
statistics: a null result leaves them alone, and otherwise they are left alone
up to the final block `/* used slot stats */`. -/
theorem do_smmgr_alloc_stats (s s1 : smmgr_state) (size : Nat) (realloc_ok : Bool)
    (malloc_ret ret : Nat)
    (h : do_smmgr_alloc s size realloc_ok malloc_ret = some (ret, s1)) :
    (ret = 0 ∧ used_frame s.st.sm_anchor s1.st.sm_anchor) ∨
    (ret ≠ 0 ∧ ∃ a1, used_frame s.st.sm_anchor a1 ∧
      smmgr_used_stats_add a1 (do_smmgr_memid (int_to_size_t (do_smmgr_slen size)))
        (do_smmgr_slen size) = some s1.st.sm_anchor) := by
  unfold do_smmgr_alloc at h
  simp only [] at h
  split at h
  · cases h
  · split at h
    · cases h
    · rename_i l hl
      split at h
      · cases h
      · rename_i r s2 htaken
        have hf : used_frame s.st.sm_anchor s2.st.sm_anchor := by
          split at htaken
          · split at htaken
            · cases htaken
            · rename_i blck s3 hb
              have hf3 := blck_alloc_used_frame _ _ _ _ _ hb
              split at htaken
              · cases htaken
                exact hf3
              · split at htaken
                · cases htaken
                · rename_i a4 m4 hlink
                  cases htaken
                  exact used_frame_trans _ _ _ hf3 (free_slot_link_used_frame _ _ _ _ _ hlink)
          · split at htaken
            · cases htaken
            · rename_i a4 m4 hfrom
              cases htaken
              exact alloc_from_slot_used_frame _ _ _ _ _ _ _ hfrom
        split at h
        · rename_i hr
          cases h
          exact Or.inl ⟨rfl, hf⟩
        · rename_i hr
          split at h
          · cases h
          · rename_i a5 hadd
            cases h
            exact Or.inr ⟨hr, _, hf, hadd⟩

/-- The shape of a call of `do_smmgr_free` with respect to the used statistics:
they are left alone up to the final block `/* used slot stats */`. -/
theorem do_smmgr_free_stats (s s1 : smmgr_state) (ptr size : Nat) (realloc_ok : Bool)
    (h : do_smmgr_free s ptr size realloc_ok = some s1) :
    ∃ a1, used_frame s.st.sm_anchor a1 ∧
      smmgr_used_stats_del a1 (do_smmgr_memid (int_to_size_t (do_smmgr_slen size)))
        (do_smmgr_slen size) = some s1.st.sm_anchor := by
  unfold do_smmgr_free at h
  simp only [] at h
  split at h
  · split at h
    · cases h
    · split at h
      · cases h
      · rename_i a2 m2 tail2 hco
        have hf2 := free_coalesce_used_frame _ _ _ _ _ _ _ _ hco
        split at h
        · cases h
        · rename_i s3 hrel
          have hf3 : used_frame s.st.sm_anchor s3.st.sm_anchor := by
            split at hrel
            · split at hrel
              · cases hrel
              · split at hrel
                · cases hrel
                · rename_i a4 m4 hlink
                  cases hrel
                  exact used_frame_trans _ _ _ hf2 (free_slot_link_used_frame _ _ _ _ _ hlink)
            · exact used_frame_trans _ _ _ hf2 (blck_free_used_frame _ _ _ _ hrel)
          split at h
          · cases h
          · rename_i a5 hdel
            cases h
            exact ⟨_, hf3, hdel⟩
  · cases h

/-- The slot length of a request below the last class: a multiple of eight
between 32 and 8184, whose class is its eighth. -/
theorem slen_class (size : Nat) (h : do_smmgr_slen size < 8192) :
    ∃ k : Nat, 4 ≤ k ∧ k ≤ 1023 ∧ do_smmgr_slen size = ((8 * k : Nat) : Int) ∧
      int_to_size_t (do_smmgr_slen size) = 8 * k ∧
      do_smmgr_memid (int_to_size_t (do_smmgr_slen size)) = (k : Int) := by
  have hex : ∃ k : Nat, 4 ≤ k ∧ k ≤ 1023 ∧ do_smmgr_slen size = ((8 * k : Nat) : Int) := by
    unfold do_smmgr_slen at h ⊢
    simp only [] at h ⊢
    have hmin : SMMGR_MIN_SLOT_SIZE = 32 := rfl
    by_cases hlt : to_int (SMMGR_SLOT_SIZE size) < SMMGR_MIN_SLOT_SIZE
    · rw [if_pos hlt]
      exact ⟨4, by omega, by omega, by rw [hmin]; rfl⟩
    · rw [if_neg hlt] at h ⊢
      have hm : ∃ q : Nat, SMMGR_SLOT_SIZE size % 2 ^ 32 = 8 * q := by
        unfold SMMGR_SLOT_SIZE wrap64
        generalize (size + sizeof_sm_tail_t - 1) % 2 ^ 64 / 8 + 1 = t
        exact ⟨t * 8 % 2 ^ 64 % 2 ^ 32 / 8, by omega⟩
      obtain ⟨q, hq⟩ := hm
      rw [hmin] at hlt
      unfold to_int at h hlt ⊢
      rw [hq] at h hlt ⊢
      by_cases hs : 8 * q < 2 ^ 31
      · rw [if_pos hs] at h hlt ⊢
        exact ⟨q, by omega, by omega, rfl⟩
      · rw [if_neg hs] at hlt
        have : (2 : Int) ^ 32 = 4294967296 := by norm_num
        omega
  obtain ⟨k, h1, h2, h3⟩ := hex
  have e1 : int_to_size_t (do_smmgr_slen size) = 8 * k := by
    rw [h3]; exact int_to_size_t_nat _ (by omega)
  refine ⟨k, h1, h2, h3, e1, ?_⟩
  rw [e1]
  unfold do_smmgr_memid
  rw [if_pos (by omega)]
  have : 8 * k / 8 = k := by omega
  rw [this, to_int_small _ (by omega)]

/-- Replacing one term of a sum. -/
theorem sum_map_set {α : Type} (f : α → Nat) :
    ∀ (l : List α) (k : Nat) (a b : α), l[k]? = some a →
      ((l.set k b).map f).sum + f a = (l.map f).sum + f b := by
  intro l
  induction l with
  | nil => intro k a b h; cases h
  | cons x xs ih =>
    intro k a b h
    cases k with
    | zero =>
      simp only [List.getElem?_cons_zero, Option.some.injEq] at h
      subst h
      simp only [List.set_cons_zero, List.map_cons, List.sum_cons]
      omega
    | succ k =>
      have := ih k a b (by simpa using h)
      simp only [List.set_cons_succ, List.map_cons, List.sum_cons]
      omega

/-- A term of a sum is at most the sum. -/
theorem le_sum_map {α : Type} (f : α → Nat) (l : List α) (k : Nat) (a : α)
    (h : l[k]? = some a) : f a ≤ (l.map f).sum := by
  have := sum_map_set f l k a a h
  have h2 := sum_map_le_of_pointwise (fun _ => 0) l (l.set k a) (by simp) (fun _ _ _ _ _ => Nat.le_refl _)
  rw [list_set_same l k a h] at this
  clear h2
  induction l generalizing k with
  | nil => cases h
  | cons x xs ih =>
    cases k with
    | zero =>
      simp only [List.getElem?_cons_zero, Option.some.injEq] at h
      subst h
      simp only [List.map_cons, List.sum_cons]
      omega
    | succ k =>
      have := ih k (by simpa using h) rfl
      simp only [List.map_cons, List.sum_cons]
      omega

/-- `do_smmgr_used_slot_list_add` changes neither the array of used lists nor
`used_total_space`. -/
theorem used_slot_list_add_stats (a a1 : sm_anchor_t) (targ : Int)
    (h : do_smmgr_used_slot_list_add a targ = some a1) :
    a1.used_slist = a.used_slist ∧ a1.used_total_space = a.used_total_space := by
  unfold do_smmgr_used_slot_list_add at h
  simp only [] at h
  have h0 : (if targ < a.used_minid then { a with used_minid := targ } else a).used_slist
        = a.used_slist ∧
      (if targ < a.used_minid then { a with used_minid := targ } else a).used_total_space
        = a.used_total_space := by
    split_ifs <;> exact ⟨rfl, rfl⟩
  generalize (if targ < a.used_minid then { a with used_minid := targ } else a) = a0 at h h0
  split at h
  · split at h
    · cases h
    · cases h
      exact h0
  · cases h
    exact h0

/-- `do_smmgr_used_slot_list_del` changes neither the array of used lists nor
`used_total_space`. -/
theorem used_slot_list_del_stats (a a1 : sm_anchor_t) (targ : Int)
    (h : do_smmgr_used_slot_list_del a targ = some a1) :
    a1.used_slist = a.used_slist ∧ a1.used_total_space = a.used_total_space := by
  unfold do_smmgr_used_slot_list_del at h
  simp only [] at h
  split at h
  · cases h
  · split at h
    · split at h
      · cases h
      · split at h
        · cases h
        · cases h
          exact ⟨rfl, rfl⟩
    · cases h
      exact ⟨rfl, rfl⟩

/-- Reading a cell of an array of lists through a natural index. -/
theorem slist_at_nat (l : List sm_slist_t) (i : Nat) : slist_at l (i : Int) = l[i]? := by
  simp [slist_at]

/-- Storing into a cell of an array of lists through a natural index. -/
theorem slist_store_nat (l : List sm_slist_t) (i : Nat) (x : sm_slist_t) (h : i < l.length) :
    slist_store l (i : Int) x = some (l.set i x) := by
  simp [slist_store, h]

/-- The statistics of the used slots stay consistent through the block
`/* used slot stats */` of `do_smmgr_alloc`, for a slot of `8 * k` bytes in
class `k`. -/
theorem used_stats_add_inv (a a1 : sm_anchor_t) (k : Nat)
    (hinv : used_stats_inv a) (hb : a.used_total_space + 8192 < 2 ^ 64)
    (hk1 : 4 ≤ k) (hk2 : k ≤ 1023)
    (h : smmgr_used_stats_add a (k : Int) ((8 * k : Nat) : Int) = some a1) :
    used_stats_inv a1 := by
  obtain ⟨hlen, hsum, hsp⟩ := hinv
  have hlen' : a.used_slist.length = 1025 := hlen
  have hkl : k < a.used_slist.length := by omega
  unfold smmgr_used_stats_add at h
  rw [slist_at_nat, List.getElem?_eq_getElem hkl] at h
  simp only [] at h
  rw [slist_store_nat _ _ _ hkl] at h
  simp only [] at h
  have hu : a.used_slist[k]? = some (a.used_slist[k]) := List.getElem?_eq_getElem hkl
  generalize a.used_slist[k] = u at h hu
  have hus : u.space = 8 * k * u.count := hsp k u hu (by
    have : SMMGR_NUM_CLASSES = 1025 := rfl
    omega)
  have hule : u.space ≤ a.used_total_space := by
    rw [hsum]; exact le_sum_map _ _ k u hu
  have hcnt : u.count ≤ u.space := by
    rw [hus]
    calc u.count = 1 * u.count := (Nat.one_mul _).symm
      _ ≤ 8 * k * u.count := Nat.mul_le_mul_right _ (by omega)
  have e1 : int_to_size_t ((8 * k : Nat) : Int) = 8 * k := int_to_size_t_nat _ (by omega)
  rw [e1] at h
  have w1 : wrap64 (u.space + 8 * k) = u.space + 8 * k := by
    unfold wrap64; exact Nat.mod_eq_of_lt (by omega)
  have w2 : wrap64 (u.count + 1) = u.count + 1 := by
    unfold wrap64; exact Nat.mod_eq_of_lt (by omega)
  have w3 : wrap64 (a.used_total_space + 8 * k) = a.used_total_space + 8 * k := by
    unfold wrap64; exact Nat.mod_eq_of_lt (by omega)
  rw [w1, w2, w3] at h
  -- the state before the class bookkeeping
  have hmid : used_stats_inv
      { a with used_total_space := a.used_total_space + 8 * k,
               used_slist := a.used_slist.set k
                 { u with space := u.space + 8 * k, count := u.count + 1 } } := by
    refine ⟨by simp only [List.length_set]; exact hlen, ?_, ?_⟩
    · simp only
      have := sum_map_set (fun x : sm_slist_t => x.space) a.used_slist k u
        { u with space := u.space + 8 * k, count := u.count + 1 } hu
      simp only at this
      unfold slist_space_sum
      rw [hsum]
      unfold slist_space_sum
      omega
    · intro i v hv hi
      simp only at hv
      by_cases hik : k = i
      · subst hik
        rw [List.getElem?_set_self hkl] at hv
        cases hv
        simp only
        rw [hus]
        ring
      · rw [List.getElem?_set_ne hik] at hv
        exact hsp i v hv hi
  split at h
  · obtain ⟨e1, e2⟩ := used_slot_list_add_stats _ _ _ h
    obtain ⟨m1, m2, m3⟩ := hmid
    exact ⟨by rw [e1]; exact m1, by rw [e1, e2]; exact m2, by rw [e1]; exact m3⟩
  · cases h
    exact hmid

/-- The statistics of the used slots stay consistent through the block
`/* used slot stats */` of `do_smmgr_free`, for a slot of `8 * k` bytes in
class `k`. -/
theorem used_stats_del_inv (a a1 : sm_anchor_t) (k : Nat)
    (hinv : used_stats_inv a) (hb : a.used_total_space + 8192 < 2 ^ 64)
    (hk1 : 4 ≤ k) (hk2 : k ≤ 1023)
    (h : smmgr_used_stats_del a (k : Int) ((8 * k : Nat) : Int) = some a1) :
    used_stats_inv a1 := by
  obtain ⟨hlen, hsum, hsp⟩ := hinv
  have hlen' : a.used_slist.length = 1025 := hlen
  have hkl : k < a.used_slist.length := by omega
  unfold smmgr_used_stats_del at h
  rw [slist_at_nat, List.getElem?_eq_getElem hkl] at h
  simp only [] at h
  have hu : a.used_slist[k]? = some (a.used_slist[k]) := List.getElem?_eq_getElem hkl
  generalize a.used_slist[k] = u at h hu
  split at h
  · rename_i hc
    rw [slist_store_nat _ _ _ hkl] at h
    simp only [] at h
    have hus : u.space = 8 * k * u.count := hsp k u hu (by
      have : SMMGR_NUM_CLASSES = 1025 := rfl
      omega)
    have hule : u.space ≤ a.used_total_space := by
      rw [hsum]; exact le_sum_map _ _ k u hu
    have hge : 8 * k ≤ u.space := by
      rw [hus]
      calc 8 * k = 8 * k * 1 := (Nat.mul_one _).symm
        _ ≤ 8 * k * u.count := Nat.mul_le_mul_left _ hc
    have hcnt : u.count ≤ u.space := by
      rw [hus]
      calc u.count = 1 * u.count := (Nat.one_mul _).symm
        _ ≤ 8 * k * u.count := Nat.mul_le_mul_right _ (by omega)
    have e1 : int_to_size_t ((8 * k : Nat) : Int) = 8 * k := int_to_size_t_nat _ (by omega)
    rw [e1] at h
    rw [sub64_eq _ _ hge (by omega), sub64_eq _ _ hc (by omega),
      sub64_eq _ _ (by omega) (by omega)] at h
    have hmid : used_stats_inv
        { a with used_total_space := a.used_total_space - 8 * k,
                 used_slist := a.used_slist.set k
                   { u with space := u.space - 8 * k, count := u.count - 1 } } := by
      refine ⟨by simp only [List.length_set]; exact hlen, ?_, ?_⟩
      · simp only
        have := sum_map_set (fun x : sm_slist_t => x.space) a.used_slist k u
          { u with space := u.space - 8 * k, count := u.count - 1 } hu
        simp only at this
        unfold slist_space_sum
        rw [hsum]
        unfold slist_space_sum
        omega
      · intro i v hv hi
        simp only at hv
        by_cases hik : k = i
        · subst hik
          rw [List.getElem?_set_self hkl] at hv
          cases hv
          simp only
          rw [hus, Nat.mul_sub_one]
        · rw [List.getElem?_set_ne hik] at hv
          exact hsp i v hv hi
    split at h
    · obtain ⟨e1, e2⟩ := used_slot_list_del_stats _ _ _ h
      obtain ⟨m1, m2, m3⟩ := hmid
      exact ⟨by rw [e1]; exact m1, by rw [e1, e2]; exact m2, by rw [e1]; exact m3⟩
    · cases h
      exact hmid
  · cases h

/-- The consistency of the used statistics depends on the array of used lists
and on `used_total_space` only. -/
theorem used_stats_inv_of_frame (a b : sm_anchor_t) (hf : used_frame a b)
    (hinv : used_stats_inv a) : used_stats_inv b := by
  obtain ⟨f1, f2, _⟩ := hf
  obtain ⟨m1, m2, m3⟩ := hinv
  exact ⟨by rw [f1]; exact m1, by rw [f1, f2]; exact m2, by rw [f1]; exact m3⟩

/-- One operation of the small-memory manager keeps the statistics of the used
slots consistent. -/
theorem used_stats_inv_step (s s1 : smmgr_state × List (Nat × Nat)) (op : smmgr_op)
    (hinv : used_stats_inv s.1.st.sm_anchor) (hb : small_request s op = true)
    (h : smmgr_step s op = some s1) : used_stats_inv s1.1.st.sm_anchor := by
  unfold small_request at hb
  simp only [Bool.and_eq_true, decide_eq_true_eq] at hb
  obtain ⟨hsz, hbound⟩ := hb
  cases op with
  | alloc size realloc_ok malloc_ret =>
    simp only [smmgr_op_size] at hsz
    simp only [smmgr_step] at h
    cases ha : do_smmgr_alloc s.1 size realloc_ok malloc_ret with
    | none => rw [ha] at h; cases h
    | some rs =>
      obtain ⟨ret, s2⟩ := rs
      rw [ha] at h
      simp only [Option.some.injEq] at h
      subst h
      obtain ⟨k, hk1, hk2, hk3, _, hk5⟩ := slen_class size hsz
      rcases do_smmgr_alloc_stats s.1 s2 size realloc_ok malloc_ret ret ha with
        ⟨_, hf⟩ | ⟨_, a1, hf, hadd⟩
      · exact used_stats_inv_of_frame _ _ hf hinv
      · rw [hk5, hk3] at hadd
        exact used_stats_add_inv a1 _ k (used_stats_inv_of_frame _ _ hf hinv)
          (by rw [hf.2.1]; exact hbound) hk1 hk2 hadd
  | free ptr size realloc_ok =>
    simp only [smmgr_op_size] at hsz
    simp only [smmgr_step] at h
    by_cases hmem : (ptr, size) ∈ s.2
    · rw [if_pos hmem] at h
      cases hf : do_smmgr_free s.1 ptr size realloc_ok with
      | none => rw [hf] at h; cases h
      | some s2 =>
        rw [hf] at h
        simp only [Option.some.injEq] at h
        subst h
        obtain ⟨k, hk1, hk2, hk3, _, hk5⟩ := slen_class size hsz
        obtain ⟨a1, hfr, hdel⟩ := do_smmgr_free_stats s.1 s2 ptr size realloc_ok hf
        rw [hk5, hk3] at hdel
        exact used_stats_del_inv a1 _ k (used_stats_inv_of_frame _ _ hfr hinv)
          (by rw [hfr.2.1]; exact hbound) hk1 hk2 hdel
    · rw [if_neg hmem] at h
      cases h

/-- C15: along every sequence of operations of the small-memory manager
(`do_smmgr_alloc`, `do_smmgr_free` of live slots) whose slot lengths are below
8192, after every operation `used_total_space` is the sum over all classes of
`used_slist[i].space`, and `used_slist[i].space = 8 * i * used_slist[i].count`
for every class `i` but the last; provided this holds at the start (as it does
after `do_smmgr_init`) and `used_total_space` stays away from `2^64`. -/
theorem used_stats_along_runs (ops : List smmgr_op) :
    ∀ (s : smmgr_state × List (Nat × Nat)), used_stats_inv s.1.st.sm_anchor →
      smmgr_run_within small_request s ops = true →
      smmgr_run_always (fun x => used_stats_inv x.1.st.sm_anchor) s ops := by
  induction ops with
  | nil => intro s hinv _; exact hinv
  | cons op ops ih =>
    intro s hinv hb
    simp only [smmgr_run_within, Bool.and_eq_true] at hb
    refine ⟨hinv, ?_⟩
    cases hs : smmgr_step s op with
    | none => trivial
    | some s1 =>
      have hb2 := hb.2
      rw [hs] at hb2
      exact ih s1 (used_stats_inv_step s s1 op hinv hb.1 hs) hb2

/-- The anchor of `do_smmgr_init` has consistent used statistics. -/
theorem used_stats_inv_init : used_stats_inv smmgr_anchor_init := by
  refine ⟨by simp [smmgr_anchor_init], ?_, ?_⟩
  · simp [smmgr_anchor_init, slist_space_sum]
  · intro i u hu _
    simp only [smmgr_anchor_init, List.getElem?_replicate] at hu
    split at hu
    · cases hu; rfl
    · cases hu

set_option maxRecDepth 100000 in
/-- Witness of `used_stats_along_runs`: the run `ops_tiny_residue` on a fresh
allocator, which is defined to its end and leaves two used slots, of 40 and 32
bytes (`used_total_space = 72`). -/
theorem used_stats_along_runs_witness :
    (used_stats_inv (smmgr_state_fresh, ([] : List (Nat × Nat))).1.st.sm_anchor ∧
      smmgr_run_within small_request (smmgr_state_fresh, []) ops_tiny_residue = true) ∧
    smmgr_run_always (fun x => used_stats_inv x.1.st.sm_anchor) (smmgr_state_fresh, [])
      ops_tiny_residue ∧
    (smmgr_run (smmgr_state_fresh, []) ops_tiny_residue).map
        (fun s => (s.1.st.sm_anchor.used_total_space,
          slist_space_sum s.1.st.sm_anchor.used_slist))
      = some (72, 72) :=
  ⟨⟨used_stats_inv_init, by decide⟩,
    used_stats_along_runs ops_tiny_residue (smmgr_state_fresh, []) used_stats_inv_init
      (by decide),
    by decide⟩


/-! ### Exactness of `used_minid` and `used_maxid` -/

/-- What an upward scan that returns has seen: every cell below the result
fails the test, and the result passes it unless the scan ran to its end. -/
theorem scan_up_some (test : sm_slist_t → Bool) (l : List sm_slist_t) :
    ∀ (n : Nat) (start r : Int), scan_up test l n start = some r →
      start ≤ r ∧ r ≤ start + n ∧
      (∀ j : Int, start ≤ j → j < r → ∃ x, slist_at l j = some x ∧ test x = false) ∧
      (r < start + n → ∃ x, slist_at l r = some x ∧ test x = true) := by
  intro n
  induction n with
  | zero =>
    intro start r h
    simp only [scan_up, Option.some.injEq] at h
    subst h
    exact ⟨le_refl _, by simp, fun j h1 h2 => absurd h2 (not_lt.mpr h1), fun h => by simp at h⟩
  | succ n ih =>
    intro start r h
    simp only [scan_up] at h
    split at h
    · cases h
    · rename_i x hx
      split at h
      · rename_i ht
        cases h
        exact ⟨le_refl _, by push_cast; omega, fun j h1 h2 => absurd h2 (not_lt.mpr h1),
          fun _ => ⟨x, hx, ht⟩⟩
      · rename_i ht
        obtain ⟨h1, h2, h3, h4⟩ := ih (start + 1) r h
        refine ⟨by omega, by push_cast; omega, ?_, ?_⟩
        · intro j hj1 hj2
          by_cases hjs : j = start
          · subst hjs
            exact ⟨x, hx, by simpa using ht⟩
          · exact h3 j (by omega) hj2
        · intro hr
          exact h4 (by push_cast at hr; omega)

/-- What a downward scan that returns has seen: every cell above the result
fails the test, and the result passes it unless the scan ran to its end. -/
theorem scan_down_some (test : sm_slist_t → Bool) (l : List sm_slist_t) :
    ∀ (n : Nat) (start r : Int), scan_down test l n start = some r →
      r ≤ start ∧ start - n ≤ r ∧
      (∀ j : Int, r < j → j ≤ start → ∃ x, slist_at l j = some x ∧ test x = false) ∧
      (start - n < r → ∃ x, slist_at l r = some x ∧ test x = true) := by
  intro n
  induction n with
  | zero =>
    intro start r h
    simp only [scan_down, Option.some.injEq] at h
    subst h
    exact ⟨le_refl _, by simp, fun j h1 h2 => absurd h2 (not_le.mpr h1), fun h => by simp at h⟩
  | succ n ih =>
    intro start r h
    simp only [scan_down] at h
    split at h
    · cases h
    · rename_i x hx
      split at h
      · rename_i ht
        cases h
        exact ⟨le_refl _, by push_cast; omega, fun j h1 h2 => absurd h2 (not_le.mpr h1),
          fun _ => ⟨x, hx, ht⟩⟩
      · rename_i ht
        obtain ⟨h1, h2, h3, h4⟩ := ih (start - 1) r h
        refine ⟨by omega, by push_cast; omega, ?_, ?_⟩
        · intro j hj1 hj2
          by_cases hjs : j = start
          · subst hjs
            exact ⟨x, hx, by simpa using ht⟩
          · exact h3 j hj1 (by omega)
        · intro hr
          exact h4 (by push_cast at hr; omega)

/-- The effect of `do_smmgr_used_slot_list_add` on the bounds of the populated
classes. -/
theorem used_slot_list_add_range (a a1 : sm_anchor_t) (targ : Int)
    (h : do_smmgr_used_slot_list_add a targ = some a1) :
    a1.used_minid = (if targ < a.used_minid then targ else a.used_minid) ∧
    a1.used_maxid = (if targ > a.used_maxid then targ else a.used_maxid) := by
  unfold do_smmgr_used_slot_list_add at h
  simp only [] at h
  have h0 : (if targ < a.used_minid then { a with used_minid := targ } else a).used_minid
        = (if targ < a.used_minid then targ else a.used_minid) ∧
      (if targ < a.used_minid then { a with used_minid := targ } else a).used_maxid
        = a.used_maxid := by
    split_ifs <;> exact ⟨rfl, rfl⟩
  generalize (if targ < a.used_minid then { a with used_minid := targ } else a) = a0 at h h0
  obtain ⟨h01, h02⟩ := h0
  split at h
  · rename_i hgt
    split at h
    · cases h
    · cases h
      rw [h02] at hgt
      exact ⟨h01, by rw [if_pos hgt]⟩
  · rename_i hgt
    cases h
    rw [h02] at hgt
    exact ⟨h01, by rw [if_neg hgt]; exact h02⟩

/-- The effect of `do_smmgr_used_slot_list_del` on the bounds of the populated
classes: the two scans of the array of used lists. -/
theorem used_slot_list_del_range (a a1 : sm_anchor_t) (targ : Int)
    (h : do_smmgr_used_slot_list_del a targ = some a1) :
    (if targ = a.used_minid then
        (if a.used_total_space > 0 then
          scan_up (fun x => decide (x.count > 0)) a.used_slist
            (a.used_maxid - a.used_minid).toNat (a.used_minid + 1) = some a1.used_minid
         else a1.used_minid = (SMMGR_NUM_CLASSES : Int))
      else a1.used_minid = a.used_minid) ∧
    (if targ = a.used_maxid then
        (if a.used_total_space > 0 then
          scan_down (fun x => decide (x.count > 0)) a.used_slist
            (a.used_maxid - a1.used_minid).toNat (a.used_maxid - 1) = some a1.used_maxid
         else a1.used_maxid = -1)
      else a1.used_maxid = a.used_maxid) := by
  unfold do_smmgr_used_slot_list_del at h
  simp only [] at h
  split at h
  · cases h
  · rename_i minid hmin
    have hm : (if targ = a.used_minid then
        (if a.used_total_space > 0 then
          scan_up (fun x => decide (x.count > 0)) a.used_slist
            (a.used_maxid - a.used_minid).toNat (a.used_minid + 1) = some minid
         else minid = (SMMGR_NUM_CLASSES : Int))
      else minid = a.used_minid) := by
      by_cases c1 : targ = a.used_minid
      · rw [if_pos c1] at hmin ⊢
        by_cases c2 : a.used_total_space > 0
        · rw [if_pos c2] at hmin ⊢
          exact hmin
        · rw [if_neg c2] at hmin ⊢
          cases hmin; rfl
      · rw [if_neg c1] at hmin ⊢
        cases hmin; rfl
    by_cases hmax : targ = a.used_maxid
    · rw [if_pos hmax] at h
      split at h
      · cases h
      · rename_i maxid hmaxid
        split at h
        · cases h
        · cases h
          refine ⟨hm, ?_⟩
          simp only
          rw [if_pos hmax]
          by_cases c2 : a.used_total_space > 0
          · rw [if_pos c2] at hmaxid ⊢
            exact hmaxid
          · rw [if_neg c2] at hmaxid ⊢
            cases hmaxid; rfl
    · rw [if_neg hmax] at h
      cases h
      refine ⟨hm, ?_⟩
      rw [if_neg hmax]

/-- A positive sum has a positive term. -/
theorem exists_pos_of_sum_pos {α : Type} (f : α → Nat) :
    ∀ (l : List α), 0 < (l.map f).sum → ∃ (i : Nat) (a : α), l[i]? = some a ∧ 0 < f a := by
  intro l
  induction l with
  | nil => intro h; simp at h
  | cons x xs ih =>
    intro h
    simp only [List.map_cons, List.sum_cons] at h
    by_cases hx : 0 < f x
    · exact ⟨0, x, by simp, hx⟩
    · obtain ⟨i, a, ha, hpos⟩ := ih (by omega)
      exact ⟨i + 1, a, by simpa using ha, hpos⟩

/-- With consistent statistics and exact bounds, `used_total_space` is positive
exactly when some class is populated. -/
theorem used_total_pos_iff (a : sm_anchor_t) (hst : used_stats_inv a)
    (hcl : ∀ i, used_populated a.used_slist i → 1 ≤ i ∧ i < 1024)
    (hlast : ∀ u, a.used_slist[1024]? = some u → u.space = 0) :
    0 < a.used_total_space ↔ ∃ i, used_populated a.used_slist i := by
  obtain ⟨hlen, hsum, hsp⟩ := hst
  have hlen' : a.used_slist.length = 1025 := hlen
  constructor
  · intro hpos
    rw [hsum] at hpos
    obtain ⟨i, u, hu, hup⟩ := exists_pos_of_sum_pos _ _ hpos
    have hi : i < 1025 := by
      have := (List.getElem?_eq_some_iff.mp hu).1
      omega
    by_cases hi2 : i = 1024
    · subst hi2
      have := hlast u hu
      omega
    · have := hsp i u hu (by
        have : SMMGR_NUM_CLASSES = 1025 := rfl
        omega)
      refine ⟨i, u, hu, ?_⟩
      by_contra hc
      have hz : u.count = 0 := by omega
      rw [hz] at this
      simp only [Nat.mul_zero] at this
      omega
  · rintro ⟨i, u, hu, hup⟩
    obtain ⟨h1, h2⟩ := hcl i ⟨u, hu, hup⟩
    have hs := hsp i u hu (by
      have : SMMGR_NUM_CLASSES = 1025 := rfl
      omega)
    have hle := le_sum_map (fun x : sm_slist_t => x.space) a.used_slist i u hu
    have hp : 0 < 8 * i * u.count := Nat.mul_pos (by omega) hup
    rw [hsum]
    unfold slist_space_sum
    simp only at hle
    rw [hs] at hle
    omega

/-- The block `/* used slot stats */` of `do_smmgr_alloc` for a slot of `8 * k`
bytes in class `k`, when no counter wraps: the counters of the class and
`used_total_space` grow, and the class bookkeeping runs when the class becomes
populated. The statistics are consistent before that bookkeeping. -/
theorem used_stats_add_eq (a : sm_anchor_t) (k : Nat) (u : sm_slist_t)
    (hinv : used_stats_inv a) (hb : a.used_total_space + 8192 < 2 ^ 64)
    (hk1 : 4 ≤ k) (hk2 : k ≤ 1023) (hu : a.used_slist[k]? = some u) :
    smmgr_used_stats_add a (k : Int) ((8 * k : Nat) : Int)
      = (if u.count = 0 then
          do_smmgr_used_slot_list_add
            { a with used_total_space := a.used_total_space + 8 * k,
                     used_slist := a.used_slist.set k
                       { u with space := u.space + 8 * k, count := u.count + 1 } } (k : Int)
         else
          some { a with used_total_space := a.used_total_space + 8 * k,
                        used_slist := a.used_slist.set k
                          { u with space := u.space + 8 * k, count := u.count + 1 } }) ∧
    used_stats_inv
      { a with used_total_space := a.used_total_space + 8 * k,
               used_slist := a.used_slist.set k
                 { u with space := u.space + 8 * k, count := u.count + 1 } } := by
  obtain ⟨hlen, hsum, hsp⟩ := hinv
  have hlen' : a.used_slist.length = 1025 := hlen
  have hkl : k < a.used_slist.length := by omega
  have hus : u.space = 8 * k * u.count := hsp k u hu (by
    have : SMMGR_NUM_CLASSES = 1025 := rfl
    omega)
  have hule : u.space ≤ a.used_total_space := by
    rw [hsum]; exact le_sum_map _ _ k u hu
  have hcnt : u.count ≤ u.space := by
    rw [hus]
    calc u.count = 1 * u.count := (Nat.one_mul _).symm
      _ ≤ 8 * k * u.count := Nat.mul_le_mul_right _ (by omega)
  have e1 : int_to_size_t ((8 * k : Nat) : Int) = 8 * k := int_to_size_t_nat _ (by omega)
  have w1 : wrap64 (u.space + 8 * k) = u.space + 8 * k := by
    unfold wrap64; exact Nat.mod_eq_of_lt (by omega)
  have w2 : wrap64 (u.count + 1) = u.count + 1 := by
    unfold wrap64; exact Nat.mod_eq_of_lt (by omega)
  have w3 : wrap64 (a.used_total_space + 8 * k) = a.used_total_space + 8 * k := by
    unfold wrap64; exact Nat.mod_eq_of_lt (by omega)
  constructor
  · unfold smmgr_used_stats_add
    rw [slist_at_nat, hu]
    simp only []
    rw [slist_store_nat _ _ _ hkl]
    simp only []
    rw [e1, w1, w2, w3]
    by_cases hc : u.count = 0
    · rw [if_pos hc, if_pos (by omega)]
    · rw [if_neg hc, if_neg (by omega)]
  · refine ⟨by simp only [List.length_set]; exact hlen, ?_, ?_⟩
    · simp only
      have := sum_map_set (fun x : sm_slist_t => x.space) a.used_slist k u
        { u with space := u.space + 8 * k, count := u.count + 1 } hu
      simp only at this
      unfold slist_space_sum
      rw [hsum]
      unfold slist_space_sum
      omega
    · intro i v hv hi
      simp only at hv
      by_cases hik : k = i
      · subst hik
        rw [List.getElem?_set_self hkl] at hv
        cases hv
        simp only
        rw [hus]
        ring
      · rw [List.getElem?_set_ne hik] at hv
        exact hsp i v hv hi

/-- The block `/* used slot stats */` of `do_smmgr_free` for a slot of `8 * k`
bytes in a populated class `k`, when no counter wraps: the counters of the
class and `used_total_space` shrink, and the class bookkeeping runs when the
class becomes empty. The statistics are consistent before that bookkeeping. -/
theorem used_stats_del_eq (a : sm_anchor_t) (k : Nat) (u : sm_slist_t)
    (hinv : used_stats_inv a) (hb : a.used_total_space + 8192 < 2 ^ 64)
    (hk1 : 4 ≤ k) (hk2 : k ≤ 1023) (hu : a.used_slist[k]? = some u) (hc : 1 ≤ u.count) :
    smmgr_used_stats_del a (k : Int) ((8 * k : Nat) : Int)
      = (if u.count = 1 then
          do_smmgr_used_slot_list_del
            { a with used_total_space := a.used_total_space - 8 * k,
                     used_slist := a.used_slist.set k
                       { u with space := u.space - 8 * k, count := u.count - 1 } } (k : Int)
         else
          some { a with used_total_space := a.used_total_space - 8 * k,
                        used_slist := a.used_slist.set k
                          { u with space := u.space - 8 * k, count := u.count - 1 } }) ∧
    used_stats_inv
      { a with used_total_space := a.used_total_space - 8 * k,
               used_slist := a.used_slist.set k
                 { u with space := u.space - 8 * k, count := u.count - 1 } } := by
  obtain ⟨hlen, hsum, hsp⟩ := hinv
  have hlen' : a.used_slist.length = 1025 := hlen
  have hkl : k < a.used_slist.length := by omega
  have hus : u.space = 8 * k * u.count := hsp k u hu (by
    have : SMMGR_NUM_CLASSES = 1025 := rfl
    omega)
  have hule : u.space ≤ a.used_total_space := by
    rw [hsum]; exact le_sum_map _ _ k u hu
  have hge : 8 * k ≤ u.space := by
    rw [hus]
    calc 8 * k = 8 * k * 1 := (Nat.mul_one _).symm
      _ ≤ 8 * k * u.count := Nat.mul_le_mul_left _ hc
  have hcnt : u.count ≤ u.space := by
    rw [hus]
    calc u.count = 1 * u.count := (Nat.one_mul _).symm
      _ ≤ 8 * k * u.count := Nat.mul_le_mul_right _ (by omega)
  have e1 : int_to_size_t ((8 * k : Nat) : Int) = 8 * k := int_to_size_t_nat _ (by omega)
  constructor
  · unfold smmgr_used_stats_del
    rw [slist_at_nat, hu]
    simp only []
    rw [if_pos hc, slist_store_nat _ _ _ hkl]
    simp only []
    rw [e1, sub64_eq _ _ hge (by omega), sub64_eq _ _ hc (by omega),
      sub64_eq _ _ (by omega) (by omega)]
    by_cases hc1 : u.count = 1
    · rw [if_pos hc1, if_pos (by omega)]
    · rw [if_neg hc1, if_neg (by omega)]
  · refine ⟨by simp only [List.length_set]; exact hlen, ?_, ?_⟩
    · simp only
      have := sum_map_set (fun x : sm_slist_t => x.space) a.used_slist k u
        { u with space := u.space - 8 * k, count := u.count - 1 } hu
      simp only at this
      unfold slist_space_sum
      rw [hsum]
      unfold slist_space_sum
      omega
    · intro i v hv hi
      simp only at hv
      by_cases hik : k = i
      · subst hik
        rw [List.getElem?_set_self hkl] at hv
        cases hv
        simp only
        rw [hus, Nat.mul_sub_one]
      · rw [List.getElem?_set_ne hik] at hv
        exact hsp i v hv hi

/-- The populated classes after one cell of the array is replaced. -/
theorem used_populated_set (us : List sm_slist_t) (k : Nat) (u1 : sm_slist_t) (i : Nat)
    (hk : k < us.length) :
    used_populated (us.set k u1) i ↔
      (i = k ∧ 0 < u1.count) ∨ (i ≠ k ∧ used_populated us i) := by
  unfold used_populated
  by_cases hik : i = k
  · subst hik
    rw [List.getElem?_set_self hk]
    constructor
    · rintro ⟨u, hu, hc⟩
      cases hu
      exact Or.inl ⟨rfl, hc⟩
    · rintro (⟨_, hc⟩ | ⟨hne, _⟩)
      · exact ⟨u1, rfl, hc⟩
      · exact absurd rfl hne
  · rw [List.getElem?_set_ne (Ne.symm hik)]
    constructor
    · intro h
      exact Or.inr ⟨hik, h⟩
    · rintro (⟨he, _⟩ | ⟨_, h⟩)
      · exact absurd he hik
      · exact h

/-- The exactness of the bounds depends on the array of used lists and on the
two bounds only. -/
theorem used_range_inv_of_eq (a b : sm_anchor_t) (h1 : b.used_slist = a.used_slist)
    (h2 : b.used_minid = a.used_minid) (h3 : b.used_maxid = a.used_maxid)
    (hinv : used_range_inv a) : used_range_inv b := by
  unfold used_range_inv at hinv ⊢
  rw [h1, h2, h3]
  exact hinv

/-- The bounds of the populated classes stay exact through the block
`/* used slot stats */` of `do_smmgr_alloc`. -/
theorem used_range_add_inv (a a1 : sm_anchor_t) (k : Nat)
    (hst : used_stats_inv a) (hr : used_range_inv a)
    (hb : a.used_total_space + 8192 < 2 ^ 64) (hk1 : 4 ≤ k) (hk2 : k ≤ 1023)
    (h : smmgr_used_stats_add a (k : Int) ((8 * k : Nat) : Int) = some a1) :
    used_range_inv a1 := by
  have hlen : a.used_slist.length = 1025 := hst.1
  have hkl : k < a.used_slist.length := by omega
  have hu : a.used_slist[k]? = some (a.used_slist[k]) := List.getElem?_eq_getElem hkl
  generalize a.used_slist[k] = u at hu
  obtain ⟨heq, _⟩ := used_stats_add_eq a k u hst hb hk1 hk2 hu
  rw [heq] at h
  obtain ⟨r1, r2, r3, r4⟩ := hr
  have hpop : ∀ i, used_populated (a.used_slist.set k
      { u with space := u.space + 8 * k, count := u.count + 1 }) i ↔
        (i = k ∨ used_populated a.used_slist i) := by
    intro i
    rw [used_populated_set _ _ _ _ hkl]
    constructor
    · rintro (⟨h1, _⟩ | ⟨_, h2⟩)
      · exact Or.inl h1
      · exact Or.inr h2
    · rintro (h1 | h2)
      · exact Or.inl ⟨h1, Nat.succ_pos _⟩
      · by_cases hik : i = k
        · exact Or.inl ⟨hik, Nat.succ_pos _⟩
        · exact Or.inr ⟨hik, h2⟩
  have hlast : ∀ v, (a.used_slist.set k
      { u with space := u.space + 8 * k, count := u.count + 1 })[1024]? = some v →
        v.space = 0 := by
    intro v hv
    rw [List.getElem?_set_ne (by omega)] at hv
    exact r4 v hv
  by_cases hc : u.count = 0
  · rw [if_pos hc] at h
    obtain ⟨e1, _⟩ := used_slot_list_add_stats _ _ _ h
    obtain ⟨m1, m2⟩ := used_slot_list_add_range _ _ _ h
    simp only at e1 m1 m2
    have hnk : ¬ used_populated a.used_slist k := by
      rintro ⟨v, hv, hvc⟩
      rw [hu] at hv
      cases hv
      omega
    unfold used_range_inv
    rw [e1, m1, m2]
    refine ⟨?_, ?_, ?_, hlast⟩
    · intro i hi
      rcases (hpop i).mp hi with h1 | h1
      · subst h1
        refine ⟨by omega, by omega, ?_, ?_⟩
        · split_ifs <;> omega
        · split_ifs <;> omega
      · obtain ⟨b1, b2, b3, b4⟩ := r1 i h1
        refine ⟨b1, b2, ?_, ?_⟩
        · split_ifs <;> omega
        · split_ifs <;> omega
    · intro _
      by_cases hex : ∃ i, used_populated a.used_slist i
      · obtain ⟨i0, j0, hi0, hj0, pi0, pj0⟩ := r2 hex
        rw [hi0, hj0]
        refine ⟨if (k : Int) < (i0 : Int) then k else i0, if (k : Int) > (j0 : Int) then k else j0,
          by split_ifs <;> rfl, by split_ifs <;> rfl, ?_, ?_⟩
        · split_ifs
          · exact (hpop k).mpr (Or.inl rfl)
          · exact (hpop i0).mpr (Or.inr pi0)
        · split_ifs
          · exact (hpop k).mpr (Or.inl rfl)
          · exact (hpop j0).mpr (Or.inr pj0)
      · obtain ⟨s1, s2⟩ := r3 hex
        rw [s1, s2]
        have hn : (SMMGR_NUM_CLASSES : Int) = 1025 := rfl
        refine ⟨k, k, by rw [if_pos (by rw [hn]; omega)], by rw [if_pos (by omega)],
          (hpop k).mpr (Or.inl rfl), (hpop k).mpr (Or.inl rfl)⟩
    · intro hno
      exact absurd ⟨k, (hpop k).mpr (Or.inl rfl)⟩ hno
  · rw [if_neg hc] at h
    cases h
    have hpk : used_populated a.used_slist k := ⟨u, hu, by omega⟩
    have hpop2 : ∀ i, used_populated (a.used_slist.set k
        { u with space := u.space + 8 * k, count := u.count + 1 }) i ↔
          used_populated a.used_slist i := by
      intro i
      rw [hpop i]
      constructor
      · rintro (h1 | h1)
        · rw [h1]; exact hpk
        · exact h1
      · exact Or.inr
    unfold used_range_inv
    simp only
    refine ⟨?_, ?_, ?_, hlast⟩
    · intro i hi
      exact r1 i ((hpop2 i).mp hi)
    · rintro ⟨i, hi⟩
      obtain ⟨i0, j0, hi0, hj0, pi0, pj0⟩ := r2 ⟨i, (hpop2 i).mp hi⟩
      exact ⟨i0, j0, hi0, hj0, (hpop2 i0).mpr pi0, (hpop2 j0).mpr pj0⟩
    · intro hno
      exact r3 (fun ⟨i, hi⟩ => hno ⟨i, (hpop2 i).mpr hi⟩)

/-- A populated class passes the test of the scans. -/
theorem used_populated_test (us : List sm_slist_t) (p : Nat) (x : sm_slist_t)
    (hp : used_populated us p) (hx : slist_at us (p : Int) = some x) :
    decide (x.count > 0) = true := by
  obtain ⟨u, hu, hc⟩ := hp
  rw [slist_at_nat, hu] at hx
  cases hx
  simpa using hc

/-- A cell that passes the test of the scans is a populated class. -/
theorem used_populated_of_test (us : List sm_slist_t) (j : Int) (x : sm_slist_t)
    (hx : slist_at us j = some x) (ht : decide (x.count > 0) = true) :
    ∃ p : Nat, j = (p : Int) ∧ used_populated us p := by
  unfold slist_at at hx
  split at hx
  · rename_i h0
    refine ⟨j.toNat, by omega, x, hx, by simpa using ht⟩
  · cases hx

/-- The bounds of the populated classes stay exact through the block
`/* used slot stats */` of `do_smmgr_free`. -/
theorem used_range_del_inv (a a1 : sm_anchor_t) (k : Nat)
    (hst : used_stats_inv a) (hr : used_range_inv a)
    (hb : a.used_total_space + 8192 < 2 ^ 64) (hk1 : 4 ≤ k) (hk2 : k ≤ 1023)
    (h : smmgr_used_stats_del a (k : Int) ((8 * k : Nat) : Int) = some a1) :
    used_range_inv a1 := by
  have hlen : a.used_slist.length = 1025 := hst.1
  have hkl : k < a.used_slist.length := by omega
  have hu : a.used_slist[k]? = some (a.used_slist[k]) := List.getElem?_eq_getElem hkl
  generalize a.used_slist[k] = u at hu
  by_cases hc : 1 ≤ u.count
  swap
  · unfold smmgr_used_stats_del at h
    rw [slist_at_nat, hu] at h
    simp only [] at h
    rw [if_neg hc] at h
    cases h
  obtain ⟨heq, hmid⟩ := used_stats_del_eq a k u hst hb hk1 hk2 hu hc
  rw [heq] at h
  obtain ⟨r1, r2, r3, r4⟩ := hr
  have hpk : used_populated a.used_slist k := ⟨u, hu, by omega⟩
  have hlast : ∀ v, (a.used_slist.set k
      { u with space := u.space - 8 * k, count := u.count - 1 })[1024]? = some v →
        v.space = 0 := by
    intro v hv
    rw [List.getElem?_set_ne (by omega)] at hv
    exact r4 v hv
  obtain ⟨i0, j0, hi0, hj0, pi0, pj0⟩ := r2 ⟨k, hpk⟩
  obtain ⟨_, _, hki0, hkj0⟩ := r1 k hpk
  rw [hi0] at hki0
  rw [hj0] at hkj0
  by_cases hc1 : u.count = 1
  · rw [if_pos hc1] at h
    have hpop : ∀ i, used_populated (a.used_slist.set k
        { u with space := u.space - 8 * k, count := u.count - 1 }) i ↔
          (i ≠ k ∧ used_populated a.used_slist i) := by
      intro i
      rw [used_populated_set _ _ _ _ hkl]
      constructor
      · rintro (⟨_, h2⟩ | h2)
        · simp only at h2; omega
        · exact h2
      · exact Or.inr
    have hcl : ∀ i, used_populated (a.used_slist.set k
        { u with space := u.space - 8 * k, count := u.count - 1 }) i → 1 ≤ i ∧ i < 1024 := by
      intro i hi
      obtain ⟨b1, b2, _, _⟩ := r1 i ((hpop i).mp hi).2
      exact ⟨b1, b2⟩
    have htot := used_total_pos_iff _ hmid hcl hlast
    obtain ⟨e1, _⟩ := used_slot_list_del_stats _ _ _ h
    obtain ⟨d1, d2⟩ := used_slot_list_del_range _ _ _ h
    simp only at e1 d1 d2 htot
    rw [hi0] at d1
    rw [hj0] at d2
    unfold used_range_inv
    rw [e1]
    by_cases hex : ∃ i, used_populated (a.used_slist.set k
        { u with space := u.space - 8 * k, count := u.count - 1 }) i
    · have hpos := htot.mpr hex
      rw [if_pos hpos] at d1 d2
      obtain ⟨p, hp⟩ := hex
      have hpb : (i0 : Int) ≤ p ∧ (p : Int) ≤ j0 ∧ p ≠ k := by
        obtain ⟨_, _, b3, b4⟩ := r1 p ((hpop p).mp hp).2
        rw [hi0] at b3
        rw [hj0] at b4
        exact ⟨b3, b4, ((hpop p).mp hp).1⟩
      -- the new lower bound
      have hA : ∃ M : Nat, a1.used_minid = (M : Int) ∧
          used_populated (a.used_slist.set k
            { u with space := u.space - 8 * k, count := u.count - 1 }) M ∧
          ∀ i, used_populated (a.used_slist.set k
            { u with space := u.space - 8 * k, count := u.count - 1 }) i → M ≤ i := by
        by_cases hkm : (k : Int) = (i0 : Int)
        · rw [if_pos hkm] at d1
          obtain ⟨s1, s2, s3, s4⟩ := scan_up_some _ _ _ _ _ d1
          have hlow : ∀ i, used_populated (a.used_slist.set k
              { u with space := u.space - 8 * k, count := u.count - 1 }) i →
                a1.used_minid ≤ (i : Int) := by
            intro i hi
            by_contra hlt
            obtain ⟨_, _, b3, _⟩ := r1 i ((hpop i).mp hi).2
            rw [hi0] at b3
            have hne := ((hpop i).mp hi).1
            obtain ⟨x, hx, hxt⟩ := s3 (i : Int) (by omega) (by omega)
            have := used_populated_test _ i x hi hx
            rw [this] at hxt
            cases hxt
          have hmp := hlow p hp
          obtain ⟨x, hx, hxt⟩ := s4 (by omega)
          obtain ⟨M, hM, hMp⟩ := used_populated_of_test _ _ x hx hxt
          exact ⟨M, hM, hMp, fun i hi => by have := hlow i hi; omega⟩
        · rw [if_neg hkm] at d1
          refine ⟨i0, d1, (hpop i0).mpr ⟨by omega, pi0⟩, ?_⟩
          intro i hi
          obtain ⟨_, _, b3, _⟩ := r1 i ((hpop i).mp hi).2
          rw [hi0] at b3
          omega
      obtain ⟨M, hM, hMp, hMle⟩ := hA
      have hMb : (M : Int) ≤ j0 ∧ M ≠ k := by
        obtain ⟨_, _, _, b4⟩ := r1 M ((hpop M).mp hMp).2
        rw [hj0] at b4
        exact ⟨b4, ((hpop M).mp hMp).1⟩
      -- the new upper bound
      have hB : ∃ N : Nat, a1.used_maxid = (N : Int) ∧
          used_populated (a.used_slist.set k
            { u with space := u.space - 8 * k, count := u.count - 1 }) N ∧
          ∀ i, used_populated (a.used_slist.set k
            { u with space := u.space - 8 * k, count := u.count - 1 }) i → i ≤ N := by
        by_cases hkm : (k : Int) = (j0 : Int)
        · rw [if_pos hkm, hM] at d2
          obtain ⟨s1, s2, s3, s4⟩ := scan_down_some _ _ _ _ _ d2
          have hhigh : ∀ i, used_populated (a.used_slist.set k
              { u with space := u.space - 8 * k, count := u.count - 1 }) i →
                (i : Int) ≤ a1.used_maxid := by
            intro i hi
            by_contra hlt
            obtain ⟨_, _, _, b4⟩ := r1 i ((hpop i).mp hi).2
            rw [hj0] at b4
            have hne := ((hpop i).mp hi).1
            obtain ⟨x, hx, hxt⟩ := s3 (i : Int) (by omega) (by omega)
            have := used_populated_test _ i x hi hx
            rw [this] at hxt
            cases hxt
          have hmp := hhigh M hMp
          obtain ⟨x, hx, hxt⟩ := s4 (by omega)
          obtain ⟨N, hN, hNp⟩ := used_populated_of_test _ _ x hx hxt
          exact ⟨N, hN, hNp, fun i hi => by have := hhigh i hi; omega⟩
        · rw [if_neg hkm] at d2
          refine ⟨j0, d2, (hpop j0).mpr ⟨by omega, pj0⟩, ?_⟩
          intro i hi
          obtain ⟨_, _, _, b4⟩ := r1 i ((hpop i).mp hi).2
          rw [hj0] at b4
          omega
      obtain ⟨N, hN, hNp, hNle⟩ := hB
      refine ⟨?_, ?_, ?_, hlast⟩
      · intro i hi
        obtain ⟨b1, b2⟩ := hcl i hi
        have := hMle i hi
        have := hNle i hi
        exact ⟨b1, b2, by omega, by omega⟩
      · intro _
        exact ⟨M, N, hM, hN, hMp, hNp⟩
      · intro hno
        exact absurd ⟨p, hp⟩ hno
    · have hz : ¬ 0 < a.used_total_space - 8 * k := fun hp => hex (htot.mp hp)
      rw [if_neg hz] at d1 d2
      have hall : ∀ i, used_populated a.used_slist i → i = k := by
        intro i hi
        by_contra hne
        exact hex ⟨i, (hpop i).mpr ⟨hne, hi⟩⟩
      have e1' : i0 = k := hall i0 pi0
      have e2' : j0 = k := hall j0 pj0
      rw [if_pos (by omega)] at d1 d2
      refine ⟨?_, ?_, ?_, hlast⟩
      · intro i hi
        exact absurd ⟨i, hi⟩ hex
      · intro hex2
        exact absurd hex2 hex
      · intro _
        exact ⟨d1, d2⟩
  · rw [if_neg hc1] at h
    cases h
    have hpop2 : ∀ i, used_populated (a.used_slist.set k
        { u with space := u.space - 8 * k, count := u.count - 1 }) i ↔
          used_populated a.used_slist i := by
      intro i
      rw [used_populated_set _ _ _ _ hkl]
      constructor
      · rintro (⟨h1, _⟩ | ⟨_, h2⟩)
        · rw [h1]; exact hpk
        · exact h2
      · intro hi
        by_cases hik : i = k
        · exact Or.inl ⟨hik, by simp only; omega⟩
        · exact Or.inr ⟨hik, hi⟩
    unfold used_range_inv
    simp only
    refine ⟨?_, ?_, ?_, hlast⟩
    · intro i hi
      exact r1 i ((hpop2 i).mp hi)
    · rintro ⟨i, hi⟩
      exact ⟨i0, j0, hi0, hj0, (hpop2 i0).mpr pi0, (hpop2 j0).mpr pj0⟩
    · intro hno
      exact r3 (fun ⟨i, hi⟩ => hno ⟨i, (hpop2 i).mpr hi⟩)

/-- A property that holds along a run implies every weaker property along the
run. -/
theorem smmgr_run_always_mono (P Q : smmgr_state × List (Nat × Nat) → Prop)
    (hpq : ∀ x, P x → Q x) (ops : List smmgr_op) :
    ∀ s, smmgr_run_always P s ops → smmgr_run_always Q s ops := by
  induction ops with
  | nil => intro s h; exact hpq s h
  | cons op ops ih =>
    intro s h
    refine ⟨hpq s h.1, ?_⟩
    have h2 := h.2
    cases hs : smmgr_step s op with
    | none => trivial
    | some s1 =>
      rw [hs] at h2
      exact ih s1 h2

/-- One operation of the small-memory manager keeps the bounds of the populated
classes exact. -/
theorem used_range_inv_step (s s1 : smmgr_state × List (Nat × Nat)) (op : smmgr_op)
    (hst : used_stats_inv s.1.st.sm_anchor) (hr : used_range_inv s.1.st.sm_anchor)
    (hb : small_request s op = true)
    (h : smmgr_step s op = some s1) : used_range_inv s1.1.st.sm_anchor := by
  unfold small_request at hb
  simp only [Bool.and_eq_true, decide_eq_true_eq] at hb
  obtain ⟨hsz, hbound⟩ := hb
  cases op with
  | alloc size realloc_ok malloc_ret =>
    simp only [smmgr_op_size] at hsz
    simp only [smmgr_step] at h
    cases ha : do_smmgr_alloc s.1 size realloc_ok malloc_ret with
    | none => rw [ha] at h; cases h
    | some rs =>
      obtain ⟨ret, s2⟩ := rs
      rw [ha] at h
      simp only [Option.some.injEq] at h
      subst h
      obtain ⟨k, hk1, hk2, hk3, _, hk5⟩ := slen_class size hsz
      rcases do_smmgr_alloc_stats s.1 s2 size realloc_ok malloc_ret ret ha with
        ⟨_, hf⟩ | ⟨_, a1, hf, hadd⟩
      · exact used_range_inv_of_eq _ _ hf.1 hf.2.2.1 hf.2.2.2.1 hr
      · rw [hk5, hk3] at hadd
        exact used_range_add_inv a1 _ k (used_stats_inv_of_frame _ _ hf hst)
          (used_range_inv_of_eq _ _ hf.1 hf.2.2.1 hf.2.2.2.1 hr)
          (by rw [hf.2.1]; exact hbound) hk1 hk2 hadd
  | free ptr size realloc_ok =>
    simp only [smmgr_op_size] at hsz
    simp only [smmgr_step] at h
    by_cases hmem : (ptr, size) ∈ s.2
    · rw [if_pos hmem] at h
      cases hf : do_smmgr_free s.1 ptr size realloc_ok with
      | none => rw [hf] at h; cases h
      | some s2 =>
        rw [hf] at h
        simp only [Option.some.injEq] at h
        subst h
        obtain ⟨k, hk1, hk2, hk3, _, hk5⟩ := slen_class size hsz
        obtain ⟨a1, hfr, hdel⟩ := do_smmgr_free_stats s.1 s2 ptr size realloc_ok hf
        rw [hk5, hk3] at hdel
        exact used_range_del_inv a1 _ k (used_stats_inv_of_frame _ _ hfr hst)
          (used_range_inv_of_eq _ _ hfr.1 hfr.2.2.1 hfr.2.2.2.1 hr)
          (by rw [hfr.2.1]; exact hbound) hk1 hk2 hdel
    · rw [if_neg hmem] at h
      cases h

/-- The statistics of the used slots and the bounds of the populated classes
are kept together along a run. -/
theorem used_stats_range_along_runs (ops : List smmgr_op) :
    ∀ (s : smmgr_state × List (Nat × Nat)),
      used_stats_inv s.1.st.sm_anchor ∧ used_range_inv s.1.st.sm_anchor →
      smmgr_run_within small_request s ops = true →
      smmgr_run_always
        (fun x => used_stats_inv x.1.st.sm_anchor ∧ used_range_inv x.1.st.sm_anchor) s ops := by
  induction ops with
  | nil => intro s hinv _; exact hinv
  | cons op ops ih =>
    intro s hinv hb
    simp only [smmgr_run_within, Bool.and_eq_true] at hb
    refine ⟨hinv, ?_⟩
    cases hs : smmgr_step s op with
    | none => trivial
    | some s1 =>
      have hb2 := hb.2
      rw [hs] at hb2
      exact ih s1 ⟨used_stats_inv_step s s1 op hinv.1 hb.1 hs,
        used_range_inv_step s s1 op hinv.1 hinv.2 hb.1 hs⟩ hb2

/-- C18: along every sequence of operations of the small-memory manager whose
slot lengths are below 8192, after every operation `used_minid` is the smallest
and `used_maxid` the largest class with `used_slist[i].count > 0` (every
populated class lies between them and both are populated), and when no class is
populated they hold the sentinels `used_minid = SMMGR_NUM_CLASSES` and
`used_maxid = -1`; provided the used statistics are consistent and the bounds
exact at the start (as they are after `do_smmgr_init`) and `used_total_space`
stays away from `2^64`. -/
theorem used_bounds_along_runs (ops : List smmgr_op) (s : smmgr_state × List (Nat × Nat))
    (hst : used_stats_inv s.1.st.sm_anchor) (hr : used_range_inv s.1.st.sm_anchor)
    (hb : smmgr_run_within small_request s ops = true) :
    smmgr_run_always (fun x => used_range_inv x.1.st.sm_anchor) s ops :=
  smmgr_run_always_mono _ _ (fun _ h => h.2) ops s
    (used_stats_range_along_runs ops s ⟨hst, hr⟩ hb)

/-- The anchor of `do_smmgr_init` has exact bounds: no class is populated and
the bounds are the sentinels. -/
theorem used_range_inv_init : used_range_inv smmgr_anchor_init := by
  have hno : ∀ i, ¬ used_populated smmgr_anchor_init.used_slist i := by
    rintro i ⟨u, hu, hc⟩
    simp only [smmgr_anchor_init, List.getElem?_replicate] at hu
    split at hu
    · cases hu
      exact absurd hc (by decide)
    · cases hu
  refine ⟨fun i hi => absurd hi (hno i), fun ⟨i, hi⟩ => absurd hi (hno i),
    fun _ => ⟨rfl, rfl⟩, ?_⟩
  intro u hu
  simp only [smmgr_anchor_init, List.getElem?_replicate] at hu
  split at hu
  · cases hu; rfl
  · cases hu

set_option maxRecDepth 100000 in
/-- Witness of `used_bounds_along_runs`: the run `ops_three_classes` on a fresh
allocator, which is defined to its end; the populated classes are 8, then 4
and 8, then 4, 8 and 26, then 4 and 26, then 4, and the run ends with
`used_minid = used_maxid = 4`. -/
theorem used_bounds_along_runs_witness :
    (used_stats_inv (smmgr_state_fresh, ([] : List (Nat × Nat))).1.st.sm_anchor ∧
      used_range_inv (smmgr_state_fresh, ([] : List (Nat × Nat))).1.st.sm_anchor ∧
      smmgr_run_within small_request (smmgr_state_fresh, []) ops_three_classes = true) ∧
    smmgr_run_always (fun x => used_range_inv x.1.st.sm_anchor) (smmgr_state_fresh, [])
      ops_three_classes ∧
    (smmgr_run (smmgr_state_fresh, []) (ops_three_classes.take 3)).map
        (fun s => (s.1.st.sm_anchor.used_minid, s.1.st.sm_anchor.used_maxid))
      = some (4, 26) ∧
    (smmgr_run (smmgr_state_fresh, []) ops_three_classes).map
        (fun s => (s.1.st.sm_anchor.used_minid, s.1.st.sm_anchor.used_maxid))
      = some (4, 4) :=
  ⟨⟨used_stats_inv_init, used_range_inv_init, by decide⟩,
    used_bounds_along_runs ops_three_classes (smmgr_state_fresh, []) used_stats_inv_init
      used_range_inv_init (by decide),
    by decide, by decide⟩


/-! ### The byte memory -/

/-- A read depends only on the bytes it covers. -/
theorem load_congr (m1 m2 : Nat → Nat) :
    ∀ (w a : Nat), (∀ x, a ≤ x → x < a + w → m1 x = m2 x) → load w m1 a = load w m2 a := by
  intro w
  induction w with
  | zero => intro a _; rfl
  | succ w ih =>
    intro a h
    simp only [load]
    rw [h a (le_refl _) (by omega), ih (a + 1) (fun x h1 h2 => h x (by omega) (by omega))]

/-- A read of `w` bytes is below `256^w`. -/
theorem load_lt (m : Nat → Nat) : ∀ (w a : Nat), load w m a < 256 ^ w := by
  intro w
  induction w with
  | zero => intro a; simp [load]
  | succ w ih =>
    intro a
    simp only [load]
    have := ih (a + 1)
    have h2 : m a % 256 < 256 := Nat.mod_lt _ (by omega)
    rw [pow_succ]
    nlinarith

/-- A write does not change the bytes outside its range. -/
theorem store_outside (w : Nat) (m : Nat → Nat) (a v x : Nat) (h : x < a ∨ a + w ≤ x) :
    store w m a v x = m x := by
  unfold store
  rw [if_neg (by omega)]

/-- A read is not changed by a write to a disjoint range. -/
theorem load_store_disjoint (w w' : Nat) (m : Nat → Nat) (a b v : Nat)
    (h : a + w ≤ b ∨ b + w' ≤ a) : load w' (store w m a v) b = load w' m b := by
  apply load_congr
  intro x h1 h2
  exact store_outside w m a v x (by omega)

/-- Reading back what was written: the `w` low bytes of the value. -/
theorem load_store_same (m : Nat → Nat) :
    ∀ (w a v : Nat), load w (store w m a v) a = v % 256 ^ w := by
  intro w
  induction w with
  | zero => intro a v; simp [load, Nat.mod_one]
  | succ w ih =>
    intro a v
    simp only [load]
    have h0 : store (w + 1) m a v a = v % 256 := by
      unfold store
      rw [if_pos (by omega)]
      simp
    have hrest : load w (store (w + 1) m a v) (a + 1) = load w (store w m (a + 1) (v / 256)) (a + 1) := by
      apply load_congr
      intro x h1 h2
      unfold store
      rw [if_pos (by omega), if_pos (by omega)]
      have : x - a = (x - (a + 1)) + 1 := by omega
      rw [this, pow_succ, Nat.div_div_eq_div_mul, Nat.mul_comm]
    rw [h0, hrest, ih (a + 1) (v / 256)]
    rw [pow_succ', Nat.mod_mul, Nat.mod_mod]

/-- Reading back a value that fits the width. -/
theorem load_store_eq (m : Nat → Nat) (w a v : Nat) (h : v < 256 ^ w) :
    load w (store w m a v) a = v := by
  rw [load_store_same, Nat.mod_eq_of_lt h]

/-! ### Doubly linked lists through memory -/

/-- A list structure is kept by a change of memory outside the link fields of
its nodes. -/
theorem dll_frame (po : Nat) (m m1 : Nat → Nat) (l : List Nat) (h : dll po m l)
    (hf : ∀ x, x ∈ l → ∀ a, x + po ≤ a → a < x + po + 16 → m1 a = m a) :
    dll po m1 l := by
  intro k x hx
  have hmem : x ∈ l := List.getElem?_mem hx
  obtain ⟨h1, h2⟩ := h k x hx
  constructor
  · rw [← h1]
    exact load_congr _ _ _ _ (fun a ha1 ha2 => hf x hmem a ha1 (by omega))
  · rw [← h2]
    exact load_congr _ _ _ _ (fun a ha1 ha2 => hf x hmem a (by omega) (by omega))

/-- In a list without repetition an element has one index. -/
theorem nodup_index_unique {α : Type} (l : List α) (hnd : l.Nodup) (i j : Nat) (x : α)
    (hi : l[i]? = some x) (hj : l[j]? = some x) : i = j :=
  List.getElem?_inj (List.getElem?_eq_some_iff.mp hi).1 hnd (hi.trans hj.symm)

/-- The empty list is a list structure. -/
theorem dll_nil (po : Nat) (m : Nat → Nat) : dll po m [] := by
  intro k x hx
  simp at hx

/-- Appending a node to a non-empty list, as `do_smmgr_free_slot_link` and
`do_smmgr_used_blck_link` do: `x->prev = tail; x->next = NULL;
x->prev->next = x`. -/
theorem dll_append (po : Nat) (m : Nat → Nat) (l : List Nat) (x t : Nat)
    (h : dll po m l) (hsep : dll_sep (l ++ [x])) (ht : l.getLast? = some t) :
    dll po (store 8 (store 8 (store 8 m (x + po) t) (x + (po + 8)) 0)
        (load 8 (store 8 (store 8 m (x + po) t) (x + (po + 8)) 0) (x + po) + (po + 8)) x)
      (l ++ [x]) := by
  obtain ⟨hnd, hval, hap⟩ := hsep
  have hxl : x ∉ l := by
    intro hx
    have := List.nodup_append.mp hnd
    exact this.2.2 hx (List.mem_singleton.mpr rfl) 
  have htm : t ∈ l := List.mem_of_mem_getLast? ht
  have htx : t ≠ x := fun e => hxl (e ▸ htm)
  have hxv := hval x (by simp)
  have htv := hval t (by simp [htm])
  have htx2 := hap t x (by simp [htm]) (by simp)
  have hrd : load 8 (store 8 (store 8 m (x + po) t) (x + (po + 8)) 0) (x + po) = t := by
    rw [load_store_disjoint _ _ _ _ _ _ (by omega), load_store_eq _ _ _ _ (by omega)]
  rw [hrd]
  have hlen : l.length ≠ 0 := by
    intro h0
    have : l = [] := List.length_eq_zero.mp h0
    rw [this] at ht
    simp at ht
  have hlast : l[l.length - 1]? = some t := by
    rw [List.getLast?_eq_getElem?] at ht
    exact ht
  intro k y hy
  by_cases hk : k < l.length
  · -- an old node
    rw [List.getElem?_append_left hk] at hy
    have hym : y ∈ l := List.getElem?_mem hy
    obtain ⟨h1, h2⟩ := h k y hy
    have hyx := hap y x (by simp [hym]) (by simp)
    have hyne : y ≠ x := fun e => hxl (e ▸ hym)
    constructor
    · rw [load_store_disjoint _ _ _ _ _ _ (by
        have := hap t y (by simp [htm]) (by simp [hym])
        omega),
        load_store_disjoint _ _ _ _ _ _ (by omega),
        load_store_disjoint _ _ _ _ _ _ (by omega), h1]
      by_cases hk0 : k = 0
      · simp [hk0]
      · rw [if_neg hk0, if_neg hk0, List.getElem?_append_left (by omega)]
    · by_cases hkl : k = l.length - 1
      · -- the old tail
        have hyt : y = t := by
          rw [hkl, hlast] at hy
          cases hy
          rfl
        rw [hyt, load_store_eq _ _ _ _ (by omega)]
        have : k + 1 = l.length := by omega
        rw [this, List.getElem?_append_right (le_refl _)]
        simp
      · have hndl : l.Nodup := (List.nodup_append.mp hnd).1
        have hyt : y ≠ t := by
          intro e
          rw [e] at hy
          have := nodup_index_unique l hndl _ _ t hy hlast
          omega
        rw [load_store_disjoint _ _ _ _ _ _ (by
          have := hap t y (by simp [htm]) (by simp [hym])
          omega),
          load_store_disjoint _ _ _ _ _ _ (by omega),
          load_store_disjoint _ _ _ _ _ _ (by omega), h2,
          List.getElem?_append_left (by omega)]
  · -- the new node
    have hkeq : k = l.length := by
      have := (List.getElem?_eq_some_iff.mp hy).1
      simp at this
      omega
    rw [hkeq, List.getElem?_append_right (le_refl _)] at hy
    simp at hy
    subst hy
    rw [hkeq]
    constructor
    · rw [load_store_disjoint _ _ _ _ _ _ (by omega),
        load_store_disjoint _ _ _ _ _ _ (by omega), load_store_eq _ _ _ _ (by omega),
        if_neg hlen, List.getElem?_append_left (by omega), hlast]
      rfl
    · rw [load_store_disjoint _ _ _ _ _ _ (by omega), load_store_eq _ _ _ _ (by omega),
        List.getElem?_eq_none (by simp)]
      rfl

/-- Linking a node into an empty list: `x->prev = NULL; x->next = NULL`. -/
theorem dll_singleton (po : Nat) (m : Nat → Nat) (x : Nat) :
    dll po (store 8 (store 8 m (x + po) 0) (x + (po + 8)) 0) [x] := by
  intro k y hy
  cases k with
  | zero =>
    simp only [List.getElem?_cons_zero, Option.some.injEq] at hy
    subst hy
    constructor
    · rw [load_store_disjoint _ _ _ _ _ _ (by omega), load_store_eq _ _ _ _ (by omega)]
      rfl
    · rw [load_store_eq _ _ _ _ (by omega)]
      rfl
  | succ k => simp at hy

/-- The link fields after the two assignments of an unlink,
`p->next = n` (when `p` is not null) and `n->prev = p` (when `n` is not
null). -/
theorem unlink_fields (po : Nat) (m m1 m2 : Nat → Nat) (l : List Nat) (p n : Nat)
    (hsep : dll_sep l) (hp : p = 0 ∨ p ∈ l) (hn : n = 0 ∨ n ∈ l)
    (hm1 : m1 = if p ≠ 0 then store 8 m (p + (po + 8)) n else m)
    (hm2 : m2 = if n ≠ 0 then store 8 m1 (n + po) p else m1) :
    ∀ y, y ∈ l →
      load 8 m1 (y + po) = load 8 m (y + po) ∧
      (¬ (p ≠ 0 ∧ y = p) → load 8 m1 (y + (po + 8)) = load 8 m (y + (po + 8))) ∧
      load 8 m2 (y + po) = (if n ≠ 0 ∧ y = n then p else load 8 m (y + po)) ∧
      load 8 m2 (y + (po + 8)) = (if p ≠ 0 ∧ y = p then n else load 8 m (y + (po + 8))) := by
  obtain ⟨hnd, hval, hap⟩ := hsep
  intro y hy
  have hpv : p < 2 ^ 64 := by
    rcases hp with h | h
    · rw [h]; omega
    · have := hval p h; omega
  have hnv : n < 2 ^ 64 := by
    rcases hn with h | h
    · rw [h]; omega
    · have := hval n h; omega
  have a1 : load 8 m1 (y + po) = load 8 m (y + po) := by
    rw [hm1]
    by_cases hp0 : p ≠ 0
    · rw [if_pos hp0]
      have hpm : p ∈ l := hp.resolve_left hp0
      have := hap y p hy hpm
      exact load_store_disjoint _ _ _ _ _ _ (by omega)
    · rw [if_neg hp0]
  have a2 : ¬ (p ≠ 0 ∧ y = p) → load 8 m1 (y + (po + 8)) = load 8 m (y + (po + 8)) := by
    intro hne
    rw [hm1]
    by_cases hp0 : p ≠ 0
    · rw [if_pos hp0]
      have hpm : p ∈ l := hp.resolve_left hp0
      have hyp : y ≠ p := fun e => hne ⟨hp0, e⟩
      have := hap y p hy hpm
      exact load_store_disjoint _ _ _ _ _ _ (by omega)
    · rw [if_neg hp0]
  refine ⟨a1, a2, ?_, ?_⟩
  · by_cases hc : n ≠ 0 ∧ y = n
    · rw [if_pos hc, hm2, if_pos hc.1, hc.2]
      exact load_store_eq _ _ _ _ (by omega)
    · rw [if_neg hc, hm2, ← a1]
      by_cases hn0 : n ≠ 0
      · rw [if_pos hn0]
        have hnm : n ∈ l := hn.resolve_left hn0
        have hyn : y ≠ n := fun e => hc ⟨hn0, e⟩
        have := hap y n hy hnm
        exact load_store_disjoint _ _ _ _ _ _ (by omega)
      · rw [if_neg hn0]
  · have b1 : load 8 m2 (y + (po + 8)) = load 8 m1 (y + (po + 8)) := by
      rw [hm2]
      by_cases hn0 : n ≠ 0
      · rw [if_pos hn0]
        have hnm : n ∈ l := hn.resolve_left hn0
        have := hap y n hy hnm
        exact load_store_disjoint _ _ _ _ _ _ (by omega)
      · rw [if_neg hn0]
    rw [b1]
    by_cases hc : p ≠ 0 ∧ y = p
    · rw [if_pos hc, hm1, if_pos hc.1, hc.2]
      exact load_store_eq _ _ _ _ (by omega)
    · rw [if_neg hc]
      exact a2 hc

/-- Removing the node of index `k`, as `do_smmgr_free_slot_unlink` and
`do_smmgr_used_blck_unlink` do: `if (x->prev) x->prev->next = x->next;
if (x->next) x->next->prev = x->prev`, the fields of `x` being read again
before the second assignment. The link fields of the removed node keep their
values. -/
theorem dll_remove (po : Nat) (m m1 m2 : Nat → Nat) (l : List Nat) (k x : Nat)
    (h : dll po m l) (hsep : dll_sep l) (hx : l[k]? = some x)
    (hm1 : m1 = if load 8 m (x + po) ≠ 0
                then store 8 m (load 8 m (x + po) + (po + 8)) (load 8 m (x + (po + 8))) else m)
    (hm2 : m2 = if load 8 m1 (x + (po + 8)) ≠ 0
                then store 8 m1 (load 8 m1 (x + (po + 8)) + po) (load 8 m1 (x + po)) else m1) :
    dll po m2 (l.eraseIdx k) ∧
    load 8 m (x + po) = (if k = 0 then 0 else (l[k - 1]?).getD 0) ∧
    load 8 m (x + (po + 8)) = (l[k + 1]?).getD 0 ∧
    load 8 m2 (x + po) = load 8 m (x + po) ∧
    load 8 m2 (x + (po + 8)) = load 8 m (x + (po + 8)) ∧
    (∀ a, (∀ y, y ∈ l → y ≠ x → a < y + po ∨ y + po + 16 ≤ a) → m2 a = m a) := by
  have hsep' := hsep
  obtain ⟨hnd, hval, hap⟩ := hsep
  obtain ⟨hp, hn⟩ := h k x hx
  have hkl : k < l.length := (List.getElem?_eq_some_iff.mp hx).1
  have hxm : x ∈ l := List.getElem?_mem hx
  -- the predecessor
  have hpk : (k = 0 ∧ load 8 m (x + po) = 0) ∨
      (k ≠ 0 ∧ l[k - 1]? = some (load 8 m (x + po)) ∧ load 8 m (x + po) ≠ 0) := by
    by_cases hk0 : k = 0
    · left
      rw [hp, if_pos hk0]
      exact ⟨hk0, rfl⟩
    · right
      rw [hp, if_neg hk0]
      have hlt : k - 1 < l.length := by omega
      rw [List.getElem?_eq_getElem hlt]
      have := hval _ (List.getElem_mem hlt)
      exact ⟨hk0, rfl, by simp only [Option.getD_some]; omega⟩
  -- the successor
  have hnk : (l.length ≤ k + 1 ∧ load 8 m (x + (po + 8)) = 0) ∨
      (k + 1 < l.length ∧ l[k + 1]? = some (load 8 m (x + (po + 8))) ∧
        load 8 m (x + (po + 8)) ≠ 0) := by
    by_cases hk1 : k + 1 < l.length
    · right
      rw [hn, List.getElem?_eq_getElem hk1]
      have := hval _ (List.getElem_mem hk1)
      exact ⟨hk1, rfl, by simp only [Option.getD_some]; omega⟩
    · left
      rw [hn, List.getElem?_eq_none (by omega)]
      exact ⟨by omega, rfl⟩
  generalize hpe : load 8 m (x + po) = p at hm1 hpk hp
  generalize hne : load 8 m (x + (po + 8)) = n at hm1 hnk hn
  have hpl : p = 0 ∨ p ∈ l := by
    rcases hpk with ⟨_, h0⟩ | ⟨_, h1, _⟩
    · exact Or.inl h0
    · exact Or.inr (List.getElem?_mem h1)
  have hnl : n = 0 ∨ n ∈ l := by
    rcases hnk with ⟨_, h0⟩ | ⟨_, h1, _⟩
    · exact Or.inl h0
    · exact Or.inr (List.getElem?_mem h1)
  have hxp : ¬ (p ≠ 0 ∧ x = p) := by
    rintro ⟨hp0, e⟩
    rcases hpk with ⟨_, h0⟩ | ⟨hk0, h1, _⟩
    · exact hp0 h0
    · rw [← e] at h1
      have := nodup_index_unique l hnd _ _ x h1 hx
      omega
  have hxn : ¬ (n ≠ 0 ∧ x = n) := by
    rintro ⟨hn0, e⟩
    rcases hnk with ⟨_, h0⟩ | ⟨_, h1, _⟩
    · exact hn0 h0
    · rw [← e] at h1
      have := nodup_index_unique l hnd _ _ x h1 hx
      omega
  -- the fields of x when they are read again
  have hfx := unlink_fields po m m1 (if n ≠ 0 then store 8 m1 (n + po) p else m1) l p n hsep'
    hpl hnl hm1 rfl x hxm
  have e1 : load 8 m1 (x + po) = p := by rw [hfx.1, hpe]
  have e2 : load 8 m1 (x + (po + 8)) = n := by rw [hfx.2.1 hxp, hne]
  rw [e1, e2] at hm2
  have hf := unlink_fields po m m1 m2 l p n hsep' hpl hnl hm1 hm2
  refine ⟨?_, hp, hn, ?_, ?_, ?_⟩
  · -- the list structure
    intro j y hy
    rw [List.getElem?_eraseIdx] at hy
    by_cases hjk : j < k
    · rw [if_pos hjk] at hy
      have hym : y ∈ l := List.getElem?_mem hy
      obtain ⟨_, _, f3, f4⟩ := hf y hym
      obtain ⟨hyp, hyn⟩ := h j y hy
      rw [f3, f4]
      have hyn' : ¬ (n ≠ 0 ∧ y = n) := by
        rintro ⟨hn0, e⟩
        rcases hnk with ⟨_, h0⟩ | ⟨_, h1, _⟩
        · exact hn0 h0
        · rw [← e] at h1
          have := nodup_index_unique l hnd _ _ y h1 hy
          omega
      rw [if_neg hyn', hyp]
      constructor
      · by_cases hj0 : j = 0
        · rw [if_pos hj0, if_pos hj0]
        · rw [if_neg hj0, if_neg hj0, List.getElem?_eraseIdx, if_pos (by omega)]
      · by_cases hjp : j + 1 = k
        · -- y is the predecessor of x
          rcases hpk with ⟨hk0, _⟩ | ⟨hk0, h1, hp0⟩
          · omega
          · have hkj : k - 1 = j := by omega
            rw [hkj, hy] at h1
            cases h1
            rw [if_pos ⟨hp0, rfl⟩, List.getElem?_eraseIdx, if_neg (by omega), hn, hjp]
        · have hyp' : ¬ (p ≠ 0 ∧ y = p) := by
            rintro ⟨hp0, e⟩
            rcases hpk with ⟨_, h0⟩ | ⟨_, h1, _⟩
            · exact hp0 h0
            · rw [← e] at h1
              have := nodup_index_unique l hnd _ _ y h1 hy
              omega
          rw [if_neg hyp', hyn, List.getElem?_eraseIdx, if_pos (by omega)]
    · rw [if_neg hjk] at hy
      have hym : y ∈ l := List.getElem?_mem hy
      obtain ⟨_, _, f3, f4⟩ := hf y hym
      obtain ⟨hyp, hyn⟩ := h (j + 1) y hy
      rw [f3, f4]
      have hyp' : ¬ (p ≠ 0 ∧ y = p) := by
        rintro ⟨hp0, e⟩
        rcases hpk with ⟨_, h0⟩ | ⟨_, h1, _⟩
        · exact hp0 h0
        · rw [← e] at h1
          have := nodup_index_unique l hnd _ _ y h1 hy
          omega
      rw [if_neg hyp', hyn]
      constructor
      · by_cases hjn : j = k
        · -- y is the successor of x
          rcases hnk with ⟨hk1, _⟩ | ⟨hk1, h1, hn0⟩
          · have := (List.getElem?_eq_some_iff.mp hy).1
            omega
          · rw [← hjn, hy] at h1
            cases h1
            rw [if_pos ⟨hn0, rfl⟩, hp, hjn]
            by_cases hk0 : k = 0
            · rw [if_pos hk0, if_pos hk0]
            · rw [if_neg hk0, if_neg hk0, List.getElem?_eraseIdx, if_pos (by omega)]
        · have hyn' : ¬ (n ≠ 0 ∧ y = n) := by
            rintro ⟨hn0, e⟩
            rcases hnk with ⟨_, h0⟩ | ⟨_, h1, _⟩
            · exact hn0 h0
            · rw [← e] at h1
              have := nodup_index_unique l hnd _ _ y h1 hy
              omega
          rw [if_neg hyn', hyp, if_neg (by omega), if_neg (by omega), List.getElem?_eraseIdx,
            if_neg (by omega)]
          have : j - 1 + 1 = j + 1 - 1 := by omega
          rw [this]
      · rw [List.getElem?_eraseIdx, if_neg (by omega)]
  · rw [(hf x hxm).2.2.1, if_neg hxn, hpe]
  · rw [(hf x hxm).2.2.2, if_neg hxp, hne]
  · intro a ha
    rw [hm2]
    have s1 : m1 a = m a := by
      rw [hm1]
      by_cases hp0 : p ≠ 0
      · rw [if_pos hp0]
        have hpm : p ∈ l := hpl.resolve_left hp0
        have hpx : p ≠ x := fun e => hxp ⟨hp0, e.symm⟩
        have := ha p hpm hpx
        exact store_outside _ _ _ _ _ (by omega)
      · rw [if_neg hp0]
    by_cases hn0 : n ≠ 0
    · rw [if_pos hn0]
      have hnm : n ∈ l := hnl.resolve_left hn0
      have hnx : n ≠ x := fun e => hxn ⟨hn0, e.symm⟩
      have := ha n hnm hnx
      rw [store_outside _ _ _ _ _ (by omega)]
      exact s1
    · rw [if_neg hn0]
      exact s1

/-- Replacing the head `old` of a list by a new node, as
`do_smmgr_free_slot_replace` does: `new->prev = NULL`, then either
`new->next = NULL` (when `old` was alone) or `new->next = old->next;
new->next->prev = new`. -/
theorem dll_replace_head (po : Nat) (m m1 m2 : Nat → Nat) (rest : List Nat) (old new : Nat)
    (h : dll po m (old :: rest)) (hsep : dll_sep (new :: old :: rest))
    (hm1 : m1 = store 8 m (new + po) 0)
    (hm2 : m2 = if load 8 m1 (old + (po + 8)) = 0 then store 8 m1 (new + (po + 8)) 0
                else store 8 (store 8 m1 (new + (po + 8)) (load 8 m1 (old + (po + 8))))
                  (load 8 (store 8 m1 (new + (po + 8)) (load 8 m1 (old + (po + 8))))
                    (new + (po + 8)) + po) new) :
    dll po m2 (new :: rest) ∧
    load 8 m1 (old + (po + 8)) = (rest.head?).getD 0 ∧
    (load 8 m1 (old + (po + 8)) = 0 ↔ rest = []) ∧
    (∀ a, (a < new + po ∨ new + po + 16 ≤ a) →
      (∀ y, y ∈ rest → a < y + po ∨ y + po + 8 ≤ a) → m2 a = m a) := by
  obtain ⟨hnd, hval, hap⟩ := hsep
  have hnv := hval new (by simp)
  have hov := hval old (by simp)
  have hno := hap new old (by simp) (by simp)
  have hne : new ≠ old := by
    intro e
    rw [e] at hnd
    simp at hnd
  have hon : load 8 m (old + (po + 8)) = (rest.head?).getD 0 := by
    have := (h 0 old (by simp)).2
    rw [this]
    cases rest <;> simp
  have e1 : load 8 m1 (old + (po + 8)) = (rest.head?).getD 0 := by
    rw [hm1, load_store_disjoint _ _ _ _ _ _ (by omega), hon]
  have hiff : load 8 m1 (old + (po + 8)) = 0 ↔ rest = [] := by
    rw [e1]
    cases rest with
    | nil => simp
    | cons y r =>
      have := hval y (by simp)
      simp only [List.head?_cons, Option.getD_some, reduceCtorEq, iff_false]
      omega
  refine ⟨?_, e1, hiff, ?_⟩
  · cases rest with
    | nil =>
      rw [if_pos (hiff.mpr rfl)] at hm2
      rw [hm2, hm1]
      exact dll_singleton po m new
    | cons y r =>
      have hy0 : load 8 m1 (old + (po + 8)) = y := by rw [e1]; rfl
      have hyv := hval y (by simp)
      have hyn := hap new y (by simp) (by simp)
      have hnodup : (old :: y :: r).Nodup := (List.nodup_cons.mp hnd).2
      have hny : new ≠ y := by
        intro e
        rw [e] at hnd
        simp at hnd
      rw [if_neg (by rw [hy0]; omega), hy0, load_store_eq _ _ _ _ (by omega)] at hm2
      intro k z hz
      have hzm : z ∈ new :: y :: r := List.getElem?_mem hz
      have hzv := hval z (by
        rcases List.mem_cons.mp hzm with e | e
        · rw [e]; exact List.mem_cons_self _ _
        · exact List.mem_cons_of_mem _ (List.mem_cons_of_mem _ e))
      cases k with
      | zero =>
        simp only [List.getElem?_cons_zero, Option.some.injEq] at hz
        subst hz
        rw [hm2, hm1]
        constructor
        · rw [load_store_disjoint _ _ _ _ _ _ (by omega),
            load_store_disjoint _ _ _ _ _ _ (by omega), load_store_eq _ _ _ _ (by omega)]
          rfl
        · rw [load_store_disjoint _ _ _ _ _ _ (by omega), load_store_eq _ _ _ _ (by omega)]
          simp
      | succ k =>
        simp only [List.getElem?_cons_succ] at hz
        have hz' : (old :: y :: r)[k + 1]? = some z := by
          simp only [List.getElem?_cons_succ]; exact hz
        obtain ⟨hp, hn⟩ := h (k + 1) z hz'
        have hzo : z ∈ old :: y :: r := List.getElem?_mem hz'
        have hnz := hap new z (by simp) (List.mem_cons_of_mem _ hzo)
        have hnz' : new ≠ z := by
          intro e
          rw [← e] at hzo
          exact (List.nodup_cons.mp hnd).1 hzo
        constructor
        · rw [if_neg (by omega)]
          cases k with
          | zero =>
            simp only [List.getElem?_cons_zero, Option.some.injEq] at hz
            subst hz
            rw [hm2, load_store_eq _ _ _ _ (by omega)]
            simp
          | succ k =>
            have hzy : z ≠ y := by
              intro e
              rw [e] at hz
              have := nodup_index_unique (y :: r) (List.nodup_cons.mp hnodup).2 _ 0 y hz (by simp)
              omega
            have hyz := hap y z (by simp) (List.mem_cons_of_mem _ hzo)
            rw [hm2, hm1, load_store_disjoint _ _ _ _ _ _ (by omega),
              load_store_disjoint _ _ _ _ _ _ (by omega),
              load_store_disjoint _ _ _ _ _ _ (by omega), hp, if_neg (by omega)]
            simp
        · have hyz := hap y z (by simp) (List.mem_cons_of_mem _ hzo)
          rw [hm2, hm1, load_store_disjoint _ _ _ _ _ _ (by omega),
            load_store_disjoint _ _ _ _ _ _ (by omega),
            load_store_disjoint _ _ _ _ _ _ (by omega), hn]
          simp
  · intro a ha hr
    rw [hm2]
    have s1 : m1 a = m a := by
      rw [hm1]
      exact store_outside _ _ _ _ _ (by omega)
    cases rest with
    | nil =>
      rw [if_pos (hiff.mpr rfl), store_outside _ _ _ _ _ (by omega)]
      exact s1
    | cons y r =>
      have hy0 : load 8 m1 (old + (po + 8)) = y := by rw [e1]; rfl
      have hyv := hval y (by simp)
      have := hr y (by simp)
      rw [if_neg (by rw [hy0]; omega), hy0, load_store_eq _ _ _ _ (by omega),
        store_outside _ _ _ _ _ (by omega), store_outside _ _ _ _ _ (by omega)]
      exact s1

/-! ### The geometry of the blocks -/

/-- Tiling of a concatenation. -/
theorem tiles_append (l1 l2 : List gslot) : ∀ (o e : Nat),
    tiles o (l1 ++ l2) e ↔ ∃ mid, tiles o l1 mid ∧ tiles mid l2 e := by
  induction l1 with
  | nil =>
    intro o e
    simp only [List.nil_append, tiles]
    constructor
    · intro h; exact ⟨o, rfl, h⟩
    · rintro ⟨mid, h1, h2⟩; rw [h1]; exact h2
  | cons s l1 ih =>
    intro o e
    show tiles o (s :: (l1 ++ l2)) e ↔ _
    simp only [tiles, ih]
    constructor
    · rintro ⟨h1, h2, h3, mid, h4, h5⟩; exact ⟨mid, ⟨h1, h2, h3, h4⟩, h5⟩
    · rintro ⟨mid, ⟨h1, h2, h3, h4⟩, h5⟩; exact ⟨h1, h2, h3, mid, h4, h5⟩

/-- A tiling ends after it starts. -/
theorem tiles_le (ss : List gslot) : ∀ (o e : Nat), tiles o ss e → o ≤ e := by
  induction ss with
  | nil => intro o e h; simp only [tiles] at h; omega
  | cons s ss ih =>
    intro o e h
    simp only [tiles] at h
    have := ih _ _ h.2.2.2
    omega

/-- The end of a tiling is determined by its start. -/
theorem tiles_end_unique (ss : List gslot) : ∀ (o e e' : Nat),
    tiles o ss e → tiles o ss e' → e = e' := by
  induction ss with
  | nil => intro o e e' h h'; simp only [tiles] at h h'; omega
  | cons s ss ih =>
    intro o e e' h h'
    simp only [tiles] at h h'
    exact ih _ _ _ h.2.2.2 h'.2.2.2

/-- A slot of a tiling lies inside it. -/
theorem tiles_mem (ss : List gslot) : ∀ (o e : Nat), tiles o ss e → ∀ s, s ∈ ss →
    o ≤ s.off ∧ s.off + s.len ≤ e ∧ 0 < s.len ∧ 8 ∣ s.len := by
  induction ss with
  | nil => intro o e _ s hs; simp at hs
  | cons t ss ih =>
    intro o e h s hs
    simp only [tiles] at h
    obtain ⟨h1, h2, h3, h4⟩ := h
    rcases List.mem_cons.mp hs with e1 | e1
    · subst e1
      have := tiles_le _ _ _ h4
      exact ⟨by omega, by omega, h2, h3⟩
    · have := ih _ _ h4 s e1
      exact ⟨by omega, this.2.1, this.2.2.1, this.2.2.2⟩

/-- Two slots of a tiling are the same slot or do not overlap. -/
theorem tiles_disjoint (ss : List gslot) : ∀ (o e : Nat), tiles o ss e → ∀ s t, s ∈ ss → t ∈ ss →
    s = t ∨ s.off + s.len ≤ t.off ∨ t.off + t.len ≤ s.off := by
  induction ss with
  | nil => intro o e _ s t hs; simp at hs
  | cons u ss ih =>
    intro o e h s t hs ht
    simp only [tiles] at h
    obtain ⟨h1, h2, h3, h4⟩ := h
    rcases List.mem_cons.mp hs with e1 | e1 <;> rcases List.mem_cons.mp ht with e2 | e2
    · left; rw [e1, e2]
    · subst e1
      have := tiles_mem _ _ _ h4 t e2
      right; left; omega
    · subst e2
      have := tiles_mem _ _ _ h4 s e1
      right; right; omega
    · exact ih _ _ h4 s t e1 e2

/-- Two blocks of the description with the same address are the same block. -/
theorem blocks_geom_base (bs : List gblock) (h : blocks_geom bs) (B C : gblock)
    (hB : B ∈ bs) (hC : C ∈ bs) :
    B = C ∨ B.base + 65536 ≤ C.base ∨ C.base + 65536 ≤ B.base := by
  by_cases e : B = C
  · exact Or.inl e
  · right
    exact List.Pairwise.forall (fun x y hxy => by omega) h.2 hB hC e

/-- Two slots of the description are the same slot of the same block or do not
overlap; a slot lies in the body of its block. -/
theorem slots_disjoint (bs : List gblock) (h : blocks_geom bs) (B C : gblock) (s t : gslot)
    (hB : B ∈ bs) (hC : C ∈ bs) (hs : s ∈ B.slots) (ht : t ∈ C.slots) :
    (B = C ∧ s = t) ∨ B.base + s.off + s.len ≤ C.base + t.off ∨
      C.base + t.off + t.len ≤ B.base + s.off := by
  have hBt := (h.1 B hB).2.2
  have hCt := (h.1 C hC).2.2
  have h1 := tiles_mem _ _ _ hBt s hs
  have h2 := tiles_mem _ _ _ hCt t ht
  rcases blocks_geom_base bs h B C hB hC with e | e | e
  · subst e
    rcases tiles_disjoint _ _ _ hBt s t hs ht with e1 | e1 | e1
    · exact Or.inl ⟨rfl, e1⟩
    · right; left; omega
    · right; right; omega
  · right; left; omega
  · right; right; omega

/-- The bounds of a slot of the description. -/
theorem slot_bounds (bs : List gblock) (h : blocks_geom bs) (B : gblock) (s : gslot)
    (hB : B ∈ bs) (hs : s ∈ B.slots) :
    0 < B.base ∧ B.base + 65536 < 2 ^ 64 ∧ 24 ≤ s.off ∧ s.off + s.len ≤ 65536 ∧
      0 < s.len ∧ 8 ∣ s.len := by
  have hB1 := h.1 B hB
  have h1 := tiles_mem _ _ _ hB1.2.2 s hs
  exact ⟨hB1.1, hB1.2.1, h1.1, h1.2.1, h1.2.2.1, h1.2.2.2⟩

/-! ### Descriptions with one block taken apart -/

/-- The blocks of a `splice`. -/
theorem mem_splice (bpre : List gblock) (b : Nat) (pre mid post : List gslot)
    (bpost : List gblock) (B : gblock) :
    B ∈ splice bpre b pre mid post bpost ↔
      B ∈ bpre ++ bpost ∨ B = { base := b, slots := pre ++ mid ++ post } := by
  unfold splice
  simp only [List.mem_append, List.mem_cons]
  tauto

/-- The addresses of the blocks of a `splice`. -/
theorem splice_map_base (bpre : List gblock) (b : Nat) (pre mid post : List gslot)
    (bpost : List gblock) :
    (splice bpre b pre mid post bpost).map gblock.base
      = bpre.map gblock.base ++ b :: bpost.map gblock.base := by
  unfold splice
  simp

/-- The number of blocks of a `splice`. -/
theorem splice_length (bpre : List gblock) (b : Nat) (pre mid post : List gslot)
    (bpost : List gblock) :
    (splice bpre b pre mid post bpost).length = bpre.length + bpost.length + 1 := by
  unfold splice
  simp
  omega

/-- The geometry of a `splice` is the geometry around its middle slots and the
tiling by the middle slots. -/
theorem blocks_geom_splice (bpre : List gblock) (b : Nat) (pre mid post : List gslot)
    (bpost : List gblock) :
    blocks_geom (splice bpre b pre mid post bpost) ↔
      ∃ o1 e1, ctx_geom bpre b pre post bpost o1 e1 ∧ tiles o1 mid e1 := by
  unfold blocks_geom ctx_geom
  rw [← List.pairwise_map (f := gblock.base)
    (R := fun x y => x + 65536 ≤ y ∨ y + 65536 ≤ x), splice_map_base]
  constructor
  · rintro ⟨h1, h2⟩
    have hb := h1 _ ((mem_splice _ _ _ _ _ _ _).mpr (Or.inr rfl))
    obtain ⟨hb1, hb2, hb3⟩ := hb
    simp only [] at hb1 hb2 hb3
    rw [tiles_append, ] at hb3
    obtain ⟨e1, hb3, hb4⟩ := hb3
    rw [tiles_append] at hb3
    obtain ⟨o1, hb3, hb5⟩ := hb3
    exact ⟨o1, e1, ⟨fun B hB => h1 B ((mem_splice _ _ _ _ _ _ _).mpr (Or.inl hB)),
      hb1, hb2, hb3, hb4, h2⟩, hb5⟩
  · rintro ⟨o1, e1, ⟨h1, hb1, hb2, hb3, hb4, h2⟩, hb5⟩
    refine ⟨?_, h2⟩
    intro B hB
    rcases (mem_splice _ _ _ _ _ _ _).mp hB with h | h
    · exact h1 B h
    · subst h
      refine ⟨hb1, hb2, ?_⟩
      simp only []
      rw [tiles_append]
      refine ⟨e1, ?_, hb4⟩
      rw [tiles_append]
      exact ⟨o1, hb3, hb5⟩

/-- The list of used blocks does not depend on the slots. -/
theorem blist_inv_splice (bpre : List gblock) (b : Nat) (pre mid mid' post : List gslot)
    (bpost : List gblock) (a : sm_anchor_t) (m : Nat → Nat)
    (h : blist_inv (splice bpre b pre mid post bpost) a m) :
    blist_inv (splice bpre b pre mid' post bpost) a m := by
  unfold blist_inv at *
  rw [splice_map_base, splice_length] at *
  exact h

/-- The slots of a `splice`. -/
theorem slots_inv_splice (bpre : List gblock) (b : Nat) (pre mid post : List gslot)
    (bpost : List gblock) (m : Nat → Nat) :
    slots_inv (splice bpre b pre mid post bpost) m ↔
      slots_inv (splice bpre b pre [] post bpost) m ∧ ∀ s, s ∈ mid → slot_ok m b s := by
  unfold slots_inv
  constructor
  · intro h
    constructor
    · intro B hB s hs
      rcases (mem_splice _ _ _ _ _ _ _).mp hB with h1 | h1
      · exact h B ((mem_splice _ _ _ _ _ _ _).mpr (Or.inl h1)) s hs
      · subst h1
        refine h _ ((mem_splice _ _ _ _ _ _ _).mpr (Or.inr rfl)) s ?_
        simp only [List.append_nil, List.mem_append] at hs ⊢
        tauto
    · intro s hs
      refine h _ ((mem_splice _ _ _ _ _ _ _).mpr (Or.inr rfl)) s ?_
      simp only [List.mem_append]
      tauto
  · rintro ⟨h1, h2⟩ B hB s hs
    rcases (mem_splice _ _ _ _ _ _ _).mp hB with h3 | h3
    · exact h1 B ((mem_splice _ _ _ _ _ _ _).mpr (Or.inl h3)) s hs
    · subst h3
      simp only [List.mem_append] at hs
      rcases hs with (hs | hs) | hs
      · exact h1 _ ((mem_splice _ _ _ _ _ _ _).mpr (Or.inr rfl)) s (by simp [hs])
      · exact h2 s hs
      · exact h1 _ ((mem_splice _ _ _ _ _ _ _).mpr (Or.inr rfl)) s (by simp [hs])

/-- The free slots of a `splice`. -/
theorem free_slot_at_splice (bpre : List gblock) (b : Nat) (pre mid post : List gslot)
    (bpost : List gblock) (x L : Nat) :
    free_slot_at (splice bpre b pre mid post bpost) x L ↔
      free_slot_at (splice bpre b pre [] post bpost) x L ∨
      ∃ s, s ∈ mid ∧ s.kind = skind.free ∧ x = b + s.off ∧ L = s.len := by
  unfold free_slot_at
  constructor
  · rintro ⟨B, hB, s, hs, h⟩
    rcases (mem_splice _ _ _ _ _ _ _).mp hB with h1 | h1
    · exact Or.inl ⟨B, (mem_splice _ _ _ _ _ _ _).mpr (Or.inl h1), s, hs, h⟩
    · subst h1
      simp only [List.mem_append] at hs
      rcases hs with (hs | hs) | hs
      · exact Or.inl ⟨_, (mem_splice _ _ _ _ _ _ _).mpr (Or.inr rfl), s, by simp [hs], h⟩
      · exact Or.inr ⟨s, hs, h⟩
      · exact Or.inl ⟨_, (mem_splice _ _ _ _ _ _ _).mpr (Or.inr rfl), s, by simp [hs], h⟩
  · rintro (⟨B, hB, s, hs, h⟩ | ⟨s, hs, h⟩)
    · rcases (mem_splice _ _ _ _ _ _ _).mp hB with h1 | h1
      · exact ⟨B, (mem_splice _ _ _ _ _ _ _).mpr (Or.inl h1), s, hs, h⟩
      · subst h1
        refine ⟨_, (mem_splice _ _ _ _ _ _ _).mpr (Or.inr rfl), s, ?_, h⟩
        simp only [List.append_nil, List.mem_append] at hs ⊢
        tauto
    · refine ⟨_, (mem_splice _ _ _ _ _ _ _).mpr (Or.inr rfl), s, ?_, h⟩
      simp only [List.mem_append]
      tauto

/-- The short free slots of a concatenation. -/
theorem tiny_block_append (l1 l2 : List gslot) :
    tiny_block (l1 ++ l2) = tiny_block l1 + tiny_block l2 := by
  unfold tiny_block
  simp

/-- The short free slots of a `splice`. -/
theorem tiny_bytes_splice (bpre : List gblock) (b : Nat) (pre mid post : List gslot)
    (bpost : List gblock) :
    tiny_bytes (splice bpre b pre mid post bpost)
      = tiny_bytes (splice bpre b pre [] post bpost) + tiny_block mid := by
  unfold tiny_bytes splice
  simp only [List.map_append, List.map_cons, List.sum_append, List.sum_cons, tiny_block_append,
    List.append_nil]
  have : tiny_block ([] : List gslot) = 0 := rfl
  omega

/-- A slot outside the middle slots of a `splice` does not overlap the
offsets `o1` to `e1`, and neither does a block header. -/
theorem ctx_disjoint (bpre : List gblock) (b : Nat) (pre post : List gslot)
    (bpost : List gblock) (o1 e1 : Nat) (h : ctx_geom bpre b pre post bpost o1 e1)
    (hoe : o1 ≤ e1) (B : gblock) (hB : B ∈ splice bpre b pre [] post bpost) :
    (B.base + 24 ≤ b + o1 ∨ b + e1 ≤ B.base) ∧ 0 < B.base ∧ B.base + 65536 < 2 ^ 64 ∧
    ∀ s, s ∈ B.slots →
      (B.base + s.off + s.len ≤ b + o1 ∨ b + e1 ≤ B.base + s.off) ∧
      B.base + 24 ≤ B.base + s.off ∧ s.off + s.len ≤ 65536 ∧ 0 < s.len ∧ 8 ∣ s.len := by
  obtain ⟨h1, hb1, hb2, hb3, hb4, h2⟩ := h
  have ho := tiles_le _ _ _ hb3
  have he := tiles_le _ _ _ hb4
  rcases (mem_splice _ _ _ _ _ _ _).mp hB with h3 | h3
  · obtain ⟨hB1, hB2, hB3⟩ := h1 B h3
    have hne : B.base + 65536 ≤ b ∨ b + 65536 ≤ B.base := by
      rw [List.pairwise_append] at h2
      obtain ⟨_, h22, h23⟩ := h2
      rcases List.mem_append.mp h3 with h4 | h4
      · exact h23 B.base (List.mem_map_of_mem _ h4) b (List.mem_cons_self _ _)
      · have := (List.pairwise_cons.mp h22).1 B.base (List.mem_map_of_mem _ h4)
        omega
    refine ⟨by omega, hB1, hB2, ?_⟩
    intro s hs
    have := tiles_mem _ _ _ hB3 s hs
    exact ⟨by omega, by omega, this.2.1, this.2.2.1, this.2.2.2⟩
  · subst h3
    refine ⟨by simp only []; omega, hb1, hb2, ?_⟩
    intro s hs
    simp only [List.append_nil, List.mem_append] at hs
    simp only []
    rcases hs with hs | hs
    · have := tiles_mem _ _ _ hb3 s hs
      exact ⟨by omega, by omega, by omega, this.2.2.1, this.2.2.2⟩
    · have := tiles_mem _ _ _ hb4 s hs
      exact ⟨by omega, by omega, this.2.1, this.2.2.1, this.2.2.2⟩

/-! ### Changes of memory and of the description that keep the invariants -/

/-- The facts about a slot depend on the 8 bytes of its header and the 4 bytes
of its tail. -/
theorem slot_ok_frame (m m' : Nat → Nat) (b : Nat) (s : gslot) (h : slot_ok m b s)
    (h8 : 8 ≤ s.len)
    (hh : ∀ a, b + s.off ≤ a → a < b + s.off + 8 → m' a = m a)
    (ht : ∀ a, b + s.off + s.len - 4 ≤ a → a < b + s.off + s.len → m' a = m a) :
    slot_ok m' b s := by
  have e1 : slot_status m' (b + s.off) = slot_status m (b + s.off) :=
    load_congr _ _ _ _ (fun a h1 h2 => hh a h1 (by omega))
  have e2 : slot_offset m' (b + s.off) = slot_offset m (b + s.off) :=
    load_congr _ _ _ _ (fun a h1 h2 => hh a (by omega) (by omega))
  have e3 : slot_length m' (b + s.off) = slot_length m (b + s.off) :=
    load_congr _ _ _ _ (fun a h1 h2 => hh a (by omega) (by omega))
  have e4 : tail_offset m' (b + s.off + s.len - 4) = tail_offset m (b + s.off + s.len - 4) :=
    load_congr _ _ _ _ (fun a h1 h2 => ht a h1 (by omega))
  have e5 : tail_length m' (b + s.off + s.len - 4) = tail_length m (b + s.off + s.len - 4) :=
    load_congr _ _ _ _ (fun a h1 h2 => ht a (by omega) (by omega))
  unfold slot_ok at *
  cases hk : s.kind
  · rw [hk] at h
    simp only [] at h ⊢
    rw [e1, e4, e5]
    exact h
  · rw [hk] at h
    simp only [] at h ⊢
    rw [e1, e2, e3, e4, e5]
    exact h
  · trivial

/-- The list of used blocks depends on the first 16 bytes of the block
headers, and on the anchor through `used_blist` and the two block sizes. -/
theorem blist_inv_transfer (bs bs' : List gblock) (a a' : sm_anchor_t) (m m' : Nat → Nat)
    (h : blist_inv bs a m) (hbs : bs'.map gblock.base = bs.map gblock.base)
    (ha : a'.used_blist = a.used_blist ∧ a'.blck_tsize = a.blck_tsize ∧
      a'.blck_bsize = a.blck_bsize)
    (hm : ∀ x, x ∈ bs.map gblock.base → ∀ addr, x ≤ addr → addr < x + 16 → m' addr = m addr) :
    blist_inv bs' a' m' := by
  unfold blist_inv at *
  have hl : bs'.length = bs.length := by
    have := congrArg List.length hbs
    simpa using this
  rw [hbs, hl, ha.1, ha.2.1, ha.2.2]
  obtain ⟨h1, h2, h3, h4⟩ := h
  refine ⟨h1, h2, ?_, h4⟩
  exact dll_frame 0 m m' _ h3 (fun x hx addr h5 h6 => hm x hx addr (by omega) (by omega))

/-- The free lists depend on the link fields of the free slots of at least 32
bytes, on these slots, and on the anchor through `free_slist` and
`free_maxid`. -/
theorem flist_inv_transfer (bs bs' : List gblock) (fl : List (List (Nat × Nat)))
    (a a' : sm_anchor_t) (m m' : Nat → Nat) (h : flist_inv bs fl a m)
    (hfs : a'.free_slist = a.free_slist) (hmax : a'.free_maxid ≤ 1023)
    (hfree : ∀ x L, 32 ≤ L → (free_slot_at bs' x L ↔ free_slot_at bs x L))
    (hm : ∀ x L, free_slot_at bs x L → 32 ≤ L →
      ∀ addr, x + 8 ≤ addr → addr < x + 24 → m' addr = m addr) :
    flist_inv bs' fl a' m' := by
  obtain ⟨h1, h2, h3, h4, h5⟩ := h
  refine ⟨h1, by rw [hfs]; exact h2, hmax, ?_, ?_⟩
  · intro i l hl
    obtain ⟨h6, h7, h8⟩ := h4 i l hl
    rw [hfs]
    refine ⟨?_, h7, h8⟩
    apply dll_frame 8 m m' _ h6
    intro x hx addr ha1 ha2
    obtain ⟨⟨x', L⟩, hxl, hx'⟩ := List.mem_map.mp hx
    simp only [] at hx'
    subst hx'
    have := (h5 i l x' L hl).mp hxl
    exact hm x' L this.1 this.2.1 addr ha1 (by omega)
  · intro i l x L hl
    rw [h5 i l x L hl]
    constructor
    · rintro ⟨h6, h7, h8⟩
      exact ⟨(hfree x L h7).mpr h6, h7, h8⟩
    · rintro ⟨h6, h7, h8⟩
      exact ⟨(hfree x L h7).mp h6, h7, h8⟩

/-- Slots that are not free hold no short free byte. -/
theorem tiny_block_no_free (ss : List gslot) (h : ∀ s, s ∈ ss → s.kind ≠ skind.free) :
    tiny_block ss = 0 := by
  unfold tiny_block
  have : ss.filter (fun s => decide (s.kind = skind.free ∧ s.len < 32)) = [] := by
    rw [List.filter_eq_nil_iff]
    intro s hs
    have := h s hs
    simp [this]
  rw [this]
  rfl

/-- The invariant is kept when slots that are not free are replaced by slots
that are not free over the same offsets, and memory changes only inside these
offsets. -/
theorem heap_inv_reshape (bpre : List gblock) (b : Nat) (pre mid mid' post : List gslot)
    (bpost : List gblock) (fl : List (List (Nat × Nat))) (a : sm_anchor_t) (m m' : Nat → Nat)
    (o1 e1 : Nat)
    (h : heap_inv (splice bpre b pre mid post bpost) fl a m)
    (hpre : tiles 24 pre o1) (ht : tiles o1 mid e1) (ht' : tiles o1 mid' e1)
    (hnf : ∀ s, s ∈ mid → s.kind ≠ skind.free) (hnf' : ∀ s, s ∈ mid' → s.kind ≠ skind.free)
    (hok : ∀ s, s ∈ mid' → slot_ok m' b s)
    (hm : ∀ addr, addr < b + o1 ∨ b + e1 ≤ addr → m' addr = m addr) :
    heap_inv (splice bpre b pre mid' post bpost) fl a m' := by
  obtain ⟨hg, hb, hs, hf, hac⟩ := h
  obtain ⟨o1', e1', hctx, ht0⟩ := (blocks_geom_splice _ _ _ _ _ _).mp hg
  have eo : o1' = o1 := tiles_end_unique _ _ _ _ hctx.2.2.2.1 hpre
  subst eo
  have ee : e1' = e1 := tiles_end_unique _ _ _ _ ht0 ht
  subst ee
  have hoe := tiles_le _ _ _ ht
  have hdis := ctx_disjoint bpre b pre post bpost o1' e1' hctx hoe
  refine ⟨(blocks_geom_splice _ _ _ _ _ _).mpr ⟨o1', e1', hctx, ht'⟩, ?_, ?_, ?_, ?_⟩
  · apply blist_inv_transfer _ _ a a m m' hb (by rw [splice_map_base, splice_map_base])
      ⟨rfl, rfl, rfl⟩
    intro x hx addr h1 h2
    rw [splice_map_base, ← splice_map_base bpre b pre [] post bpost] at hx
    obtain ⟨B, hB, hBx⟩ := List.mem_map.mp hx
    subst hBx
    have := (hdis B hB).1
    exact hm addr (by omega)
  · rw [slots_inv_splice] at hs ⊢
    refine ⟨?_, hok⟩
    intro B hB s hs1
    have hd := (hdis B hB).2.2.2 s hs1
    have h8 : 8 ≤ s.len := Nat.le_of_dvd hd.2.2.2.1 hd.2.2.2.2
    exact slot_ok_frame m m' B.base s (hs.1 B hB s hs1) h8
      (fun a h1 h2 => hm a (by omega)) (fun a h1 h2 => hm a (by omega))
  · have hfr : ∀ (md : List gslot), (∀ s, s ∈ md → s.kind ≠ skind.free) → ∀ x L,
        (free_slot_at (splice bpre b pre md post bpost) x L ↔
          free_slot_at (splice bpre b pre [] post bpost) x L) := by
      intro md hmd x L
      rw [free_slot_at_splice]
      constructor
      · rintro (h1 | ⟨s, hs1, hk, _⟩)
        · exact h1
        · exact absurd hk (hmd s hs1)
      · intro h1; exact Or.inl h1
    apply flist_inv_transfer _ _ fl a a m m' hf rfl hf.2.2.1
    · intro x L _
      rw [hfr mid' hnf', hfr mid hnf]
    · intro x L hx hL addr h1 h2
      rw [hfr mid hnf] at hx
      obtain ⟨B, hB, s, hs1, _, hxe, hLe⟩ := hx
      have hd := (hdis B hB).2.2.2 s hs1
      exact hm addr (by omega)
  · unfold acct_inv at *
    rw [tiny_bytes_splice, tiny_block_no_free mid' hnf']
    rw [tiny_bytes_splice, tiny_block_no_free mid hnf] at hac
    exact hac

/-! ### Lists -/

/-- Removing the element of index `k` and mapping commute. -/
theorem map_eraseIdx {α β : Type} (f : α → β) (l : List α) (k : Nat) :
    (l.eraseIdx k).map f = (l.map f).eraseIdx k := by
  rw [List.eraseIdx_eq_take_drop_succ, List.eraseIdx_eq_take_drop_succ, List.map_append,
    List.map_take, List.map_drop]

/-- The sum of a list after the removal of one element. -/
theorem sum_eraseIdx (l : List Nat) (k v : Nat) (h : l[k]? = some v) :
    (l.eraseIdx k).sum + v = l.sum := by
  obtain ⟨hk, hv⟩ := List.getElem?_eq_some_iff.mp h
  rw [List.eraseIdx_eq_take_drop_succ, List.sum_append]
  have h1 := List.sum_take_add_sum_drop l k
  rw [List.drop_eq_getElem_cons hk, List.sum_cons, hv] at h1
  omega

/-- The first element after the removal of one element. -/
theorem head_eraseIdx (l : List Nat) (k : Nat) :
    ((l.eraseIdx k).head?).getD 0
      = if k = 0 then (l[1]?).getD 0 else (l.head?).getD 0 := by
  rw [List.head?_eq_getElem?, List.getElem?_eraseIdx, List.head?_eq_getElem?]
  by_cases hk : k = 0
  · rw [if_pos hk, if_neg (by omega)]
  · rw [if_neg hk, if_pos (by omega)]

/-- The last element after the removal of one element. -/
theorem getLast_eraseIdx (l : List Nat) (k : Nat) (hk : k < l.length) :
    ((l.eraseIdx k).getLast?).getD 0
      = if k + 1 = l.length then (if k = 0 then 0 else (l[k - 1]?).getD 0)
        else (l.getLast?).getD 0 := by
  rw [List.getLast?_eq_getElem?, List.getElem?_eraseIdx, List.length_eraseIdx, if_pos hk,
    List.getLast?_eq_getElem?]
  by_cases h1 : k + 1 = l.length
  · rw [if_pos h1]
    by_cases h0 : k = 0
    · rw [if_pos h0, if_neg (by omega)]
      rw [List.getElem?_eq_none (by omega)]
      rfl
    · rw [if_neg h0, if_pos (by omega)]
      have : l.length - 1 - 1 = k - 1 := by omega
      rw [this]
  · rw [if_neg h1, if_neg (by omega)]
    have : l.length - 1 - 1 + 1 = l.length - 1 := by omega
    rw [this]

/-- The sums of the `space` counters below and from a class on, after a change
of one cell. -/
theorem space_sum_take_drop_set (l : List sm_slist_t) (i M : Nat) (c c' : sm_slist_t)
    (h : l[i]? = some c) :
    (i < M →
      slist_space_sum ((l.set i c').take M) + c.space
        = slist_space_sum (l.take M) + c'.space ∧
      slist_space_sum ((l.set i c').drop M) = slist_space_sum (l.drop M)) ∧
    (M ≤ i →
      slist_space_sum ((l.set i c').take M) = slist_space_sum (l.take M) ∧
      slist_space_sum ((l.set i c').drop M) + c.space
        = slist_space_sum (l.drop M) + c'.space) := by
  obtain ⟨hi, hc⟩ := List.getElem?_eq_some_iff.mp h
  unfold slist_space_sum
  constructor
  · intro hiM
    constructor
    · have e : (l.set i c').take M = (l.take M).set i c' := by
        rw [List.set_take]
      rw [e]
      exact sum_map_set _ _ _ _ _ (by rw [List.getElem?_take, if_pos hiM]; exact h)
    · rw [List.drop_set, if_pos hiM]
  · intro hMi
    constructor
    · have e : (l.set i c').take M = l.take M := by
        rw [List.set_take]
        exact List.set_eq_of_length_le (by rw [List.length_take]; omega)
      rw [e]
    · rw [List.drop_set, if_neg (by omega)]
      exact sum_map_set _ _ _ _ _ (by rw [List.getElem?_drop]; rw [← h]; congr 1; omega)

/-! ### Operations on the free lists -/

/-- The class of a length, as a natural number. -/
theorem memid_nat (L : Nat) :
    ∃ i : Nat, i ≤ 1024 ∧ do_smmgr_memid L = (i : Int) ∧
      (L < 8192 → i = L / 8) ∧ (8192 ≤ L → i = 1024) := by
  unfold do_smmgr_memid
  by_cases h : L < 8192
  · refine ⟨L / 8, by omega, ?_, fun _ => rfl, fun h2 => by omega⟩
    rw [if_pos h, to_int_small _ (by omega)]
  · refine ⟨1024, le_refl _, ?_, fun h2 => by omega, fun _ => rfl⟩
    rw [if_neg h]
    rfl

/-- A slot of a block does not overlap the header of a block. -/
theorem slot_header_disjoint (bs : List gblock) (h : blocks_geom bs) (B C : gblock) (s : gslot)
    (hB : B ∈ bs) (hC : C ∈ bs) (hs : s ∈ B.slots) :
    C.base + 24 ≤ B.base + s.off ∨ B.base + s.off + s.len ≤ C.base := by
  have h1 := slot_bounds bs h B s hB hs
  rcases blocks_geom_base bs h B C hB hC with e | e | e
  · subst e; left; omega
  · right; omega
  · left; omega

/-- A change of memory inside the link fields of free slots of at least 32
bytes keeps the facts about the blocks and about the slots. -/
theorem heap_frame_links (bs : List gblock) (a : sm_anchor_t) (m m' : Nat → Nat)
    (hg : blocks_geom bs)
    (hm : ∀ addr, (∀ y Ly, free_slot_at bs y Ly → 32 ≤ Ly → addr < y + 8 ∨ y + 24 ≤ addr) →
      m' addr = m addr)
    (hb : blist_inv bs a m) (hs : slots_inv bs m) :
    blist_inv bs a m' ∧ slots_inv bs m' := by
  constructor
  · apply blist_inv_transfer bs bs a a m m' hb rfl ⟨rfl, rfl, rfl⟩
    intro x hx addr h1 h2
    obtain ⟨C, hC, hCx⟩ := List.mem_map.mp hx
    subst hCx
    apply hm
    rintro y Ly ⟨B, hB, s, hs1, _, hy, hL⟩ h32
    have := slot_header_disjoint bs hg B C s hB hC hs1
    omega
  · intro C hC t ht
    have hb1 := slot_bounds bs hg C t hC ht
    have h8 : 8 ≤ t.len := Nat.le_of_dvd hb1.2.2.2.2.1 hb1.2.2.2.2.2
    apply slot_ok_frame m m' C.base t (hs C hC t ht) h8
    · intro addr h1 h2
      apply hm
      rintro y Ly ⟨B, hB, s, hs1, _, hy, hL⟩ h32
      rcases slots_disjoint bs hg B C s t hB hC hs1 ht with ⟨e1, e2⟩ | e | e
      · subst e1; subst e2; omega
      · omega
      · omega
    · intro addr h1 h2
      apply hm
      rintro y Ly ⟨B, hB, s, hs1, _, hy, hL⟩ h32
      rcases slots_disjoint bs hg B C s t hB hC hs1 ht with ⟨e1, e2⟩ | e | e
      · subst e1; subst e2; omega
      · omega
      · omega

/-- The free slots of the lists are valid nodes of a list. -/
theorem flist_sep (bs : List gblock) (hg : blocks_geom bs) (l : List (Nat × Nat))
    (hnd : (l.map Prod.fst).Nodup)
    (hl : ∀ x L, (x, L) ∈ l → free_slot_at bs x L ∧ 32 ≤ L) :
    dll_sep (l.map Prod.fst) := by
  refine ⟨hnd, ?_, ?_⟩
  · intro x hx
    obtain ⟨⟨x', L⟩, hxl, hx'⟩ := List.mem_map.mp hx
    simp only [] at hx'
    subst hx'
    obtain ⟨⟨B, hB, s, hs, _, hy, hL⟩, h32⟩ := hl x' L hxl
    have := slot_bounds bs hg B s hB hs
    omega
  · intro x y hx hy
    obtain ⟨⟨x', L⟩, hxl, hx'⟩ := List.mem_map.mp hx
    obtain ⟨⟨y', L'⟩, hyl, hy'⟩ := List.mem_map.mp hy
    simp only [] at hx' hy'
    subst hx'
    subst hy'
    obtain ⟨⟨B, hB, s, hs, _, hxe, hLe⟩, h32⟩ := hl x' L hxl
    obtain ⟨⟨C, hC, t, ht, _, hye, hLe'⟩, h32'⟩ := hl y' L' hyl
    rcases slots_disjoint bs hg B C s t hB hC hs ht with ⟨e1, e2⟩ | e | e
    · subst e1; subst e2; left; omega
    · right; left; omega
    · right; right; omega

/-- The free lists after a change of the list of one class `i`: the new list
`l1` is linked, the anchor describes it, it holds the free slots of class `i`
of the new description, and the slots of the other classes and their link
fields are as before. -/
theorem flist_inv_relist (bs bs' : List gblock) (fl : List (List (Nat × Nat)))
    (a a1 : sm_anchor_t) (m m1 : Nat → Nat) (i : Nat) (l1 : List (Nat × Nat)) (c1 : sm_slist_t)
    (h : flist_inv bs fl a m) (hi : i < SMMGR_NUM_CLASSES)
    (hmax : a1.free_maxid ≤ 1023) (hfs : a1.free_slist = a.free_slist.set i c1)
    (hc1 : c1.head = ((l1.map Prod.fst).head?).getD 0 ∧
      c1.tail = ((l1.map Prod.fst).getLast?).getD 0 ∧
      c1.count = l1.length ∧ c1.space = (l1.map Prod.snd).sum)
    (hdll : dll 8 m1 (l1.map Prod.fst)) (hnd : (l1.map Prod.fst).Nodup)
    (hmem1 : ∀ x L, (x, L) ∈ l1 ↔
      free_slot_at bs' x L ∧ 32 ≤ L ∧ do_smmgr_memid L = (i : Int))
    (hother : ∀ x L, 32 ≤ L → do_smmgr_memid L ≠ (i : Int) →
      (free_slot_at bs' x L ↔ free_slot_at bs x L))
    (hm : ∀ x L, free_slot_at bs x L → 32 ≤ L → do_smmgr_memid L ≠ (i : Int) →
      ∀ addr, x + 8 ≤ addr → addr < x + 24 → m1 addr = m addr) :
    flist_inv bs' (fl.set i l1) a1 m1 := by
  obtain ⟨h1, h2, h3, h4, h5⟩ := h
  refine ⟨by rw [List.length_set]; exact h1, by rw [hfs, List.length_set]; exact h2, hmax, ?_, ?_⟩
  · intro j lj hlj
    by_cases hji : j = i
    · subst hji
      rw [List.getElem?_set_self (by rw [h1]; exact hi)] at hlj
      cases hlj
      refine ⟨hdll, hnd, c1, ?_, hc1⟩
      rw [hfs, List.getElem?_set_self (by rw [h2]; exact hi)]
    · rw [List.getElem?_set_ne (fun e => hji e.symm)] at hlj
      obtain ⟨h6, h7, h8⟩ := h4 j lj hlj
      rw [hfs, List.getElem?_set_ne (fun e => hji e.symm)]
      refine ⟨?_, h7, h8⟩
      apply dll_frame 8 m m1 _ h6
      intro x hx addr ha1 ha2
      obtain ⟨⟨x', L⟩, hxl, hx'⟩ := List.mem_map.mp hx
      simp only [] at hx'
      subst hx'
      have := (h5 j lj x' L hlj).mp hxl
      exact hm x' L this.1 this.2.1 (by rw [this.2.2]; omega) addr ha1 (by omega)
  · intro j lj x L hlj
    by_cases hji : j = i
    · subst hji
      rw [List.getElem?_set_self (by rw [h1]; exact hi)] at hlj
      cases hlj
      exact hmem1 x L
    · rw [List.getElem?_set_ne (fun e => hji e.symm)] at hlj
      rw [h5 j lj x L hlj]
      constructor
      · rintro ⟨h6, h7, h8⟩
        exact ⟨(hother x L h7 (by rw [h8]; omega)).mpr h6, h7, h8⟩
      · rintro ⟨h6, h7, h8⟩
        exact ⟨(hother x L h7 (by rw [h8]; omega)).mp h6, h7, h8⟩

/-- The two counters of free bytes after a change of the list of one class. -/
theorem acct_inv_relist (bs bs' : List gblock) (a a1 : sm_anchor_t) (i : Nat)
    (c c1 : sm_slist_t) (h : acct_inv bs a) (hc : a.free_slist[i]? = some c)
    (hfs : a1.free_slist = a.free_slist.set i c1) (hmaxid : a1.used_maxid = a.used_maxid)
    (htiny : tiny_bytes bs' = tiny_bytes bs)
    (hacc : if (i : Int) < a.used_maxid
      then a1.free_small_space + c.space = a.free_small_space + c1.space ∧
        a1.free_avail_space = a.free_avail_space
      else a1.free_small_space = a.free_small_space ∧
        a1.free_avail_space + c.space = a.free_avail_space + c1.space) :
    acct_inv bs' a1 := by
  unfold acct_inv at *
  rw [hfs, hmaxid, htiny]
  obtain ⟨h1, h2⟩ := space_sum_take_drop_set a.free_slist i a.used_maxid.toNat c c1 hc
  by_cases hlt : (i : Int) < a.used_maxid
  · rw [if_pos hlt] at hacc
    obtain ⟨h3, h4⟩ := h1 (by omega)
    omega
  · rw [if_neg hlt] at hacc
    obtain ⟨h3, h4⟩ := h2 (by omega)
    omega

/-- What `do_smmgr_free_slot_list_del` changes: the bounds of the free classes
and their number only, and `free_maxid` stays at most 1023. -/
theorem free_slot_list_del_frame (a a1 : sm_anchor_t) (targ : Int)
    (h : do_smmgr_free_slot_list_del a targ = some a1) (hmax : a.free_maxid ≤ 1023) :
    a1.free_maxid ≤ 1023 ∧ a1.free_slist = a.free_slist ∧ a1.used_blist = a.used_blist ∧
    a1.free_small_space = a.free_small_space ∧ a1.free_avail_space = a.free_avail_space ∧
    used_frame a a1 := by
  have hu := free_slot_list_del_used_frame a a1 targ h
  unfold do_smmgr_free_slot_list_del at h
  simp only [] at h
  split at h
  · split at h
    · cases h
    · rename_i minid hmin
      split at h
      · cases h
      · rename_i maxid hmaxid
        cases h
        refine ⟨?_, rfl, rfl, rfl, rfl, hu⟩
        simp only [] at hmaxid ⊢
        split at hmaxid
        · split at hmaxid
          · have := (scan_down_some _ _ _ _ _ hmaxid).1
            omega
          · cases hmaxid
            omega
        · cases hmaxid
          exact hmax
  · cases h
    exact ⟨hmax, rfl, rfl, rfl, rfl, hu⟩

/-- What `do_smmgr_free_slot_list_add` changes: the bounds of the free classes
and their number only, and `free_maxid` stays at most 1023. -/
theorem free_slot_list_add_frame (a : sm_anchor_t) (targ : Int) (hmax : a.free_maxid ≤ 1023) :
    (do_smmgr_free_slot_list_add a targ).free_maxid ≤ 1023 ∧
    (do_smmgr_free_slot_list_add a targ).free_slist = a.free_slist ∧
    (do_smmgr_free_slot_list_add a targ).used_blist = a.used_blist ∧
    (do_smmgr_free_slot_list_add a targ).free_small_space = a.free_small_space ∧
    (do_smmgr_free_slot_list_add a targ).free_avail_space = a.free_avail_space ∧
    used_frame a (do_smmgr_free_slot_list_add a targ) := by
  refine ⟨?_, ?_, ?_, ?_, ?_, free_slot_list_add_used_frame a targ⟩
  all_goals unfold do_smmgr_free_slot_list_add
  all_goals simp only [SMMGR_NUM_CLASSES]
  all_goals split_ifs
  all_goals first | rfl | (simp only []; omega) | exact hmax

/-- The free slots of a description in which one slot is free, and of the same
description with a hole in its place. -/
theorem free_slot_at_single (bpre : List gblock) (b : Nat) (pre post : List gslot)
    (bpost : List gblock) (o L e1 : Nat) (hctx : ctx_geom bpre b pre post bpost o e1)
    (hL : 0 < L) (he : o + L = e1) :
    (∀ x Lx, free_slot_at (splice bpre b pre [⟨o, L, skind.free⟩] post bpost) x Lx ↔
      free_slot_at (splice bpre b pre [] post bpost) x Lx ∨ (x = b + o ∧ Lx = L)) ∧
    (∀ x Lx, free_slot_at (splice bpre b pre [⟨o, L, skind.hole⟩] post bpost) x Lx ↔
      free_slot_at (splice bpre b pre [] post bpost) x Lx) ∧
    (∀ x Lx, free_slot_at (splice bpre b pre [⟨o, L, skind.used⟩] post bpost) x Lx ↔
      free_slot_at (splice bpre b pre [] post bpost) x Lx) ∧
    (∀ x Lx, free_slot_at (splice bpre b pre [] post bpost) x Lx →
      x + Lx ≤ b + o ∨ b + o + L ≤ x) := by
  refine ⟨?_, ?_, ?_, ?_⟩
  · intro x Lx
    rw [free_slot_at_splice]
    simp only [List.mem_singleton]
    constructor
    · rintro (h | ⟨s, hs, _, h1, h2⟩)
      · exact Or.inl h
      · subst hs; exact Or.inr ⟨h1, h2⟩
    · rintro (h | ⟨h1, h2⟩)
      · exact Or.inl h
      · exact Or.inr ⟨_, rfl, rfl, h1, h2⟩
  · intro x Lx
    rw [free_slot_at_splice]
    simp only [List.mem_singleton]
    constructor
    · rintro (h | ⟨s, hs, hk, _⟩)
      · exact h
      · subst hs; cases hk
    · intro h; exact Or.inl h
  · intro x Lx
    rw [free_slot_at_splice]
    simp only [List.mem_singleton]
    constructor
    · rintro (h | ⟨s, hs, hk, _⟩)
      · exact h
      · subst hs; cases hk
    · intro h; exact Or.inl h
  · rintro x Lx ⟨B, hB, s, hs, _, hx, hLx⟩
    have := ((ctx_disjoint bpre b pre post bpost o e1 hctx (by omega) B hB).2.2.2 s hs).1
    omega

/-- Membership in a list without repetition of first components, after the
removal of one element. -/
theorem mem_eraseIdx_fst (l : List (Nat × Nat)) (hnd : (l.map Prod.fst).Nodup) (k : Nat)
    (p q : Nat × Nat) (hk : l[k]? = some p) :
    q ∈ l.eraseIdx k ↔ q ∈ l ∧ q.1 ≠ p.1 := by
  rw [List.mem_eraseIdx_iff_getElem?]
  constructor
  · rintro ⟨j, hjk, hj⟩
    refine ⟨List.getElem?_mem hj, ?_⟩
    intro e
    have h1 : (l.map Prod.fst)[j]? = some q.1 := by rw [List.getElem?_map, hj]; rfl
    have h2 : (l.map Prod.fst)[k]? = some q.1 := by rw [List.getElem?_map, hk, e]; rfl
    exact hjk (nodup_index_unique _ hnd _ _ _ h1 h2)
  · rintro ⟨hq, hne⟩
    obtain ⟨j, hj⟩ := List.mem_iff_getElem?.mp hq
    refine ⟨j, ?_, hj⟩
    intro e
    rw [e, hk] at hj
    cases hj
    exact hne rfl

/-- The invariant after a free slot of at least 32 bytes has been taken off its
list: the slot is a hole of the description, the list of its class has lost
it, and memory has changed in the link fields of its neighbours only. -/
theorem heap_inv_unlinked (bpre : List gblock) (b : Nat) (pre post : List gslot)
    (bpost : List gblock) (fl : List (List (Nat × Nat))) (a a1 : sm_anchor_t)
    (m m1 : Nat → Nat) (o L i k : Nat) (l : List (Nat × Nat)) (c1 : sm_slist_t)
    (h : heap_inv (splice bpre b pre [⟨o, L, skind.free⟩] post bpost) fl a m)
    (hi : do_smmgr_memid L = (i : Int)) (h32 : 32 ≤ L)
    (hl : fl[i]? = some l) (hk : l[k]? = some (b + o, L))
    (ha : a1.used_blist = a.used_blist ∧ a1.blck_tsize = a.blck_tsize ∧
      a1.blck_bsize = a.blck_bsize ∧ a1.used_maxid = a.used_maxid)
    (hmax : a1.free_maxid ≤ 1023)
    (hfs : a1.free_slist = a.free_slist.set i c1)
    (hc1 : c1.head = (((l.eraseIdx k).map Prod.fst).head?).getD 0 ∧
      c1.tail = (((l.eraseIdx k).map Prod.fst).getLast?).getD 0 ∧
      c1.count = (l.eraseIdx k).length ∧ c1.space = ((l.eraseIdx k).map Prod.snd).sum)
    (hdll : dll 8 m1 ((l.eraseIdx k).map Prod.fst))
    (hm : ∀ addr, (∀ y, y ∈ l.map Prod.fst → y ≠ b + o → addr < y + 8 ∨ y + 24 ≤ addr) →
      m1 addr = m addr)
    (hacc : if (i : Int) < a.used_maxid
      then a1.free_small_space + L = a.free_small_space ∧
        a1.free_avail_space = a.free_avail_space
      else a1.free_small_space = a.free_small_space ∧
        a1.free_avail_space + L = a.free_avail_space) :
    heap_inv (splice bpre b pre [⟨o, L, skind.hole⟩] post bpost) (fl.set i (l.eraseIdx k))
      a1 m1 := by
  obtain ⟨hg, hb, hs, hf, hac⟩ := h
  obtain ⟨o1, e1, hctx, ht⟩ := (blocks_geom_splice _ _ _ _ _ _).mp hg
  simp only [tiles] at ht
  obtain ⟨ho, hLpos, hL8, he⟩ := ht
  subst ho
  have hg' : blocks_geom (splice bpre b pre [⟨o, L, skind.hole⟩] post bpost) :=
    (blocks_geom_splice _ _ _ _ _ _).mpr ⟨o, e1, hctx, by
      simp only [tiles]; exact ⟨trivial, hLpos, hL8, he⟩⟩
  obtain ⟨hfr, hfr', _, hnx⟩ := free_slot_at_single bpre b pre post bpost o L e1 hctx hLpos he
  have hil : i < SMMGR_NUM_CLASSES := by
    have := (List.getElem?_eq_some_iff.mp hl).1
    rw [hf.1] at this
    exact this
  obtain ⟨hdl, hnd, c, hc, hch, hct, hcc, hcs⟩ := hf.2.2.2.1 i l hl
  have hmem := hf.2.2.2.2 i l
  -- memory changes in link fields of free slots of the new description only
  have hm' : ∀ addr, (∀ y Ly, free_slot_at (splice bpre b pre [⟨o, L, skind.hole⟩] post bpost)
      y Ly → 32 ≤ Ly → addr < y + 8 ∨ y + 24 ≤ addr) → m1 addr = m addr := by
    intro addr hadd
    apply hm
    intro y hy hyx
    obtain ⟨⟨y', Ly⟩, hyl, hy'⟩ := List.mem_map.mp hy
    simp only [] at hy'
    subst hy'
    obtain ⟨h1, h2, _⟩ := (hmem y' Ly hl).mp hyl
    rcases (hfr y' Ly).mp h1 with h3 | h3
    · exact hadd y' Ly ((hfr' y' Ly).mpr h3) h2
    · exact absurd h3.1 hyx
  have hs0 : slots_inv (splice bpre b pre [⟨o, L, skind.hole⟩] post bpost) m := by
    rw [slots_inv_splice] at hs ⊢
    refine ⟨hs.1, ?_⟩
    intro s hs1
    rw [List.mem_singleton.mp hs1]
    trivial
  have hb0 : blist_inv (splice bpre b pre [⟨o, L, skind.hole⟩] post bpost) a m :=
    blist_inv_splice _ _ _ _ _ _ _ _ _ hb
  obtain ⟨hb1, hs1⟩ := heap_frame_links _ a m m1 hg' hm' hb0 hs0
  refine ⟨hg', ?_, hs1, ?_, ?_⟩
  · exact blist_inv_transfer _ _ a a1 m1 m1 hb1 rfl ⟨ha.1, ha.2.1, ha.2.2.1⟩
      (fun _ _ _ _ _ => rfl)
  · apply flist_inv_relist _ _ fl a a1 m m1 i (l.eraseIdx k) c1
      ⟨hf.1, hf.2.1, hf.2.2.1, hf.2.2.2.1, hf.2.2.2.2⟩ hil hmax hfs hc1 hdll
    · rw [map_eraseIdx]
      exact List.Nodup.eraseIdx k hnd
    · intro x Lx
      rw [mem_eraseIdx_fst l hnd k (b + o, L) (x, Lx) hk, hmem x Lx hl, hfr, hfr']
      simp only []
      constructor
      · rintro ⟨⟨h1 | h1, h2, h3⟩, h4⟩
        · exact ⟨h1, h2, h3⟩
        · exact absurd h1.1 h4
      · rintro ⟨h1, h2, h3⟩
        refine ⟨⟨Or.inl h1, h2, h3⟩, ?_⟩
        intro e
        rw [e] at h1
        have := hnx _ _ h1
        omega
    · intro x Lx hLx hne
      rw [hfr, hfr']
      constructor
      · intro h1; exact Or.inl h1
      · rintro (h1 | h1)
        · exact h1
        · rw [h1.2] at hne
          exact absurd hi hne
    · intro x Lx hx hLx hne addr h1 h2
      apply hm
      intro y hy hyx
      obtain ⟨⟨y', Ly⟩, hyl, hy'⟩ := List.mem_map.mp hy
      simp only [] at hy'
      subst hy'
      obtain ⟨h3, h4, h5⟩ := (hmem y' Ly hl).mp hyl
      obtain ⟨B, hB, s, hs2, _, hxe, hLe⟩ := hx
      obtain ⟨C, hC, t, ht2, _, hye, hLye⟩ := h3
      rcases slots_disjoint _ hg B C s t hB hC hs2 ht2 with ⟨e1', e2'⟩ | e | e
      · subst e1'; subst e2'
        rw [hLe] at hne
        rw [hLye] at h5
        exact absurd h5 hne
      · omega
      · omega
  · apply acct_inv_relist _ _ a a1 i c c1 hac hc hfs ha.2.2.2
    · rw [tiny_bytes_splice bpre b pre [⟨o, L, skind.hole⟩],
        tiny_bytes_splice bpre b pre [⟨o, L, skind.free⟩]]
      congr 1
      have hn : ¬ L < 32 := by omega
      simp [tiny_block, hn]
    · have hsum := sum_eraseIdx (l.map Prod.snd) k L (by rw [List.getElem?_map, hk]; rfl)
      rw [← map_eraseIdx, ← hc1.2.2.2, ← hcs] at hsum
      split_ifs at hacc ⊢ <;> omega

/-- Taking a free slot off its list: `do_smmgr_free_slot_unlink` turns a free
slot of the description into a hole, takes its length off the counters of free
bytes, and changes memory in the link fields of other listed slots only. -/
theorem free_slot_unlink_spec (bpre : List gblock) (b : Nat) (pre post : List gslot)
    (bpost : List gblock) (fl : List (List (Nat × Nat))) (a a1 : sm_anchor_t)
    (m m1 : Nat → Nat) (o L : Nat)
    (h : heap_inv (splice bpre b pre [⟨o, L, skind.free⟩] post bpost) fl a m)
    (hbd : a.free_small_space + a.free_avail_space < 2 ^ 64)
    (hr : do_smmgr_free_slot_unlink a m (b + o) = some (a1, m1)) :
    ∃ fl1, heap_inv (splice bpre b pre [⟨o, L, skind.hole⟩] post bpost) fl1 a1 m1 ∧
      a1.free_small_space + a1.free_avail_space + L
        = a.free_small_space + a.free_avail_space ∧
      (∀ addr, (∀ y Ly, free_slot_at (splice bpre b pre [] post bpost) y Ly → 32 ≤ Ly →
          addr < y + 8 ∨ y + 24 ≤ addr) → m1 addr = m addr) := by
  have huf := free_slot_unlink_used_frame a a1 m m1 (b + o) hr
  have h0 := h
  obtain ⟨hg, hb, hs, hf, hac⟩ := h
  obtain ⟨o1, e1, hctx, ht⟩ := (blocks_geom_splice _ _ _ _ _ _).mp hg
  simp only [tiles] at ht
  obtain ⟨ho, hLpos, hL8, he⟩ := ht
  subst ho
  obtain ⟨hfr, hfr', _, hnx⟩ := free_slot_at_single bpre b pre post bpost o L e1 hctx hLpos he
  have hok := ((slots_inv_splice _ _ _ _ _ _ _).mp hs).2 _ (List.mem_singleton.mpr rfl)
  unfold slot_ok at hok
  simp only [] at hok
  obtain ⟨hst, hof, hlen, hto, htl⟩ := hok
  have hg' : blocks_geom (splice bpre b pre [⟨o, L, skind.hole⟩] post bpost) :=
    (blocks_geom_splice _ _ _ _ _ _).mpr ⟨o, e1, hctx, by
      simp only [tiles]; exact ⟨trivial, hLpos, hL8, he⟩⟩
  unfold do_smmgr_free_slot_unlink at hr
  simp only [] at hr
  rw [hlen] at hr
  by_cases h32 : L < 32
  · rw [if_pos (by simp only [SMMGR_MIN_SLOT_SIZE]; omega)] at hr
    cases hr
    have htiny : tiny_bytes (splice bpre b pre [⟨o, L, skind.free⟩] post bpost)
        = tiny_bytes (splice bpre b pre [⟨o, L, skind.hole⟩] post bpost) + L := by
      rw [tiny_bytes_splice bpre b pre [⟨o, L, skind.hole⟩],
        tiny_bytes_splice bpre b pre [⟨o, L, skind.free⟩]]
      simp [tiny_block, h32]
    have hsmall : L ≤ a.free_small_space := by
      have := hac.2
      omega
    refine ⟨fl, ⟨hg', ?_, ?_, ?_, ?_⟩, ?_, fun _ _ => rfl⟩
    · exact blist_inv_transfer _ _ a _ m m (blist_inv_splice _ _ _ _ _ _ _ _ _ hb) rfl
        ⟨rfl, rfl, rfl⟩ (fun _ _ _ _ _ => rfl)
    · rw [slots_inv_splice] at hs ⊢
      refine ⟨hs.1, ?_⟩
      intro s hs1
      rw [List.mem_singleton.mp hs1]
      trivial
    · apply flist_inv_transfer _ _ fl a _ m m hf rfl hf.2.2.1
      · intro x Lx hLx
        rw [hfr, hfr']
        constructor
        · intro h1; exact Or.inl h1
        · rintro (h1 | h1)
          · exact h1
          · omega
      · intro _ _ _ _ _ _ _; rfl
    · unfold acct_inv at *
      simp only []
      rw [sub64_eq _ _ hsmall (by omega)]
      refine ⟨hac.1, ?_⟩
      omega
    · simp only []
      rw [sub64_eq _ _ hsmall (by omega)]
      omega
  · have h32' : 32 ≤ L := by omega
    rw [if_neg (by simp only [SMMGR_MIN_SLOT_SIZE]; omega)] at hr
    obtain ⟨i, hi1024, hmid, _, _⟩ := memid_nat L
    rw [hmid] at hr
    have hil : i < SMMGR_NUM_CLASSES := by simp only [SMMGR_NUM_CLASSES]; omega
    have hfl : i < fl.length := by rw [hf.1]; exact hil
    obtain ⟨l, hl⟩ : ∃ l, fl[i]? = some l := ⟨fl[i], List.getElem?_eq_getElem hfl⟩
    obtain ⟨hdl, hnd, c, hc, hch, hct, hcc, hcs⟩ := hf.2.2.2.1 i l hl
    have hmem := hf.2.2.2.2 i l
    have hxl : (b + o, L) ∈ l :=
      (hmem (b + o) L hl).mpr ⟨(hfr _ _).mpr (Or.inr ⟨rfl, rfl⟩), h32', hmid⟩
    obtain ⟨k, hk⟩ := List.mem_iff_getElem?.mp hxl
    have hkl := (List.getElem?_eq_some_iff.mp hk).1
    have hLc : L ≤ c.space := by
      rw [hcs]
      exact le_sum_map Prod.snd l k (b + o, L) hk
    have hspace : if (i : Int) < a.used_maxid then c.space ≤ a.free_small_space
        else c.space ≤ a.free_avail_space := by
      unfold acct_inv at hac
      by_cases hlt : (i : Int) < a.used_maxid
      · rw [if_pos hlt]
        have : c.space ≤ slist_space_sum (a.free_slist.take a.used_maxid.toNat) :=
          le_sum_map (fun x => x.space) _ i c (by
            rw [List.getElem?_take, if_pos (by omega)]; exact hc)
        omega
      · rw [if_neg hlt]
        have : c.space ≤ slist_space_sum (a.free_slist.drop a.used_maxid.toNat) :=
          le_sum_map (fun x => x.space) _ (i - a.used_maxid.toNat) c (by
            rw [List.getElem?_drop, ← hc]; congr 1; omega)
        omega
    have key : ∀ a0 : sm_anchor_t,
        (if (i : Int) < a.used_maxid then
          { a with free_small_space := sub64 a.free_small_space L }
        else { a with free_avail_space := sub64 a.free_avail_space L }) = a0 →
        a0.free_slist = a.free_slist ∧ a0.used_blist = a.used_blist ∧
        a0.blck_tsize = a.blck_tsize ∧ a0.blck_bsize = a.blck_bsize ∧
        a0.used_maxid = a.used_maxid ∧ a0.free_maxid = a.free_maxid ∧
        (if (i : Int) < a.used_maxid
          then a0.free_small_space + L = a.free_small_space ∧
            a0.free_avail_space = a.free_avail_space
          else a0.free_small_space = a.free_small_space ∧
            a0.free_avail_space + L = a.free_avail_space) := by
      intro a0 ha0
      by_cases hlt : (i : Int) < a.used_maxid
      · rw [if_pos hlt] at ha0 hspace ⊢
        subst ha0
        refine ⟨rfl, rfl, rfl, rfl, rfl, rfl, ?_, rfl⟩
        simp only []
        rw [sub64_eq _ _ (by omega) (by omega)]
        omega
      · rw [if_neg hlt] at ha0 hspace ⊢
        subst ha0
        refine ⟨rfl, rfl, rfl, rfl, rfl, rfl, rfl, ?_⟩
        simp only []
        rw [sub64_eq _ _ (by omega) (by omega)]
        omega
    generalize hA : (if (i : Int) < a.used_maxid then
          { a with free_small_space := sub64 a.free_small_space L }
        else { a with free_avail_space := sub64 a.free_avail_space L }) = a0 at hr
    obtain ⟨k1, k2, k3, k4, k5, k6, k7⟩ := key a0 hA
    have htot : a0.free_small_space + a0.free_avail_space + L
        = a.free_small_space + a.free_avail_space := by
      split_ifs at k7 <;> omega
    rw [slist_at_nat, k1, hc] at hr
    simp only [] at hr
    have hsep : dll_sep (l.map Prod.fst) :=
      flist_sep _ hg l hnd (fun x Lx hx => ⟨((hmem x Lx hl).mp hx).1, ((hmem x Lx hl).mp hx).2.1⟩)
    have hxk : (l.map Prod.fst)[k]? = some (b + o) := by
      rw [List.getElem?_map, hk]; rfl
    have hfin : ∀ (a2 : sm_anchor_t) (m2 : Nat → Nat),
        heap_inv (splice bpre b pre [⟨o, L, skind.hole⟩] post bpost) (fl.set i (l.eraseIdx k))
          a2 m2 →
        a2.free_small_space = a0.free_small_space →
        a2.free_avail_space = a0.free_avail_space →
        (∀ addr, (∀ y, y ∈ l.map Prod.fst → y ≠ b + o → addr < y + 8 ∨ y + 24 ≤ addr) →
          m2 addr = m addr) →
        ∃ fl1, heap_inv (splice bpre b pre [⟨o, L, skind.hole⟩] post bpost) fl1 a2 m2 ∧
          a2.free_small_space + a2.free_avail_space + L
            = a.free_small_space + a.free_avail_space ∧
          (∀ addr, (∀ y Ly, free_slot_at (splice bpre b pre [] post bpost) y Ly → 32 ≤ Ly →
            addr < y + 8 ∨ y + 24 ≤ addr) → m2 addr = m addr) := by
      intro a2 m2 hinv e1 e2 hm
      refine ⟨_, hinv, by rw [e1, e2]; exact htot, ?_⟩
      intro addr hadd
      apply hm
      intro y hy hyx
      obtain ⟨⟨y', Ly⟩, hyl, hy'⟩ := List.mem_map.mp hy
      simp only [] at hy'
      subst hy'
      obtain ⟨h1, h2, _⟩ := (hmem y' Ly hl).mp hyl
      rcases (hfr y' Ly).mp h1 with h3 | h3
      · exact hadd y' Ly h3 h2
      · exact absurd h3.1 hyx
    generalize hM1 : (if slot_prev m (b + o) ≠ 0
        then set_slot_next m (slot_prev m (b + o)) (slot_next m (b + o)) else m) = mA at hr
    generalize hM2 : (if slot_next mA (b + o) ≠ 0
        then set_slot_prev mA (slot_next mA (b + o)) (slot_prev mA (b + o)) else mA) = mB at hr
    by_cases hc1 : c.count = 1
    · rw [if_pos hc1] at hr
      split at hr
      · rw [slist_store_nat a.free_slist i _ (by rw [hf.2.1]; exact hil)] at hr
        simp only [] at hr
        split at hr
        · cases hr
        · rename_i a2 hdel
          cases hr
          have hlen1 : l.length = 1 := by rw [← hcc]; exact hc1
          have hle : l.eraseIdx k = [] := by
            apply List.eq_nil_of_length_eq_zero
            rw [List.length_eraseIdx, if_pos hkl]
            omega
          obtain ⟨d1, d2, d3, d4, d5, d6⟩ := free_slot_list_del_frame _ _ _ hdel
            (by simp only []; rw [k6]; exact hf.2.2.1)
          simp only [] at d2 d3 d4 d5
          apply hfin a1 m _ d4 d5 (fun _ _ => rfl)
          apply heap_inv_unlinked bpre b pre post bpost fl a a1 m m o L i k l
            { head := 0, tail := 0, space := 0, count := 0 } h0 hmid h32' hl hk
            ⟨by rw [d3, k2], by rw [d6.2.2.2.2.2.2.1]; exact k3,
              by rw [d6.2.2.2.2.2.2.2]; exact k4, by rw [d6.2.2.2.1]; exact k5⟩
            d1 d2
          · rw [hle]
            exact ⟨rfl, rfl, rfl, rfl⟩
          · rw [hle]
            exact dll_nil 8 m
          · intro _ _; rfl
          · rw [d4, d5]; exact k7
      · cases hr
    · rw [if_neg hc1] at hr
      split at hr
      · rw [slist_store_nat a.free_slist i _ (by rw [hf.2.1]; exact hil)] at hr
        simp only [] at hr
        cases hr
        have hrem := dll_remove 8 m mA m1 (l.map Prod.fst) k (b + o) hdl hsep hxk hM1.symm
          hM2.symm
        obtain ⟨r1, r2, r3, r4, r5, r6⟩ := hrem
        have hcnt : c.count ≤ c.space := by
          rw [hcc, hcs]
          have : ∀ (l' : List (Nat × Nat)), (∀ p, p ∈ l' → 32 ≤ p.2) →
              l'.length ≤ (l'.map Prod.snd).sum := by
            intro l'
            induction l' with
            | nil => intro _; simp
            | cons p l' ih =>
              intro hp
              have h1 := hp p (List.mem_cons_self _ _)
              have h2 := ih (fun q hq => hp q (List.mem_cons_of_mem _ hq))
              simp only [List.length_cons, List.map_cons, List.sum_cons]
              omega
          exact this l (fun p hp => ((hmem p.1 p.2 hl).mp hp).2.1)
        have hcsp : c.space < 2 ^ 64 := by
          split_ifs at hspace <;> omega
        have hlen1 : slot_length m1 (b + o) = L := by
          rw [← hlen]
          apply load_congr
          intro x hx1 hx2
          apply r6
          intro y hy hyx
          have := hsep.2.2 (b + o) y (List.getElem?_mem hxk) hy
          omega
        refine hfin _ m1 ?_ ?_ ?_ ?_
        rotate_left
        · rfl
        · rfl
        · intro addr hadd
          apply r6
          intro y hy hyx
          have := hadd y hy hyx
          omega
        refine heap_inv_unlinked bpre b pre post bpost fl a _ m m1 o L i k l
          { head := if c.head = b + o then slot_next m1 (b + o) else c.head,
            tail := if c.tail = b + o then slot_prev m1 (b + o) else c.tail,
            space := sub64 c.space (slot_length m1 (b + o)), count := sub64 c.count 1 }
          h0 hmid h32' hl hk ?_ ?_ ?_ ?_ ?_ ?_ ?_
        · exact ⟨k2, k3, k4, k5⟩
        · simp only []; rw [k6]; exact hf.2.2.1
        · rfl
        · simp only []
          rw [map_eraseIdx, head_eraseIdx, getLast_eraseIdx _ _ (by rw [List.length_map]; exact hkl),
            List.length_eraseIdx, if_pos hkl, hlen1, sub64_eq _ _ hLc hcsp,
            sub64_eq _ _ (by omega) (by omega), hch, hct, hcc, hcs, List.length_map]
          have hs2 := sum_eraseIdx (l.map Prod.snd) k L (by rw [List.getElem?_map, hk]; rfl)
          rw [← map_eraseIdx] at hs2
          refine ⟨?_, ?_, rfl, by omega⟩
          · by_cases hk0 : k = 0
            · have hh : ((l.map Prod.fst).head?).getD 0 = b + o := by
                rw [List.head?_eq_getElem?, ← hk0, hxk]
                rfl
              rw [if_pos hk0, if_pos hh]
              have r3' : load 8 m (b + o + (8 + 8)) = ((l.map Prod.fst)[1]?).getD 0 := by
                have := r3
                rw [hk0] at this
                exact this
              exact r5.trans r3'
            · rw [if_neg hk0, if_neg]
              rw [List.head?_eq_getElem?]
              intro e
              have h0l : 0 < l.length := by omega
              have : (l.map Prod.fst)[0]? = some (b + o) := by
                rw [List.getElem?_eq_getElem (by rw [List.length_map]; exact h0l)] at e ⊢
                simp only [Option.getD_some] at e
                rw [e]
              exact hk0 (nodup_index_unique _ hnd _ _ _ hxk this)
          · by_cases hk1 : k + 1 = l.length
            · have hh : ((l.map Prod.fst).getLast?).getD 0 = b + o := by
                rw [List.getLast?_eq_getElem?, List.length_map]
                have : l.length - 1 = k := by omega
                rw [this, hxk]
                rfl
              rw [if_pos hk1, if_pos hh]
              exact r4.trans r2
            · rw [if_neg hk1, if_neg]
              rw [List.getLast?_eq_getElem?, List.length_map]
              intro e
              have : (l.map Prod.fst)[l.length - 1]? = some (b + o) := by
                rw [List.getElem?_eq_getElem (by rw [List.length_map]; omega)] at e ⊢
                simp only [Option.getD_some] at e
                rw [e]
              have := nodup_index_unique _ hnd _ _ _ hxk this
              omega
        · rw [map_eraseIdx]
          exact r1
        · intro addr hadd
          apply r6
          intro y hy hyx
          have := hadd y hy hyx
          omega
        · exact k7
      · cases hr


/-! ### `slabs_init` -/

/-- The loop of `slabs_init` keeps the classes below `i`, and every class it
writes has a size that is a multiple of 8 and `perslab = item_size_max / size`
(on `unsigned int`); the loop ends at an index between `i` and `i + n`, and
the array keeps its length. -/
theorem slabs_init_loop_spec (item_size_max : Nat) (fits : Nat → Bool) (grow : Nat → Nat) :
    ∀ (n i size : Nat) (cls : List slabclass_t) (j : Nat) (out : List slabclass_t),
      slabs_init_loop item_size_max fits grow n i size cls = some (j, out) →
      i ≤ j ∧ j ≤ i + n ∧ out.length = cls.length ∧
      (∀ k, k < i → out[k]? = cls[k]?) ∧
      (∀ k, j ≤ k → out[k]? = cls[k]?) ∧
      (∀ k, i ≤ k → k < j → ∃ p, out[k]? = some p ∧ 8 ∣ p.size ∧ p.size ≠ 0 ∧
        p.perslab = wrap32 (item_size_max / p.size)) := by
  intro n
  induction n with
  | zero =>
    intro i size cls j out h
    simp only [slabs_init_loop, Option.some.injEq, Prod.mk.injEq] at h
    obtain ⟨h1, h2⟩ := h
    subst h1; subst h2
    exact ⟨le_refl _, le_refl _, rfl, fun _ _ => rfl, fun _ _ => rfl,
      fun k h1 h2 => absurd h2 (by omega)⟩
  | succ n ih =>
    intro i size cls j out h
    simp only [slabs_init_loop] at h
    by_cases hf : fits size = true
    · rw [if_pos hf] at h
      have h8 : 8 ∣ (if size % CHUNK_ALIGN_BYTES ≠ 0
          then wrap32 (size + (CHUNK_ALIGN_BYTES - size % CHUNK_ALIGN_BYTES)) else size) := by
        simp only [CHUNK_ALIGN_BYTES]
        split_ifs with hmod
        · unfold wrap32
          have : (size + (8 - size % 8)) % 8 = 0 := by omega
          omega
        · omega
      generalize (if size % CHUNK_ALIGN_BYTES ≠ 0
          then wrap32 (size + (CHUNK_ALIGN_BYTES - size % CHUNK_ALIGN_BYTES)) else size)
        = size1 at h h8
      cases hp : cls[i]? with
      | none => rw [hp] at h; cases h
      | some p =>
        rw [hp] at h
        simp only [] at h
        by_cases hs0 : size1 = 0
        · rw [if_pos hs0] at h; cases h
        · rw [if_neg hs0] at h
          obtain ⟨h1, h2, h3, h4, h5, h6⟩ := ih _ _ _ _ _ h
          have hil : i < cls.length := (List.getElem?_eq_some_iff.mp hp).1
          rw [List.length_set] at h3
          refine ⟨by omega, by omega, h3, ?_, ?_, ?_⟩
          · intro k hk
            rw [h4 k (by omega), List.getElem?_set_ne (by omega)]
          · intro k hk
            rw [h5 k (by omega), List.getElem?_set_ne (by omega)]
          · intro k hk1 hk2
            by_cases hki : k = i
            · subst hki
              rw [h4 k (by omega), List.getElem?_set_self hil]
              exact ⟨_, rfl, h8, hs0, rfl⟩
            · exact h6 k (by omega) hk2
    · rw [if_neg hf] at h
      simp only [Option.some.injEq, Prod.mk.injEq] at h
      obtain ⟨h1, h2⟩ := h
      subst h1; subst h2
      exact ⟨le_refl _, by omega, rfl, fun _ _ => rfl, fun _ _ => rfl,
        fun k h1 h2 => absurd h2 (by omega)⟩

/-- The loop of `slabs_init` returns when the array has a cell for every index
it reaches and no aligned size is zero. -/
theorem slabs_init_loop_returns (item_size_max : Nat) (fits : Nat → Bool) (grow : Nat → Nat)
    (hfits : ∀ s, fits s = true → s + 8 ≤ 2 ^ 32) (hgrow : ∀ s, 0 < s → 0 < grow s) :
    ∀ (n i size : Nat) (cls : List slabclass_t), 0 < size → i + n ≤ cls.length →
      ∃ r, slabs_init_loop item_size_max fits grow n i size cls = some r := by
  intro n
  induction n with
  | zero => intro i size cls _ _; exact ⟨_, rfl⟩
  | succ n ih =>
    intro i size cls hpos hlen
    simp only [slabs_init_loop]
    by_cases hf : fits size = true
    · rw [if_pos hf]
      have h2 := hfits size hf
      have hil : i < cls.length := by omega
      have hs1 : 0 < (if size % CHUNK_ALIGN_BYTES ≠ 0
          then wrap32 (size + (CHUNK_ALIGN_BYTES - size % CHUNK_ALIGN_BYTES)) else size) := by
        simp only [CHUNK_ALIGN_BYTES]
        split_ifs
        · unfold wrap32
          rw [Nat.mod_eq_of_lt (by omega)]
          omega
        · omega
      generalize (if size % CHUNK_ALIGN_BYTES ≠ 0
          then wrap32 (size + (CHUNK_ALIGN_BYTES - size % CHUNK_ALIGN_BYTES)) else size)
        = size1 at hs1
      rw [List.getElem?_eq_getElem hil]
      simp only []
      rw [if_neg (by omega)]
      exact ih _ _ _ (hgrow _ hs1) (by rw [List.length_set]; omega)
    · rw [if_neg hf]
      exact ⟨_, rfl⟩

/-- C21: `slabs_init` returns its classes when `item_size_max` fits an
`unsigned int`, the array has a cell for every index up to `POWER_LARGEST`, the
first size is positive, the loop test admits only sizes that stay below `2^32`
when aligned, and `size *= factor` keeps a size positive; then every class from
`POWER_SMALLEST` to `power_largest - 1` has a size that is a multiple of 8 with
`perslab = item_size_max / size`, and the class `power_largest` has the size
`item_size_max` with `perslab = 1`. The operations on the `double factor` are
otherwise arbitrary. -/
theorem slabs_init_class_sizes (POWER_SMALLEST POWER_LARGEST ncls item_size_max size0 : Nat)
    (fits : Nat → Bool) (grow : Nat → Nat)
    (hisz : item_size_max < 2 ^ 32) (hord : POWER_SMALLEST ≤ POWER_LARGEST)
    (hncls : POWER_LARGEST < ncls) (hsize0 : 0 < size0)
    (hfits : ∀ s, fits s = true → s + 8 ≤ 2 ^ 32) (hgrow : ∀ s, 0 < s → 0 < grow s) :
    ∃ pl cls,
      slabs_init_classes POWER_SMALLEST POWER_LARGEST ncls item_size_max size0 fits grow
        = some (pl, cls) ∧
      POWER_SMALLEST ≤ pl ∧ pl ≤ POWER_LARGEST ∧
      (∀ k, POWER_SMALLEST ≤ k → k < pl →
        ∃ p, cls[k]? = some p ∧ 8 ∣ p.size ∧ p.perslab = item_size_max / p.size) ∧
      (∃ p, cls[pl]? = some p ∧ p.size = item_size_max ∧ p.perslab = 1) := by
  obtain ⟨⟨j, out⟩, hr⟩ := slabs_init_loop_returns item_size_max fits grow hfits hgrow
    (POWER_LARGEST - POWER_SMALLEST) POWER_SMALLEST size0 (List.replicate ncls slabclass_zero)
    hsize0 (by rw [List.length_replicate]; omega)
  obtain ⟨h1, h2, h3, h4, h5, h6⟩ := slabs_init_loop_spec _ _ _ _ _ _ _ _ _ hr
  rw [List.length_replicate] at h3
  have hj : j < out.length := by omega
  unfold slabs_init_classes
  rw [hr]
  simp only []
  rw [List.getElem?_eq_getElem hj]
  refine ⟨j, _, rfl, h1, by omega, ?_, ?_⟩
  · intro k hk1 hk2
    obtain ⟨p, hp1, hp2, hp3, hp4⟩ := h6 k hk1 hk2
    refine ⟨p, ?_, hp2, ?_⟩
    · rw [List.getElem?_set_ne (by omega)]
      exact hp1
    · rw [hp4]
      unfold wrap32
      apply Nat.mod_eq_of_lt
      calc item_size_max / p.size ≤ item_size_max := Nat.div_le_self _ _
        _ < 2 ^ 32 := hisz
  · refine ⟨_, List.getElem?_set_self hj, ?_, rfl⟩
    simp only [wrap32]
    exact Nat.mod_eq_of_lt hisz

/-- The call of `slabs_init` for `item_size_max = 1 MiB`, a first size of 96
bytes and `factor = 1.25`, with `POWER_SMALLEST = 1`, `POWER_LARGEST = 200` and
201 classes. -/
theorem slabs_init_class_sizes_witness :
    (1048576 < 2 ^ 32 ∧ 1 ≤ 200 ∧ 200 < 201 ∧ 0 < 96 ∧
      (∀ s, (decide (s * 5 ≤ 1048576 * 4)) = true → s + 8 ≤ 2 ^ 32) ∧
      (∀ s, 0 < s → 0 < s * 5 / 4)) ∧
    ∃ pl cls,
      slabs_init_classes 1 200 201 1048576 96 (fun s => decide (s * 5 ≤ 1048576 * 4))
          (fun s => s * 5 / 4) = some (pl, cls) ∧
      1 ≤ pl ∧ pl ≤ 200 ∧
      (∀ k, 1 ≤ k → k < pl →
        ∃ p, cls[k]? = some p ∧ 8 ∣ p.size ∧ p.perslab = 1048576 / p.size) ∧
      (∃ p, cls[pl]? = some p ∧ p.size = 1048576 ∧ p.perslab = 1) :=
  ⟨⟨by decide, by decide, by decide, by decide,
      fun s h => by have := of_decide_eq_true h; omega, fun s h => by omega⟩,
    slabs_init_class_sizes 1 200 201 1048576 96 _ _ (by decide) (by decide) (by decide)
      (by decide) (fun s h => by have := of_decide_eq_true h; omega) (fun s h => by omega)⟩

/-! ### The class of a length and the search policy -/

/-- The class of a length: `len / 8` below 8192, else the last class. -/
theorem memid_eq (n : Nat) :
    do_smmgr_memid n = (if n < 8192 then ((n / 8 : Nat) : Int) else 1024) := by
  unfold do_smmgr_memid
  by_cases h : n < 8192
  · rw [if_pos h, if_pos h, to_int_small _ (by omega)]
  · rw [if_neg h, if_neg h]
    rfl

/-- C26: `do_smmgr_memid(len)` is `len / 8` for `len < 8192` and 1024
otherwise; it lies between 0 and 1024 and is monotone in `len`. -/
theorem memid_formula (len : Nat) :
    do_smmgr_memid len = (if len < 8192 then ((len / 8 : Nat) : Int) else 1024) ∧
    0 ≤ do_smmgr_memid len ∧ do_smmgr_memid len ≤ 1024 ∧
    ∀ len', len ≤ len' → do_smmgr_memid len ≤ do_smmgr_memid len' := by
  refine ⟨memid_eq len, ?_, ?_, ?_⟩
  · rw [memid_eq]; split_ifs <;> omega
  · rw [memid_eq]; split_ifs <;> omega
  · intro len' hle
    rw [memid_eq, memid_eq]
    split_ifs <;> omega

/-- The first non-empty class found by the scan of `do_smmgr_alloc`. -/
theorem scan_up_first_nonempty (fs : List sm_slist_t) :
    ∀ (n : Nat) (lo r : Int),
      scan_up (fun x => decide (x.head ≠ 0)) fs n lo = some r →
      (r < lo + n → first_nonempty fs n lo = some r) ∧
      (r = lo + n → first_nonempty fs n lo = none) := by
  intro n
  induction n with
  | zero =>
    intro lo r h
    simp only [scan_up, Option.some.injEq] at h
    subst h
    exact ⟨fun h => absurd h (by simp), fun _ => rfl⟩
  | succ n ih =>
    intro lo r h
    simp only [scan_up] at h
    cases hx : slist_at fs lo with
    | none => rw [hx] at h; cases h
    | some x =>
      rw [hx] at h
      simp only [] at h
      simp only [first_nonempty, hx]
      by_cases hh : x.head ≠ 0
      · rw [if_pos (by simpa using hh)] at h
        cases h
        rw [if_pos hh]
        exact ⟨fun _ => rfl, fun e => by push_cast at e; omega⟩
      · rw [if_neg (by simpa using hh)] at h
        rw [if_neg hh]
        obtain ⟨h1, h2⟩ := ih _ _ h
        exact ⟨fun e => h1 (by push_cast at e; omega), fun e => h2 (by push_cast at e; omega)⟩

/-- No class is non-empty among classes whose lists are all empty. -/
theorem first_nonempty_none (fs : List sm_slist_t) :
    ∀ (n : Nat) (lo : Int),
      (∀ j : Int, lo ≤ j → j < lo + n → ∀ x, slist_at fs j = some x → x.head = 0) →
      first_nonempty fs n lo = none := by
  intro n
  induction n with
  | zero => intro lo _; rfl
  | succ n ih =>
    intro lo h
    simp only [first_nonempty]
    cases hx : slist_at fs lo with
    | none =>
      simp only []
      exact ih _ (fun j h1 h2 => h j (by omega) (by push_cast; omega))
    | some x =>
      simp only []
      rw [if_neg (by
        have := h lo (le_refl _) (by push_cast; omega) x hx
        simp [this])]
      exact ih _ (fun j h1 h2 => h j (by omega) (by push_cast; omega))

/-- An upward scan over cells of the array returns. -/
theorem scan_up_returns (test : sm_slist_t → Bool) (l : List sm_slist_t) :
    ∀ (n : Nat) (lo : Int),
      (∀ j : Int, lo ≤ j → j < lo + n → ∃ x, slist_at l j = some x) →
      ∃ r, scan_up test l n lo = some r := by
  intro n
  induction n with
  | zero => intro lo _; exact ⟨_, rfl⟩
  | succ n ih =>
    intro lo h
    obtain ⟨x, hx⟩ := h lo (le_refl _) (by push_cast; omega)
    simp only [scan_up, hx]
    by_cases ht : test x = true
    · rw [if_pos ht]; exact ⟨_, rfl⟩
    · rw [if_neg ht]
      exact ih _ (fun j h1 h2 => h j (by omega) (by push_cast; omega))

/-- What the test `free_max_exact` says. -/
theorem free_max_exact_spec (a : sm_anchor_t) (h : free_max_exact a = true) :
    a.free_slist.length = SMMGR_NUM_CLASSES ∧ a.free_maxid ≤ 1023 ∧
    (∀ (i : Nat) (x : sm_slist_t), i < 1024 → a.free_slist[i]? = some x →
      x.head = 0 ∨ (i : Int) ≤ a.free_maxid) ∧
    (a.free_maxid < 0 ∨ ∃ x, slist_at a.free_slist a.free_maxid = some x ∧ x.head ≠ 0) := by
  unfold free_max_exact at h
  simp only [Bool.and_eq_true, decide_eq_true_eq, Bool.or_eq_true, List.all_eq_true] at h
  obtain ⟨⟨⟨h1, h2⟩, h3⟩, h4⟩ := h
  refine ⟨h1, h2, ?_, ?_⟩
  · intro i x hi hx
    have hm : (i, x) ∈ (a.free_slist.take 1024).enum := by
      rw [List.mk_mem_enum_iff_getElem?, List.getElem?_take, if_pos hi]
      exact hx
    exact h3 (i, x) hm
  · rcases h4 with h4 | h4
    · exact Or.inl h4
    · right
      cases hx : slist_at a.free_slist a.free_maxid with
      | none => rw [hx] at h4; simp at h4
      | some x =>
        rw [hx] at h4
        exact ⟨x, rfl, by simpa using h4⟩

/-- C27: when `free_maxid` is exact, the class from which `do_smmgr_alloc`
takes its slot for the target class `targ` is the one of the specification:
the target itself if its list is not empty, else the first non-empty class
from `2 * targ` to `free_maxid` if there is one, else `free_maxid` if it is at
least the target, else the last class. -/
theorem alloc_search_policy (a : sm_anchor_t) (targ : Int)
    (hex : free_max_exact a = true) (h0 : 0 ≤ targ) (h1 : targ ≤ 1024) :
    smmgr_alloc_smid a targ = some (spec_source_class a targ) := by
  obtain ⟨hlen, hmax, hall, hlast⟩ := free_max_exact_spec a hex
  simp only [SMMGR_NUM_CLASSES] at hlen
  have hcell : ∀ j : Int, 0 ≤ j → j ≤ 1024 → ∃ x, slist_at a.free_slist j = some x := by
    intro j hj0 hj1
    unfold slist_at
    rw [if_pos hj0]
    have hj : j.toNat < a.free_slist.length := by omega
    exact ⟨a.free_slist[j.toNat], List.getElem?_eq_getElem hj⟩
  obtain ⟨x, hx⟩ := hcell targ h0 h1
  unfold smmgr_alloc_smid spec_source_class
  rw [hx]
  simp only []
  by_cases hA : targ ≤ a.free_maxid
  · rw [if_pos hA]
    by_cases hh : x.head ≠ 0
    · rw [if_pos hh, if_pos hh]
    · rw [if_neg hh, if_neg hh]
      by_cases h2 : targ * 2 ≤ a.free_maxid
      · rw [if_pos h2]
        have e2 : targ * 2 = 2 * targ := by ring
        rw [e2]
        obtain ⟨r, hr⟩ := scan_up_returns (fun x => decide (x.head ≠ 0)) a.free_slist
          (a.free_maxid - 2 * targ + 1).toNat (2 * targ)
          (fun j hj1 hj2 => hcell j (by omega) (by omega))
        rw [hr]
        obtain ⟨s1, s2, s3, s4⟩ := scan_up_some _ _ _ _ _ hr
        have hlt : r < 2 * targ + ((a.free_maxid - 2 * targ + 1).toNat : Int) := by
          by_contra hge
          rcases hlast with hl | ⟨y, hy1, hy2⟩
          · omega
          · obtain ⟨z, hz1, hz2⟩ := s3 a.free_maxid (by omega) (by omega)
            rw [hy1] at hz1
            cases hz1
            simp [hy2] at hz2
        rw [(scan_up_first_nonempty _ _ _ _ hr).1 hlt]
      · rw [if_neg h2]
        have hn : (a.free_maxid - 2 * targ + 1).toNat = 0 := by omega
        rw [hn]
        simp only [first_nonempty]
        rw [if_pos (by omega)]
  · rw [if_neg hA]
    by_cases hh : x.head ≠ 0
    · rw [if_pos hh]
      by_cases ht : targ = 1024
      · rw [ht]; rfl
      · exfalso
        have hxn : a.free_slist[targ.toNat]? = some x := by
          unfold slist_at at hx
          rw [if_pos h0] at hx
          exact hx
        rcases hall targ.toNat x (by omega) hxn with h3 | h3
        · exact hh h3
        · omega
    · rw [if_neg hh]
      have hn : (a.free_maxid - 2 * targ + 1).toNat = 0 := by omega
      rw [hn]
      simp only [first_nonempty]
      rw [if_neg (by omega)]

set_option maxRecDepth 100000 in
/-- The search policy on the anchor reached by `ops_class10` (one free slot of
80 bytes in class 10, `free_maxid = 10`) for an allocation of 40 bytes (slot
length 48, target class 6): the source class is 10, and after the allocation
the residue of 32 bytes is the only slot of the list of class 4. -/
theorem alloc_search_policy_witness :
    (free_max_exact anchor_class10 = true ∧ (0 : Int) ≤ 6 ∧ (6 : Int) ≤ 1024) ∧
    smmgr_alloc_smid anchor_class10 6 = some (spec_source_class anchor_class10 6) ∧
    (smmgr_run (smmgr_state_fresh, []) ops_class10).map (fun s => s.1.st.sm_anchor)
      = some anchor_class10 ∧
    (do_smmgr_slen 40, do_smmgr_memid 48, spec_source_class anchor_class10 6) = (48, 6, 10) ∧
    (smmgr_run (smmgr_state_fresh, []) (ops_class10 ++ [smmgr_op.alloc 40 true 0])).map
        (fun s => (s.1.st.sm_anchor.free_slist[4]?, s.1.st.sm_anchor.free_slist[10]?))
      = some (some { head := base0 + 72, tail := base0 + 72, space := 32, count := 1 },
              some { head := 0, tail := 0, space := 0, count := 0 }) :=
  ⟨⟨by decide!, by decide, by decide⟩,
    alloc_search_policy anchor_class10 6 (by decide!) (by decide) (by decide),
    by decide!, by decide!, by decide!⟩

/-- C28: when the source slot is longer than the slot length `8 * t` of the
request and its class `s` is below the last class, the residue has a class
strictly below `s`, and `do_smmgr_alloc` splits by `do_smmgr_free_slot_unlink`
and `do_smmgr_free_slot_link`, not by `do_smmgr_free_slot_replace`. This holds
for every such source class, in particular for the classes from `2 * t` to
`free_maxid` of the search policy. -/
theorem split_takes_unlink_path (a : sm_anchor_t) (m : Nat → Nat) (cur s t : Nat)
    (ht : 1 ≤ t) (hs : s ≤ 1023)
    (hcls : do_smmgr_memid (slot_length m cur) = (s : Int))
    (hlen : 8 * t < slot_length m cur) :
    do_smmgr_memid (slot_length m cur - 8 * t) < (s : Int) ∧
    smmgr_alloc_from_slot a m cur (s : Int) ((8 * t : Nat) : Int) =
      (match (match do_smmgr_free_slot_unlink a m cur with
              | none => none
              | some (a1, m1) =>
                do_smmgr_free_slot_link a1
                  (do_smmgr_free_slot_init m1 (cur + 8 * t)
                    (int_to_uint16 ((slot_offset m1 cur : Int) + ((8 * t : Nat) : Int)))
                    (int_to_uint16 ((slot_length m1 cur : Int) - ((8 * t : Nat) : Int))))
                  (cur + 8 * t)) with
       | none => none
       | some (a1, m1) =>
         some (a1, do_smmgr_used_slot_init m1 cur (slot_offset m1 cur)
                     (int_to_uint16 ((8 * t : Nat) : Int)))) := by
  have f1 := memid_eq (slot_length m cur)
  have f2 := memid_eq (slot_length m cur - 8 * t)
  have hL : slot_length m cur < 8192 := by
    by_contra hge
    rw [f1, if_neg hge] at hcls
    omega
  rw [f1, if_pos hL] at hcls
  have hres : do_smmgr_memid (slot_length m cur - 8 * t) < (s : Int) := by
    rw [f2, if_pos (by omega)]
    omega
  refine ⟨hres, ?_⟩
  have hsz : int_to_size_t ((slot_length m cur : Int) - ((8 * t : Nat) : Int))
      = slot_length m cur - 8 * t := by
    have : ((slot_length m cur : Int) - ((8 * t : Nat) : Int))
        = ((slot_length m cur - 8 * t : Nat) : Int) := by omega
    rw [this]
    exact int_to_size_t_nat _ (by omega)
  unfold smmgr_alloc_from_slot
  simp only []
  rw [if_pos (by omega), hsz, if_pos (by omega)]
  have e : ((8 * t : Nat) : Int).toNat = 8 * t := by omega
  rw [e]
  all_goals
    cases do_smmgr_free_slot_unlink a m cur with
    | none => rfl
    | some r =>
      obtain ⟨a1, m1⟩ := r
      simp only []
      cases do_smmgr_free_slot_link a1
          (do_smmgr_free_slot_init m1 (cur + 8 * t)
            (int_to_uint16 ((slot_offset m1 cur : Int) + ((8 * t : Nat) : Int)))
            (int_to_uint16 ((slot_length m1 cur : Int) - ((8 * t : Nat) : Int))))
          (cur + 8 * t) with
      | none => rfl
      | some r2 => rfl

/-- A source slot of 80 bytes (class 10) and a request of slot length 48
(`t = 6`): the residue of 32 bytes has class 4. -/
theorem split_takes_unlink_path_witness :
    ((1 ≤ 6 ∧ 10 ≤ 1023 ∧ do_smmgr_memid (slot_length mem_slot80 1000) = ((10 : Nat) : Int) ∧
      8 * 6 < slot_length mem_slot80 1000) ∧
     do_smmgr_memid (slot_length mem_slot80 1000 - 8 * 6) = 4) ∧
    do_smmgr_memid (slot_length mem_slot80 1000 - 8 * 6) < ((10 : Nat) : Int) :=
  ⟨⟨⟨by decide, by decide, by decide, by decide⟩, by decide⟩,
    (split_takes_unlink_path smmgr_anchor_init mem_slot80 1000 10 6 (by decide) (by decide)
      (by decide) (by decide)).1⟩

set_option maxRecDepth 100000 in
/-- The allocation of 100 bytes on a fresh allocator does not give a slot of
112 bytes at block offset 16: the pointer returned is 24 bytes into the block,
the tail of the slot records the offset 24 and the length 104, and
`used_total_space` is 104. -/
theorem fresh_alloc_100_not_112 :
    (smmgr_run (smmgr_state_fresh, []) ops_alloc_100).map
        (fun s => (s.2, s.1.st.sm_anchor.used_total_space,
          tail_offset s.1.mem (base0 + 24 + 104 - 4), tail_length s.1.mem (base0 + 24 + 104 - 4)))
      = some ([(base0 + 24, 100)], 104, 24, 104) := by
  decide!

set_option maxRecDepth 100000 in
/-- C22 (amended): on a fresh allocator with empty free lists the allocation
of 100 bytes takes one block and returns a used slot of length 104 at block
offset 24 (after the block header of 24 bytes); the remainder is one free slot
of length 65512 - 104 = 65408 at offset 128, the only slot of the list of the
last class (1024); afterwards `used_total_space = 104`. -/
theorem fresh_alloc_100_split :
    do_smmgr_slen 100 = 104 ∧
    (smmgr_run (smmgr_state_fresh, []) ops_alloc_100).map
        (fun s => (s.2, s.1.st.sm_anchor.used_blist))
      = some ([(base0 + 24, 100)], { head := base0, tail := base0, count := 1 }) ∧
    (smmgr_run (smmgr_state_fresh, []) ops_alloc_100).map
        (fun s => (slot_status s.1.mem (base0 + 24), tail_offset s.1.mem (base0 + 124),
          tail_length s.1.mem (base0 + 124)))
      = some (2 ^ 32 - 1, 24, 104) ∧
    (smmgr_run (smmgr_state_fresh, []) ops_alloc_100).map
        (fun s => (slot_status s.1.mem (base0 + 128), slot_offset s.1.mem (base0 + 128),
          slot_length s.1.mem (base0 + 128), tail_offset s.1.mem (base0 + 65536 - 4)))
      = some (0, 128, 65408, 128) ∧
    (smmgr_run (smmgr_state_fresh, []) ops_alloc_100).map
        (fun s => (s.1.st.sm_anchor.free_slist[1024]?, s.1.st.sm_anchor.free_maxid))
      = some (some { head := base0 + 128, tail := base0 + 128, space := 65408, count := 1 },
              -1) ∧
    (smmgr_run (smmgr_state_fresh, []) ops_alloc_100).map
        (fun s => (s.1.st.sm_anchor.used_total_space, s.1.st.sm_anchor.free_avail_space,
          s.1.st.sm_anchor.free_small_space))
      = some (104, 65408, 0) := by
  refine ⟨by decide!, by decide!, by decide!, by decide!, by decide!, by decide!⟩

set_option maxRecDepth 100000 in
/-- After scenario 2 the block has not gone back to the slab allocator: the
slot of the first allocation is still live, `used_blist.count` is 1 and
`sl_curr` of class 0 is 0. -/
theorem coalesce_keeps_block :
    (smmgr_run (smmgr_state_fresh, []) ops_coalesce).map
        (fun s => (s.2, s.1.st.sm_anchor.used_blist.count,
          s.1.st.engine.slabs.slabclass[0]?.map (fun p => p.sl_curr)))
      = some ([(base0 + 24, 100)], 1, some 0) := by
  decide!

set_option maxRecDepth 100000 in
/-- C23 (amended): after the allocation of 100 bytes, two allocations of 200
bytes give the consecutive slots of 208 bytes at block offsets 128 and 336;
after the release of both, the bytes after the first slot are again one free
slot of 65408 bytes at offset 128 on the list of the last class, and the block
is still in use (`used_blist.count = 1`, `sl_curr = 0` in class 0). After the
release of the first slot as well the body of the block is one free span and
the block is back in slab class 0: `used_blist.count = 0`, `sl_curr = 1`, and
the free lists are empty. -/
theorem coalesce_both_sides :
    (do_smmgr_slen 200 = 208) ∧
    (smmgr_run (smmgr_state_fresh, []) (ops_coalesce.take 3)).map (fun s => s.2)
      = some [(base0 + 336, 200), (base0 + 128, 200), (base0 + 24, 100)] ∧
    (smmgr_run (smmgr_state_fresh, []) ops_coalesce).map
        (fun s => (s.1.st.sm_anchor.free_slist[1024]?, s.1.st.sm_anchor.free_avail_space,
          s.1.st.sm_anchor.used_total_space))
      = some (some { head := base0 + 128, tail := base0 + 128, space := 65408, count := 1 },
              65408, 104) ∧
    (smmgr_run (smmgr_state_fresh, []) ops_coalesce).map
        (fun s => (slot_status s.1.mem (base0 + 128), slot_offset s.1.mem (base0 + 128),
          slot_length s.1.mem (base0 + 128), tail_offset s.1.mem (base0 + 65536 - 4)))
      = some (0, 128, 65408, 128) ∧
    (smmgr_run (smmgr_state_fresh, []) ops_coalesce).map
        (fun s => (s.1.st.sm_anchor.used_blist.count,
          s.1.st.engine.slabs.slabclass[0]?.map (fun p => p.sl_curr)))
      = some (1, some 0) ∧
    (smmgr_run (smmgr_state_fresh, []) ops_coalesce_all).map
        (fun s => (s.2, s.1.st.sm_anchor.used_blist,
          s.1.st.engine.slabs.slabclass[0]?.map (fun p => (p.sl_curr, p.slots[0]?))))
      = some ([], { head := 0, tail := 0, count := 0 }, some (1, some base0)) ∧
    (smmgr_run (smmgr_state_fresh, []) ops_coalesce_all).map
        (fun s => (s.1.st.sm_anchor.free_slist[1024]?, s.1.st.sm_anchor.free_avail_space,
          s.1.st.sm_anchor.free_small_space, s.1.st.sm_anchor.used_total_space))
      = some (some { head := 0, tail := 0, space := 0, count := 0 }, 0, 0, 0) := by
  refine ⟨by decide!, by decide!, by decide!, by decide!, by decide!, by decide!, by decide!⟩

/-- After the pressure trip `set_memlimit(2 * mem_malloced)` does not succeed:
`mem_malloced` is 2 MiB, the reservation of class 0 is defined, and the call
with 4 MiB returns `ENGINE_EBADVALUE`. -/
theorem set_memlimit_twice_malloced_rejected :
    state_tripped.engine.slabs.mem_malloced = 2097152 ∧
    class0_rsvd_slabs state_tripped.engine = 4 ∧
    (do_slabs_set_memlimit state_tripped (2 * 2097152)).map (fun r => r.1)
      = some ENGINE_EBADVALUE := by
  refine ⟨by decide!, by decide!, by decide!⟩

/-- C24 (amended): in the state reached by the pressure trip (limit 5 MiB, no
pre-allocation, two chunks of 900 KiB allocated, so that `mem_malloced` is
2 MiB and the reservation of class 0 is defined as 4 pages),
`set_memlimit(mem_malloced)` returns `ENGINE_EBADVALUE`, and so does
`set_memlimit(2 * mem_malloced)`, because the headroom of 2 MiB is below the
reserve of 4 MiB, both leaving the state as it is; `set_memlimit(3 *
mem_malloced)` returns `ENGINE_SUCCESS`, makes the reservation of class 0
undefined again, and after it `slabs_short_of_free_space` returns 0. -/
theorem set_memlimit_after_pressure_trip :
    (slab_run (state_5mib, []) ops_pressure_trip).map
        (fun s => (s.1.engine.slabs.mem_malloced, s.1.engine.slabs.mem_limit,
          s.1.engine.slabs.mem_reserved, class0_rsvd_slabs s.1.engine))
      = some (2097152, 5242880, 4194304, 4) ∧
    (slab_run (state_5mib, []) (ops_pressure_trip.take 1)).map
        (fun s => class0_rsvd_slabs s.1.engine) = some 0 ∧
    do_slabs_set_memlimit state_tripped 2097152 = some (ENGINE_EBADVALUE, state_tripped) ∧
    do_slabs_set_memlimit state_tripped (2 * 2097152)
      = some (ENGINE_EBADVALUE, state_tripped) ∧
    (do_slabs_set_memlimit state_tripped (3 * 2097152)).map
        (fun r => (r.1, r.2.engine.slabs.mem_limit, r.2.engine.slabs.mem_reserved,
          class0_rsvd_slabs r.2.engine, slabs_short_of_free_space r.2))
      = some (ENGINE_SUCCESS, 6291456, 4194304, 0, some 0) := by
  refine ⟨by decide!, by decide!, by decide!, by decide!, by decide!⟩


/-- The invariant after a free slot of at least 32 bytes has been put at the
end of the list of its class: the hole of the description is a free slot, the
list has gained it, and memory has changed in its link fields and in those of
the slots of the list only. -/
theorem heap_inv_linked (bpre : List gblock) (b : Nat) (pre post : List gslot)
    (bpost : List gblock) (fl : List (List (Nat × Nat))) (a a1 : sm_anchor_t)
    (m m1 : Nat → Nat) (o L i : Nat) (l : List (Nat × Nat)) (c1 : sm_slist_t)
    (h : heap_inv (splice bpre b pre [⟨o, L, skind.hole⟩] post bpost) fl a m)
    (hok : slot_ok m b ⟨o, L, skind.free⟩)
    (hi : do_smmgr_memid L = (i : Int)) (h32 : 32 ≤ L)
    (hl : fl[i]? = some l)
    (ha : a1.used_blist = a.used_blist ∧ a1.blck_tsize = a.blck_tsize ∧
      a1.blck_bsize = a.blck_bsize ∧ a1.used_maxid = a.used_maxid)
    (hmax : a1.free_maxid ≤ 1023)
    (hfs : a1.free_slist = a.free_slist.set i c1)
    (hc1 : c1.head = (((l ++ [(b + o, L)]).map Prod.fst).head?).getD 0 ∧
      c1.tail = (((l ++ [(b + o, L)]).map Prod.fst).getLast?).getD 0 ∧
      c1.count = (l ++ [(b + o, L)]).length ∧
      c1.space = ((l ++ [(b + o, L)]).map Prod.snd).sum)
    (hdll : dll 8 m1 ((l ++ [(b + o, L)]).map Prod.fst))
    (hm : ∀ addr, (addr < b + o + 8 ∨ b + o + 24 ≤ addr) →
      (∀ y, y ∈ l.map Prod.fst → addr < y + 8 ∨ y + 24 ≤ addr) → m1 addr = m addr)
    (hacc : if (i : Int) < a.used_maxid
      then a1.free_small_space = a.free_small_space + L ∧
        a1.free_avail_space = a.free_avail_space
      else a1.free_small_space = a.free_small_space ∧
        a1.free_avail_space = a.free_avail_space + L) :
    heap_inv (splice bpre b pre [⟨o, L, skind.free⟩] post bpost) (fl.set i (l ++ [(b + o, L)]))
      a1 m1 := by
  obtain ⟨hg, hb, hs, hf, hac⟩ := h
  obtain ⟨o1, e1, hctx, ht⟩ := (blocks_geom_splice _ _ _ _ _ _).mp hg
  simp only [tiles] at ht
  obtain ⟨ho, hLpos, hL8, he⟩ := ht
  subst ho
  have hg' : blocks_geom (splice bpre b pre [⟨o, L, skind.free⟩] post bpost) :=
    (blocks_geom_splice _ _ _ _ _ _).mpr ⟨o, e1, hctx, by
      simp only [tiles]; exact ⟨trivial, hLpos, hL8, he⟩⟩
  obtain ⟨hfr, hfr', _, hnx⟩ := free_slot_at_single bpre b pre post bpost o L e1 hctx hLpos he
  have hil : i < SMMGR_NUM_CLASSES := by
    have := (List.getElem?_eq_some_iff.mp hl).1
    rw [hf.1] at this
    exact this
  obtain ⟨hdl, hnd, c, hc, hch, hct, hcc, hcs⟩ := hf.2.2.2.1 i l hl
  have hmem := hf.2.2.2.2 i l
  have hxl : b + o ∉ l.map Prod.fst := by
    intro hx
    obtain ⟨⟨y', Ly⟩, hyl, hy'⟩ := List.mem_map.mp hx
    simp only [] at hy'
    subst hy'
    obtain ⟨h1, h2, _⟩ := (hmem _ Ly hl).mp hyl
    have := hnx _ _ ((hfr' _ _).mp h1)
    omega
  have hm' : ∀ addr, (∀ y Ly, free_slot_at (splice bpre b pre [⟨o, L, skind.free⟩] post bpost)
      y Ly → 32 ≤ Ly → addr < y + 8 ∨ y + 24 ≤ addr) → m1 addr = m addr := by
    intro addr hadd
    apply hm
    · exact hadd (b + o) L ((hfr _ _).mpr (Or.inr ⟨rfl, rfl⟩)) h32
    · intro y hy
      obtain ⟨⟨y', Ly⟩, hyl, hy'⟩ := List.mem_map.mp hy
      simp only [] at hy'
      subst hy'
      obtain ⟨h1, h2, _⟩ := (hmem y' Ly hl).mp hyl
      exact hadd y' Ly ((hfr _ _).mpr (Or.inl ((hfr' _ _).mp h1))) h2
  have hs0 : slots_inv (splice bpre b pre [⟨o, L, skind.free⟩] post bpost) m := by
    rw [slots_inv_splice] at hs ⊢
    refine ⟨hs.1, ?_⟩
    intro s hs1
    rw [List.mem_singleton.mp hs1]
    exact hok
  have hb0 : blist_inv (splice bpre b pre [⟨o, L, skind.free⟩] post bpost) a m :=
    blist_inv_splice _ _ _ _ _ _ _ _ _ hb
  obtain ⟨hb1, hs1⟩ := heap_frame_links _ a m m1 hg' hm' hb0 hs0
  refine ⟨hg', ?_, hs1, ?_, ?_⟩
  · exact blist_inv_transfer _ _ a a1 m1 m1 hb1 rfl ⟨ha.1, ha.2.1, ha.2.2.1⟩
      (fun _ _ _ _ _ => rfl)
  · apply flist_inv_relist _ _ fl a a1 m m1 i (l ++ [(b + o, L)]) c1
      ⟨hf.1, hf.2.1, hf.2.2.1, hf.2.2.2.1, hf.2.2.2.2⟩ hil hmax hfs hc1 hdll
    · rw [List.map_append, List.nodup_append]
      refine ⟨hnd, List.nodup_singleton _, ?_⟩
      intro y hy1 hy2
      simp only [List.map_cons, List.map_nil, List.mem_singleton] at hy2
      rw [hy2] at hy1
      exact hxl hy1
    · intro x Lx
      rw [List.mem_append, hmem x Lx hl, hfr, hfr']
      simp only [List.mem_singleton, Prod.mk.injEq]
      constructor
      · rintro (⟨h1, h2, h3⟩ | ⟨h1, h2⟩)
        · exact ⟨Or.inl h1, h2, h3⟩
        · subst h1; subst h2
          exact ⟨Or.inr ⟨rfl, rfl⟩, h32, hi⟩
      · rintro ⟨h1 | h1, h2, h3⟩
        · exact Or.inl ⟨h1, h2, h3⟩
        · exact Or.inr h1
    · intro x Lx hLx hne
      rw [hfr, hfr']
      constructor
      · rintro (h1 | h1)
        · exact h1
        · rw [h1.2] at hne
          exact absurd hi hne
      · intro h1; exact Or.inl h1
    · intro x Lx hx hLx hne addr h1 h2
      have hx0 := (hfr' _ _).mp hx
      have hxd := hnx _ _ hx0
      apply hm
      · omega
      · intro y hy
        obtain ⟨⟨y', Ly⟩, hyl, hy'⟩ := List.mem_map.mp hy
        simp only [] at hy'
        subst hy'
        obtain ⟨h3, h4, h5⟩ := (hmem y' Ly hl).mp hyl
        obtain ⟨B, hB, s, hs2, _, hxe, hLe⟩ := hx
        obtain ⟨C, hC, t, ht2, _, hye, hLye⟩ := h3
        rcases slots_disjoint _ hg B C s t hB hC hs2 ht2 with ⟨e1', e2'⟩ | e | e
        · subst e1'; subst e2'
          rw [hLe] at hne
          rw [hLye] at h5
          exact absurd h5 hne
        · omega
        · omega
  · apply acct_inv_relist _ _ a a1 i c c1 hac hc hfs ha.2.2.2
    · rw [tiny_bytes_splice bpre b pre [⟨o, L, skind.free⟩],
        tiny_bytes_splice bpre b pre [⟨o, L, skind.hole⟩]]
      congr 1
      have hn : ¬ L < 32 := by omega
      simp [tiny_block, hn]
    · have hsum : c1.space = c.space + L := by
        rw [hc1.2.2.2, hcs]
        simp
      split_ifs at hacc ⊢ <;> omega


/-- Putting a free slot on its list: `do_smmgr_free_slot_link` turns a hole of
the description, initialised as a free slot, into a free slot, adds its length
to the counters of free bytes, and changes memory in its own link fields and
in those of other listed slots only. -/
theorem free_slot_link_spec (bpre : List gblock) (b : Nat) (pre post : List gslot)
    (bpost : List gblock) (fl : List (List (Nat × Nat))) (a a1 : sm_anchor_t)
    (m m1 : Nat → Nat) (o L : Nat)
    (h : heap_inv (splice bpre b pre [⟨o, L, skind.hole⟩] post bpost) fl a m)
    (hok : slot_ok m b ⟨o, L, skind.free⟩)
    (hbd : a.free_small_space + a.free_avail_space + L < 2 ^ 64)
    (hr : do_smmgr_free_slot_link a m (b + o) = some (a1, m1)) :
    ∃ fl1, heap_inv (splice bpre b pre [⟨o, L, skind.free⟩] post bpost) fl1 a1 m1 ∧
      a1.free_small_space + a1.free_avail_space
        = a.free_small_space + a.free_avail_space + L ∧
      (∀ addr, (addr < b + o + 8 ∨ b + o + 24 ≤ addr) →
        (∀ y Ly, free_slot_at (splice bpre b pre [] post bpost) y Ly → 32 ≤ Ly →
          addr < y + 8 ∨ y + 24 ≤ addr) → m1 addr = m addr) := by
  have h0 := h
  obtain ⟨hg, hb, hs, hf, hac⟩ := h
  obtain ⟨o1, e1, hctx, ht⟩ := (blocks_geom_splice _ _ _ _ _ _).mp hg
  simp only [tiles] at ht
  obtain ⟨ho, hLpos, hL8, he⟩ := ht
  subst ho
  obtain ⟨hfr, hfr', _, hnx⟩ := free_slot_at_single bpre b pre post bpost o L e1 hctx hLpos he
  have hok0 := hok
  unfold slot_ok at hok
  simp only [] at hok
  obtain ⟨hst, hof, hlen, hto, htl⟩ := hok
  have hg' : blocks_geom (splice bpre b pre [⟨o, L, skind.free⟩] post bpost) :=
    (blocks_geom_splice _ _ _ _ _ _).mpr ⟨o, e1, hctx, by
      simp only [tiles]; exact ⟨trivial, hLpos, hL8, he⟩⟩
  unfold do_smmgr_free_slot_link at hr
  simp only [] at hr
  rw [hlen] at hr
  by_cases h32 : L < 32
  · rw [if_pos (by simp only [SMMGR_MIN_SLOT_SIZE]; omega)] at hr
    cases hr
    have htiny : tiny_bytes (splice bpre b pre [⟨o, L, skind.free⟩] post bpost)
        = tiny_bytes (splice bpre b pre [⟨o, L, skind.hole⟩] post bpost) + L := by
      rw [tiny_bytes_splice bpre b pre [⟨o, L, skind.hole⟩],
        tiny_bytes_splice bpre b pre [⟨o, L, skind.free⟩]]
      simp [tiny_block, h32]
    have hw : wrap64 (a.free_small_space + L) = a.free_small_space + L := by
      unfold wrap64
      exact Nat.mod_eq_of_lt (by omega)
    refine ⟨fl, ⟨hg', ?_, ?_, ?_, ?_⟩, ?_, fun _ _ _ => rfl⟩
    · exact blist_inv_transfer _ _ a _ m m (blist_inv_splice _ _ _ _ _ _ _ _ _ hb) rfl
        ⟨rfl, rfl, rfl⟩ (fun _ _ _ _ _ => rfl)
    · rw [slots_inv_splice] at hs ⊢
      refine ⟨hs.1, ?_⟩
      intro s hs1
      rw [List.mem_singleton.mp hs1]
      exact hok0
    · apply flist_inv_transfer _ _ fl a _ m m hf rfl hf.2.2.1
      · intro x Lx hLx
        rw [hfr, hfr']
        constructor
        · rintro (h1 | h1)
          · exact h1
          · omega
        · intro h1; exact Or.inl h1
      · intro _ _ _ _ _ _ _; rfl
    · unfold acct_inv at *
      simp only []
      rw [hw]
      refine ⟨hac.1, ?_⟩
      omega
    · simp only []
      rw [hw]
      omega
  · have h32' : 32 ≤ L := by omega
    rw [if_neg (by simp only [SMMGR_MIN_SLOT_SIZE]; omega)] at hr
    obtain ⟨i, hi1024, hmid, _, _⟩ := memid_nat L
    rw [hmid] at hr
    have hil : i < SMMGR_NUM_CLASSES := by simp only [SMMGR_NUM_CLASSES]; omega
    have hfl : i < fl.length := by rw [hf.1]; exact hil
    obtain ⟨l, hl⟩ : ∃ l, fl[i]? = some l := ⟨fl[i], List.getElem?_eq_getElem hfl⟩
    obtain ⟨hdl, hnd, c, hc, hch, hct, hcc, hcs⟩ := hf.2.2.2.1 i l hl
    have hmem := hf.2.2.2.2 i l
    have hxl : b + o ∉ l.map Prod.fst := by
      intro hx
      obtain ⟨⟨y', Ly⟩, hyl, hy'⟩ := List.mem_map.mp hx
      simp only [] at hy'
      subst hy'
      obtain ⟨h1, h2, _⟩ := (hmem _ Ly hl).mp hyl
      have := hnx _ _ ((hfr' _ _).mp h1)
      omega
    have hsep : dll_sep ((l ++ [(b + o, L)]).map Prod.fst) := by
      apply flist_sep _ hg' (l ++ [(b + o, L)])
      · rw [List.map_append, List.nodup_append]
        refine ⟨hnd, List.nodup_singleton _, ?_⟩
        intro y hy1 hy2
        simp only [List.map_cons, List.map_nil, List.mem_singleton] at hy2
        rw [hy2] at hy1
        exact hxl hy1
      · intro x Lx hx
        rcases List.mem_append.mp hx with h1 | h1
        · obtain ⟨h2, h3, _⟩ := (hmem x Lx hl).mp h1
          exact ⟨(hfr _ _).mpr (Or.inl ((hfr' _ _).mp h2)), h3⟩
        · simp only [List.mem_singleton, Prod.mk.injEq] at h1
          rw [h1.1, h1.2]
          exact ⟨(hfr _ _).mpr (Or.inr ⟨rfl, rfl⟩), h32'⟩
    have hxv : 0 < b + o ∧ b + o + 24 < 2 ^ 64 := hsep.2.1 (b + o) (by simp)
    have hspace : c.space ≤ a.free_small_space + a.free_avail_space := by
      unfold acct_inv at hac
      by_cases hlt : i < a.used_maxid.toNat
      · have : c.space ≤ slist_space_sum (a.free_slist.take a.used_maxid.toNat) :=
          le_sum_map (fun x => x.space) _ i c (by
            rw [List.getElem?_take, if_pos hlt]; exact hc)
        omega
      · have : c.space ≤ slist_space_sum (a.free_slist.drop a.used_maxid.toNat) :=
          le_sum_map (fun x => x.space) _ (i - a.used_maxid.toNat) c (by
            rw [List.getElem?_drop, ← hc]; congr 1; omega)
        omega
    have hcnt : c.count ≤ c.space := by
      rw [hcc, hcs]
      have : ∀ (l' : List (Nat × Nat)), (∀ p, p ∈ l' → 32 ≤ p.2) →
          l'.length ≤ (l'.map Prod.snd).sum := by
        intro l'
        induction l' with
        | nil => intro _; simp
        | cons p l' ih =>
          intro hp
          have h1 := hp p (List.mem_cons_self _ _)
          have h2 := ih (fun q hq => hp q (List.mem_cons_of_mem _ hq))
          simp only [List.length_cons, List.map_cons, List.sum_cons]
          omega
      exact this l (fun p hp => ((hmem p.1 p.2 hl).mp hp).2.1)
    have hlnil : c.head = 0 ↔ l = [] := by
      rw [hch]
      cases l with
      | nil => simp
      | cons p l' =>
        have := (flist_sep _ hg (p :: l') hnd
          (fun x Lx hx => ⟨((hmem x Lx hl).mp hx).1, ((hmem x Lx hl).mp hx).2.1⟩)).2.1 p.1
          (by simp)
        simp only [List.map_cons, List.head?_cons, Option.getD_some, reduceCtorEq, iff_false]
        omega
    rw [slist_at_nat, hc] at hr
    simp only [] at hr
    -- the common end: the counters of free bytes
    have hfin : ∀ (a2 : sm_anchor_t) (m2 : Nat → Nat) (c1 : sm_slist_t),
        a2.used_blist = a.used_blist ∧ a2.blck_tsize = a.blck_tsize ∧
          a2.blck_bsize = a.blck_bsize ∧ a2.used_maxid = a.used_maxid →
        a2.free_maxid ≤ 1023 → a2.free_slist = a.free_slist.set i c1 →
        a2.free_small_space = a.free_small_space → a2.free_avail_space = a.free_avail_space →
        (c1.head = (((l ++ [(b + o, L)]).map Prod.fst).head?).getD 0 ∧
          c1.tail = (((l ++ [(b + o, L)]).map Prod.fst).getLast?).getD 0 ∧
          c1.count = (l ++ [(b + o, L)]).length ∧
          c1.space = ((l ++ [(b + o, L)]).map Prod.snd).sum) →
        dll 8 m2 ((l ++ [(b + o, L)]).map Prod.fst) →
        (∀ addr, (addr < b + o + 8 ∨ b + o + 24 ≤ addr) →
          (∀ y, y ∈ l.map Prod.fst → addr < y + 8 ∨ y + 24 ≤ addr) → m2 addr = m addr) →
        (if (i : Int) < a2.used_maxid then
            some ({ a2 with free_small_space :=
                      wrap64 (a2.free_small_space + slot_length m2 (b + o)) }, m2)
          else
            some ({ a2 with free_avail_space :=
                      wrap64 (a2.free_avail_space + slot_length m2 (b + o)) }, m2))
          = some (a1, m1) →
        ∃ fl1, heap_inv (splice bpre b pre [⟨o, L, skind.free⟩] post bpost) fl1 a1 m1 ∧
          a1.free_small_space + a1.free_avail_space
            = a.free_small_space + a.free_avail_space + L ∧
          (∀ addr, (addr < b + o + 8 ∨ b + o + 24 ≤ addr) →
            (∀ y Ly, free_slot_at (splice bpre b pre [] post bpost) y Ly → 32 ≤ Ly →
              addr < y + 8 ∨ y + 24 ≤ addr) → m1 addr = m addr) := by
      intro a2 m2 c1 ha2 hmax2 hfs2 es ea hc1 hdll2 hm2 hres
      have hlen2 : slot_length m2 (b + o) = L := by
        rw [← hlen]
        apply load_congr
        intro x hx1 hx2
        apply hm2 x (by omega)
        intro y hy
        have := hsep.2.2 (b + o) y (by simp) (by
          rw [List.map_append]; exact List.mem_append_left _ hy)
        have hne : b + o ≠ y := fun e => hxl (e ▸ hy)
        omega
      rw [hlen2, ha2.2.2.2] at hres
      have hframe : ∀ addr, (addr < b + o + 8 ∨ b + o + 24 ≤ addr) →
          (∀ y Ly, free_slot_at (splice bpre b pre [] post bpost) y Ly → 32 ≤ Ly →
            addr < y + 8 ∨ y + 24 ≤ addr) → m2 addr = m addr := by
        intro addr h1 h2
        apply hm2 addr h1
        intro y hy
        obtain ⟨⟨y', Ly⟩, hyl, hy'⟩ := List.mem_map.mp hy
        simp only [] at hy'
        subst hy'
        obtain ⟨h3, h4, _⟩ := (hmem y' Ly hl).mp hyl
        exact h2 y' Ly ((hfr' _ _).mp h3) h4
      by_cases hlt : (i : Int) < a.used_maxid
      · rw [if_pos hlt] at hres
        cases hres
        refine ⟨_, heap_inv_linked bpre b pre post bpost fl a _ m m1 o L i l c1 h0 hok0 hmid
          h32' hl ⟨ha2.1, ha2.2.1, ha2.2.2.1, rfl⟩ hmax2 hfs2 hc1 hdll2 hm2 ?_, ?_, hframe⟩
        · rw [if_pos hlt]
          simp only []
          rw [es, ea]
          unfold wrap64
          exact ⟨Nat.mod_eq_of_lt (by omega), rfl⟩
        · simp only []
          rw [es, ea]
          unfold wrap64
          rw [Nat.mod_eq_of_lt (by omega)]
          omega
      · rw [if_neg hlt] at hres
        cases hres
        refine ⟨_, heap_inv_linked bpre b pre post bpost fl a _ m m1 o L i l c1 h0 hok0 hmid
          h32' hl ⟨ha2.1, ha2.2.1, ha2.2.2.1, rfl⟩ hmax2 hfs2 hc1 hdll2 hm2 ?_, ?_, hframe⟩
        · rw [if_neg hlt]
          simp only []
          rw [es, ea]
          unfold wrap64
          exact ⟨rfl, Nat.mod_eq_of_lt (by omega)⟩
        · simp only []
          rw [es, ea]
          unfold wrap64
          rw [Nat.mod_eq_of_lt (by omega)]
          omega
    have hone : ((l ++ [(b + o, L)]).map Prod.snd).sum = (l.map Prod.snd).sum + L := by
      simp
    by_cases hh : c.head = 0
    · rw [if_pos hh] at hr
      have hl0 : l = [] := hlnil.mp hh
      by_cases has : c.tail = 0 ∧ c.count = 0 ∧ c.space = 0
      · rw [if_pos has, slist_store_nat a.free_slist i _ (by rw [hf.2.1]; exact hil)] at hr
        simp only [] at hr
        have hlen2 : slot_length (set_slot_next (set_slot_prev m (b + o) 0) (b + o) 0) (b + o)
            = L := by
          rw [← hlen]
          unfold slot_length set_slot_next set_slot_prev
          rw [load_store_disjoint _ _ _ _ _ _ (by omega),
            load_store_disjoint _ _ _ _ _ _ (by omega)]
        obtain ⟨d1, d2, d3, d4, d5, d6⟩ := free_slot_list_add_frame
          { a with free_slist := (a.free_slist.set i
              ({ head := b + o, tail := b + o,
                 space := slot_length (set_slot_next (set_slot_prev m (b + o) 0) (b + o) 0)
                   (b + o), count := 1 } : sm_slist_t)) } (i : Int) hf.2.2.1
        refine hfin _ _ _ ⟨d3, d6.2.2.2.2.2.2.1, d6.2.2.2.2.2.2.2, d6.2.2.2.1⟩ d1 d2 d4 d5
          ?_ ?_ ?_ hr
        · rw [hl0, hlen2]
          exact ⟨rfl, rfl, rfl, by simp⟩
        · rw [hl0]
          exact dll_singleton 8 m (b + o)
        · intro addr h1 _
          unfold set_slot_next set_slot_prev
          rw [store_outside _ _ _ _ _ (by omega), store_outside _ _ _ _ _ (by omega)]
      · rw [if_neg has] at hr
        cases hr
    · rw [if_neg hh] at hr
      have hl0 : l ≠ [] := fun e => hh (hlnil.mpr e)
      have hlpos : 0 < l.length := List.length_pos.mpr hl0
      by_cases has : c.tail ≠ 0 ∧ c.count > 0 ∧ c.space > 0
      · rw [if_pos has, slist_store_nat a.free_slist i _ (by rw [hf.2.1]; exact hil)] at hr
        simp only [] at hr
        have hlast : (l.map Prod.fst).getLast? = some c.tail := by
          rw [hct, List.getLast?_eq_getElem?, List.length_map,
            List.getElem?_eq_getElem (by rw [List.length_map]; omega)]
          rfl
        have htm : c.tail ∈ l.map Prod.fst := List.mem_of_mem_getLast? hlast
        have htv := hsep.2.1 c.tail (by rw [List.map_append]; exact List.mem_append_left _ htm)
        have htx := hsep.2.2 (b + o) c.tail (by simp)
          (by rw [List.map_append]; exact List.mem_append_left _ htm)
        have hne : b + o ≠ c.tail := fun e => hxl (e ▸ htm)
        have hprev : slot_prev (set_slot_next (set_slot_prev m (b + o) c.tail) (b + o) 0) (b + o)
            = c.tail := by
          unfold slot_prev set_slot_next set_slot_prev
          rw [load_store_disjoint _ _ _ _ _ _ (by omega), load_store_eq _ _ _ _ (by omega)]
        rw [hprev] at hr
        have hlen3 : slot_length
            (set_slot_next (set_slot_next (set_slot_prev m (b + o) c.tail) (b + o) 0) c.tail
              (b + o)) (b + o) = L := by
          rw [← hlen]
          unfold slot_length set_slot_next set_slot_prev
          rw [load_store_disjoint _ _ _ _ _ _ (by omega),
            load_store_disjoint _ _ _ _ _ _ (by omega),
            load_store_disjoint _ _ _ _ _ _ (by omega)]
        have hda := dll_append 8 m (l.map Prod.fst) (b + o) c.tail hdl
          (by rw [List.map_append] at hsep; exact hsep) hlast
        have hrd : load 8 (store 8 (store 8 m (b + o + 8) c.tail) (b + o + (8 + 8)) 0)
            (b + o + 8) = c.tail := by
          rw [load_store_disjoint _ _ _ _ _ _ (by omega), load_store_eq _ _ _ _ (by omega)]
        rw [hrd] at hda
        refine hfin
          { a with free_slist := (a.free_slist.set i
              ({ c with tail := b + o,
                        space := wrap64 (c.space + slot_length
                          (set_slot_next (set_slot_next (set_slot_prev m (b + o) c.tail)
                            (b + o) 0) c.tail (b + o)) (b + o)),
                        count := wrap64 (c.count + 1) } : sm_slist_t)) }
          (set_slot_next (set_slot_next (set_slot_prev m (b + o) c.tail) (b + o) 0) c.tail
            (b + o))
          { c with tail := b + o,
                   space := wrap64 (c.space + slot_length
                     (set_slot_next (set_slot_next (set_slot_prev m (b + o) c.tail)
                       (b + o) 0) c.tail (b + o)) (b + o)),
                   count := wrap64 (c.count + 1) }
          ⟨rfl, rfl, rfl, rfl⟩ hf.2.2.1 rfl rfl rfl ?_ ?_ ?_ hr
        · simp only []
          rw [hlen3, List.map_append, List.length_append, hone]
          refine ⟨?_, ?_, ?_, ?_⟩
          · rw [hch, List.head?_append_of_ne_nil _ (by simpa using hl0)]
          · simp
          · unfold wrap64
            rw [Nat.mod_eq_of_lt (by omega), hcc]
            rfl
          · unfold wrap64
            rw [Nat.mod_eq_of_lt (by omega), hcs]
        · rw [List.map_append]
          exact hda
        · intro addr h1 h2
          have := h2 c.tail htm
          unfold set_slot_next set_slot_prev
          rw [store_outside _ _ _ _ _ (by omega), store_outside _ _ _ _ _ (by omega),
            store_outside _ _ _ _ _ (by omega)]
      · rw [if_neg has] at hr
        cases hr

/-- The function `do_smmgr_free_slot_init` on the slot at offset `o` of the
block at `b` leaves a well-formed free slot of length `L` and writes only into
the first 8 and the last 4 bytes of the slot. -/
theorem free_slot_init_spec (m : Nat → Nat) (b o L : Nat) (hL : 8 ≤ L) (h8 : 8 ∣ L)
    (ho : o < 65536) (hL2 : L < 65536) :
    slot_ok (do_smmgr_free_slot_init m (b + o) o L) b ⟨o, L, skind.free⟩ ∧
    (∀ addr, addr < b + o ∨ b + o + L ≤ addr ∨ (b + o + 8 ≤ addr ∧ addr + 4 < b + o + L) →
      do_smmgr_free_slot_init m (b + o) o L addr = m addr) := by
  have e2 : (256 : Nat) ^ 2 = 65536 := by norm_num
  have e4 : (0 : Nat) < 256 ^ 4 := by norm_num
  constructor
  · simp only [slot_ok, do_smmgr_free_slot_init, slot_status, slot_offset, slot_length,
      tail_offset, tail_length, set_tail_offset, set_tail_length, set_slot_status,
      set_slot_offset, set_slot_length, sizeof_sm_tail_t]
    refine ⟨?_, ?_, ?_, ?_, ?_⟩
    · rw [load_store_disjoint _ _ _ _ _ _ (by omega), load_store_disjoint _ _ _ _ _ _ (by omega),
        load_store_eq _ _ _ _ e4]
    · rw [load_store_disjoint _ _ _ _ _ _ (by omega), load_store_eq _ _ _ _ (by omega)]
    · rw [load_store_eq _ _ _ _ (by omega)]
    · by_cases hc : L = 8
      · subst hc
        have : b + o + 8 - 4 = b + o + 4 := by omega
        rw [this, load_store_disjoint _ _ _ _ _ _ (by omega), load_store_eq _ _ _ _ (by omega)]
      · have h16 : 16 ≤ L := by omega
        rw [load_store_disjoint _ _ _ _ _ _ (by omega), load_store_disjoint _ _ _ _ _ _ (by omega),
          load_store_disjoint _ _ _ _ _ _ (by omega), load_store_disjoint _ _ _ _ _ _ (by omega),
          load_store_eq _ _ _ _ (by omega)]
    · by_cases hc : L = 8
      · subst hc
        have : b + o + 8 - 4 + 2 = b + o + 6 := by omega
        rw [this, load_store_eq _ _ _ _ (by omega)]
      · have h16 : 16 ≤ L := by omega
        rw [load_store_disjoint _ _ _ _ _ _ (by omega), load_store_disjoint _ _ _ _ _ _ (by omega),
          load_store_disjoint _ _ _ _ _ _ (by omega), load_store_eq _ _ _ _ (by omega)]
        omega
  · intro addr ha
    simp only [do_smmgr_free_slot_init, set_tail_offset, set_tail_length, set_slot_status,
      set_slot_offset, set_slot_length, sizeof_sm_tail_t]
    rw [store_outside _ _ _ _ _ (by omega), store_outside _ _ _ _ _ (by omega),
      store_outside _ _ _ _ _ (by omega), store_outside _ _ _ _ _ (by omega),
      store_outside _ _ _ _ _ (by omega)]

/-- The function `do_smmgr_used_slot_init` on the slot at offset `o` of the
block at `b` leaves a well-formed used slot of length `L` and writes only into
the first 4 and the last 4 bytes of the slot. -/
theorem used_slot_init_spec (m : Nat → Nat) (b o L : Nat) (hL : 32 ≤ L)
    (ho : o < 65536) (hL2 : L < 65536) :
    slot_ok (do_smmgr_used_slot_init m (b + o) o L) b ⟨o, L, skind.used⟩ ∧
    (∀ addr, addr < b + o ∨ b + o + L ≤ addr ∨ (b + o + 4 ≤ addr ∧ addr + 4 < b + o + L) →
      do_smmgr_used_slot_init m (b + o) o L addr = m addr) := by
  have e2 : (256 : Nat) ^ 2 = 65536 := by norm_num
  have e4 : (2 : Nat) ^ 32 - 1 < 256 ^ 4 := by norm_num
  constructor
  · simp only [slot_ok, do_smmgr_used_slot_init, slot_status, tail_offset, tail_length,
      set_tail_offset, set_tail_length, set_slot_status, sizeof_sm_tail_t]
    refine ⟨hL, ?_, ?_, ?_⟩
    · rw [load_store_eq _ _ _ _ e4]
      norm_num
    · rw [load_store_disjoint _ _ _ _ _ _ (by omega), load_store_disjoint _ _ _ _ _ _ (by omega),
        load_store_eq _ _ _ _ (by omega)]
    · rw [load_store_disjoint _ _ _ _ _ _ (by omega), load_store_eq _ _ _ _ (by omega)]
  · intro addr ha
    simp only [do_smmgr_used_slot_init, set_tail_offset, set_tail_length, set_slot_status,
      sizeof_sm_tail_t]
    rw [store_outside _ _ _ _ _ (by omega), store_outside _ _ _ _ _ (by omega),
      store_outside _ _ _ _ _ (by omega)]

/-- The invariant is kept when the list of blocks changes: the new description
satisfies the geometry and the list of used blocks by itself, its slots that
are not holes are slots of the old description, the free slots and the short
free bytes are the same, the anchor keeps its free lists and counters, and
memory is unchanged in the bodies of the old blocks. -/
theorem heap_inv_reblock (bs bs' : List gblock) (fl : List (List (Nat × Nat)))
    (a a' : sm_anchor_t) (m m' : Nat → Nat)
    (h : heap_inv bs fl a m) (hg : blocks_geom bs') (hb : blist_inv bs' a' m')
    (hsl : ∀ B, B ∈ bs' → B ∈ bs ∨ ∀ s, s ∈ B.slots → s.kind = skind.hole)
    (hfree : ∀ x L, free_slot_at bs' x L ↔ free_slot_at bs x L)
    (htiny : tiny_bytes bs' = tiny_bytes bs)
    (hm : ∀ B, B ∈ bs → ∀ addr, B.base + 24 ≤ addr → addr < B.base + 65536 →
      m' addr = m addr)
    (ha : a'.free_slist = a.free_slist ∧ a'.free_maxid = a.free_maxid ∧
      a'.used_maxid = a.used_maxid ∧ a'.free_small_space = a.free_small_space ∧
      a'.free_avail_space = a.free_avail_space) :
    heap_inv bs' fl a' m' := by
  obtain ⟨h1, h2, h3, h4, h5⟩ := h
  refine ⟨hg, hb, ?_, ?_, ?_⟩
  · intro B hB s hs
    rcases hsl B hB with hin | hh
    · have hbd := slot_bounds bs h1 B s hin hs
      have h8 : 8 ≤ s.len := by
        obtain ⟨c, hc⟩ := hbd.2.2.2.2.2
        omega
      exact slot_ok_frame m m' B.base s (h3 B hin s hs) h8
        (fun x hx1 hx2 => hm B hin x (by omega) (by omega))
        (fun x hx1 hx2 => hm B hin x (by omega) (by omega))
    · unfold slot_ok
      rw [hh s hs]
      trivial
  · refine flist_inv_transfer bs bs' fl a a' m m' h4 ha.1 (by rw [ha.2.1]; exact h4.2.2.1)
      (fun x L _ => hfree x L) ?_
    intro x L hx hL addr h6 h7
    obtain ⟨B, hB, s, hs, hk, hxe, hLe⟩ := hx
    have hbd := slot_bounds bs h1 B s hB hs
    exact hm B hB addr (by omega) (by omega)
  · unfold acct_inv at *
    rw [ha.1, ha.2.2.1, ha.2.2.2.1, ha.2.2.2.2, htiny]
    exact h5

/-- The free slots of a description with one more block, all of whose slots
are holes, are those of the description without it. -/
theorem free_slot_at_hole_block (bpre bpost : List gblock) (b : Nat) (ss : List gslot)
    (hss : ∀ s, s ∈ ss → s.kind = skind.hole) (x L : Nat) :
    free_slot_at (bpre ++ { base := b, slots := ss } :: bpost) x L ↔
      free_slot_at (bpre ++ bpost) x L := by
  unfold free_slot_at
  constructor
  · rintro ⟨B, hB, s, hs, hk, hx, hL⟩
    rcases List.mem_append.mp hB with hB | hB
    · exact ⟨B, List.mem_append_left _ hB, s, hs, hk, hx, hL⟩
    · rcases List.mem_cons.mp hB with hB | hB
      · subst hB
        have := hss s hs
        rw [this] at hk
        cases hk
      · exact ⟨B, List.mem_append_right _ hB, s, hs, hk, hx, hL⟩
  · rintro ⟨B, hB, s, hs, hk, hx, hL⟩
    rcases List.mem_append.mp hB with hB | hB
    · exact ⟨B, List.mem_append_left _ hB, s, hs, hk, hx, hL⟩
    · exact ⟨B, List.mem_append_right _ (List.mem_cons_of_mem _ hB), s, hs, hk, hx, hL⟩

/-- A block all of whose slots are holes holds no short free byte. -/
theorem tiny_bytes_hole_block (bpre bpost : List gblock) (b : Nat) (ss : List gslot)
    (hss : ∀ s, s ∈ ss → s.kind = skind.hole) :
    tiny_bytes (bpre ++ { base := b, slots := ss } :: bpost) = tiny_bytes (bpre ++ bpost) := by
  unfold tiny_bytes
  have : tiny_block ss = 0 := by
    apply tiny_block_no_free
    intro s hs
    rw [hss s hs]
    decide
  simp [this]

/-- The function `do_smmgr_used_blck_link` appends a block to the description:
the new block, away from all others, comes as one hole over its body. The
function writes only into the header of the new block and into the header of
the block that was last. -/
theorem used_blck_link_spec (bs : List gblock) (fl : List (List (Nat × Nat)))
    (a : sm_anchor_t) (m : Nat → Nat) (blck : Nat)
    (h : heap_inv bs fl a m) (hb0 : 0 < blck) (hb1 : blck + 65536 < 2 ^ 64)
    (hfresh : ∀ B, B ∈ bs → B.base + 65536 ≤ blck ∨ blck + 65536 ≤ B.base)
    (hcnt : a.used_blist.count + 1 < 2 ^ 64) :
    heap_inv (splice bs blck [] [⟨24, 65512, skind.hole⟩] [] []) fl
      (do_smmgr_used_blck_link a m blck).1 (do_smmgr_used_blck_link a m blck).2 ∧
    (do_smmgr_used_blck_link a m blck).1
      = { a with used_blist := (do_smmgr_used_blck_link a m blck).1.used_blist } := by
  obtain ⟨hg, hbl, hsl, hfl, hac⟩ := id h
  obtain ⟨hts, hbz, hdll, hhead, htail, hcount⟩ := hbl
  have hw : wrap64 (a.used_blist.count + 1) = bs.length + 1 := by
    unfold wrap64
    rw [Nat.mod_eq_of_lt hcnt, hcount]
  have hbase : ∀ x, x ∈ bs.map gblock.base → 0 < x ∧ x + 65536 < 2 ^ 64 ∧
      (x + 65536 ≤ blck ∨ blck + 65536 ≤ x) := by
    intro x hx
    obtain ⟨B, hB, rfl⟩ := List.mem_map.mp hx
    exact ⟨(hg.1 B hB).1, (hg.1 B hB).2.1, hfresh B hB⟩
  have hmap : (splice bs blck [] [⟨24, 65512, skind.hole⟩] [] []).map gblock.base
      = bs.map gblock.base ++ [blck] := by
    rw [splice_map_base]
    rfl
  have hlen : (splice bs blck [] [⟨24, 65512, skind.hole⟩] [] []).length = bs.length + 1 := by
    rw [splice_length]
    rfl
  -- the geometry of the new description
  have hg' : blocks_geom (splice bs blck [] [⟨24, 65512, skind.hole⟩] [] []) := by
    constructor
    · intro B hB
      rcases (mem_splice _ _ _ _ _ _ _).mp hB with hB | hB
      · rw [List.append_nil] at hB
        exact hg.1 B hB
      · subst hB
        refine ⟨hb0, hb1, ?_⟩
        show tiles 24 [⟨24, 65512, skind.hole⟩] 65536
        simp [tiles]
        decide
    · show (bs ++ [_]).Pairwise _
      rw [List.pairwise_append]
      refine ⟨hg.2, List.pairwise_singleton _ _, ?_⟩
      intro B hB C hC
      rw [List.mem_singleton] at hC
      subst hC
      exact hfresh B hB
  -- the two stores into the padding of the header
  have hdll2 : dll 0 (store 4 (store 4 m (blck + 16) 0) (blck + 20) 0) (bs.map gblock.base) := by
    apply dll_frame 0 m _ _ hdll
    intro x hx addr h1 h2
    have := hbase x hx
    rw [store_outside _ _ _ _ _ (by omega), store_outside _ _ _ _ _ (by omega)]
  have hbody : ∀ B, B ∈ bs → ∀ addr, B.base + 24 ≤ addr → addr < B.base + 65536 →
      (do_smmgr_used_blck_link a m blck).2 addr = m addr := by
    intro B hB addr h1 h2
    have hB1 := hfresh B hB
    unfold do_smmgr_used_blck_link
    simp only [set_blck_prev, set_blck_next, blck_prev]
    by_cases hh : a.used_blist.head = 0
    · rw [if_pos hh]
      simp only []
      rw [store_outside _ _ _ _ _ (by omega), store_outside _ _ _ _ _ (by omega),
        store_outside _ _ _ _ _ (by omega), store_outside _ _ _ _ _ (by omega)]
    · rw [if_neg hh]
      simp only []
      have hne : bs ≠ [] := by
        intro e
        rw [e] at hhead
        exact hh hhead
      obtain ⟨t, ht⟩ : ∃ t, (bs.map gblock.base).getLast? = some t := by
        cases hq : (bs.map gblock.base).getLast? with
        | none =>
          rw [List.getLast?_eq_none_iff] at hq
          simp at hq
          exact absurd hq hne
        | some t => exact ⟨t, rfl⟩
      have htm : t ∈ bs.map gblock.base := List.mem_of_getLast?_eq_some ht
      obtain ⟨T, hT, hTe⟩ := List.mem_map.mp htm
      have hrd : load 8 (store 8 (store 8 (store 4 (store 4 m (blck + 16) 0) (blck + 20) 0)
          blck a.used_blist.tail) (blck + 8) 0) blck = t := by
        rw [load_store_disjoint _ _ _ _ _ _ (by omega), load_store_eq _ _ _ _ _]
        · rw [htail, ht]
          rfl
        · rw [htail, ht]
          have := hbase t htm
          show t < 256 ^ 8
          norm_num
          omega
      rw [hrd]
      have hd := blocks_geom_base bs hg T B hT hB
      have hT1 := hbase t htm
      have hout : addr < t + 8 ∨ t + 8 + 8 ≤ addr := by
        rw [← hTe]
        rcases hd with e | e | e
        · subst e
          omega
        · omega
        · omega
      rw [store_outside _ _ _ _ _ hout,
        store_outside _ _ _ _ _ (by omega), store_outside _ _ _ _ _ (by omega),
        store_outside _ _ _ _ _ (by omega), store_outside _ _ _ _ _ (by omega)]
  have hb' : blist_inv (splice bs blck [] [⟨24, 65512, skind.hole⟩] [] [])
      (do_smmgr_used_blck_link a m blck).1 (do_smmgr_used_blck_link a m blck).2 := by
    unfold blist_inv
    rw [hmap, hlen]
    unfold do_smmgr_used_blck_link
    simp only [set_blck_prev, set_blck_next, blck_prev]
    by_cases hh : a.used_blist.head = 0
    · rw [if_pos hh]
      simp only []
      have hnil : bs = [] := by
        cases bs with
        | nil => rfl
        | cons B0 rest =>
          exfalso
          have := (hg.1 B0 (List.mem_cons_self _ _)).1
          rw [hh] at hhead
          simp at hhead
          omega
      subst hnil
      have ht0 : a.used_blist.tail = 0 := htail
      rw [ht0]
      refine ⟨hts, hbz, ?_, rfl, rfl, ?_⟩
      · exact dll_singleton 0 _ blck
      · exact hw
    · rw [if_neg hh]
      simp only []
      have hne : bs ≠ [] := by
        intro e
        rw [e] at hhead
        exact hh hhead
      obtain ⟨t, ht⟩ : ∃ t, (bs.map gblock.base).getLast? = some t := by
        cases hq : (bs.map gblock.base).getLast? with
        | none =>
          rw [List.getLast?_eq_none_iff] at hq
          simp at hq
          exact absurd hq hne
        | some t => exact ⟨t, rfl⟩
      have ht' : a.used_blist.tail = t := by
        rw [htail, ht]
        rfl
      rw [ht']
      have hsep : dll_sep (bs.map gblock.base ++ [blck]) := by
        refine ⟨?_, ?_, ?_⟩
        · rw [← hmap]
          show List.Pairwise (fun x y => x ≠ y) _
          refine List.pairwise_map.mpr (List.Pairwise.imp ?_ hg'.2)
          intro x y hxy e
          omega
        · intro x hx
          rcases List.mem_append.mp hx with hx | hx
          · have := hbase x hx
            omega
          · rw [List.mem_singleton] at hx
            omega
        · intro x y hx hy
          have key : ∀ u v, u ∈ bs.map gblock.base ++ [blck] → v ∈ bs.map gblock.base ++ [blck] →
              u = v ∨ u + 65536 ≤ v ∨ v + 65536 ≤ u := by
            intro u v hu hv
            rw [← hmap] at hu hv
            obtain ⟨U, hU, rfl⟩ := List.mem_map.mp hu
            obtain ⟨V, hV, rfl⟩ := List.mem_map.mp hv
            rcases blocks_geom_base _ hg' U V hU hV with e | e | e
            · left; rw [e]
            · right; left; exact e
            · right; right; exact e
          rcases key x y hx hy with e | e | e
          · left; exact e
          · right; left; omega
          · right; right; omega
      have hda := dll_append 0 _ (bs.map gblock.base) blck t hdll2 hsep ht
      refine ⟨hts, hbz, hda, ?_, ?_, ?_⟩
      · show a.used_blist.head = _
        rw [hhead]
        cases hq : bs.map gblock.base with
        | nil => simp at hq; exact absurd hq hne
        | cons x r => rfl
      · simp
      · show wrap64 (a.used_blist.count + 1) = _
        exact hw
  refine ⟨?_, ?_⟩
  · refine heap_inv_reblock bs _ fl a _ m _ h hg' hb' ?_ ?_ ?_ hbody ?_
    · intro B hB
      rcases (mem_splice _ _ _ _ _ _ _).mp hB with hB | hB
      · rw [List.append_nil] at hB
        exact Or.inl hB
      · right
        subst hB
        intro s hs
        simp at hs
        rw [hs]
    · intro x L
      have := free_slot_at_hole_block bs [] blck [⟨24, 65512, skind.hole⟩]
        (by intro s hs; simp at hs; rw [hs]) x L
      rw [List.append_nil] at this
      exact this
    · have := tiny_bytes_hole_block bs [] blck [⟨24, 65512, skind.hole⟩]
        (by intro s hs; simp at hs; rw [hs])
      rw [List.append_nil] at this
      exact this
    · unfold do_smmgr_used_blck_link
      simp only []
      by_cases hh : a.used_blist.head = 0
      · rw [if_pos hh]
        exact ⟨rfl, rfl, rfl, rfl, rfl⟩
      · rw [if_neg hh]
        exact ⟨rfl, rfl, rfl, rfl, rfl⟩
  · unfold do_smmgr_used_blck_link
    simp only []
    by_cases hh : a.used_blist.head = 0
    · rw [if_pos hh]
    · rw [if_neg hh]

/-- The two ends of a list without repetition after the removal of the node
at index `k`, as the unlink functions compute them: the successor of the node
if it was the head, its predecessor if it was the tail. -/
theorem eraseIdx_ends (l : List Nat) (hnd : l.Nodup) (k x : Nat) (hx : l[k]? = some x) :
    (if (l.head?).getD 0 = x then (l[k + 1]?).getD 0 else (l.head?).getD 0)
      = ((l.eraseIdx k).head?).getD 0 ∧
    (if (l.getLast?).getD 0 = x then (if k = 0 then 0 else (l[k - 1]?).getD 0)
      else (l.getLast?).getD 0) = ((l.eraseIdx k).getLast?).getD 0 := by
  have hkl : k < l.length := by
    rcases Nat.lt_or_ge k l.length with h | h
    · exact h
    · rw [List.getElem?_eq_none h] at hx
      cases hx
  rw [head_eraseIdx, getLast_eraseIdx _ _ hkl]
  constructor
  · by_cases hk0 : k = 0
    · have hh : (l.head?).getD 0 = x := by
        rw [List.head?_eq_getElem?, ← hk0, hx]
        rfl
      rw [if_pos hk0, if_pos hh, hk0]
    · rw [if_neg hk0, if_neg]
      rw [List.head?_eq_getElem?]
      intro e
      have h0l : 0 < l.length := by omega
      have : l[0]? = some x := by
        rw [List.getElem?_eq_getElem h0l] at e ⊢
        simp only [Option.getD_some] at e
        rw [e]
      exact hk0 (nodup_index_unique _ hnd _ _ _ hx this)
  · by_cases hk1 : k + 1 = l.length
    · have hh : (l.getLast?).getD 0 = x := by
        rw [List.getLast?_eq_getElem?]
        have : l.length - 1 = k := by omega
        rw [this, hx]
        rfl
      rw [if_pos hk1, if_pos hh]
    · rw [if_neg hk1, if_neg]
      rw [List.getLast?_eq_getElem?]
      intro e
      have : l[l.length - 1]? = some x := by
        rw [List.getElem?_eq_getElem (by omega)] at e ⊢
        simp only [Option.getD_some] at e
        rw [e]
      have := nodup_index_unique _ hnd _ _ _ hx this
      omega

/-- The addresses of the blocks of a description are apart as the nodes of a
linked list have to be. -/
theorem blocks_sep (bs : List gblock) (hg : blocks_geom bs) : dll_sep (bs.map gblock.base) := by
  refine ⟨?_, ?_, ?_⟩
  · show List.Pairwise (fun x y => x ≠ y) _
    refine List.pairwise_map.mpr (List.Pairwise.imp ?_ hg.2)
    intro x y hxy e
    omega
  · intro x hx
    obtain ⟨B, hB, rfl⟩ := List.mem_map.mp hx
    have := hg.1 B hB
    omega
  · intro x y hx hy
    obtain ⟨U, hU, rfl⟩ := List.mem_map.mp hx
    obtain ⟨V, hV, rfl⟩ := List.mem_map.mp hy
    rcases blocks_geom_base _ hg U V hU hV with e | e | e
    · left; rw [e]
    · right; left; omega
    · right; right; omega

/-- The function `do_smmgr_used_blck_unlink` removes a block from the
description: the block, one hole over its body, leaves the list of used
blocks. The function writes only into the headers of its two neighbours. -/
theorem used_blck_unlink_spec (bpre bpost : List gblock) (fl : List (List (Nat × Nat)))
    (a : sm_anchor_t) (m : Nat → Nat) (b : Nat)
    (h : heap_inv (splice bpre b [] [⟨24, 65512, skind.hole⟩] [] bpost) fl a m)
    (hcnt : a.used_blist.count < 2 ^ 64) :
    heap_inv (bpre ++ bpost) fl
      (do_smmgr_used_blck_unlink a m b).1 (do_smmgr_used_blck_unlink a m b).2 ∧
    (do_smmgr_used_blck_unlink a m b).1
      = { a with used_blist := (do_smmgr_used_blck_unlink a m b).1.used_blist } := by
  obtain ⟨hg, hbl, hsl, hfl, hac⟩ := id h
  obtain ⟨hts, hbz, hdll, hhead, htail, hcount⟩ := hbl
  rw [splice_map_base] at hdll hhead htail
  rw [splice_length] at hcount
  have hsep := blocks_sep _ hg
  rw [splice_map_base] at hsep
  have hxk : (bpre.map gblock.base ++ b :: bpost.map gblock.base)[bpre.length]? = some b := by
    rw [List.getElem?_append_right (by rw [List.length_map])]
    simp
  have hers : (bpre.map gblock.base ++ b :: bpost.map gblock.base).eraseIdx bpre.length
      = (bpre ++ bpost).map gblock.base := by
    rw [List.eraseIdx_append_of_length_le (by rw [List.length_map])]
    simp
  obtain ⟨mA, hmA⟩ : ∃ mA, mA = (if load 8 m b ≠ 0
      then store 8 m (load 8 m b + 8) (load 8 m (b + 8)) else m) := ⟨_, rfl⟩
  obtain ⟨mB, hmB⟩ : ∃ mB, mB = (if load 8 mA (b + 8) ≠ 0
      then store 8 mA (load 8 mA (b + 8)) (load 8 mA b) else mA) := ⟨_, rfl⟩
  have hres : do_smmgr_used_blck_unlink a m b
      = ({ a with used_blist :=
            { head := if a.used_blist.head = b then load 8 mB (b + 8) else a.used_blist.head,
              tail := if a.used_blist.tail = b then load 8 mB b else a.used_blist.tail,
              count := sub64 a.used_blist.count 1 } }, mB) := by
    rw [hmB, hmA]
    rfl
  rw [hres]
  simp only []
  have hrem := dll_remove 0 m mA mB _ bpre.length b hdll hsep hxk
    (by simpa only [Nat.add_zero, Nat.zero_add] using hmA)
    (by simpa only [Nat.add_zero, Nat.zero_add] using hmB)
  obtain ⟨r1, r2, r3, r4, r5, r6⟩ := hrem
  simp only [Nat.add_zero, Nat.zero_add] at r2 r3 r4 r5 r6
  have hends := eraseIdx_ends _ hsep.1 bpre.length b hxk
  have hg' : blocks_geom (bpre ++ bpost) := by
    constructor
    · intro B hB
      exact hg.1 B ((mem_splice _ _ _ _ _ _ _).mpr (Or.inl hB))
    · refine List.Pairwise.sublist ?_ hg.2
      exact List.Sublist.append (List.Sublist.refl _) (List.sublist_cons_self _ _)
  have hb' : blist_inv (bpre ++ bpost)
      { a with used_blist :=
          { head := if a.used_blist.head = b then load 8 mB (b + 8) else a.used_blist.head,
            tail := if a.used_blist.tail = b then load 8 mB b else a.used_blist.tail,
            count := sub64 a.used_blist.count 1 } } mB := by
    unfold blist_inv
    simp only []
    rw [← hers]
    refine ⟨hts, hbz, r1, ?_, ?_, ?_⟩
    · rw [← hends.1, hhead]
      have := r5.trans r3
      by_cases hq : ((bpre.map gblock.base ++ b :: bpost.map gblock.base).head?).getD 0 = b
      · rw [if_pos hq, if_pos hq]
        exact this
      · rw [if_neg hq, if_neg hq]
    · rw [← hends.2, htail]
      have := r4.trans r2
      by_cases hq : ((bpre.map gblock.base ++ b :: bpost.map gblock.base).getLast?).getD 0 = b
      · rw [if_pos hq, if_pos hq]
        exact this
      · rw [if_neg hq, if_neg hq]
    · rw [sub64_eq _ _ (by omega) hcnt, hcount]
      simp
  refine ⟨?_, trivial⟩
  refine heap_inv_reblock _ _ fl a _ m _ h hg' hb' ?_ ?_ ?_ ?_ ⟨rfl, rfl, rfl, rfl, rfl⟩
  · intro B hB
    exact Or.inl ((mem_splice _ _ _ _ _ _ _).mpr (Or.inl hB))
  · intro x L
    exact (free_slot_at_hole_block bpre bpost b [⟨24, 65512, skind.hole⟩]
      (by intro s hs; simp at hs; rw [hs]) x L).symm
  · exact (tiny_bytes_hole_block bpre bpost b [⟨24, 65512, skind.hole⟩]
      (by intro s hs; simp at hs; rw [hs])).symm
  · intro B hB addr h1 h2
    apply r6
    intro y hy hyb
    rw [← splice_map_base bpre b [] [⟨24, 65512, skind.hole⟩] [] bpost] at hy
    obtain ⟨Y, hY, rfl⟩ := List.mem_map.mp hy
    rcases blocks_geom_base _ hg Y B hY hB with e | e | e
    · subst e
      omega
    · omega
    · omega

/-! ### The two counters of free bytes and the bound `used_maxid` -/

/-- The sum of the `space` counters over the classes below `T` and from `M` on,
split at the classes from `M` to `T`. -/
theorem space_sum_slice (fs : List sm_slist_t) (M T : Nat) (h : M ≤ T) :
    slist_space_sum (fs.take T)
      = slist_space_sum (fs.take M) + slist_space_sum ((fs.drop M).take (T - M)) ∧
    slist_space_sum (fs.drop M)
      = slist_space_sum ((fs.drop M).take (T - M)) + slist_space_sum (fs.drop T) := by
  unfold slist_space_sum
  constructor
  · have : fs.take T = fs.take M ++ (fs.drop M).take (T - M) := by
      have e : T = M + (T - M) := by omega
      conv_lhs => rw [e]
      exact List.take_add fs M (T - M)
    rw [this, List.map_append, List.sum_append]
  · have : fs.drop M = (fs.drop M).take (T - M) ++ fs.drop T := by
      have e : fs.drop T = (fs.drop M).drop (T - M) := by
        rw [List.drop_drop]
        congr 1
        omega
      rw [e, List.take_append_drop]
    conv_lhs => rw [this]
    rw [List.map_append, List.sum_append]

/-- The loop of `do_smmgr_used_slot_list_add` moves the bytes of the `n` lists
from class `k` on from `free_avail_space` to `free_small_space`. -/
theorem move_to_small_spec (fs : List sm_slist_t) :
    ∀ (n k small avail : Nat), k + n ≤ fs.length →
      slist_space_sum ((fs.drop k).take n) ≤ avail →
      small + slist_space_sum ((fs.drop k).take n) < 2 ^ 64 → avail < 2 ^ 64 →
      move_to_small fs n (k : Int) small avail
        = some (small + slist_space_sum ((fs.drop k).take n),
                avail - slist_space_sum ((fs.drop k).take n)) := by
  intro n
  induction n with
  | zero =>
    intro k small avail _ _ _ _
    simp [move_to_small, slist_space_sum]
  | succ n ih =>
    intro k small avail hk hle hs ha
    have hkl : k < fs.length := by omega
    have hd : fs.drop k = fs[k] :: fs.drop (k + 1) := List.drop_eq_getElem_cons hkl
    have hsum : slist_space_sum ((fs.drop k).take (n + 1))
        = fs[k].space + slist_space_sum ((fs.drop (k + 1)).take n) := by
      unfold slist_space_sum
      rw [hd, List.take_succ_cons, List.map_cons, List.sum_cons]
    rw [hsum] at hle hs ⊢
    unfold move_to_small
    rw [slist_at_nat, List.getElem?_eq_getElem hkl]
    simp only []
    have hcast : ((k : Int) + 1) = ((k + 1 : Nat) : Int) := by push_cast; rfl
    rw [hcast]
    by_cases hp : fs[k].space > 0
    · rw [if_pos hp]
      have hw : wrap64 (small + fs[k].space) = small + fs[k].space :=
        Nat.mod_eq_of_lt (by omega)
      rw [hw, sub64_eq _ _ (by omega) ha,
        ih (k + 1) (small + fs[k].space) (avail - fs[k].space) (by omega) (by omega)
          (by omega) (by omega)]
      congr 2 <;> omega
    · rw [if_neg hp]
      have h0 : fs[k].space = 0 := by omega
      rw [ih (k + 1) small avail (by omega) (by omega) (by omega) ha, h0]
      congr 2 <;> omega

/-- The loop of `do_smmgr_used_slot_list_del` moves the bytes of the `n` lists
from class `k` on from `free_small_space` back to `free_avail_space`. -/
theorem move_to_avail_spec (fs : List sm_slist_t) :
    ∀ (n k small avail : Nat), k + n ≤ fs.length →
      slist_space_sum ((fs.drop k).take n) ≤ small →
      avail + slist_space_sum ((fs.drop k).take n) < 2 ^ 64 → small < 2 ^ 64 →
      move_to_avail fs n (k : Int) small avail
        = some (small - slist_space_sum ((fs.drop k).take n),
                avail + slist_space_sum ((fs.drop k).take n)) := by
  intro n
  induction n with
  | zero =>
    intro k small avail _ _ _ _
    simp [move_to_avail, slist_space_sum]
  | succ n ih =>
    intro k small avail hk hle hs ha
    have hkl : k < fs.length := by omega
    have hd : fs.drop k = fs[k] :: fs.drop (k + 1) := List.drop_eq_getElem_cons hkl
    have hsum : slist_space_sum ((fs.drop k).take (n + 1))
        = fs[k].space + slist_space_sum ((fs.drop (k + 1)).take n) := by
      unfold slist_space_sum
      rw [hd, List.take_succ_cons, List.map_cons, List.sum_cons]
    rw [hsum] at hle hs ⊢
    unfold move_to_avail
    rw [slist_at_nat, List.getElem?_eq_getElem hkl]
    simp only []
    have hcast : ((k : Int) + 1) = ((k + 1 : Nat) : Int) := by push_cast; rfl
    rw [hcast]
    by_cases hp : fs[k].space > 0
    · rw [if_pos hp]
      have hw : wrap64 (avail + fs[k].space) = avail + fs[k].space :=
        Nat.mod_eq_of_lt (by omega)
      rw [hw, sub64_eq _ _ (by omega) ha,
        ih (k + 1) (small - fs[k].space) (avail + fs[k].space) (by omega) (by omega)
          (by omega) (by omega)]
      congr 2 <;> omega
    · rw [if_neg hp]
      have h0 : fs[k].space = 0 := by omega
      rw [ih (k + 1) small avail (by omega) (by omega) (by omega) ha, h0]
      congr 2 <;> omega

/-- The function `do_smmgr_used_slot_list_add` keeps the two counters of free
bytes in line with the new `used_maxid`, keeps their sum, and leaves the free
lists and the list of used blocks alone. -/
theorem used_slot_list_add_acct (bs : List gblock) (a a1 : sm_anchor_t) (T : Nat)
    (hac : acct_inv bs a) (hlen : a.free_slist.length = SMMGR_NUM_CLASSES) (hT : T ≤ 1024)
    (hbd : a.free_small_space + a.free_avail_space < 2 ^ 64)
    (h : do_smmgr_used_slot_list_add a (T : Int) = some a1) :
    acct_inv bs a1 ∧
    a1.free_small_space + a1.free_avail_space = a.free_small_space + a.free_avail_space ∧
    free_frame a a1 := by
  unfold do_smmgr_used_slot_list_add at h
  simp only [] at h
  have h0 : (if (T : Int) < a.used_minid then { a with used_minid := (T : Int) } else a).free_small_space
        = a.free_small_space ∧
      (if (T : Int) < a.used_minid then { a with used_minid := (T : Int) } else a).free_avail_space
        = a.free_avail_space ∧
      (if (T : Int) < a.used_minid then { a with used_minid := (T : Int) } else a).used_maxid
        = a.used_maxid ∧
      free_frame a (if (T : Int) < a.used_minid then { a with used_minid := (T : Int) } else a) := by
    split_ifs <;> exact ⟨rfl, rfl, rfl, rfl, rfl, rfl, rfl, rfl, rfl, rfl, rfl⟩
  generalize (if (T : Int) < a.used_minid then { a with used_minid := (T : Int) } else a) = a0
    at h h0
  obtain ⟨e1, e2, e3, e4⟩ := h0
  unfold acct_inv at hac
  by_cases hgt : (T : Int) > a0.used_maxid
  · rw [if_pos hgt] at h
    have hsm : (if a0.used_maxid < 0 then (0 : Int) else a0.used_maxid)
        = ((a0.used_maxid.toNat : Nat) : Int) := by
      split_ifs <;> omega
    rw [hsm] at h
    have hn : ((T : Int) - ((a0.used_maxid.toNat : Nat) : Int)).toNat
        = T - a0.used_maxid.toNat := by omega
    rw [hn] at h
    have hMT : a0.used_maxid.toNat ≤ T := by omega
    obtain ⟨s1, s2⟩ := space_sum_slice a.free_slist a0.used_maxid.toNat T hMT
    rw [e3] at hMT s1 s2 h
    rw [e4.1, e1, e2, move_to_small_spec a.free_slist _ _ _ _
      (by rw [hlen]; simp only [SMMGR_NUM_CLASSES]; omega) (by omega) (by omega) (by omega)] at h
    simp only [Option.some.injEq] at h
    subst h
    obtain ⟨f1, f2, f3, f4, f5, f6, f7, f8⟩ := e4
    refine ⟨?_, ?_, ?_⟩
    · unfold acct_inv
      simp only [Int.toNat_ofNat]
      constructor <;> omega
    · simp only []
      omega
    · exact ⟨rfl, f2, f3, f4, f5, f6, f7, f8⟩
  · rw [if_neg hgt] at h
    simp only [Option.some.injEq] at h
    subst h
    obtain ⟨f1, f2, f3, f4, f5, f6, f7, f8⟩ := e4
    refine ⟨?_, ?_, ?_⟩
    · unfold acct_inv
      simp only []
      rw [f1, e1, e2, e3]
      exact hac
    · simp only []
      rw [e1, e2]
    · exact ⟨f1, f2, f3, f4, f5, f6, f7, f8⟩

/-- The function `do_smmgr_used_slot_list_del` keeps the two counters of free
bytes in line with the new `used_maxid`, keeps their sum, and leaves the free
lists and the list of used blocks alone. -/
theorem used_slot_list_del_acct (bs : List gblock) (a a1 : sm_anchor_t) (T : Nat)
    (hac : acct_inv bs a) (hlen : a.free_slist.length = SMMGR_NUM_CLASSES) (hT : T ≤ 1024)
    (hbd : a.free_small_space + a.free_avail_space < 2 ^ 64)
    (h : do_smmgr_used_slot_list_del a (T : Int) = some a1) :
    acct_inv bs a1 ∧
    a1.free_small_space + a1.free_avail_space = a.free_small_space + a.free_avail_space ∧
    free_frame a a1 := by
  unfold do_smmgr_used_slot_list_del at h
  simp only [] at h
  unfold acct_inv at hac
  split at h
  · cases h
  · rename_i minid hmin
    by_cases hmax : (T : Int) = a.used_maxid
    · rw [if_pos hmax] at h
      split at h
      · cases h
      · rename_i maxid hmaxid
        have hle : maxid ≤ (T : Int) - 1 := by
          by_cases hp : a.used_total_space > 0
          · rw [if_pos hp] at hmaxid
            have := (scan_down_some _ _ _ _ _ hmaxid).1
            omega
          · rw [if_neg hp] at hmaxid
            simp only [Option.some.injEq] at hmaxid
            omega
        have hsm : (if maxid < 0 then (0 : Int) else maxid) = ((maxid.toNat : Nat) : Int) := by
          split_ifs <;> omega
        rw [hsm] at h
        have hn : ((T : Int) - ((maxid.toNat : Nat) : Int)).toNat = T - maxid.toNat := by omega
        rw [hn] at h
        have hMT : maxid.toNat ≤ T := by omega
        obtain ⟨s1, s2⟩ := space_sum_slice a.free_slist maxid.toNat T hMT
        have hTn : a.used_maxid.toNat = T := by omega
        rw [hTn] at hac
        rw [move_to_avail_spec a.free_slist _ _ _ _
          (by rw [hlen]; simp only [SMMGR_NUM_CLASSES]; omega) (by omega) (by omega)
          (by omega)] at h
        simp only [Option.some.injEq] at h
        subst h
        refine ⟨?_, ?_, rfl, rfl, rfl, rfl, rfl, rfl, rfl, rfl⟩
        · unfold acct_inv
          simp only []
          constructor <;> omega
        · simp only []
          omega
    · rw [if_neg hmax] at h
      simp only [Option.some.injEq] at h
      subst h
      exact ⟨hac, rfl, rfl, rfl, rfl, rfl, rfl, rfl, rfl, rfl⟩

/-- The invariant depends on the anchor through the free lists, the list of
used blocks, the geometry of the blocks and the two counters of free bytes
only. -/
theorem heap_inv_free_frame (bs : List gblock) (fl : List (List (Nat × Nat)))
    (a a1 : sm_anchor_t) (m : Nat → Nat) (h : heap_inv bs fl a m) (hf : free_frame a a1)
    (hac : acct_inv bs a1) : heap_inv bs fl a1 m := by
  obtain ⟨h1, h2, h3, h4, _⟩ := h
  obtain ⟨f1, f2, f3, f4, f5, f6, f7, f8⟩ := hf
  refine ⟨h1, ?_, h3, ?_, hac⟩
  · exact blist_inv_transfer bs bs a a1 m m h2 rfl ⟨f5, f7, f8⟩ (fun _ _ _ _ _ => rfl)
  · exact flist_inv_transfer bs bs fl a a1 m m h4 f1 (by rw [f3]; exact h4.2.2.1)
      (fun _ _ _ => Iff.rfl) (fun _ _ _ _ _ _ _ => rfl)

/-- The relation `free_frame` is reflexive. -/
theorem free_frame_refl (a : sm_anchor_t) : free_frame a a :=
  ⟨rfl, rfl, rfl, rfl, rfl, rfl, rfl, rfl⟩

/-- The relation `free_frame` is transitive. -/
theorem free_frame_trans (a b c : sm_anchor_t) (h1 : free_frame a b) (h2 : free_frame b c) :
    free_frame a c := by
  obtain ⟨a1, a2, a3, a4, a5, a6, a7, a8⟩ := h1
  obtain ⟨b1, b2, b3, b4, b5, b6, b7, b8⟩ := h2
  exact ⟨b1.trans a1, b2.trans a2, b3.trans a3, b4.trans a4, b5.trans a5, b6.trans a6,
    b7.trans a7, b8.trans a8⟩

/-- The block `/* used slot stats */` of `do_smmgr_alloc` keeps the invariant
and the sum of the two counters of free bytes. -/
theorem used_stats_add_heap (bs : List gblock) (fl : List (List (Nat × Nat)))
    (a a1 : sm_anchor_t) (m : Nat → Nat) (T : Nat) (slen : Int)
    (h : heap_inv bs fl a m) (hT : T ≤ 1024)
    (hbd : a.free_small_space + a.free_avail_space < 2 ^ 64)
    (hr : smmgr_used_stats_add a (T : Int) slen = some a1) :
    heap_inv bs fl a1 m ∧
    a1.free_small_space + a1.free_avail_space = a.free_small_space + a.free_avail_space ∧
    free_frame a a1 := by
  unfold smmgr_used_stats_add at hr
  split at hr
  · cases hr
  · rename_i u hu
    simp only [] at hr
    split at hr
    · cases hr
    · rename_i us hus
      have hac : acct_inv bs
          { a with used_total_space := wrap64 (a.used_total_space + int_to_size_t slen),
                   used_slist := us } := h.2.2.2.2
      split at hr
      · obtain ⟨k1, k2, k3⟩ := used_slot_list_add_acct bs _ a1 T hac h.2.2.2.1.2.1 hT hbd hr
        exact ⟨heap_inv_free_frame bs fl a a1 m h k3 k1, k2, k3⟩
      · simp only [Option.some.injEq] at hr
        subst hr
        exact ⟨heap_inv_free_frame bs fl a _ m h (free_frame_refl a) hac, rfl,
          free_frame_refl a⟩

/-- The block `/* used slot stats */` of `do_smmgr_free` keeps the invariant
and the sum of the two counters of free bytes. -/
theorem used_stats_del_heap (bs : List gblock) (fl : List (List (Nat × Nat)))
    (a a1 : sm_anchor_t) (m : Nat → Nat) (T : Nat) (slen : Int)
    (h : heap_inv bs fl a m) (hT : T ≤ 1024)
    (hbd : a.free_small_space + a.free_avail_space < 2 ^ 64)
    (hr : smmgr_used_stats_del a (T : Int) slen = some a1) :
    heap_inv bs fl a1 m ∧
    a1.free_small_space + a1.free_avail_space = a.free_small_space + a.free_avail_space ∧
    free_frame a a1 := by
  unfold smmgr_used_stats_del at hr
  split at hr
  · cases hr
  · rename_i u hu
    split at hr
    · simp only [] at hr
      split at hr
      · cases hr
      · rename_i us hus
        have hac : acct_inv bs
            { a with used_total_space := sub64 a.used_total_space (int_to_size_t slen),
                     used_slist := us } := h.2.2.2.2
        split at hr
        · obtain ⟨k1, k2, k3⟩ := used_slot_list_del_acct bs _ a1 T hac h.2.2.2.1.2.1 hT hbd hr
          exact ⟨heap_inv_free_frame bs fl a a1 m h k3 k1, k2, k3⟩
        · simp only [Option.some.injEq] at hr
          subst hr
          exact ⟨heap_inv_free_frame bs fl a _ m h (free_frame_refl a) hac, rfl,
            free_frame_refl a⟩
    · cases hr

/-! ### Cutting a used slot out of a free slot -/

/-- Slots at the end of the slots before the middle can be counted with the
middle. -/
theorem splice_regroup_left (bpre : List gblock) (b : Nat) (pre x mid post : List gslot)
    (bpost : List gblock) :
    splice bpre b (pre ++ x) mid post bpost = splice bpre b pre (x ++ mid) post bpost := by
  simp [splice, List.append_assoc]

/-- Slots at the end of the middle can be counted with the slots after it. -/
theorem splice_regroup_right (bpre : List gblock) (b : Nat) (pre mid x post : List gslot)
    (bpost : List gblock) :
    splice bpre b pre (mid ++ x) post bpost = splice bpre b pre mid (x ++ post) bpost := by
  simp [splice, List.append_assoc]

/-- The geometry around one slot of a description: the slot is inside the body
of its block, and the header of the slot is outside the link fields of every
free slot of the rest of the description. -/
theorem single_slot_geom (bpre : List gblock) (b : Nat) (pre post : List gslot)
    (bpost : List gblock) (s : gslot)
    (hg : blocks_geom (splice bpre b pre [s] post bpost)) :
    tiles 24 pre s.off ∧ 24 ≤ s.off ∧ s.off + s.len ≤ 65536 ∧ 0 < s.len ∧ 8 ∣ s.len ∧
    0 < b ∧ b + 65536 < 2 ^ 64 ∧
    ctx_geom bpre b pre post bpost s.off (s.off + s.len) ∧
    (∀ x Lx, free_slot_at (splice bpre b pre [] post bpost) x Lx →
      x + Lx ≤ b + s.off ∨ b + s.off + s.len ≤ x) := by
  obtain ⟨o1, e1, hctx, ht⟩ := (blocks_geom_splice _ _ _ _ _ _).mp hg
  simp only [tiles] at ht
  obtain ⟨ho, hLpos, hL8, he⟩ := ht
  subst ho
  subst he
  have h1 := tiles_le _ _ _ hctx.2.2.2.1
  have h2 := tiles_le _ _ _ hctx.2.2.2.2.1
  refine ⟨hctx.2.2.2.1, h1, h2, hLpos, hL8, hctx.2.1, hctx.2.2.1, hctx, ?_⟩
  exact (free_slot_at_single bpre b pre post bpost s.off s.len _ hctx hLpos rfl).2.2.2

/-- A value below 65536 is kept by the conversion to `uint16_t`. -/
theorem int_to_uint16_nat (n : Nat) (h : n < 65536) : int_to_uint16 (n : Int) = n := by
  unfold int_to_uint16
  have : ((n : Int) % 2 ^ 16) = (n : Int) := Int.emod_eq_of_lt (by omega) (by norm_num; omega)
  rw [this]
  rfl

/-- The `space` counter of a free list is part of one of the two counters of
free bytes of the anchor. -/
theorem cell_space_le (bs : List gblock) (a : sm_anchor_t) (i : Nat) (c : sm_slist_t)
    (hac : acct_inv bs a) (hc : a.free_slist[i]? = some c) :
    if (i : Int) < a.used_maxid then c.space ≤ a.free_small_space
    else c.space ≤ a.free_avail_space := by
  unfold acct_inv at hac
  by_cases hlt : (i : Int) < a.used_maxid
  · rw [if_pos hlt]
    have : c.space ≤ slist_space_sum (a.free_slist.take a.used_maxid.toNat) :=
      le_sum_map (fun x => x.space) _ i c (by
        rw [List.getElem?_take, if_pos (by omega)]; exact hc)
    omega
  · rw [if_neg hlt]
    have : c.space ≤ slist_space_sum (a.free_slist.drop a.used_maxid.toNat) :=
      le_sum_map (fun x => x.space) _ (i - a.used_maxid.toNat) c (by
        rw [List.getElem?_drop, ← hc]; congr 1; omega)
    omega

/-- The invariant after the free slot at the head of the list of the last
class has given its first `slen` bytes away: the description has a hole of
`slen` bytes and the rest of the slot as a free slot, which has taken the place
of the slot at the head of the list. -/
theorem heap_inv_replaced (bpre : List gblock) (b : Nat) (pre post : List gslot)
    (bpost : List gblock) (fl : List (List (Nat × Nat))) (a a2 : sm_anchor_t)
    (m mi mB : Nat → Nat) (o L slen Ln : Nat) (rest : List (Nat × Nat)) (c1 : sm_slist_t)
    (h : heap_inv (splice bpre b pre [⟨o, L, skind.free⟩] post bpost) fl a m)
    (hs32 : 32 ≤ slen) (hs8 : 8 ∣ slen) (hLn : Ln + slen = L) (hLn8 : 8192 ≤ Ln)
    (hl : fl[1024]? = some ((b + o, L) :: rest))
    (hokn : slot_ok mi b ⟨o + slen, Ln, skind.free⟩)
    (hfi : ∀ addr, (addr < b + o + slen ∨ b + o + L ≤ addr) → mi addr = m addr)
    (r1 : dll 8 mB ((b + o + slen) :: rest.map Prod.fst))
    (r4 : ∀ addr, (addr < b + o + slen + 8 ∨ b + o + slen + 8 + 16 ≤ addr) →
      (∀ y, y ∈ rest.map Prod.fst → addr < y + 8 ∨ y + 8 + 8 ≤ addr) → mB addr = mi addr)
    (hfs : a2.free_slist = a.free_slist.set 1024 c1)
    (hc1f : c1.head = (((((b + o + slen, Ln) :: rest).map Prod.fst)).head?).getD 0 ∧
      c1.tail = (((((b + o + slen, Ln) :: rest).map Prod.fst)).getLast?).getD 0 ∧
      c1.count = ((b + o + slen, Ln) :: rest).length ∧
      c1.space = ((((b + o + slen, Ln) :: rest).map Prod.snd)).sum)
    (ha : a2.used_blist = a.used_blist ∧ a2.blck_tsize = a.blck_tsize ∧
      a2.blck_bsize = a.blck_bsize ∧ a2.used_maxid = a.used_maxid)
    (hmax : a2.free_maxid = a.free_maxid)
    (hacc : if ((1024 : Nat) : Int) < a.used_maxid
      then a2.free_small_space + slen = a.free_small_space ∧
        a2.free_avail_space = a.free_avail_space
      else a2.free_small_space = a.free_small_space ∧
        a2.free_avail_space + slen = a.free_avail_space) :
    heap_inv (splice bpre b pre
      [⟨o, slen, skind.hole⟩, ⟨o + slen, Ln, skind.free⟩] post bpost)
      (fl.set 1024 ((b + o + slen, Ln) :: rest)) a2 mB := by
  obtain ⟨hg, hb, hs, hf, hac⟩ := h
  obtain ⟨o1, e1, hctx, ht⟩ := (blocks_geom_splice _ _ _ _ _ _).mp hg
  simp only [tiles] at ht
  obtain ⟨ho, hLpos, hL8, he⟩ := ht
  subst ho
  obtain ⟨hfr, hfr', _, hnx⟩ := free_slot_at_single bpre b pre post bpost o L e1 hctx hLpos he
  have ho24 : 24 ≤ o := tiles_le _ _ _ hctx.2.2.2.1
  have he64 : e1 ≤ 65536 := tiles_le _ _ _ hctx.2.2.2.2.1
  have hb0 := hctx.2.1
  have hb1 := hctx.2.2.1
  have hdis := ctx_disjoint bpre b pre post bpost o e1 hctx (by omega)
  have hd8 : 8 ∣ Ln := by omega
  have hg' : blocks_geom (splice bpre b pre
      [⟨o, slen, skind.hole⟩, ⟨o + slen, Ln, skind.free⟩] post bpost) :=
    (blocks_geom_splice _ _ _ _ _ _).mpr ⟨o, e1, hctx, by
      simp only [tiles]
      exact ⟨trivial, by omega, hs8, trivial, by omega, hd8, by omega⟩⟩
  have hfrn : ∀ x Lx, free_slot_at (splice bpre b pre
      [⟨o, slen, skind.hole⟩, ⟨o + slen, Ln, skind.free⟩] post bpost) x Lx ↔
      free_slot_at (splice bpre b pre [] post bpost) x Lx ∨
        (x = b + o + slen ∧ Lx = Ln) := by
    intro x Lx
    rw [free_slot_at_splice]
    constructor
    · rintro (h1 | ⟨s, hs1, hk, hx, hLx⟩)
      · exact Or.inl h1
      · simp only [List.mem_cons, List.mem_singleton, List.not_mem_nil, or_false] at hs1
        rcases hs1 with e | e
        · rw [e] at hk
          cases hk
        · rw [e] at hx hLx
          exact Or.inr ⟨by rw [hx, Nat.add_assoc], hLx⟩
    · rintro (h1 | ⟨h1, h2⟩)
      · exact Or.inl h1
      · exact Or.inr ⟨⟨o + slen, Ln, skind.free⟩, by simp, rfl,
          by rw [h1, Nat.add_assoc], h2⟩
  have hmid1 : do_smmgr_memid L = ((1024 : Nat) : Int) := by
    rw [memid_eq, if_neg (by omega)]
    rfl
  have hmid2 : do_smmgr_memid (Ln) = ((1024 : Nat) : Int) := by
    rw [memid_eq, if_neg (by omega)]
    rfl
  obtain ⟨hdl, hnd, c, hc, hch, hct, hcc, hcs⟩ := hf.2.2.2.1 1024 _ hl
  have hmem := hf.2.2.2.2 1024 ((b + o, L) :: rest)
  simp only [List.map_cons, List.nodup_cons] at hnd
  have hrest_at : ∀ y Ly, (y, Ly) ∈ rest →
      free_slot_at (splice bpre b pre [] post bpost) y Ly ∧ 32 ≤ Ly ∧
        do_smmgr_memid Ly = ((1024 : Nat) : Int) := by
    intro y Ly hy
    obtain ⟨h1, h2, h3⟩ := (hmem y Ly hl).mp (List.mem_cons_of_mem _ hy)
    refine ⟨?_, h2, h3⟩
    rcases (hfr _ _).mp h1 with h4 | h4
    · exact h4
    · exfalso
      apply hnd.1
      rw [← h4.1]
      exact List.mem_map.mpr ⟨(y, Ly), hy, rfl⟩
  have hrest_far : ∀ y, y ∈ rest.map Prod.fst → y + 24 ≤ b + o ∨ b + o + L ≤ y := by
    intro y hy
    obtain ⟨⟨y', Ly⟩, hyl, hy'⟩ := List.mem_map.mp hy
    simp only [] at hy'
    subst hy'
    obtain ⟨h1, h2, _⟩ := hrest_at y' Ly hyl
    have := hnx _ _ h1
    omega
  obtain ⟨l1, hl1⟩ : ∃ l1, l1 = (b + o + slen, Ln) :: rest := ⟨_, rfl⟩
  rw [← hl1] at hc1f ⊢
  have hsum : c1.space + slen = c.space := by
    rw [hc1f.2.2.2, hcs, hl1]
    simp only [List.map_cons, List.sum_cons]
    omega
  have hbi : blist_inv (splice bpre b pre
      [⟨o, slen, skind.hole⟩, ⟨o + slen, Ln, skind.free⟩] post bpost) a mi := by
    apply blist_inv_transfer _ _ a a m mi hb (by rw [splice_map_base, splice_map_base])
      ⟨rfl, rfl, rfl⟩
    intro x hx addr h1 h2
    rw [splice_map_base, ← splice_map_base bpre b pre [] post bpost] at hx
    obtain ⟨B, hB, hBx⟩ := List.mem_map.mp hx
    subst hBx
    have := (hdis B hB).1
    apply hfi
    omega
  have hsi : slots_inv (splice bpre b pre
      [⟨o, slen, skind.hole⟩, ⟨o + slen, Ln, skind.free⟩] post bpost) mi := by
    rw [slots_inv_splice] at hs ⊢
    refine ⟨?_, ?_⟩
    · intro B hB s hs1
      have hd := (hdis B hB).2.2.2 s hs1
      have h8 : 8 ≤ s.len := Nat.le_of_dvd hd.2.2.2.1 hd.2.2.2.2
      exact slot_ok_frame m mi B.base s (hs.1 B hB s hs1) h8
        (fun x h1 h2 => hfi x (by omega)) (fun x h1 h2 => hfi x (by omega))
    · intro s hs1
      simp only [List.mem_cons, List.mem_singleton, List.not_mem_nil, or_false] at hs1
      rcases hs1 with e | e
      · rw [e]
        trivial
      · rw [e]
        exact hokn
  have hm2 : ∀ addr, (∀ y Ly, free_slot_at (splice bpre b pre
      [⟨o, slen, skind.hole⟩, ⟨o + slen, Ln, skind.free⟩] post bpost) y Ly →
      32 ≤ Ly → addr < y + 8 ∨ y + 24 ≤ addr) → mB addr = mi addr := by
    intro addr hadd
    apply r4
    · have := hadd (b + o + slen) (Ln) ((hfrn _ _).mpr (Or.inr ⟨rfl, rfl⟩)) (by omega)
      omega
    · intro y hy
      obtain ⟨⟨y', Ly⟩, hyl, hy'⟩ := List.mem_map.mp hy
      simp only [] at hy'
      subst hy'
      obtain ⟨h1, h2, _⟩ := hrest_at y' Ly hyl
      have := hadd y' Ly ((hfrn _ _).mpr (Or.inl h1)) h2
      omega
  obtain ⟨hb2, hs2⟩ := heap_frame_links _ a mi mB hg' hm2 hbi hsi
  refine ⟨hg', ?_, hs2, ?_, ?_⟩
  · exact blist_inv_transfer _ _ a a2 mB mB hb2 rfl ⟨ha.1, ha.2.1, ha.2.2.1⟩
      (fun _ _ _ _ _ => rfl)
  · apply flist_inv_relist _ _ fl a a2 m mB 1024 l1 c1 ⟨hf.1, hf.2.1, hf.2.2.1, hf.2.2.2.1, hf.2.2.2.2⟩ (by decide)
      (by rw [hmax]; exact hf.2.2.1) hfs hc1f (by rw [hl1]; exact r1)
    · rw [hl1]
      simp only [List.map_cons, List.nodup_cons]
      refine ⟨?_, hnd.2⟩
      intro hin
      have := hrest_far _ hin
      omega
    · intro x Lx
      rw [hl1, hfrn]
      simp only [List.mem_cons, Prod.mk.injEq]
      constructor
      · rintro (⟨h1, h2⟩ | h1)
        · subst h1
          subst h2
          exact ⟨Or.inr ⟨rfl, rfl⟩, by omega, hmid2⟩
        · obtain ⟨h2, h3, h4⟩ := hrest_at x Lx h1
          exact ⟨Or.inl h2, h3, h4⟩
      · rintro ⟨h1 | h1, h2, h3⟩
        · right
          have : (x, Lx) ∈ (b + o, L) :: rest :=
            (hmem x Lx hl).mpr ⟨(hfr _ _).mpr (Or.inl h1), h2, h3⟩
          rcases List.mem_cons.mp this with e | e
          · exfalso
            have hx := hnx _ _ h1
            simp only [Prod.mk.injEq] at e
            omega
          · exact e
        · left
          exact h1
    · intro x Lx hLx hne
      rw [hfrn, hfr]
      constructor
      · rintro (h1 | h1)
        · exact Or.inl h1
        · exfalso
          rw [h1.2] at hne
          exact hne hmid2
      · rintro (h1 | h1)
        · exact Or.inl h1
        · exfalso
          rw [h1.2] at hne
          exact hne hmid1
    · intro x Lx hx hLx hne addr h1 h2
      rcases (hfr _ _).mp hx with h3 | h3
      · have hxd := hnx _ _ h3
        rw [r4 addr (by omega) ?_, hfi addr (by omega)]
        intro y hy
        obtain ⟨⟨y', Ly⟩, hyl, hy'⟩ := List.mem_map.mp hy
        simp only [] at hy'
        subst hy'
        obtain ⟨h4, h5, h6⟩ := (hmem y' Ly hl).mp (List.mem_cons_of_mem _ hyl)
        obtain ⟨B, hB, s, hs3, _, hxe, hLe⟩ := hx
        obtain ⟨C, hC, t, ht3, _, hye, hLye⟩ := h4
        rcases slots_disjoint _ hg B C s t hB hC hs3 ht3 with ⟨e1', e2'⟩ | e | e
        · subst e1'
          subst e2'
          rw [hLe] at hne
          rw [hLye] at h6
          exact absurd h6 hne
        · omega
        · omega
      · exfalso
        rw [h3.2] at hne
        exact hne hmid1
  · apply acct_inv_relist _ _ a a2 1024 c c1 hac hc hfs ha.2.2.2
    · rw [tiny_bytes_splice bpre b pre
          [⟨o, slen, skind.hole⟩, ⟨o + slen, Ln, skind.free⟩],
        tiny_bytes_splice bpre b pre [⟨o, L, skind.free⟩]]
      have hn : ¬ L < 32 := by omega
      have hn2 : ¬ Ln < 32 := by omega
      have t1 : tiny_block [⟨o, slen, skind.hole⟩, ⟨o + slen, Ln, skind.free⟩] = 0 := by
        simp [tiny_block, hn2]
      have t2 : tiny_block [⟨o, L, skind.free⟩] = 0 := by
        simp [tiny_block, hn]
      rw [t1, t2]
    · split_ifs at hacc ⊢ <;> omega

/-- The result of `do_smmgr_free_slot_replace` on the list of the last class,
when `old` is the head of the list and the lengths of the two slots are `L` and
`Ln`: the cell of the list gets `new` as its head (and as its tail when `old`
had no successor) and loses `slen = L - Ln` bytes, and so does the counter of
free bytes that holds the class. -/
theorem free_slot_replace_eq (a : sm_anchor_t) (mi mA mB : Nat → Nat)
    (old new L Ln slen tl : Nat) (c : sm_slist_t)
    (hc : a.free_slist[1024]? = some c) (hhd : c.head = old)
    (hlo : slot_length mi old = L) (hln : slot_length mi new = Ln)
    (hLn : Ln + slen = L) (hs : slen < 65536)
    (hsp : slen ≤ c.space) (hcsp : c.space < 2 ^ 64)
    (hmA : mA = set_slot_prev mi new 0)
    (hmB : mB = if slot_next mA old = 0 then set_slot_next mA new 0
      else set_slot_prev (set_slot_next mA new (slot_next mA old))
        (slot_next (set_slot_next mA new (slot_next mA old)) new) new)
    (htl : tl = if slot_next mA old = 0 then new else c.tail) :
    do_smmgr_free_slot_replace a mi old new ((1024 : Nat) : Int)
      = some (if ((1024 : Nat) : Int) < a.used_maxid
          then { a with free_slist := a.free_slist.set 1024 ⟨new, tl, c.space - slen, c.count⟩,
                        free_small_space := sub64 a.free_small_space slen }
          else { a with free_slist := a.free_slist.set 1024 ⟨new, tl, c.space - slen, c.count⟩,
                        free_avail_space := sub64 a.free_avail_space slen }, mB) := by
  have hlen : 1024 < a.free_slist.length := (List.getElem?_eq_some_iff.mp hc).1
  have hdiff : int_to_uint16 ((L : Int) - (Ln : Int)) = slen := by
    have : (L : Int) - (Ln : Int) = (slen : Int) := by omega
    rw [this]
    exact int_to_uint16_nat slen hs
  unfold do_smmgr_free_slot_replace
  rw [slist_at_nat, hc]
  simp only []
  rw [if_pos hhd, hlo, hln, hdiff, ← hmA]
  by_cases hn0 : slot_next mA old = 0
  · rw [if_pos hn0] at hmB htl
    rw [if_pos hn0]
    simp only []
    rw [slist_store_nat a.free_slist 1024 _ hlen, sub64_eq _ _ hsp hcsp, hmB, htl]
    simp only []
    split_ifs <;> rfl
  · rw [if_neg hn0] at hmB htl
    rw [if_neg hn0]
    simp only []
    rw [slist_store_nat a.free_slist 1024 _ hlen, sub64_eq _ _ hsp hcsp, hmB, htl]
    simp only []
    split_ifs <;> rfl

/-- The list of the last class when the free slot at `b + o`, of at least 8192
bytes more than `slen`, is its head: the list is that slot followed by slots
away from it, and the slot `slen` bytes further can join its nodes. -/
theorem replace_list_facts (bpre : List gblock) (b : Nat) (pre post : List gslot)
    (bpost : List gblock) (fl : List (List (Nat × Nat))) (a : sm_anchor_t)
    (m : Nat → Nat) (o L slen : Nat)
    (h : heap_inv (splice bpre b pre [⟨o, L, skind.free⟩] post bpost) fl a m)
    (hs32 : 32 ≤ slen) (hsL : slen + 8192 ≤ L)
    (hhead : ∀ c, a.free_slist[1024]? = some c → c.head = b + o) :
    ∃ rest c, fl[1024]? = some ((b + o, L) :: rest) ∧ a.free_slist[1024]? = some c ∧
      (∀ y, y ∈ rest.map Prod.fst → y + 24 ≤ b + o ∨ b + o + L ≤ y) ∧
      dll 8 m ((b + o) :: rest.map Prod.fst) ∧
      dll_sep ((b + o + slen) :: (b + o) :: rest.map Prod.fst) ∧
      (∀ _u : Unit, c.head = b + o ∧
        c.tail = ((((b + o) :: rest.map Prod.fst)).getLast?).getD 0 ∧
        c.count = rest.length + 1 ∧ c.space = L + (rest.map Prod.snd).sum) := by
  obtain ⟨hg, hb, hs, hf, hac⟩ := h
  obtain ⟨g1, g2, g3, g4, -, g6, g7, g8, g9⟩ :=
    single_slot_geom bpre b pre post bpost ⟨o, L, skind.free⟩ hg
  simp only [] at g1 g2 g3 g4 g8 g9
  obtain ⟨hfr, -, -, -⟩ := free_slot_at_single bpre b pre post bpost o L _ g8 g4 rfl
  have hfl : 1024 < fl.length := by
    rw [hf.1]
    decide
  obtain ⟨l, hl⟩ : ∃ l, fl[1024]? = some l := ⟨fl[1024], List.getElem?_eq_getElem hfl⟩
  obtain ⟨hdl, hnd, c, hc, hcell⟩ := hf.2.2.2.1 1024 l hl
  have hmem := hf.2.2.2.2 1024 l
  have hxl : (b + o, L) ∈ l :=
    (hmem (b + o) L hl).mpr ⟨(hfr _ _).mpr (Or.inr ⟨rfl, rfl⟩), by omega, by
      rw [memid_eq, if_neg (by omega)]
      rfl⟩
  have hhd := hhead c hc
  obtain ⟨rest, hrest⟩ : ∃ rest, l = (b + o, L) :: rest := by
    cases l with
    | nil => simp at hxl
    | cons p rest =>
      refine ⟨rest, ?_⟩
      have hp1 : p.1 = b + o := by
        rw [hcell.1] at hhd
        simpa using hhd
      rcases List.mem_cons.mp hxl with e | e
      · rw [e]
      · exfalso
        simp only [List.map_cons, List.nodup_cons] at hnd
        apply hnd.1
        rw [hp1]
        exact List.mem_map.mpr ⟨(b + o, L), e, rfl⟩
  subst hrest
  have hsep0 : dll_sep (((b + o, L) :: rest).map Prod.fst) :=
    flist_sep _ hg _ hnd
      (fun x Lx hx => ⟨((hmem x Lx hl).mp hx).1, ((hmem x Lx hl).mp hx).2.1⟩)
  simp only [List.map_cons, List.nodup_cons] at hnd
  have hrest_far : ∀ y, y ∈ rest.map Prod.fst → y + 24 ≤ b + o ∨ b + o + L ≤ y := by
    intro y hy
    obtain ⟨⟨y', Ly⟩, hyl, hy'⟩ := List.mem_map.mp hy
    simp only [] at hy'
    subst hy'
    obtain ⟨h1, h2, -⟩ := (hmem y' Ly hl).mp (List.mem_cons_of_mem _ hyl)
    rcases (hfr _ _).mp h1 with h4 | h4
    · have := g9 _ _ h4
      clear * - this h2
      omega
    · exfalso
      apply hnd.1
      rw [← h4.1]
      exact List.mem_map.mpr ⟨(y', Ly), hyl, rfl⟩
  refine ⟨rest, c, hl, hc, hrest_far, hdl, ?_, fun _ => ⟨hhd, ?_, ?_, ?_⟩⟩
  · obtain ⟨s1, s2, s3⟩ := hsep0
    simp only [List.map_cons] at s1 s2 s3
    have hfar : ∀ y, y ∈ (b + o) :: rest.map Prod.fst →
        y + 24 ≤ b + o + slen ∨ b + o + slen + 24 ≤ y := by
      intro y hy
      rcases List.mem_cons.mp hy with e | e
      · clear * - e hs32
        omega
      · have := hrest_far y e
        clear * - this hsL
        omega
    refine ⟨?_, ?_, ?_⟩
    · rw [List.nodup_cons]
      refine ⟨?_, s1⟩
      intro hin
      have := hfar _ hin
      clear * - this
      omega
    · intro x hx
      rcases List.mem_cons.mp hx with e | e
      · clear * - e g6 g7 g3 hs32 hsL
        omega
      · exact s2 x e
    · intro x y hx hy
      rcases List.mem_cons.mp hx with e | e <;> rcases List.mem_cons.mp hy with e' | e'
      · left; rw [e, e']
      · have := hfar y e'
        clear * - this e
        omega
      · have := hfar x e
        clear * - this e'
        omega
      · exact s3 x y e e'
  · exact hcell.2.1
  · rw [hcell.2.2.1]
    rfl
  · rw [hcell.2.2.2]
    simp only [List.map_cons, List.sum_cons]

/-- The function `do_smmgr_free_slot_replace`, called as `do_smmgr_alloc` calls
it: the free slot at the head of the list of the last class gives its first
`slen` bytes away, and the rest of it, initialised by `do_smmgr_free_slot_init`,
takes its place at the head of the list. -/
theorem free_slot_replace_spec (bpre : List gblock) (b : Nat) (pre post : List gslot)
    (bpost : List gblock) (fl : List (List (Nat × Nat))) (a a1 : sm_anchor_t)
    (m m1 : Nat → Nat) (o L slen : Nat)
    (h : heap_inv (splice bpre b pre [⟨o, L, skind.free⟩] post bpost) fl a m)
    (hs32 : 32 ≤ slen) (hs8 : 8 ∣ slen) (hsL : slen + 8192 ≤ L)
    (hhead : ∀ c, a.free_slist[1024]? = some c → c.head = b + o)
    (hbd : a.free_small_space + a.free_avail_space < 2 ^ 64)
    (hr : do_smmgr_free_slot_replace a
            (do_smmgr_free_slot_init m (b + o + slen) (o + slen) (L - slen))
            (b + o) (b + o + slen) ((1024 : Nat) : Int) = some (a1, m1)) :
    ∃ fl1, heap_inv (splice bpre b pre
          [⟨o, slen, skind.hole⟩, ⟨o + slen, L - slen, skind.free⟩] post bpost) fl1 a1 m1 ∧
      a1.free_small_space + a1.free_avail_space + slen
        = a.free_small_space + a.free_avail_space ∧
      slot_offset m1 (b + o) = o := by
  obtain ⟨Ln, hLn⟩ : ∃ Ln, Ln + slen = L := ⟨L - slen, by omega⟩
  have eLn : L - slen = Ln := by omega
  rw [eLn] at hr ⊢
  clear eLn
  have hLn8 : 8192 ≤ Ln := by omega
  obtain ⟨rest, c, hl, hc, hfar, hdl, hsep, hcell⟩ :=
    replace_list_facts bpre b pre post bpost fl a m o L slen h hs32 hsL hhead
  clear hsL hhead
  obtain ⟨-, g2, g3, -, g5, g6, g7, -, -⟩ :=
    single_slot_geom bpre b pre post bpost ⟨o, L, skind.free⟩ h.1
  simp only [] at g2 g3 g5
  have hspace := cell_space_le _ a 1024 c h.2.2.2.2 hc
  -- the memory after `do_smmgr_free_slot_init`
  have hinit := free_slot_init_spec m b (o + slen) Ln (by omega) (by omega) (by omega)
    (by omega)
  clear g5
  rw [← Nat.add_assoc] at hinit
  obtain ⟨hokn, hfi⟩ := hinit
  generalize hmi : do_smmgr_free_slot_init m (b + o + slen) (o + slen) Ln = mi
    at hr hokn hfi
  have hfi' : ∀ addr, (addr < b + o + slen ∨ b + o + L ≤ addr) → mi addr = m addr := by
    intro addr ha
    apply hfi
    clear * - ha hLn
    omega
  clear hfi
  have hslot : ∀ _u : Unit, slot_length mi (b + o) = L ∧ slot_offset mi (b + o) = o ∧
      slot_length mi (b + o + slen) = Ln := by
    intro _
    have hok := ((slots_inv_splice _ _ _ _ _ _ _).mp h.2.2.1).2 _ (List.mem_singleton.mpr rfl)
    unfold slot_ok at hok
    simp only [] at hok
    obtain ⟨-, hof, hlen, -, -⟩ := hok
    refine ⟨?_, ?_, ?_⟩
    · rw [← hlen]
      unfold slot_length
      apply load_congr
      intro x h1 h2
      apply hfi'
      clear * - h1 h2 hs32
      omega
    · have : slot_offset mi (b + o) = slot_offset m (b + o) := by
        unfold slot_offset
        apply load_congr
        intro x h1 h2
        apply hfi'
        clear * - h1 h2 hs32
        omega
      exact this.trans hof
    · have := hokn
      unfold slot_ok at this
      simp only [] at this
      rw [← Nat.add_assoc] at this
      exact this.2.2.1
  have hdl_mi : dll 8 mi ((b + o) :: rest.map Prod.fst) := by
    apply dll_frame 8 m mi _ hdl
    intro x hx addr h1 h2
    apply hfi'
    rcases List.mem_cons.mp hx with e | e
    · clear * - e h1 h2 hs32
      omega
    · have := hfar x e
      clear * - this h1 h2
      omega
  -- the code
  obtain ⟨mA, hmA⟩ : ∃ mA, mA = set_slot_prev mi (b + o + slen) 0 := ⟨_, rfl⟩
  obtain ⟨mB, hmB⟩ : ∃ mB, mB = (if slot_next mA (b + o) = 0
      then set_slot_next mA (b + o + slen) 0
      else set_slot_prev (set_slot_next mA (b + o + slen) (slot_next mA (b + o)))
        (slot_next (set_slot_next mA (b + o + slen) (slot_next mA (b + o))) (b + o + slen))
        (b + o + slen)) := ⟨_, rfl⟩
  obtain ⟨r1, -, r3, r4⟩ := dll_replace_head 8 mi mA mB (rest.map Prod.fst) (b + o)
    (b + o + slen) hdl_mi hsep hmA hmB
  have htl : ((((b + o + slen, Ln) :: rest).map Prod.fst).getLast?).getD 0
      = if slot_next mA (b + o) = 0 then b + o + slen else c.tail := by
    by_cases hn0 : slot_next mA (b + o) = 0
    · have hre : rest = [] := by
        have := r3.mp hn0
        simpa using this
      rw [if_pos hn0, hre]
      rfl
    · have hre : rest ≠ [] := by
        intro e
        apply hn0
        apply r3.mpr
        rw [e]
        rfl
      rw [if_neg hn0, (hcell ()).2.1]
      obtain ⟨r0, rs, hrs⟩ := List.exists_cons_of_ne_nil hre
      rw [hrs]
      simp only [List.map_cons, List.getLast?_cons_cons]
  have hsp : slen ≤ c.space ∧ c.space < 2 ^ 64 := by
    have := (hcell ()).2.2.2
    clear * - this hLn hspace hbd
    split_ifs at hspace <;> omega
  rw [free_slot_replace_eq a mi mA mB (b + o) (b + o + slen) L Ln slen _ c hc (hcell ()).1
    (hslot ()).1 (hslot ()).2.2 hLn (by clear * - hLn g3 g2; omega) hsp.1 hsp.2 hmA hmB htl] at hr
  have hc1f : ∀ c1 : sm_slist_t,
      c1 = ⟨b + o + slen, ((((b + o + slen, Ln) :: rest).map Prod.fst).getLast?).getD 0,
        c.space - slen, c.count⟩ →
      c1.head = (((((b + o + slen, Ln) :: rest).map Prod.fst)).head?).getD 0 ∧
      c1.tail = (((((b + o + slen, Ln) :: rest).map Prod.fst)).getLast?).getD 0 ∧
      c1.count = ((b + o + slen, Ln) :: rest).length ∧
      c1.space = ((((b + o + slen, Ln) :: rest).map Prod.snd)).sum := by
    intro c1 hc1
    subst hc1
    refine ⟨rfl, rfl, ?_, ?_⟩
    · simp only [List.length_cons]
      exact (hcell ()).2.2.1
    · simp only [List.map_cons, List.sum_cons]
      have := (hcell ()).2.2.2
      clear * - this hLn
      omega
  have hoff : slot_offset mB (b + o) = o := by
    have : slot_offset mB (b + o) = slot_offset mi (b + o) := by
      unfold slot_offset
      apply load_congr
      intro x h1 h2
      apply r4
      · clear * - h1 h2 hs32
        omega
      · intro y hy
        have := hfar y hy
        clear * - this h1 h2
        omega
    exact this.trans (hslot ()).2.1
  obtain ⟨ea, em⟩ := Prod.mk.inj (Option.some.inj hr)
  clear hr
  by_cases hlt : ((1024 : Nat) : Int) < a.used_maxid
  · rw [if_pos hlt] at ea hspace
    have hsub : sub64 a.free_small_space slen = a.free_small_space - slen ∧
        slen ≤ a.free_small_space := by
      have h1 := hsp.1
      clear * - h1 hspace hbd
      exact ⟨sub64_eq _ _ (by omega) (by omega), by omega⟩
    refine ⟨fl.set 1024 ((b + o + slen, Ln) :: rest), ?_, ?_, ?_⟩
    · rw [← ea, ← em]
      refine heap_inv_replaced bpre b pre post bpost fl a _ m mi mB o L slen Ln rest _ h
        hs32 hs8 hLn hLn8 hl hokn hfi' r1 r4 ?_ (hc1f _ rfl) ?_ ?_ ?_
      · rfl
      · exact ⟨rfl, rfl, rfl, rfl⟩
      · rfl
      · rw [if_pos hlt]
        simp only []
        rw [hsub.1]
        exact ⟨Nat.sub_add_cancel hsub.2, trivial⟩
    · rw [← ea]
      simp only []
      rw [hsub.1]
      have := hsub.2
      clear * - this
      omega
    · rw [← em]
      exact hoff
  · rw [if_neg hlt] at ea hspace
    have hsub : sub64 a.free_avail_space slen = a.free_avail_space - slen ∧
        slen ≤ a.free_avail_space := by
      have h1 := hsp.1
      clear * - h1 hspace hbd
      exact ⟨sub64_eq _ _ (by omega) (by omega), by omega⟩
    refine ⟨fl.set 1024 ((b + o + slen, Ln) :: rest), ?_, ?_, ?_⟩
    · rw [← ea, ← em]
      refine heap_inv_replaced bpre b pre post bpost fl a _ m mi mB o L slen Ln rest _ h
        hs32 hs8 hLn hLn8 hl hokn hfi' r1 r4 ?_ (hc1f _ rfl) ?_ ?_ ?_
      · rfl
      · exact ⟨rfl, rfl, rfl, rfl⟩
      · rfl
      · rw [if_neg hlt]
        simp only []
        rw [hsub.1]
        exact ⟨trivial, Nat.sub_add_cancel hsub.2⟩
    · rw [← ea]
      simp only []
      rw [hsub.1]
      have := hsub.2
      clear * - this
      omega
    · rw [← em]
      exact hoff

/-- A hole of at least 32 bytes becomes a used slot through
`do_smmgr_used_slot_init`. -/
theorem hole_to_used (bpre : List gblock) (b : Nat) (pre post : List gslot)
    (bpost : List gblock) (fl : List (List (Nat × Nat))) (a : sm_anchor_t) (m : Nat → Nat)
    (o S : Nat)
    (h : heap_inv (splice bpre b pre [⟨o, S, skind.hole⟩] post bpost) fl a m)
    (hS : 32 ≤ S) :
    heap_inv (splice bpre b pre [⟨o, S, skind.used⟩] post bpost) fl a
      (do_smmgr_used_slot_init m (b + o) o S) := by
  obtain ⟨g1, g2, g3, g4, g5, g6, g7, g8, g9⟩ :=
    single_slot_geom bpre b pre post bpost ⟨o, S, skind.hole⟩ h.1
  simp only [] at g1 g2 g3 g4 g5 g8 g9
  obtain ⟨k1, k2⟩ := used_slot_init_spec m b o S hS (by omega) (by omega)
  refine heap_inv_reshape bpre b pre [⟨o, S, skind.hole⟩] [⟨o, S, skind.used⟩] post bpost fl a m
    _ o (o + S) h g1 ?_ ?_ ?_ ?_ ?_ ?_
  · simp only [tiles]
    exact ⟨trivial, g4, g5, trivial⟩
  · simp only [tiles]
    exact ⟨trivial, g4, g5, trivial⟩
  · intro s hs
    rw [List.mem_singleton.mp hs]
    simp
  · intro s hs
    rw [List.mem_singleton.mp hs]
    simp
  · intro s hs
    rw [List.mem_singleton.mp hs]
    exact k1
  · intro addr ha
    apply k2
    omega

/-- A hole is cut in two, and `do_smmgr_free_slot_init` writes the header and
the tail of a free slot into the second part. -/
theorem hole_split_init (bpre : List gblock) (b : Nat) (pre post : List gslot)
    (bpost : List gblock) (fl : List (List (Nat × Nat))) (a : sm_anchor_t) (m : Nat → Nat)
    (o L S : Nat)
    (h : heap_inv (splice bpre b pre [⟨o, L, skind.hole⟩] post bpost) fl a m)
    (hS0 : 0 < S) (hS8 : 8 ∣ S) (hSL : S < L) :
    heap_inv (splice bpre b pre [⟨o, S, skind.hole⟩, ⟨o + S, L - S, skind.hole⟩] post bpost)
      fl a (do_smmgr_free_slot_init m (b + o + S) (o + S) (L - S)) ∧
    slot_ok (do_smmgr_free_slot_init m (b + o + S) (o + S) (L - S)) b
      ⟨o + S, L - S, skind.free⟩ ∧
    (∀ addr, addr < b + o + S ∨ b + o + L ≤ addr →
      do_smmgr_free_slot_init m (b + o + S) (o + S) (L - S) addr = m addr) := by
  obtain ⟨g1, g2, g3, g4, g5, g6, g7, g8, g9⟩ :=
    single_slot_geom bpre b pre post bpost ⟨o, L, skind.hole⟩ h.1
  simp only [] at g1 g2 g3 g4 g5 g8 g9
  have hd8 : 8 ∣ L - S := Nat.dvd_sub' g5 hS8
  have hLS : 8 ≤ L - S := Nat.le_of_dvd (by omega) hd8
  have hinit := free_slot_init_spec m b (o + S) (L - S) hLS hd8 (by omega) (by omega)
  rw [← Nat.add_assoc] at hinit
  obtain ⟨k1, k2⟩ := hinit
  refine ⟨?_, k1, fun addr ha => k2 addr (by omega)⟩
  refine heap_inv_reshape bpre b pre [⟨o, L, skind.hole⟩]
    [⟨o, S, skind.hole⟩, ⟨o + S, L - S, skind.hole⟩] post bpost fl a m
    _ o (o + L) h g1 ?_ ?_ ?_ ?_ ?_ ?_
  · simp only [tiles]
    exact ⟨trivial, g4, g5, trivial⟩
  · simp only [tiles]
    exact ⟨trivial, hS0, hS8, trivial, by omega, hd8, by omega⟩
  · intro s hs
    rw [List.mem_singleton.mp hs]
    simp
  · intro s hs
    simp only [List.mem_cons, List.mem_singleton, List.not_mem_nil, or_false] at hs
    rcases hs with e | e <;> rw [e] <;> simp
  · intro s hs
    simp only [List.mem_cons, List.mem_singleton, List.not_mem_nil, or_false] at hs
    rcases hs with e | e <;> rw [e] <;> trivial
  · intro addr ha
    apply k2
    omega

/-- After `do_smmgr_free_slot_unlink` the bytes of the slot taken off its list
are as before. -/
theorem unlink_keeps_slot (bpre : List gblock) (b : Nat) (pre post : List gslot)
    (bpost : List gblock) (s : gslot) (m m1 : Nat → Nat)
    (hg : blocks_geom (splice bpre b pre [s] post bpost))
    (hm : ∀ addr, (∀ y Ly, free_slot_at (splice bpre b pre [] post bpost) y Ly → 32 ≤ Ly →
          addr < y + 8 ∨ y + 24 ≤ addr) → m1 addr = m addr) :
    ∀ addr, b + s.off ≤ addr → addr < b + s.off + s.len → m1 addr = m addr := by
  obtain ⟨g1, g2, g3, g4, g5, g6, g7, g8, g9⟩ := single_slot_geom bpre b pre post bpost s hg
  intro addr h1 h2
  apply hm
  intro y Ly hy h32
  have := g9 y Ly hy
  omega

/-- The branch of `do_smmgr_alloc` that takes a whole free slot: the free slot
of exactly `S` bytes becomes a used slot. -/
theorem alloc_from_slot_exact (bpre : List gblock) (b : Nat) (pre post : List gslot)
    (bpost : List gblock) (fl : List (List (Nat × Nat))) (a a1 : sm_anchor_t)
    (m m1 : Nat → Nat) (o S : Nat) (smid : Int)
    (h : heap_inv (splice bpre b pre [⟨o, S, skind.free⟩] post bpost) fl a m)
    (hS : 32 ≤ S) (hbd : a.free_small_space + a.free_avail_space < 2 ^ 64)
    (hr : smmgr_alloc_from_slot a m (b + o) smid (S : Int) = some (a1, m1)) :
    ∃ fl1, heap_inv (splice bpre b pre [⟨o, S, skind.used⟩] post bpost) fl1 a1 m1 ∧
      a1.free_small_space + a1.free_avail_space + S
        = a.free_small_space + a.free_avail_space := by
  obtain ⟨g1, g2, g3, g4, g5, g6, g7, g8, g9⟩ :=
    single_slot_geom bpre b pre post bpost ⟨o, S, skind.free⟩ h.1
  simp only [] at g1 g2 g3 g4 g5 g8 g9
  have hok := ((slots_inv_splice _ _ _ _ _ _ _).mp h.2.2.1).2 _ (List.mem_singleton.mpr rfl)
  unfold slot_ok at hok
  simp only [] at hok
  obtain ⟨hst, hof, hlen, hto, htl⟩ := hok
  unfold smmgr_alloc_from_slot at hr
  simp only [] at hr
  rw [hlen, if_neg (lt_irrefl _)] at hr
  cases hu : do_smmgr_free_slot_unlink a m (b + o) with
  | none =>
    rw [hu] at hr
    cases hr
  | some r =>
    obtain ⟨a2, m2⟩ := r
    rw [hu] at hr
    simp only [Option.some.injEq, Prod.mk.injEq] at hr
    obtain ⟨fl1, u1, u2, u3⟩ := free_slot_unlink_spec bpre b pre post bpost fl a a2 m m2 o S h hbd hu
    have hkeep := unlink_keeps_slot bpre b pre post bpost ⟨o, S, skind.free⟩ m m2 h.1 u3
    simp only [] at hkeep
    have hof2 : slot_offset m2 (b + o) = o := by
      have : slot_offset m2 (b + o) = slot_offset m (b + o) := by
        unfold slot_offset
        apply load_congr
        intro x h1 h2
        apply hkeep <;> omega
      exact this.trans hof
    rw [hof2, int_to_uint16_nat S (by omega)] at hr
    refine ⟨fl1, ?_, ?_⟩
    · rw [← hr.1, ← hr.2]
      exact hole_to_used bpre b pre post bpost fl1 a2 m2 o S u1 hS
    · rw [← hr.1]
      exact u2

/-- A free slot of a description is away from every slot that is not free. -/
theorem free_slot_far (bs : List gblock) (hg : blocks_geom bs) (B : gblock) (s : gslot)
    (hB : B ∈ bs) (hs : s ∈ B.slots) (hk : s.kind ≠ skind.free) (y Ly : Nat)
    (hy : free_slot_at bs y Ly) :
    y + Ly ≤ B.base + s.off ∨ B.base + s.off + s.len ≤ y := by
  obtain ⟨C, hC, t, ht, hkt, hye, hLe⟩ := hy
  rcases slots_disjoint bs hg C B t s hC hB ht hs with ⟨e1, e2⟩ | e | e
  · subst e2
    exact absurd hkt hk
  · left
    omega
  · right
    omega

/-- The free slots of a description without the slots of the middle are free
slots of the description. -/
theorem free_slot_at_mono (bpre : List gblock) (b : Nat) (pre mid post : List gslot)
    (bpost : List gblock) (x L : Nat)
    (h : free_slot_at (splice bpre b pre [] post bpost) x L) :
    free_slot_at (splice bpre b pre mid post bpost) x L :=
  (free_slot_at_splice bpre b pre mid post bpost x L).mpr (Or.inl h)

/-- The block at `b` of a description, with its slots. -/
theorem splice_block_mem (bpre : List gblock) (b : Nat) (pre mid post : List gslot)
    (bpost : List gblock) :
    ({ base := b, slots := pre ++ mid ++ post } : gblock) ∈ splice bpre b pre mid post bpost :=
  (mem_splice _ _ _ _ _ _ _).mpr (Or.inr rfl)

/-- The branch of `do_smmgr_alloc` that cuts a used slot of `S` bytes out of a
longer free slot whose rest belongs to another class: the free slot leaves its
list, its rest is initialised and linked, and the first `S` bytes become a used
slot. -/
theorem alloc_from_slot_split (bpre : List gblock) (b : Nat) (pre post : List gslot)
    (bpost : List gblock) (fl : List (List (Nat × Nat))) (a a1 : sm_anchor_t)
    (m m1 : Nat → Nat) (o L S : Nat) (smid : Int)
    (h : heap_inv (splice bpre b pre [⟨o, L, skind.free⟩] post bpost) fl a m)
    (hS : 32 ≤ S) (hS8 : 8 ∣ S) (hSL : S < L)
    (hne : smid ≠ do_smmgr_memid (L - S))
    (hbd : a.free_small_space + a.free_avail_space < 2 ^ 64)
    (hr : smmgr_alloc_from_slot a m (b + o) smid (S : Int) = some (a1, m1)) :
    ∃ fl1, heap_inv (splice bpre b pre
          [⟨o, S, skind.used⟩, ⟨o + S, L - S, skind.free⟩] post bpost) fl1 a1 m1 ∧
      a1.free_small_space + a1.free_avail_space + S
        = a.free_small_space + a.free_avail_space := by
  obtain ⟨Ln, hLn⟩ : ∃ Ln, Ln + S = L := ⟨L - S, by omega⟩
  have eLn : L - S = Ln := by omega
  have hLn0 : 0 < Ln := by omega
  rw [eLn] at hne ⊢
  clear eLn hSL
  obtain ⟨-, g2, g3, -, -, g6, g7, -, -⟩ :=
    single_slot_geom bpre b pre post bpost ⟨o, L, skind.free⟩ h.1
  simp only [] at g2 g3
  have hslot : ∀ _u : Unit, slot_offset m (b + o) = o ∧ slot_length m (b + o) = L := by
    intro _
    have hok := ((slots_inv_splice _ _ _ _ _ _ _).mp h.2.2.1).2 _ (List.mem_singleton.mpr rfl)
    unfold slot_ok at hok
    simp only [] at hok
    exact ⟨hok.2.1, hok.2.2.1⟩
  -- the code
  unfold smmgr_alloc_from_slot at hr
  simp only [] at hr
  have hcast : (S : Int).toNat = S := Int.toNat_ofNat S
  have hsz : int_to_size_t ((L : Int) - (S : Int)) = Ln := by
    have : (L : Int) - (S : Int) = (Ln : Int) := by
      clear * - hLn
      omega
    rw [this]
    exact int_to_size_t_nat Ln (by clear * - hLn g3 g7; omega)
  rw [(hslot ()).2, if_pos (by clear * - hLn hS hLn0; omega), hsz, if_pos hne, hcast] at hr
  cases hu : do_smmgr_free_slot_unlink a m (b + o) with
  | none =>
    rw [hu] at hr
    cases hr
  | some r =>
    obtain ⟨a2, m2⟩ := r
    rw [hu] at hr
    simp only [] at hr
    obtain ⟨fl1, u1, u2, u3⟩ :=
      free_slot_unlink_spec bpre b pre post bpost fl a a2 m m2 o L h hbd hu
    have hkeep := unlink_keeps_slot bpre b pre post bpost ⟨o, L, skind.free⟩ m m2 h.1 u3
    simp only [] at hkeep
    clear u3 hu
    have hslot2 : ∀ _u : Unit, slot_offset m2 (b + o) = o ∧ slot_length m2 (b + o) = L := by
      intro _
      constructor
      · have : slot_offset m2 (b + o) = slot_offset m (b + o) := by
          unfold slot_offset
          apply load_congr
          intro x h1 h2
          apply hkeep <;> clear * - h1 h2 hLn hS <;> omega
        exact this.trans (hslot ()).1
      · have : slot_length m2 (b + o) = slot_length m (b + o) := by
          unfold slot_length
          apply load_congr
          intro x h1 h2
          apply hkeep <;> clear * - h1 h2 hLn hS <;> omega
        exact this.trans (hslot ()).2
    clear hkeep
    have ho16 : int_to_uint16 ((o : Int) + (S : Int)) = o + S := by
      have : (o : Int) + (S : Int) = ((o + S : Nat) : Int) := by push_cast; rfl
      rw [this]
      exact int_to_uint16_nat _ (by clear * - hLn g3 hLn0; omega)
    have hl16 : int_to_uint16 ((L : Int) - (S : Int)) = Ln := by
      have : (L : Int) - (S : Int) = (Ln : Int) := by
        clear * - hLn
        omega
      rw [this]
      exact int_to_uint16_nat _ (by clear * - hLn g3 g2; omega)
    rw [(hslot2 ()).1, (hslot2 ()).2, ho16, hl16] at hr
    clear ho16 hl16 hsz hcast
    -- the rest of the slot is initialised
    obtain ⟨i1, i2, i3⟩ := hole_split_init bpre b pre post bpost fl1 a2 m2 o L S u1
      (by clear * - hS; omega) hS8 (by clear * - hLn hS g3 g2 hLn0; omega)
    have eLn : L - S = Ln := by
      clear * - hLn
      omega
    rw [eLn] at i1 i2 i3
    clear eLn u1
    generalize hm3 : do_smmgr_free_slot_init m2 (b + o + S) (o + S) Ln = m3 at hr i1 i2 i3
    have hoff3 : slot_offset m3 (b + o) = o := by
      have : slot_offset m3 (b + o) = slot_offset m2 (b + o) := by
        unfold slot_offset
        apply load_congr
        intro x h1 h2
        apply i3
        clear * - h1 h2 hS
        omega
      exact this.trans (hslot2 ()).1
    clear i3 hslot2 hslot
    -- and linked
    cases hk : do_smmgr_free_slot_link a2 m3 (b + o + S) with
    | none =>
      rw [hk] at hr
      cases hr
    | some r =>
      obtain ⟨a3, m4⟩ := r
      rw [hk] at hr
      simp only [Option.some.injEq, Prod.mk.injEq] at hr
      have eS : [⟨o, S, skind.hole⟩, ⟨o + S, Ln, skind.hole⟩]
          = [(⟨o, S, skind.hole⟩ : gslot)] ++ [⟨o + S, Ln, skind.hole⟩] := rfl
      rw [eS, ← splice_regroup_left] at i1
      have hk' : do_smmgr_free_slot_link a2 m3 (b + (o + S)) = some (a3, m4) := by
        rw [← Nat.add_assoc]
        exact hk
      obtain ⟨fl2, k1, k2, k3⟩ := free_slot_link_spec bpre b (pre ++ [⟨o, S, skind.hole⟩]) post
        bpost fl1 a2 a3 m3 m4 (o + S) Ln i1 i2
        (by clear * - u2 hbd hLn; omega) hk'
      clear hk hk' eS
      have hoff4 : slot_offset m4 (b + o) = o := by
        have : slot_offset m4 (b + o) = slot_offset m3 (b + o) := by
          unfold slot_offset
          apply load_congr
          intro x h1 h2
          apply k3
          · clear * - h1 h2 hS
            omega
          · intro y Ly hy h32
            have hy' := free_slot_at_mono bpre b (pre ++ [⟨o, S, skind.hole⟩])
              [⟨o + S, Ln, skind.free⟩] post bpost y Ly hy
            have := free_slot_far _ k1.1 _ ⟨o, S, skind.hole⟩
              (splice_block_mem bpre b (pre ++ [⟨o, S, skind.hole⟩])
                [⟨o + S, Ln, skind.free⟩] post bpost) (by simp) (by simp) y Ly hy'
            simp only [] at this
            clear * - this h1 h2 h32
            omega
        exact this.trans hoff3
      rw [hoff4, int_to_uint16_nat S (by clear * - hLn g3 g2; omega)] at hr
      clear k3 hoff3 hoff4 i1 i2
      rw [splice_regroup_left] at k1
      have eS2 : [(⟨o, S, skind.hole⟩ : gslot)] ++ [⟨o + S, Ln, skind.free⟩]
          = [⟨o, S, skind.hole⟩] ++ [⟨o + S, Ln, skind.free⟩] := rfl
      rw [splice_regroup_right] at k1
      have hfin := hole_to_used bpre b pre ([⟨o + S, Ln, skind.free⟩] ++ post) bpost fl2 a3 m4
        o S k1 hS
      rw [← splice_regroup_right] at hfin
      refine ⟨fl2, ?_, ?_⟩
      · rw [← hr.1, ← hr.2]
        exact hfin
      · rw [← hr.1]
        clear * - k2 u2 hLn
        omega

/-! ### `memory_allocate` on a pre-allocated arena -/

/-- C32 (counterexample): on a pre-allocated arena with 5 free bytes, a
request of 5 bytes is served: the function returns the old cursor 4096 and
advances it by the rounded size 8, but `mem_avail` goes from 5 to 0, a decrease
of 5 bytes and not of the rounded amount. -/
theorem memory_allocate_clamps_avail :
    (engine_prealloc 4096 5).slabs.mem_base ≠ 0 ∧
    (memory_allocate (engine_prealloc 4096 5) 5 0).1 = 4096 ∧
    (memory_allocate (engine_prealloc 4096 5) 5 0).2.slabs.mem_current = 4096 + 8 ∧
    (memory_allocate (engine_prealloc 4096 5) 5 0).2.slabs.mem_avail = 0 ∧
    (engine_prealloc 4096 5).slabs.mem_avail
      - (memory_allocate (engine_prealloc 4096 5) 5 0).2.slabs.mem_avail ≠ round_up_8 5 := by
  decide

/-- C32 (amended): on a pre-allocated arena (`mem_base` not null), for a size
and a cursor away from the end of the address space: a request above
`mem_avail` returns null and leaves the engine as it is; any other request
returns the old `mem_current`, advances `mem_current` by the size rounded up to
a multiple of 8, and decreases `mem_avail` by the rounded size, but not below
0: `mem_avail` becomes 0 when the rounded size is not below it (the
subtraction of the statement is the truncated one of the natural numbers). -/
theorem memory_allocate_prealloc (e : default_engine) (size malloc_ret : Nat)
    (hb : e.slabs.mem_base ≠ 0) (hs : size + 8 ≤ 2 ^ 64)
    (hc : e.slabs.mem_current + round_up_8 size < 2 ^ 64) :
    (e.slabs.mem_avail < size → memory_allocate e size malloc_ret = (0, e)) ∧
    (size ≤ e.slabs.mem_avail →
      memory_allocate e size malloc_ret
        = (e.slabs.mem_current,
           { e with slabs :=
               { e.slabs with
                   mem_current := e.slabs.mem_current + round_up_8 size,
                   mem_avail := e.slabs.mem_avail - round_up_8 size } })) := by
  have hround : (if size % CHUNK_ALIGN_BYTES ≠ 0
      then wrap64 (size + (CHUNK_ALIGN_BYTES - size % CHUNK_ALIGN_BYTES)) else size)
      = round_up_8 size := by
    unfold CHUNK_ALIGN_BYTES round_up_8 wrap64
    by_cases h0 : size % 8 = 0
    · rw [if_neg (by simpa using h0)]
      omega
    · rw [if_pos h0, Nat.mod_eq_of_lt (by omega)]
      omega
  constructor
  · intro hlt
    unfold memory_allocate
    rw [if_neg hb]
    simp only []
    rw [if_pos hlt]
  · intro hle
    unfold memory_allocate
    rw [if_neg hb]
    simp only []
    rw [if_neg (by omega), hround]
    unfold wrap64
    rw [Nat.mod_eq_of_lt hc]
    by_cases hlt : round_up_8 size < e.slabs.mem_avail
    · rw [if_pos hlt]
    · rw [if_neg hlt]
      have : e.slabs.mem_avail - round_up_8 size = 0 := by omega
      rw [this]

/-- C32 (amended), witness: a request of 100 bytes on an arena with 4096 free
bytes returns the cursor, advances it by 104 and leaves 3992 free bytes; a
request of 5000 bytes returns null. -/
theorem memory_allocate_prealloc_witness :
    ((engine_prealloc 4096 4096).slabs.mem_base ≠ 0 ∧ 100 + 8 ≤ 2 ^ 64 ∧
      (engine_prealloc 4096 4096).slabs.mem_current + round_up_8 100 < 2 ^ 64) ∧
    (((engine_prealloc 4096 4096).slabs.mem_avail < 100 →
        memory_allocate (engine_prealloc 4096 4096) 100 0 = (0, engine_prealloc 4096 4096)) ∧
      (100 ≤ (engine_prealloc 4096 4096).slabs.mem_avail →
        memory_allocate (engine_prealloc 4096 4096) 100 0
          = ((engine_prealloc 4096 4096).slabs.mem_current,
             { engine_prealloc 4096 4096 with slabs :=
                 { (engine_prealloc 4096 4096).slabs with
                     mem_current := (engine_prealloc 4096 4096).slabs.mem_current
                       + round_up_8 100,
                     mem_avail := (engine_prealloc 4096 4096).slabs.mem_avail
                       - round_up_8 100 } }))) :=
  ⟨⟨by decide, by decide, by decide⟩,
    memory_allocate_prealloc (engine_prealloc 4096 4096) 100 0 (by decide) (by decide)
      (by decide)⟩

/-! ### The divisor of the shortage oracle in a reachable state -/

set_option maxRecDepth 100000 in
/-- C33, failing input: from the allocator under a 5 MiB limit, the two
allocations of the pressure trip and then 62 blocks taken from class 0 lead to
a state where class 0 holds its 4 reserved pages with two blocks left:
`limit_nchunk = 4*16*4/100 = 2`, `avail_nchunk = 2`, the quotient is 1 and the
oracle divides by `limit_nchunk / 6 = 0`. One block earlier the oracle returns
0, one block later 4. -/
theorem shortage_divisor_zero_reachable :
    (slab_run (state_5mib, []) (ops_pressure_trip ++ ops_take_blocks 61)).bind
        (fun s => oracle_view s.1) = some (4, 0, 3, 2, some 0) ∧
    (slab_run (state_5mib, []) (ops_pressure_trip ++ ops_take_blocks 62)).bind
        (fun s => oracle_view s.1) = some (4, 0, 2, 2, none) ∧
    (slab_run (state_5mib, []) (ops_pressure_trip ++ ops_take_blocks 63)).bind
        (fun s => oracle_view s.1) = some (4, 0, 1, 2, some 4) := by
  refine ⟨by decide!, by decide!, by decide!⟩

/-! ### A failed allocation of the small-memory manager -/

/-- When `do_smmgr_blck_alloc` returns null, the anchor and the memory are as
before the call. -/
theorem blck_alloc_null (s s1 : smmgr_state) (realloc_ok : Bool) (malloc_ret : Nat)
    (h : do_smmgr_blck_alloc s realloc_ok malloc_ret = some (0, s1)) :
    s1.st.sm_anchor = s.st.sm_anchor ∧ s1.mem = s.mem := by
  unfold do_smmgr_blck_alloc at h
  split at h
  · cases h
  · rename_i b st1 ha
    have hanch := do_slabs_alloc_anchor _ _ _ _ _ _ _ ha
    simp only [] at h
    split at h
    · cases h
    · simp only [Option.some.injEq, Prod.mk.injEq] at h
      obtain ⟨hb, hs1⟩ := h
      subst hb
      rw [← hs1]
      simp only [ne_eq, not_true_eq_false, if_false]
      split_ifs
      all_goals simp only []
      all_goals exact ⟨hanch, trivial⟩

/-- C36: when `do_smmgr_alloc` returns null, the anchor of the small-memory
manager, with all its accounting fields (`used_total_space`, the two arrays
`used_slist` and `free_slist`, the four class bounds, `free_small_space`,
`free_avail_space` and `used_blist`), is as before the call, and so is the
memory of the blocks. -/
theorem alloc_null_keeps_accounting (s s1 : smmgr_state) (size : Nat) (realloc_ok : Bool)
    (malloc_ret : Nat) (h : do_smmgr_alloc s size realloc_ok malloc_ret = some (0, s1)) :
    s1.st.sm_anchor = s.st.sm_anchor ∧ s1.mem = s.mem := by
  unfold do_smmgr_alloc at h
  simp only [] at h
  split at h
  · cases h
  · rename_i smid hsmid
    split at h
    · cases h
    · rename_i l hl
      by_cases hh : l.head = 0
      · rw [if_pos hh] at h
        cases hb : do_smmgr_blck_alloc s realloc_ok malloc_ret with
        | none =>
          rw [hb] at h
          cases h
        | some r =>
          obtain ⟨blck, s2⟩ := r
          rw [hb] at h
          simp only [] at h
          by_cases hz : blck = 0
          · subst hz
            rw [if_pos rfl] at h
            simp only [if_true, Option.some.injEq, Prod.mk.injEq, true_and] at h
            subst h
            exact blck_alloc_null s s2 realloc_ok malloc_ret hb
          · rw [if_neg hz] at h
            split at h
            · cases h
            · rename_i ret s3 heq
              have hne : ret ≠ 0 := by
                split at heq
                · cases heq
                · simp only [Option.some.injEq, Prod.mk.injEq] at heq
                  rw [← heq.1]
                  unfold sizeof_sm_blck_t
                  omega
              rw [if_neg hne] at h
              split at h
              · cases h
              · simp only [Option.some.injEq, Prod.mk.injEq] at h
                exact absurd h.1 hne
      · rw [if_neg hh] at h
        split at h
        · cases h
        · rename_i ret s3 heq
          have hne : ret ≠ 0 := by
            split at heq
            · cases heq
            · simp only [Option.some.injEq, Prod.mk.injEq] at heq
              rw [← heq.1]
              exact hh
          rw [if_neg hne] at h
          split at h
          · cases h
          · simp only [Option.some.injEq, Prod.mk.injEq] at h
            exact absurd h.1 hne

/-- C36, witness: on the fresh allocator a first request of 100 bytes needs a
block; when `malloc` fails (answer 0) the call returns null and the anchor is
the one of `do_smmgr_init`. -/
theorem alloc_null_keeps_accounting_witness :
    do_smmgr_alloc smmgr_state_fresh 100 true 0 = some (0, state_alloc_failed) ∧
    (state_alloc_failed.st.sm_anchor = smmgr_state_fresh.st.sm_anchor ∧
      state_alloc_failed.mem = smmgr_state_fresh.mem) :=
  have h : do_smmgr_alloc smmgr_state_fresh 100 true 0 = some (0, state_alloc_failed) := by
    have h1 : (do_smmgr_alloc smmgr_state_fresh 100 true 0).map (fun r => r.1) = some 0 := by
      decide!
    unfold state_alloc_failed
    cases hr : do_smmgr_alloc smmgr_state_fresh 100 true 0 with
    | none =>
      rw [hr] at h1
      cases h1
    | some r =>
      rw [hr] at h1
      obtain ⟨x, y⟩ := r
      simp only [Option.map_some', Option.some.injEq] at h1
      rw [h1]
  ⟨h, alloc_null_keeps_accounting smmgr_state_fresh state_alloc_failed 100 true 0 h⟩

/-! ### The shortage oracle after `do_slabs_set_memlimit` -/

/-- A successful `do_slabs_set_memlimit`: the limit is at least
`mem_malloced * 1.1`, the headroom is not below the new threshold when the
reservation of the block class was defined, and the state changes in
`mem_limit`, `mem_reserved` and that reservation only. -/
theorem set_memlimit_success (st st1 : allocator) (memlimit : Nat)
    (h : do_slabs_set_memlimit st memlimit = some (ENGINE_SUCCESS, st1)) :
    wrap64 (st.engine.slabs.mem_malloced + st.engine.slabs.mem_malloced / 10) ≤ memlimit ∧
    0 ≤ st.sm_anchor.blck_clsid ∧
    ∃ z, st.engine.slabs.slabclass[st.sm_anchor.blck_clsid.toNat]? = some z ∧
      (z.rsvd_slabs ≠ 0 →
        new_mem_reserved st.engine memlimit ≤ sub64 memlimit st.engine.slabs.mem_malloced) ∧
      st1 = { st with engine := { st.engine with slabs := { st.engine.slabs with
                mem_limit := memlimit,
                mem_reserved := new_mem_reserved st.engine memlimit,
                slabclass := st.engine.slabs.slabclass.set st.sm_anchor.blck_clsid.toNat
                  { z with rsvd_slabs := 0 } } } } := by
  unfold do_slabs_set_memlimit at h
  simp only at h
  by_cases hb : st.engine.slabs.mem_base ≠ 0
  · rw [if_pos hb] at h
    cases h
  · rw [if_neg hb] at h
    by_cases hm : memlimit
        < wrap64 (st.engine.slabs.mem_malloced + st.engine.slabs.mem_malloced / 10)
    · rw [if_pos hm] at h
      cases h
    · rw [if_neg hm] at h
      cases hz : slabclass_at st.engine st.sm_anchor.blck_clsid with
      | none => rw [hz] at h; cases h
      | some z =>
        rw [hz] at h
        simp only at h
        by_cases hr : z.rsvd_slabs ≠ 0 ∧
            sub64 memlimit st.engine.slabs.mem_malloced < new_mem_reserved st.engine memlimit
        · rw [if_pos hr] at h
          cases h
        · rw [if_neg hr] at h
          unfold slabclass_at at hz
          by_cases h0 : 0 ≤ st.sm_anchor.blck_clsid
          · rw [if_pos h0] at hz
            have hlen : st.sm_anchor.blck_clsid.toNat < st.engine.slabs.slabclass.length :=
              (List.getElem?_eq_some_iff.mp hz).1
            unfold slabclass_store at h
            simp only at h
            rw [if_pos ⟨h0, hlen⟩] at h
            cases h
            refine ⟨by omega, h0, z, hz, ?_, rfl⟩
            intro hne
            by_contra hlt
            exact hr ⟨hne, by omega⟩
          · rw [if_neg h0] at hz
            cases hz

/-- C37: right after a successful `do_slabs_set_memlimit`,
`slabs_short_of_free_space` returns 0 or 100 (the reservation of the block
class is 0, hence `limit_nchunk = 0`, and only the test `avail_nchunk <= 0` can
give a level); and it returns 0 when the reservation of the block class was
defined before the call (the headroom is then at least the new threshold, so
the pressure branch is not entered). The block size of the anchor is not zero,
the limit fits `size_t`, `mem_malloced * 1.1` does not wrap, and
`RESERVED_SLABS * item_size_max` is positive and does not wrap. -/
theorem shortage_after_set_memlimit (st st1 : allocator) (memlimit : Nat)
    (hts : int_to_size_t st.sm_anchor.blck_tsize ≠ 0)
    (hlim : memlimit < 2 ^ 64)
    (hmm : st.engine.slabs.mem_malloced + st.engine.slabs.mem_malloced / 10 < 2 ^ 64)
    (hitem : 0 < st.engine.config.item_size_max ∧
      RESERVED_SLABS * st.engine.config.item_size_max < 2 ^ 64)
    (h : do_slabs_set_memlimit st memlimit = some (ENGINE_SUCCESS, st1)) :
    (slabs_short_of_free_space st1 = some 0 ∨
      slabs_short_of_free_space st1 = some MAX_SPACE_SHORTAGE_LEVEL) ∧
    (∀ z, slabclass_at st.engine st.sm_anchor.blck_clsid = some z → z.rsvd_slabs ≠ 0 →
      slabs_short_of_free_space st1 = some 0) := by
  obtain ⟨hle, h0, z, hz, hres, hst⟩ := set_memlimit_success st st1 memlimit h
  have hlen : st.sm_anchor.blck_clsid.toNat < st.engine.slabs.slabclass.length :=
    (List.getElem?_eq_some_iff.mp hz).1
  have hcls : slabclass_at st1.engine st1.sm_anchor.blck_clsid
      = some { z with rsvd_slabs := 0 } := by
    rw [hst]
    unfold slabclass_at
    simp only []
    rw [if_pos h0, List.getElem?_set_self hlen]
  have hanch : st1.sm_anchor = st.sm_anchor := by rw [hst]
  have hlimit : limit_nchunk { z with rsvd_slabs := 0 } = 0 := by
    unfold limit_nchunk wrap32
    simp
  have hlvl : ∀ av : Nat,
      (if av ≤ 0 then space_shortage_level 0 av else some 0) = some 0 ∨
      (if av ≤ 0 then space_shortage_level 0 av else some 0)
        = some MAX_SPACE_SHORTAGE_LEVEL := by
    intro av
    by_cases h1 : av ≤ 0
    · right
      rw [if_pos h1]
      unfold space_shortage_level
      rw [if_pos h1]
    · left
      rw [if_neg h1]
  constructor
  · unfold slabs_short_of_free_space
    by_cases hp : under_pressure st1.engine.slabs = true
    · rw [if_pos hp, hcls]
      simp only []
      by_cases hs : z.slabs > 0
      · rw [if_pos hs]
        unfold avail_nchunk
        rw [hanch, if_neg hts]
        simp only []
        rw [hlimit]
        exact hlvl _
      · rw [if_neg hs]
        left
        rfl
    · rw [if_neg hp]
      left
      rfl
  · intro z' hz' hne
    have hzz : z' = z := by
      unfold slabclass_at at hz'
      rw [if_pos h0, hz] at hz'
      exact (Option.some.inj hz').symm
    subst hzz
    have hge := hres hne
    have hw : wrap64 (st.engine.slabs.mem_malloced + st.engine.slabs.mem_malloced / 10)
        = st.engine.slabs.mem_malloced + st.engine.slabs.mem_malloced / 10 :=
      Nat.mod_eq_of_lt hmm
    rw [hw] at hle
    rw [sub64_eq _ _ (by omega) hlim] at hge
    have hnm : 0 < new_mem_reserved st.engine memlimit := by
      unfold new_mem_reserved
      simp only []
      have hw2 : wrap64 (RESERVED_SLABS * st.engine.config.item_size_max)
          = RESERVED_SLABS * st.engine.config.item_size_max := Nat.mod_eq_of_lt hitem.2
      rw [hw2]
      have hpos : 0 < RESERVED_SLABS * st.engine.config.item_size_max := by
        unfold RESERVED_SLABS
        omega
      split_ifs <;> omega
    have hp : under_pressure st1.engine.slabs = false := by
      rw [hst]
      unfold under_pressure
      simp only [Bool.or_eq_false_iff, decide_eq_false_iff_not]
      constructor <;> omega
    unfold slabs_short_of_free_space
    rw [hp]
    rfl

/-- C37, witness: in the state of the pressure trip (reservation of class 0
defined as 4 pages) `set_memlimit(6 MiB)` succeeds, and the oracle returns 0
after it. -/
theorem shortage_after_set_memlimit_witness :
    (int_to_size_t state_tripped.sm_anchor.blck_tsize ≠ 0 ∧ 6291456 < 2 ^ 64 ∧
      state_tripped.engine.slabs.mem_malloced
        + state_tripped.engine.slabs.mem_malloced / 10 < 2 ^ 64 ∧
      (0 < state_tripped.engine.config.item_size_max ∧
        RESERVED_SLABS * state_tripped.engine.config.item_size_max < 2 ^ 64) ∧
      do_slabs_set_memlimit state_tripped 6291456 = some (ENGINE_SUCCESS, state_relimited)) ∧
    ((slabs_short_of_free_space state_relimited = some 0 ∨
        slabs_short_of_free_space state_relimited = some MAX_SPACE_SHORTAGE_LEVEL) ∧
      (∀ z, slabclass_at state_tripped.engine state_tripped.sm_anchor.blck_clsid = some z →
        z.rsvd_slabs ≠ 0 → slabs_short_of_free_space state_relimited = some 0)) :=
  ⟨⟨by decide!, by decide, by decide!, by decide!, by decide!⟩,
    shortage_after_set_memlimit state_tripped state_relimited 6291456 (by decide!) (by decide)
      (by decide!) (by decide!) (by decide!)⟩

end Slabs
